import Mathlib

/-!
# tjmonk/tcc : the virtual machine, its assembler and parts of the compiler

A shallow embedding of `libvmcore/src/strbuf.c`, of the instruction handlers of
`libvmcore/src/core.c`, of `libvmcore/src/files.c` and `externvars.c`, of
`libvarvm/src/libvarvm.c`, of `libvmasm/src/labels.c` and `parseinfo.c`, and of the
register allocator and the symbol names of `tcc/src`, followed by theorems about them.

Conventions of the embedding

* a C `uint8_t` is a `Nat` below 256, a 32-bit register is a `Nat` holding the
  bit pattern (below `2 ^ 32`), `size_t` is 64 bits wide;
* a C `int` that is only stored, compared and passed on (buffer ids, levels)
  is an `Int`;
* the core memory `uint8_t *memory` is a `List Nat`; a read outside the list
  yields 0 and a write outside the list is dropped (both are undefined in C);
* a singly linked list is a `List` of its records, head first;
* the register union is viewed through its bytes as on a little-endian host
  (byte 0 of a register is its least significant byte);
* the outcome of `malloc`/`realloc` is an argument of the function that calls it;
* a subtraction modulo `2 ^ n` is written `2 ^ n - k + x`, constant first.
-/

namespace Tcc

/-! ## String buffer manager (`strbuf.c`) -/

/-- Initial starting size of a string buffer (`#define BUFSIZE 256`). -/
def BUFSIZE : Nat := 256

/-- The record `tzStringBuffer`; `pNext` is the tail of the list holding it.
`pBuffer = none` is the NULL pointer. -/
structure tzStringBuffer where
  id : Int
  level : Int
  offset : Nat
  rwOffset : Nat
  size : Nat
  pBuffer : Option (List Nat)
  deriving DecidableEq

/-- The file scoped variables `pFirst`, `pFreeList` and `level` of `strbuf.c`. -/
structure StrBufState where
  pFirst : List tzStringBuffer
  pFreeList : List tzStringBuffer
  level : Int
  deriving DecidableEq

/-- What the two `malloc` calls of `STRINGBUFFER_fnCreate` deliver when both
succeed: the indeterminate `rwOffset` of the new record (the function never
writes it) and the indeterminate bytes of the new `BUFSIZE` block. -/
structure Fresh where
  rwOffset : Nat
  bytes : List Nat

/-- The initial state of the manager: both lists empty, level 0. -/
def StrBufState.init : StrBufState := { pFirst := [], pFreeList := [], level := 0 }

/-- Function `STRINGBUFFER_fnSetLevel`. -/
def STRINGBUFFER_fnSetLevel (l : Int) (m : StrBufState) : StrBufState :=
  { m with level := l }

/-- Function `STRINGBUFFER_fnCreate`.  `heap = none` stands for a failing `malloc`
(of the record or of its block; both leave the state unchanged and return false).
When the free list is not empty its head is unlinked (`pFreeList = p->pNext;
p->pNext = NULL`) and, `p` being non-NULL, the allocation branch is skipped:
the function returns true with `p` linked into neither list. -/
def STRINGBUFFER_fnCreate (heap : Option Fresh) (id : Int) (m : StrBufState) :
    Bool × StrBufState :=
  match m.pFreeList with
  | _ :: rest => (true, { m with pFreeList := rest })
  | [] =>
    match heap with
    | some h =>
      (true, { m with pFirst :=
        { id := id, level := m.level, offset := 0, rwOffset := h.rwOffset,
          size := BUFSIZE, pBuffer := some h.bytes } :: m.pFirst })
    | none => (false, m)

/-- Function `stringbuffer_fnFind`: the first record of the in-use list with the id. -/
def stringbuffer_fnFind (id : Int) : List tzStringBuffer → Option tzStringBuffer
  | [] => none
  | p :: rest => if p.id = id then some p else stringbuffer_fnFind id rest

/-- Write through the pointer that `stringbuffer_fnFind` returns: the first record
with the id is replaced by its image under `f`. -/
def stringbuffer_fnUpdate (id : Int) (f : tzStringBuffer → tzStringBuffer) :
    List tzStringBuffer → List tzStringBuffer
  | [] => []
  | p :: rest => if p.id = id then f p :: rest else p :: stringbuffer_fnUpdate id f rest

/-- The loop `while( newsize <= ( p->offset + len )) newsize += BUFSIZE;`. -/
def growLoop : Nat → Nat → Nat → Nat
  | 0, newsize, _ => newsize
  | fuel + 1, newsize, need =>
    if newsize ≤ need then growLoop fuel (newsize + BUFSIZE) need else newsize

/-- The bytes of `l` with `bs` copied in from position `off` on. -/
def copyAt (l : List Nat) (off : Nat) (bs : List Nat) : List Nat :=
  l.take off ++ bs ++ l.drop (off + bs.length)

/-- The C string that starts at the head of a byte block. -/
def cstr (bytes : List Nat) : List Nat := bytes.takeWhile (fun b => b ≠ 0)

/-- Function `stringbuffer_fnAppend` for a non-NULL `p` and a non-NULL `str` (given without
its terminating NUL).  `reallocOk = false` is a failing `realloc`.  A block grown by
`realloc` is padded with zeros in the model; those bytes are indeterminate in C
and are written before they are read.  With `pBuffer = NULL` and no growth the
`strcpy` is undefined; the model leaves the record alone. -/
def stringbuffer_fnAppend (reallocOk : Bool) (p : tzStringBuffer) (str : List Nat) :
    tzStringBuffer :=
  let len := str.length
  let store (q : tzStringBuffer) : tzStringBuffer :=
    match q.pBuffer with
    | some b => { q with pBuffer := some (copyAt b q.offset (str ++ [0])),
                         offset := q.offset + len }
    | none => q
  if p.offset + len ≥ p.size then
    let newsize := growLoop (p.offset + len + 1) p.size (p.offset + len)
    if reallocOk then
      let b := (p.pBuffer.getD [])
      store { p with pBuffer := some (b ++ List.replicate (newsize - b.length) 0) }
    else { p with pBuffer := none }
  else store p

/-- Function `STRINGBUFFER_fnAppendString`. -/
def STRINGBUFFER_fnAppendString (reallocOk : Bool) (id : Int) (str : List Nat)
    (m : StrBufState) : StrBufState :=
  { m with pFirst :=
      stringbuffer_fnUpdate id (fun p => stringbuffer_fnAppend reallocOk p str) m.pFirst }

/-- The body of `STRINGBUFFER_fnClear` on the record found. -/
def clearBuffer (p : tzStringBuffer) : tzStringBuffer :=
  match p.pBuffer with
  | some b => { p with pBuffer := some (copyAt b 0 [0]), offset := 0 }
  | none => p

/-- Function `STRINGBUFFER_fnClear`. -/
def STRINGBUFFER_fnClear (id : Int) (m : StrBufState) : StrBufState :=
  { m with pFirst := stringbuffer_fnUpdate id clearBuffer m.pFirst }

/-- Function `STRINGBUFFER_fnGet`: the string of the buffer, `none` for the NULL pointer. -/
def STRINGBUFFER_fnGet (id : Int) (m : StrBufState) : Option (List Nat) :=
  match stringbuffer_fnFind id m.pFirst with
  | some p => p.pBuffer.map cstr
  | none => none

/-- Function `STRINGBUFFER_fnWrite`: the string handed to `WriteString`, `none` when the
function writes nothing. -/
def STRINGBUFFER_fnWrite (id : Int) (m : StrBufState) : Option (List Nat) :=
  match stringbuffer_fnFind id m.pFirst with
  | some p => p.pBuffer.map cstr
  | none => none

/-- The `while` loop of `STRINGBUFFER_fnFree` on the pair (in-use list, free list):
as long as the head of the in-use list has the level, it is reset and pushed on
the free list; the first head of another level ends the loop. -/
def freeLoop (lvl : Int) : List tzStringBuffer → List tzStringBuffer →
    List tzStringBuffer × List tzStringBuffer
  | [], fl => ([], fl)
  | p :: rest, fl =>
    if p.level = lvl then freeLoop lvl rest ({ p with offset := 0, id := 0 } :: fl)
    else (p :: rest, fl)

/-- Function `STRINGBUFFER_fnFree`.  Its parameter is named `level` and shadows the file
scoped `level`, so the closing `level--` changes the parameter only: the manager
level stays what the last `STRINGBUFFER_fnSetLevel` made it. -/
def STRINGBUFFER_fnFree (lvl : Int) (m : StrBufState) : StrBufState :=
  let r := freeLoop lvl m.pFirst m.pFreeList
  { m with pFirst := r.1, pFreeList := r.2 }

/-- Function `STRINGBUFFER_fnGetLength`. -/
def STRINGBUFFER_fnGetLength (id : Int) (m : StrBufState) : Nat :=
  match stringbuffer_fnFind id m.pFirst with
  | some p => p.offset
  | none => 0

/-- The bytes of an ASCII text. -/
def ascii (t : String) : List Nat := t.toList.map Char.toNat


/-! ## Machine integers and the core state (`core.c`) -/

/-- The 32-bit pattern of a value: what a store into a 32-bit object keeps. -/
def u32 (x : Nat) : Nat := x % 2 ^ 32

/-- The conversion of an `int32_t`, given by its bit pattern, to `size_t`
(sign extension to 64 bits), as in `PC > PROGRAM_SIZE` and `SP > CORE_SIZE`. -/
def toSize (x : Nat) : Nat := if x < 2 ^ 31 then x else (2 ^ 64 - 2 ^ 32) + x

/-- The conversion of a 32-bit pattern to `int`. -/
def toInt (x : Nat) : Int := if x < 2 ^ 31 then (x : Int) else (x : Int) - 2 ^ 32

/-- Width tag `BYTE`. -/
def BYTE : Nat := 0x80
/-- Width tag `WORD`. -/
def WORD : Nat := 0x40
/-- Width tag `FLOAT32`. -/
def FLOAT32 : Nat := 0xC0
/-- Width tag `LONG`. -/
def LONG : Nat := 0x00
/-- Width tag `HANDLE`. -/
def HANDLE : Nat := 0x60
/-- Mode bit `MODE_REG`. -/
def MODE_REG : Nat := 0x20

/-- Flag bit `SIGNBIT`. -/
def SIGNBIT : Nat := 0x80000000
/-- Flag bit `ZFLAG`. -/
def ZFLAG : Nat := 0x00000001
/-- Flag bit `NFLAG`. -/
def NFLAG : Nat := 0x00000002
/-- Flag bit `CFLAG`. -/
def CFLAG : Nat := 0x00000004
/-- Mask `ZMASK`, the complement of `ZFLAG` in 32 bits. -/
def ZMASK : Nat := 0xFFFFFFFE
/-- Mask `NMASK`, the complement of `NFLAG` in 32 bits. -/
def NMASK : Nat := 0xFFFFFFFD
/-- Mask `CMASK`, the complement of `CFLAG` in 32 bits. -/
def CMASK : Nat := 0xFFFFFFFB

/-- The host outside the embedding: IEEE-754 arithmetic on 32-bit patterns and the
answers of the allocator. -/
structure Host where
  fadd : Nat → Nat → Nat
  fsub : Nat → Nat → Nat
  fmul : Nat → Nat → Nat
  fdiv : Nat → Nat → Nat
  fIsZero : Nat → Bool
  fToInt : Nat → Nat
  fOfInt : Nat → Nat
  malloc : Option Fresh
  reallocOk : Bool

/-- The record `struct zCore`.  `reg` is `registers.reg` (the float and byte views
are views of the same 32 bits); `pc` and `sp` point at `reg[15]` and `reg[14]`.
`strbuf` is the file scoped state of `strbuf.c` and `output` the strings handed
to `WriteString`; both live outside the C record and are carried along here. -/
structure tzCore where
  core_size : Nat
  memory : List Nat
  stack_size : Nat
  programSize : Nat
  reg : Nat → Nat
  status : Nat
  call_depth : Nat
  error : Bool
  running : Bool
  strbuf : StrBufState
  output : List (List Nat)

/-- Program counter `PC`. -/
def PC (s : tzCore) : Nat := s.reg 15

/-- Stack pointer `SP`. -/
def SP (s : tzCore) : Nat := s.reg 14

/-- Memory byte `MEMORY[i]`. -/
def MEM (s : tzCore) (i : Nat) : Nat := s.memory.getD i 0

/-- Assignment `REG[i] = v`. -/
def setReg (s : tzCore) (i : Nat) (v : Nat) : tzCore :=
  { s with reg := fun j => if j = i then u32 v else s.reg j }

/-- Macro `STACK_SIZE`: `pCore->stack_size * sizeof( uint32_t )` in `size_t`. -/
def STACK_SIZE (s : tzCore) : Nat := (s.stack_size * 4) % 2 ^ 64

/-- The bound `CORE_SIZE - STACK_SIZE` in `size_t` arithmetic. -/
def stackBase (s : tzCore) : Nat := (2 ^ 64 + s.core_size - STACK_SIZE s) % 2 ^ 64

/-- Macro `STOP`. -/
def STOP (s : tzCore) : tzCore := { s with running := false }

/-- Macro `INC_PC`. -/
def INC_PC (inc : Nat) (s : tzCore) : tzCore :=
  let s1 := setReg s 15 (PC s + inc)
  if toSize (PC s1) > s1.programSize then STOP s1 else s1

/-- Macro `ZSET` on the outcome of `REGVAL == 0`. -/
def ZSET (z : Bool) (s : tzCore) : tzCore :=
  { s with status := if z then s.status ||| ZFLAG else s.status &&& ZMASK }

/-- Macro `NSET` on the outcome of `(int32_t)REGVAL < 0`. -/
def NSET (n : Bool) (s : tzCore) : tzCore :=
  { s with status := if n then s.status ||| NFLAG else s.status &&& NMASK }

/-- Macro `CSET`. -/
def CSET (oldvalue regval : Nat) (s : tzCore) : tzCore :=
  { s with status :=
      if (oldvalue &&& SIGNBIT) ^^^ (regval &&& SIGNBIT) ≠ 0 then s.status ||| CFLAG
      else s.status &&& CMASK }

/-- Macro `SETFLAGS` for an integer register value. -/
def SETFLAGS (oldvalue regval : Nat) (s : tzCore) : tzCore :=
  CSET oldvalue regval (NSET (decide (2 ^ 31 ≤ regval)) (ZSET (decide (regval = 0)) s))

/-- Macro `SETFFLAGS` for a float register value. -/
def SETFFLAGS (H : Host) (regval : Nat) (s : tzCore) : tzCore :=
  NSET (decide (2 ^ 31 ≤ H.fToInt regval)) (ZSET (H.fIsZero regval) s)

/-- Function `core_fnGetUnsignedData`: the literal and the core after `INC_PC`. -/
def core_fnGetUnsignedData (s : tzCore) (pc offset : Nat) : Nat × tzCore :=
  let datatype := MEM s pc &&& (BYTE ||| WORD)
  if datatype = BYTE then (MEM s (pc + offset), INC_PC 1 s)
  else if datatype = WORD then
    (u32 (u32 (MEM s (pc + offset) <<< 8) + MEM s (pc + (offset + 1))), INC_PC 2 s)
  else if datatype = LONG ∨ datatype = FLOAT32 then
    (u32 ((MEM s (pc + offset) <<< 24) + (MEM s (pc + (offset + 1)) <<< 16) +
          (MEM s (pc + (offset + 2)) <<< 8) + MEM s (pc + (offset + 3))), INC_PC 4 s)
  else (0, s)

/-- Function `core_fnGetSignedData`: the sign extended literal and the core after
`INC_PC`. -/
def core_fnGetSignedData (s : tzCore) (pc offset : Nat) : Nat × tzCore :=
  let datatype := MEM s pc &&& (BYTE ||| WORD)
  if datatype = BYTE then
    let b := MEM s (pc + offset) % 2 ^ 8
    ((if b < 2 ^ 7 then b else (2 ^ 32 - 2 ^ 8) + b), INC_PC 1 s)
  else if datatype = WORD then
    let w := ((MEM s (pc + offset) <<< 8) + MEM s (pc + (offset + 1))) % 2 ^ 16
    ((if w < 2 ^ 15 then w else (2 ^ 32 - 2 ^ 16) + w), INC_PC 2 s)
  else if datatype = LONG ∨ datatype = FLOAT32 then
    (u32 ((MEM s (pc + offset) <<< 24) + (MEM s (pc + (offset + 1)) <<< 16) +
          (MEM s (pc + (offset + 2)) <<< 8) + MEM s (pc + (offset + 3))), INC_PC 4 s)
  else (0, s)

/-- Function `core_fnGetFloatData`: the pattern of the big-endian literal and the
core after `INC_PC(4)`. -/
def core_fnGetFloatData (s : tzCore) (pc offset : Nat) : Nat × tzCore :=
  (u32 ((MEM s (pc + offset) % 2 ^ 8) * 2 ^ 24 + (MEM s (pc + (offset + 1)) % 2 ^ 8) * 2 ^ 16 +
        (MEM s (pc + (offset + 2)) % 2 ^ 8) * 2 ^ 8 + MEM s (pc + (offset + 3)) % 2 ^ 8),
    INC_PC 4 s)

/-- Function `core_fnStoreData`: the bytes it stores at `dest[0]`, `dest[1]`, ...
read from the bytes `src[0]`, `src[1]`, ... under the width tag of `*instr`. -/
def core_fnStoreData (instr : Nat) (src : Nat → Nat) : List Nat :=
  if instr &&& BYTE = BYTE then [src 0]
  else if instr &&& WORD = WORD then [src 1, src 0]
  else [src 3, src 2, src 1, src 0]

/-- Byte `k` of a 32-bit register (little-endian host). -/
def regByte (v k : Nat) : Nat := v / 2 ^ (8 * k) % 2 ^ 8

/-- A 32-bit register with byte `k` replaced (little-endian host). -/
def regSetByte (v k b : Nat) : Nat :=
  v - regByte v k * 2 ^ (8 * k) + (b % 2 ^ 8) * 2 ^ (8 * k)

/-- A 32-bit register after storing the bytes at its byte positions `k`, `k+1`, ... -/
def regStoreBytes (v : Nat) (k : Nat) : List Nat → Nat
  | [] => v
  | b :: bs => regStoreBytes (regSetByte v k b) (k + 1) bs

/-- The memory after storing the bytes at `addr`, `addr+1`, ... -/
def storeBytes (mem : List Nat) (addr : Nat) : List Nat → List Nat
  | [] => mem
  | b :: bs => storeBytes (mem.set addr b) (addr + 1) bs

/-- Function `core_fnSetStackData`. -/
def core_fnSetStackData (s : tzCore) (sp val : Nat) : tzCore :=
  let m0 := s.memory.set sp ((val &&& 0xFF000000) >>> 24)
  let m1 := m0.set (u32 (sp + 1)) ((val &&& 0x00FF0000) >>> 16)
  let m2 := m1.set (u32 (sp + 2)) ((val &&& 0x0000FF00) >>> 8)
  let m3 := m2.set (u32 (sp + 3)) (val &&& 0x000000FF)
  { s with memory := m3 }

/-- Function `core_fnGetStackData`. -/
def core_fnGetStackData (s : tzCore) (sp : Nat) : Nat :=
  u32 ((MEM s sp <<< 24) + (MEM s (u32 (sp + 1)) <<< 16) + (MEM s (u32 (sp + 2)) <<< 8) +
       MEM s (u32 (sp + 3)))

/-! ## Instruction handlers -/

/-- Handler `opNOP`. -/
def opNOP (s : tzCore) : tzCore := INC_PC 1 s

/-- Handler `opLOD`. -/
def opLOD (s : tzCore) : tzCore :=
  if MEM s (PC s) &&& MODE_REG = MODE_REG then
    let regs := MEM s (PC s + 1)
    let src := regs &&& 0x0F
    let dst := (regs >>> 4) &&& 0x0F
    let addr := s.reg src
    if addr > s.core_size then STOP s
    else
      let bytes := core_fnStoreData (MEM s (PC s)) (fun k => MEM s (addr + k))
      INC_PC 2 (setReg s dst (regStoreBytes (s.reg dst) 0 bytes))
  else
    let dst := MEM s (PC s + 1) &&& 0x0F
    let r := core_fnGetUnsignedData s (PC s) 2
    let addr := r.1
    let s1 := r.2
    if addr > s1.core_size then STOP s1
    else
      let bytes := core_fnStoreData (MEM s1 (PC s1)) (fun k => MEM s1 (addr + k))
      INC_PC 2 (setReg s1 dst (regStoreBytes (s1.reg dst) 0 bytes))

/-- Handler `opSTR`. -/
def opSTR (s : tzCore) : tzCore :=
  if MEM s (PC s) &&& MODE_REG = MODE_REG then
    let regs := MEM s (PC s + 1)
    let src := regs &&& 0x0F
    let dst := (regs >>> 4) &&& 0x0F
    let addr := s.reg dst
    if addr > s.core_size then STOP s
    else
      let bytes := core_fnStoreData (MEM s (PC s)) (regByte (s.reg src))
      INC_PC 2 { s with memory := storeBytes s.memory addr bytes }
  else
    let src := MEM s (PC s + 1) &&& 0x0F
    let r := core_fnGetUnsignedData s (PC s) 2
    let addr := r.1
    let s1 := r.2
    if addr > s1.core_size then STOP s1
    else
      let bytes := core_fnStoreData (MEM s1 (PC s1)) (regByte (s1.reg src))
      INC_PC 2 { s1 with memory := storeBytes s1.memory addr bytes }

/-- Handler `opMOV`.  The float view and the integer view copy the same 32 bits. -/
def opMOV (s : tzCore) : tzCore :=
  if MEM s (PC s) &&& MODE_REG = MODE_REG then
    let regs := MEM s (PC s + 1)
    let src := regs &&& 0x0F
    let dst := (regs >>> 4) &&& 0x0F
    INC_PC 2 (setReg s dst (s.reg src))
  else
    let dst := MEM s (PC s + 1) &&& 0x0F
    let r := if MEM s (PC s) &&& FLOAT32 = FLOAT32 then core_fnGetFloatData s (PC s) 2
             else core_fnGetSignedData s (PC s) 2
    INC_PC 2 (setReg r.2 dst r.1)

/-- Handler `opSUB`. -/
def opSUB (H : Host) (s : tzCore) : tzCore :=
  if MEM s (PC s) &&& MODE_REG = MODE_REG then
    let regs := MEM s (PC s + 1)
    let src := regs &&& 0x0F
    let dst := (regs >>> 4) &&& 0x0F
    if MEM s (PC s) &&& FLOAT32 = FLOAT32 then
      let s1 := setReg s dst (H.fsub (s.reg dst) (s.reg src))
      INC_PC 2 (SETFFLAGS H (s1.reg dst) s1)
    else
      let oldvalue := s.reg dst
      let s1 := setReg s dst (2 ^ 32 + s.reg dst - s.reg src)
      INC_PC 2 (SETFLAGS oldvalue (s1.reg dst) s1)
  else
    let dst := MEM s (PC s + 1) &&& 0x0F
    if MEM s (PC s) &&& FLOAT32 = FLOAT32 then
      let r := core_fnGetFloatData s (PC s) 2
      let s1 := setReg r.2 dst (H.fsub (r.2.reg dst) r.1)
      INC_PC 2 (SETFFLAGS H (s1.reg dst) s1)
    else
      let r := core_fnGetSignedData s (PC s) 2
      let oldvalue := r.2.reg dst
      let s1 := setReg r.2 dst (2 ^ 32 + r.2.reg dst - r.1)
      INC_PC 2 (SETFLAGS oldvalue (s1.reg dst) s1)

/-- Handler `opJMP`. -/
def opJMP (s : tzCore) : tzCore :=
  let r := core_fnGetUnsignedData s (PC s) 1
  setReg r.2 15 r.1

/-- Handler `opCAL`. -/
def opCAL (s : tzCore) : tzCore :=
  let r : Nat × tzCore :=
    if MEM s (PC s) &&& MODE_REG = MODE_REG then
      (s.reg (MEM s (PC s + 1) &&& 0x0F), INC_PC 2 s)
    else
      let g := core_fnGetUnsignedData s (PC s) 1
      (g.1, INC_PC 1 g.2)
  let val := r.1
  let s1 := setReg r.2 14 (2 ^ 32 - 4 + SP r.2)
  if toSize (SP s1) < stackBase s1 then STOP s1
  else
    let s2 := core_fnSetStackData s1 (SP s1) (PC s1)
    let s3 := setReg s2 15 val
    let s4 := { s3 with call_depth := u32 (s3.call_depth + 1) }
    { s4 with strbuf := STRINGBUFFER_fnSetLevel (toInt s4.call_depth) s4.strbuf }

/-- Handler `opRET`.  The underflow branch has no `return`: the buffers are freed
and the call depth is decremented in either case. -/
def opRET (s : tzCore) : tzCore :=
  let s1 := setReg s 15 (core_fnGetStackData s (SP s))
  let s2 := setReg s1 14 (SP s1 + 4)
  let s3 := if toSize (SP s2) > s2.core_size then STOP s2 else s2
  let s4 := { s3 with strbuf := STRINGBUFFER_fnFree (toInt s3.call_depth) s3.strbuf }
  if s4.call_depth ≠ 0 then { s4 with call_depth := s4.call_depth - 1 } else s4

/-- Handler `opPSH`. -/
def opPSH (s : tzCore) : tzCore :=
  let s1 := setReg s 14 (2 ^ 32 - 4 + SP s)
  if toSize (SP s1) < stackBase s1 then STOP s1
  else
    let val := s1.reg (MEM s1 (PC s1 + 1) &&& 0x0F)
    INC_PC 2 (core_fnSetStackData s1 (SP s1) val)

/-- Handler `opPOP`. -/
def opPOP (s : tzCore) : tzCore :=
  let val := core_fnGetStackData s (SP s)
  let dst := MEM s (PC s + 1) &&& 0x0F
  let s1 := setReg s dst val
  let s2 := setReg s1 14 (SP s1 + 4)
  let s3 := if toSize (SP s2) > s2.core_size then STOP s2 else s2
  INC_PC 2 s3

/-- Handler `opHLT`. -/
def opHLT (s : tzCore) : tzCore := STOP (INC_PC 1 s)

/-- Handler `opILLEGAL` (its diagnostics are not part of the state). -/
def opILLEGAL (s : tzCore) : tzCore := STOP s

/-- Handler `opCSB`; the id is narrowed to `uint8_t`. -/
def opCSB (H : Host) (s : tzCore) : tzCore :=
  let stringbuf_id : Int := ((s.reg (MEM s (PC s + 2) &&& 0x0F) % 2 ^ 8 : Nat) : Int)
  INC_PC 3 { s with strbuf := (STRINGBUFFER_fnCreate H.malloc stringbuf_id s.strbuf).2 }

/-- Handler `opZSB`. -/
def opZSB (s : tzCore) : tzCore :=
  let stringbuf_id : Int := ((s.reg (MEM s (PC s + 2) &&& 0x0F) % 2 ^ 8 : Nat) : Int)
  INC_PC 3 { s with strbuf := STRINGBUFFER_fnClear stringbuf_id s.strbuf }

/-- Handler `opWSB`; `WriteString` is taken to have an active write descriptor. -/
def opWSB (s : tzCore) : tzCore :=
  let stringbuf_id : Int := ((s.reg (MEM s (PC s + 2) &&& 0x0F) % 2 ^ 8 : Nat) : Int)
  match STRINGBUFFER_fnWrite stringbuf_id s.strbuf with
  | some str => INC_PC 3 { s with output := s.output ++ [str] }
  | none => INC_PC 3 s

/-- Handler `opASS`; the value is the C string at `MEMORY[REG[src]]`. -/
def opASS (H : Host) (s : tzCore) : tzCore :=
  let regs := MEM s (PC s + 2)
  let dst := (regs &&& 0xF0) >>> 4
  let stringbuf_id : Int := ((s.reg dst % 2 ^ 8 : Nat) : Int)
  let src := regs &&& 0x0F
  let value := cstr (s.memory.drop (s.reg src))
  INC_PC 3 { s with strbuf :=
    STRINGBUFFER_fnAppendString H.reallocOk stringbuf_id value s.strbuf }

/-- The 32-bit pattern of an `int`. -/
def ofInt (z : Int) : Nat := (z % 2 ^ 32).toNat

/-- Handler `opADD`. -/
def opADD (H : Host) (s : tzCore) : tzCore :=
  if MEM s (PC s) &&& MODE_REG = MODE_REG then
    let regs := MEM s (PC s + 1)
    let src := regs &&& 0x0F
    let dst := (regs >>> 4) &&& 0x0F
    if MEM s (PC s) &&& FLOAT32 = FLOAT32 then
      let s1 := setReg s dst (H.fadd (s.reg dst) (s.reg src))
      INC_PC 2 (SETFFLAGS H (s1.reg dst) s1)
    else
      let oldvalue := s.reg dst
      let s1 := setReg s dst (s.reg dst + s.reg src)
      INC_PC 2 (SETFLAGS oldvalue (s1.reg dst) s1)
  else
    let dst := MEM s (PC s + 1) &&& 0x0F
    if MEM s (PC s) &&& FLOAT32 = FLOAT32 then
      let r := core_fnGetFloatData s (PC s) 2
      let s1 := setReg r.2 dst (H.fadd (r.2.reg dst) r.1)
      INC_PC 2 (SETFFLAGS H (s1.reg dst) s1)
    else
      let r := core_fnGetSignedData s (PC s) 2
      let oldvalue := r.2.reg dst
      let s1 := setReg r.2 dst (r.2.reg dst + r.1)
      INC_PC 2 (SETFLAGS oldvalue (s1.reg dst) s1)

/-- Handler `opMUL`. -/
def opMUL (H : Host) (s : tzCore) : tzCore :=
  if MEM s (PC s) &&& MODE_REG = MODE_REG then
    let regs := MEM s (PC s + 1)
    let src := regs &&& 0x0F
    let dst := (regs >>> 4) &&& 0x0F
    if MEM s (PC s) &&& FLOAT32 = FLOAT32 then
      let s1 := setReg s dst (H.fmul (s.reg dst) (s.reg src))
      INC_PC 2 (SETFFLAGS H (s1.reg dst) s1)
    else
      let oldvalue := s.reg dst
      let s1 := setReg s dst (s.reg dst * s.reg src)
      INC_PC 2 (SETFLAGS oldvalue (s1.reg dst) s1)
  else
    let dst := MEM s (PC s + 1) &&& 0x0F
    if MEM s (PC s) &&& FLOAT32 = FLOAT32 then
      let r := core_fnGetFloatData s (PC s) 2
      let s1 := setReg r.2 dst (H.fmul (r.2.reg dst) r.1)
      INC_PC 2 (SETFFLAGS H (s1.reg dst) s1)
    else
      let r := core_fnGetSignedData s (PC s) 2
      let oldvalue := r.2.reg dst
      let s1 := setReg r.2 dst (r.2.reg dst * r.1)
      INC_PC 2 (SETFLAGS oldvalue (s1.reg dst) s1)

/-- The quotient `a / b` of two `int32_t` given by their patterns, where the C division
is defined: division of the signed values, truncated toward zero.  For a zero divisor
and for `INT_MIN / -1` the division of C is undefined (the process is killed by
SIGFPE); there the value of `sdiv` (0, and the wrapped 0x80000000) is a placeholder
that no execution reaches: the dispatch goes through `opDIVStrict`. -/
def sdiv (a b : Nat) : Nat := ofInt (Int.tdiv (toInt a) (toInt b))

/-- The statements of handler `opDIV` on a quotient given by `sdiv`.  This is the
handler wherever its integer division is defined; `opDIVStrict` below is the handler
as the machine runs it, with no result where the division is undefined. -/
def opDIV (H : Host) (s : tzCore) : tzCore :=
  if MEM s (PC s) &&& MODE_REG = MODE_REG then
    let regs := MEM s (PC s + 1)
    let src := regs &&& 0x0F
    let dst := (regs >>> 4) &&& 0x0F
    if MEM s (PC s) &&& FLOAT32 = FLOAT32 then
      let s1 := setReg s dst (H.fdiv (s.reg dst) (s.reg src))
      INC_PC 2 (SETFFLAGS H (s1.reg dst) s1)
    else
      let oldvalue := s.reg dst
      let s1 := setReg s dst (sdiv (s.reg dst) (s.reg src))
      INC_PC 2 (SETFLAGS oldvalue (s1.reg dst) s1)
  else
    let dst := MEM s (PC s + 1) &&& 0x0F
    if MEM s (PC s) &&& FLOAT32 = FLOAT32 then
      let r := core_fnGetFloatData s (PC s) 2
      let s1 := setReg r.2 dst (H.fdiv (r.2.reg dst) r.1)
      INC_PC 2 (SETFFLAGS H (s1.reg dst) s1)
    else
      let r := core_fnGetSignedData s (PC s) 2
      let oldvalue := r.2.reg dst
      let s1 := setReg r.2 dst (sdiv (r.2.reg dst) r.1)
      INC_PC 2 (SETFLAGS oldvalue (s1.reg dst) s1)

/-- Handler `opAND`.  There is no float branch, and `SETFLAGS` comes after the
`INC_PC` of either mode. -/
def opAND (s : tzCore) : tzCore :=
  if MEM s (PC s) &&& MODE_REG = MODE_REG then
    let regs := MEM s (PC s + 1)
    let src := regs &&& 0x0F
    let dst := (regs >>> 4) &&& 0x0F
    let oldvalue := s.reg dst
    let s1 := INC_PC 2 (setReg s dst (s.reg dst &&& s.reg src))
    SETFLAGS oldvalue (s1.reg dst) s1
  else
    let dst := MEM s (PC s + 1) &&& 0x0F
    let r := core_fnGetSignedData s (PC s) 2
    let oldvalue := r.2.reg dst
    let s1 := INC_PC 2 (setReg r.2 dst (r.2.reg dst &&& r.1))
    SETFLAGS oldvalue (s1.reg dst) s1

/-- Handler `opOR`.  There is no float branch, and `SETFLAGS` comes after the
`INC_PC` of either mode. -/
def opOR (s : tzCore) : tzCore :=
  if MEM s (PC s) &&& MODE_REG = MODE_REG then
    let regs := MEM s (PC s + 1)
    let src := regs &&& 0x0F
    let dst := (regs >>> 4) &&& 0x0F
    let oldvalue := s.reg dst
    let s1 := INC_PC 2 (setReg s dst (s.reg dst ||| s.reg src))
    SETFLAGS oldvalue (s1.reg dst) s1
  else
    let dst := MEM s (PC s + 1) &&& 0x0F
    let r := core_fnGetSignedData s (PC s) 2
    let oldvalue := r.2.reg dst
    let s1 := INC_PC 2 (setReg r.2 dst (r.2.reg dst ||| r.1))
    SETFLAGS oldvalue (s1.reg dst) s1

/-- Handler `opNOT`: `REG[reg] = ~REG[reg]`; the status word is not touched. -/
def opNOT (s : tzCore) : tzCore :=
  let reg := MEM s (PC s + 1) &&& 0x0F
  INC_PC 2 (setReg s reg (s.reg reg ^^^ 0xFFFFFFFF))

/-- Handler `opSHR`: the shift count is always a literal; the status word is not
touched.  A count of 32 or more is undefined in C; the model shifts everything out. -/
def opSHR (s : tzCore) : tzCore :=
  let reg := MEM s (PC s + 1) &&& 0x0F
  let r := core_fnGetUnsignedData s (PC s) 2
  let val := r.2.reg reg
  INC_PC 2 (setReg r.2 reg (val >>> r.1))

/-- Handler `opSHL`: the shift count is always a literal; the status word is not
touched.  A count of 32 or more is undefined in C; the model shifts everything out. -/
def opSHL (s : tzCore) : tzCore :=
  let reg := MEM s (PC s + 1) &&& 0x0F
  let r := core_fnGetUnsignedData s (PC s) 2
  let val := r.2.reg reg
  INC_PC 2 (setReg r.2 reg (val <<< r.1))

/-- Handler `opJZR`. -/
def opJZR (s : tzCore) : tzCore :=
  if s.status &&& ZFLAG ≠ 0 then opJMP s else INC_PC 3 s

/-- Handler `opJNZ`. -/
def opJNZ (s : tzCore) : tzCore :=
  if ¬ (s.status &&& ZFLAG ≠ 0) then opJMP s else INC_PC 3 s

/-- Handler `opJNE`. -/
def opJNE (s : tzCore) : tzCore :=
  if s.status &&& NFLAG ≠ 0 then opJMP s else INC_PC 3 s

/-- Handler `opJPO`. -/
def opJPO (s : tzCore) : tzCore :=
  if ¬ (s.status &&& NFLAG ≠ 0) then opJMP s else INC_PC 3 s

/-- Handler `opJCA`. -/
def opJCA (s : tzCore) : tzCore :=
  if s.status &&& CFLAG ≠ 0 then opJMP s else INC_PC 3 s

/-- Handler `opJNC`: the source tests `ZFLAG` here, as in `opJNZ`. -/
def opJNC (s : tzCore) : tzCore :=
  if ¬ (s.status &&& ZFLAG ≠ 0) then opJMP s else INC_PC 3 s

/-- Handler `opCMP`. -/
def opCMP (H : Host) (s : tzCore) : tzCore :=
  if MEM s (PC s) &&& MODE_REG = MODE_REG then
    let regs := MEM s (PC s + 1)
    let src := regs &&& 0x0F
    let dst := (regs >>> 4) &&& 0x0F
    if MEM s (PC s) &&& FLOAT32 = FLOAT32 then
      let fval := H.fsub (s.reg dst) (s.reg src)
      INC_PC 2 (SETFFLAGS H fval s)
    else
      let oldvalue := s.reg dst
      let val := u32 (2 ^ 32 + oldvalue - s.reg src)
      INC_PC 2 (SETFLAGS oldvalue val s)
  else
    let dst := MEM s (PC s + 1) &&& 0x0F
    if MEM s (PC s) &&& FLOAT32 = FLOAT32 then
      let r := core_fnGetFloatData s (PC s) 2
      let fval := H.fsub (r.2.reg dst) r.1
      INC_PC 2 (SETFFLAGS H fval r.2)
    else
      let r := core_fnGetSignedData s (PC s) 2
      let oldvalue := r.2.reg dst
      let val := u32 (2 ^ 32 + oldvalue - r.1)
      INC_PC 2 (SETFLAGS oldvalue val r.2)

/-- The destination register of an ALU instruction: the high nibble of the operand
byte in register mode, the low nibble in immediate mode. -/
def aluDst (s : tzCore) : Nat :=
  if MEM s (PC s) &&& MODE_REG = MODE_REG then (MEM s (PC s + 1) >>> 4) &&& 0x0F
  else MEM s (PC s + 1) &&& 0x0F

/-- The right operand of an integer ALU instruction: the source register in register
mode, the sign extended literal in immediate mode. -/
def aluOperand (s : tzCore) : Nat :=
  if MEM s (PC s) &&& MODE_REG = MODE_REG then s.reg (MEM s (PC s + 1) &&& 0x0F)
  else (core_fnGetSignedData s (PC s) 2).1

/-- The left operand of `CMP` as the handler reads it: `REG[dst]`, which in immediate
mode is read after the fetch of the literal has advanced PC. -/
def cmpLhs (s : tzCore) : Nat :=
  if MEM s (PC s) &&& MODE_REG = MODE_REG then s.reg (aluDst s)
  else (core_fnGetSignedData s (PC s) 2).2.reg (aluDst s)

/-- Handler `opDIV` as the machine runs it, with the integer division of C taken
strictly: `none` where the expression `REG[dst] /= divisor` that the handler evaluates
is undefined and the process is killed, which is the case for a zero divisor and for
`INT_MIN / -1`; the handler has no test for either.  The dividend is `REG[dst]` and
the divisor the source register or the literal, as the handler reads them. -/
def opDIVStrict (H : Host) (s : tzCore) : Option tzCore :=
  if MEM s (PC s) &&& FLOAT32 = FLOAT32 then some (opDIV H s)
  else if toInt (aluOperand s) = 0 then none
  else if toInt (cmpLhs s) = -2 ^ 31 ∧ toInt (aluOperand s) = -1 then none
  else some (opDIV H s)

/-- Table `instructions2`: `MDUMP` and `RDUMP` talk to the terminal and are outside
the embedding (`none`); every other entry is `opILLEGAL`. -/
def instructions2 (opcode : Nat) : Option (tzCore → tzCore) :=
  if opcode = 0x00 ∨ opcode = 0x01 then none else some opILLEGAL

/-- Handler `opINST2`. -/
def opINST2 (s : tzCore) : Option tzCore :=
  (instructions2 (MEM s (PC s + 2) &&& 0x1F)).map (fun h => h s)

/-- Table `instructions1` with the handlers of the embedding; `none` marks a handler
outside it (files, timers, external variables, terminal). -/
def instructions1 (H : Host) (opcode : Nat) : Option (tzCore → Option tzCore) :=
  if opcode = 0x03 then some (fun s => some (opCSB H s))
  else if opcode = 0x04 then some (fun s => some (opZSB s))
  else if opcode = 0x05 then some (fun s => some (opWSB s))
  else if opcode = 0x06 then some (fun s => some (opASS H s))
  else if opcode = 0x1F then some opINST2
  else none

/-- Handler `opINST1`. -/
def opINST1 (H : Host) (s : tzCore) : Option tzCore :=
  (instructions1 H (MEM s (PC s + 1) &&& 0x1F)).bind (fun h => h s)

/-- Table `instructions0` with the handlers of the embedding; `none` marks a handler
outside it.  `DIV` is entered as `opDIVStrict`: an undefined division ends the run. -/
def instructions0 (H : Host) (opcode : Nat) : Option (tzCore → Option tzCore) :=
  if opcode = 0x00 then some (fun s => some (opNOP s))
  else if opcode = 0x01 then some (fun s => some (opLOD s))
  else if opcode = 0x02 then some (fun s => some (opSTR s))
  else if opcode = 0x03 then some (fun s => some (opMOV s))
  else if opcode = 0x04 then some (fun s => some (opADD H s))
  else if opcode = 0x05 then some (fun s => some (opSUB H s))
  else if opcode = 0x06 then some (fun s => some (opMUL H s))
  else if opcode = 0x07 then some (opDIVStrict H)
  else if opcode = 0x08 then some (fun s => some (opAND s))
  else if opcode = 0x09 then some (fun s => some (opOR s))
  else if opcode = 0x0A then some (fun s => some (opNOT s))
  else if opcode = 0x0B then some (fun s => some (opSHR s))
  else if opcode = 0x0C then some (fun s => some (opSHL s))
  else if opcode = 0x0D then some (fun s => some (opJMP s))
  else if opcode = 0x0E then some (fun s => some (opJZR s))
  else if opcode = 0x0F then some (fun s => some (opJNZ s))
  else if opcode = 0x10 then some (fun s => some (opJNE s))
  else if opcode = 0x11 then some (fun s => some (opJPO s))
  else if opcode = 0x12 then some (fun s => some (opJCA s))
  else if opcode = 0x13 then some (fun s => some (opJNC s))
  else if opcode = 0x14 then some (fun s => some (opCAL s))
  else if opcode = 0x15 then some (fun s => some (opRET s))
  else if opcode = 0x16 then some (fun s => some (opCMP H s))
  else if opcode = 0x19 then some (fun s => some (opPSH s))
  else if opcode = 0x1A then some (fun s => some (opPOP s))
  else if opcode = 0x1B then some (fun s => some (opHLT s))
  else if opcode = 0x1F then some (opINST1 H)
  else none

/-- One turn of the loop of `CORE_fnExecute`: fetch `MEMORY[PC] & 0x1F` and run the
handler of `instructions0`. -/
def step (H : Host) (s : tzCore) : Option tzCore :=
  (instructions0 H (MEM s (PC s) &&& 0x1F)).bind (fun h => h s)

/-- The `while` loop of `CORE_fnExecute` with a bound on its turns; `none` when the
bound is reached, a handler outside the embedding is met or an integer division is
undefined. -/
def executeLoop (H : Host) : Nat → tzCore → Option tzCore
  | 0, s => if s.running && !s.error then none else some s
  | fuel + 1, s =>
    if s.running && !s.error then (step H s).bind (executeLoop H fuel) else some s

/-- Function `CORE_fnExecute`: its return value and the core it leaves. -/
def CORE_fnExecute (H : Host) (fuel : Nat) (s : tzCore) : Option (Bool × tzCore) :=
  (executeLoop H fuel { s with running := true }).map
    (fun t => ((if t.error then false else true), t))

/-- The opcode column of the tables `instructions0` and `instructions1`. -/
def tableOpcodes : List Nat := List.range 32

/-- Function `core_fnCheckInstructionList` on the opcode columns of the two tables. -/
def core_fnCheckInstructionList (t0 t1 : List Nat) : Bool :=
  (List.range 0x1F).all (fun opcode => t0.getD opcode 0 == opcode && t1.getD opcode 0 == opcode)

/-- Function `CORE_fnCreate`; `callocOk = false` is a failing `calloc`.  The string
buffer manager and the output are in their state at process start. -/
def CORE_fnCreate (callocOk : Bool) (core_size stack_size : Nat) : Option tzCore :=
  if core_fnCheckInstructionList tableOpcodes tableOpcodes = false then none
  else if callocOk = false then none
  else some
    { core_size := core_size
      memory := List.replicate core_size 0
      stack_size := stack_size
      programSize := 0
      reg := fun j => if j = 14 then u32 core_size else 0
      status := 0
      call_depth := 0
      error := false
      running := false
      strbuf := StrBufState.init
      output := [] }

/-- Function `CORE_fnLoad` on the bytes of the program file; `none` is the return
value false (the file does not fit below the stack). -/
def CORE_fnLoad (image : List Nat) (s : tzCore) : Option tzCore :=
  if image.length > stackBase s then none
  else some { s with memory := image ++ s.memory.drop image.length,
                     programSize := image.length }

/-! ## Concrete hosts, cores and programs -/

/-- A host whose allocator always succeeds with zeroed blocks.  Its float unit is
never consulted by the integer programs below. -/
def plainHost : Host :=
  { fadd := fun _ _ => 0, fsub := fun _ _ => 0, fmul := fun _ _ => 0, fdiv := fun _ _ => 0,
    fIsZero := fun _ => false, fToInt := fun _ => 0, fOfInt := fun _ => 0,
    malloc := some { rwOffset := 0, bytes := List.replicate 256 0 },
    reallocOk := true }

/-- The core of `CORE_fnCreate(core_size, stack_size)` with the image loaded by
`CORE_fnLoad`; when either fails, the bare created record of size 0. -/
def loaded (core_size stack_size : Nat) (image : List Nat) : tzCore :=
  match (CORE_fnCreate true core_size stack_size).bind (CORE_fnLoad image) with
  | some s => s
  | none =>
    { core_size := 0, memory := [], stack_size := 0, programSize := 0, reg := fun _ => 0,
      status := 0, call_depth := 0, error := false, running := false,
      strbuf := StrBufState.init, output := [] }

/-- The string-buffer scope scenario.
```
 0: MOV.B R3, 7       83 03 07
 3: MOV.B R4, 29      83 04 1D     ; address of "hello"
 6: MOV.B R5, 35      83 05 23     ; address of "world"
 9: CAL.W f           54 00 16
12: CSB R3            1F 03 03
15: ASS R3, R5        1F 06 35
18: WSB R3            1F 05 03
21: HLT               1B
22: f: CSB R3         1F 03 03
25: ASS R3, R4        1F 06 34
28: RET               15
29: "hello\0"
35: "world\0"
``` -/
def scopeProgram : List Nat :=
  [0x83, 0x03, 0x07, 0x83, 0x04, 0x1D, 0x83, 0x05, 0x23, 0x54, 0x00, 0x16,
   0x1F, 0x03, 0x03, 0x1F, 0x06, 0x35, 0x1F, 0x05, 0x03, 0x1B,
   0x1F, 0x03, 0x03, 0x1F, 0x06, 0x34, 0x15] ++ ascii "hello" ++ [0] ++ ascii "world" ++ [0]

/-- The manager state the caller of the scope scenario is in after the inner frame
created buffer 7, appended "hello" and returned: in-use list empty, the inner
buffer (id reset to 0, offset 0, old bytes) on the free list, level still 1. -/
def afterInnerFrame : StrBufState :=
  { pFirst := []
    pFreeList := [{ id := 0, level := 1, offset := 0, rwOffset := 0, size := 256,
                    pBuffer := some (ascii "hello" ++ List.replicate 251 0) }]
    level := 1 }

/-- A frame creates a buffer after an earlier callee returned, then calls again.
```
 0: MOV.B R3, 7       83 03 07
 3: MOV.B R4, 24      83 04 18     ; address of "hi"
 6: CAL.W f           54 00 16
 9: CSB R3            1F 03 03
12: ASS R3, R4        1F 06 34
15: CAL.W g           54 00 17
18: WSB R3            1F 05 03
21: HLT               1B
22: f: RET            15
23: g: RET            15
24: "hi\0"
``` -/
def secondCallProgram : List Nat :=
  [0x83, 0x03, 0x07, 0x83, 0x04, 0x18, 0x54, 0x00, 0x16, 0x1F, 0x03, 0x03,
   0x1F, 0x06, 0x34, 0x54, 0x00, 0x17, 0x1F, 0x05, 0x03, 0x1B, 0x15, 0x15] ++
  ascii "hi" ++ [0]

/-- A frame at depth 1 creates a buffer after its own callee returned, then returns.
```
 0: MOV.B R3, 7       83 03 07
 3: CAL.W f           54 00 07
 6: HLT               1B
 7: f: CAL.W g        54 00 0E
10: CSB R3            1F 03 03
13: RET               15
14: g: RET            15
``` -/
def leakProgram : List Nat :=
  [0x83, 0x03, 0x07, 0x54, 0x00, 0x07, 0x1B, 0x54, 0x00, 0x0E, 0x1F, 0x03, 0x03, 0x15, 0x15]

/-- A core with `PSH R3 ; POP R5 ; HLT` loaded and R3 holding 0xDEADBEEF. -/
def pushPopCore : tzCore := setReg (loaded 64 4 [0x19, 0x03, 0x1A, 0x05, 0x1B]) 3 0xDEADBEEF

/-- A core with `PSH SP ; POP R0 ; HLT` loaded. -/
def pushSpCore : tzCore := loaded 64 4 [0x19, 0x0E, 0x1A, 0x00, 0x1B]

/-- The number of operand bytes that follow an immediate-mode opcode byte: 1 for
the `BYTE` tag, 2 for `WORD`, 4 for `LONG` and `FLOAT32`. -/
def operandWidth (instr : Nat) : Nat :=
  if instr &&& 0xC0 = BYTE then 1 else if instr &&& 0xC0 = WORD then 2 else 4

/-- The length of a `CAL` instruction from its opcode byte: 2 in register mode,
1 + operand width in immediate mode. -/
def calLength (instr : Nat) : Nat :=
  if instr &&& MODE_REG = MODE_REG then 2 else 1 + operandWidth instr

/-- A core with `CAL.W 4 ; HLT ; RET` loaded (the `RET` sits at address 4). -/
def callCore : tzCore := { loaded 64 4 [0x54, 0x00, 0x04, 0x1B, 0x15] with running := true }

/-- The number of bytes a load or store moves under a width tag: 1 for `BYTE`,
2 for `WORD`, 4 for `LONG`. -/
def tagBytes (w : Nat) : Nat := if w = BYTE then 1 else if w = WORD then 2 else 4

/-- The mask of a width tag: 0xFF, 0xFFFF or 0xFFFFFFFF. -/
def tagMask (w : Nat) : Nat := 2 ^ (8 * tagBytes w) - 1

/-- A core with `STR.B [R1],R2 ; LOD.B R3,[R1] ; HLT` loaded, R1 = 32, R2 = 0x12 and
R3 = 0xFFFFFFFF. -/
def storeLoadCore : tzCore :=
  setReg (setReg (setReg (loaded 64 4 [0xA2, 0x12, 0xA1, 0x31, 0x1B]) 1 32) 2 0x12) 3 0xFFFFFFFF

/-- The core after `n` turns of the dispatch loop (the running flag is not
consulted); `none` when a handler outside the embedding is met. -/
def stepN (H : Host) : Nat → tzCore → Option tzCore
  | 0, s => some s
  | n + 1, s => (step H s).bind (stepN H n)

/-- The scope scenario, loaded into a core of 128 bytes with a stack of 8 longwords. -/
def scopeCore : tzCore := loaded 128 8 scopeProgram

/-- The second-call program, loaded likewise. -/
def secondCallCore : tzCore := loaded 128 8 secondCallProgram

/-- The leak program, loaded likewise. -/
def leakCore : tzCore := loaded 128 8 leakProgram

/-- A core whose program is the illegal instruction `1F 1F 02`. -/
def illegalCore : tzCore := loaded 64 4 [0x1F, 0x1F, 0x02]

/-- A core without any stack (`stack_size = 0`) whose program is `PSH R0 ; HLT`. -/
def overflowCore : tzCore := loaded 64 0 [0x19, 0x00, 0x1B]

/-- A core whose program is `POP R0 ; HLT`, run with an empty stack. -/
def underflowCore : tzCore := loaded 64 4 [0x1A, 0x00, 0x1B]

/-- A core whose program is `HLT`. -/
def haltCore : tzCore := loaded 64 4 [0x1B]

/-- An instruction that assigns PC from its operand or from the stack instead of
advancing it: `JMP`, `CAL`, `RET`, and a conditional jump whose condition holds (the
test of each handler: `JZR` Z set, `JNZ` Z clear, `JNE` N set, `JPO` N clear, `JCA` C
set, `JNC` Z clear). -/
def transfersControl (s : tzCore) : Bool :=
  decide (MEM s (PC s) &&& 0x1F = 0x0D ∨ MEM s (PC s) &&& 0x1F = 0x14 ∨
    MEM s (PC s) &&& 0x1F = 0x15 ∨
    (MEM s (PC s) &&& 0x1F = 0x0E ∧ s.status &&& ZFLAG ≠ 0) ∨
    (MEM s (PC s) &&& 0x1F = 0x0F ∧ ¬ (s.status &&& ZFLAG ≠ 0)) ∨
    (MEM s (PC s) &&& 0x1F = 0x10 ∧ s.status &&& NFLAG ≠ 0) ∨
    (MEM s (PC s) &&& 0x1F = 0x11 ∧ ¬ (s.status &&& NFLAG ≠ 0)) ∨
    (MEM s (PC s) &&& 0x1F = 0x12 ∧ s.status &&& CFLAG ≠ 0) ∨
    (MEM s (PC s) &&& 0x1F = 0x13 ∧ ¬ (s.status &&& ZFLAG ≠ 0)))

/-- A running core whose program is `NOP ; HLT`. -/
def nopCore : tzCore := { loaded 64 4 [0x00, 0x1B] with running := true }

/-- A running core whose program is `JMP.B 48` (2 bytes; the target lies outside the
program, inside the core). -/
def jumpCore : tzCore := { loaded 64 4 [0x8D, 0x30] with running := true }

/-- A running core whose program is `SUB.B SP, 100 ; HLT`. -/
def subSpCore : tzCore := { loaded 64 4 [0x85, 0x0E, 0x64, 0x1B] with running := true }

/-- A running core without any stack whose program is `PSH R0 ; HLT`. -/
def noStackCore : tzCore := { overflowCore with running := true }

/-- A running core of 64 bytes with a stack of 4 longwords whose program is
`PSH R0 ; PSH R0 ; HLT`. -/
def twoPushCore : tzCore := { loaded 64 4 [0x19, 0x00, 0x19, 0x00, 0x1B] with running := true }

/-! ## ALU instructions, `CMP` and the conditional jumps -/

/-- The integer handlers without trap that call `SETFLAGS` on the destination before
the final `INC_PC`. -/
def flagsBeforeAdvance (H : Host) : List (tzCore → tzCore) := [opADD H, opSUB H, opMUL H]

/-- The handlers that call `SETFLAGS` on the destination after the `INC_PC`. -/
def flagsAfterAdvance : List (tzCore → tzCore) := [opAND, opOR]

/-- The handlers `opNOT`, `opSHR` and `opSHL`, which have no `SETFLAGS`. -/
def statusFreeHandlers : List (tzCore → tzCore) := [opNOT, opSHR, opSHL]

/-- The handlers of `ADD`, `SUB`, `MUL`, `AND` and `OR`, each with the operation it is
named after, on the integers the two register patterns stand for. -/
def aluOps (H : Host) : List ((tzCore → tzCore) × (Int → Int → Int)) :=
  [(opADD H, fun a b => a + b), (opSUB H, fun a b => a - b), (opMUL H, fun a b => a * b),
   (opAND, fun a b => ((a.toNat &&& b.toNat : Nat) : Int)),
   (opOR, fun a b => ((a.toNat ||| b.toNat : Nat) : Int))]

/-- A running core whose program is `NOT R0 ; NOT R0 ; HLT`. -/
def notCore : tzCore := { loaded 64 4 [0x0A, 0x00, 0x0A, 0x00, 0x1B] with running := true }

/-- A running core whose program is `MOV.B R0, 1 ; SHR.B R0, 1 ; HLT`. -/
def shrCore : tzCore :=
  { loaded 64 4 [0x83, 0x00, 0x01, 0x8B, 0x00, 0x01, 0x1B] with running := true }

/-- A running core whose program is `ADD.B PC, 0xFF ; HLT` (the literal is −1). -/
def addPcCore : tzCore := { loaded 64 4 [0x84, 0x0F, 0xFF, 0x1B] with running := true }

/-- A running core whose program is `SUB.B R0, 0 ; HLT`. -/
def subZeroCore : tzCore := { loaded 64 4 [0x85, 0x00, 0x00, 0x1B] with running := true }

/-- A running core whose program is `DIV.B R1, 2 ; HLT` with R1 = 7. -/
def divCore : tzCore :=
  { setReg (loaded 64 4 [0x87, 0x01, 0x02, 0x1B]) 1 7 with running := true }

/-- A running core whose program is `ADD.B R1, 0x80 ; HLT` (the literal is −128). -/
def addCore : tzCore := { loaded 64 4 [0x84, 0x01, 0x80, 0x1B] with running := true }

/-- The conditional jumps, each with the flag that the specification names for it and
whether the jump is to be taken when that flag is set. -/
def condJumps : List ((tzCore → tzCore) × Nat × Bool) :=
  [(opJZR, ZFLAG, true), (opJNZ, ZFLAG, false), (opJNE, NFLAG, true), (opJPO, NFLAG, false),
   (opJCA, CFLAG, true), (opJNC, ZFLAG, false)]

/-- A running core whose program is `CMP.B R0, 1 ; HLT`. -/
def cmpCore : tzCore := { loaded 64 4 [0x96, 0x00, 0x01, 0x1B] with running := true }

/-- A running core whose program is `JNC.W 5 ; HLT ; HLT ; HLT`. -/
def jncCore : tzCore :=
  { loaded 64 4 [0x53, 0x00, 0x05, 0x1B, 0x1B, 0x1B] with running := true }

/-! ## Label manager (`labels.c`) -/

/-- Record `backpatchRec`: the label name, `short address` by its 16-bit pattern (so
0xFFFF is the −1 that marks a label without address) and the list `locale` of the
backpatch locations, head first, each the 16-bit pattern of `short location`. -/
structure backpatchRec where
  label : String
  address : Nat
  locale : List Nat
deriving DecidableEq

/-- The record that `findLabelRec` creates for a new label. -/
def newLabelRec (label : String) : backpatchRec :=
  { label := label, address := 0xFFFF, locale := [] }

/-- Function `findLabelRec`: the list `labels` after the search and the position of the
record it returns; a label that is not found gets a new record at the end.  The
allocations are taken to succeed (the source does not check them). -/
def findLabelRec (label : String) : List backpatchRec → List backpatchRec × Nat
  | [] => ([newLabelRec label], 0)
  | bp :: rest =>
    if bp.label = label then (bp :: rest, 0)
    else ((bp :: (findLabelRec label rest).1), (findLabelRec label rest).2 + 1)

/-- The record at a position of the list (the dereference of the pointer). -/
def recAt (labels : List backpatchRec) (i : Nat) : backpatchRec :=
  labels.getD i (newLabelRec "")

/-- An assignment through the pointer that `findLabelRec` returned. -/
def writeRec (f : backpatchRec → backpatchRec) : Nat → List backpatchRec → List backpatchRec
  | _, [] => []
  | 0, bp :: rest => f bp :: rest
  | i + 1, bp :: rest => bp :: writeRec f i rest

/-- The list after `findLabelRec` and an assignment `f` through the pointer that it
returned. -/
def updateLabel (f : backpatchRec → backpatchRec) (label : String)
    (labels : List backpatchRec) : List backpatchRec :=
  writeRec f (findLabelRec label labels).2 (findLabelRec label labels).1

/-- The address field that a search for the label meets: that of the first record with
this name, if there is one. -/
def addrOf : List backpatchRec → String → Option Nat
  | [], _ => none
  | bp :: rest, label => if bp.label = label then some bp.address else addrOf rest label

/-- Function `enterLabel`; `mallocOk` is the outcome of its allocation (on failure
`bp->locale` is left `NULL`). -/
def enterLabel (mallocOk : Bool) (label : String) (addr : Nat)
    (labels : List backpatchRec) : List backpatchRec :=
  let r := findLabelRec label labels
  writeRec (fun bp => { bp with locale := if mallocOk then (addr % 2 ^ 16) :: bp.locale else [] })
    r.2 r.1

/-- Function `setLabelAddr`: the list afterwards, and whether "multiple labels found"
went to `stderr`. -/
def setLabelAddr (label : String) (addr : Nat)
    (labels : List backpatchRec) : List backpatchRec × Bool :=
  let r := findLabelRec label labels
  if (recAt r.1 r.2).address ≠ 0xFFFF then (r.1, true)
  else (writeRec (fun bp => { bp with address := addr % 2 ^ 16 }) r.2 r.1, false)

/-- The inner loop of `LinkLabels` over the locations of one label. -/
def linkLocale (address : Nat) : List Nat → List Nat → List Nat
  | [], memory => memory
  | loc :: rest, memory =>
    linkLocale address rest
      ((memory.set loc ((address &&& 0xFF00) >>> 8)).set (loc + 1) (address &&& 0x00FF))

/-- The outer loop of `LinkLabels`. -/
def linkLoop : List backpatchRec → Int → List Nat → Int × List Nat
  | [], status, memory => (status, memory)
  | label :: rest, status, memory =>
    if label.address = 0xFFFF then linkLoop rest (-1) memory
    else linkLoop rest status (linkLocale label.address label.locale memory)

/-- Function `LinkLabels` on the list `labels`: the status and the memory. -/
def LinkLabels (labels : List backpatchRec) (memory : List Nat) : Int × List Nat :=
  linkLoop labels 0 memory

/-- The bytes of the backpatch locations of one label. -/
def localeBytes : List Nat → List Nat
  | [] => []
  | loc :: rest => loc :: (loc + 1) :: localeBytes rest

/-- The bytes of all registered backpatch locations. -/
def siteBytes : List backpatchRec → List Nat
  | [] => []
  | label :: rest => localeBytes label.locale ++ siteBytes rest

/-- A call of the label manager: `enterLabel`, `setLabelAddr` or a bare
`findLabelRec`. -/
inductive labelCall where
  | enter (mallocOk : Bool) (label : String) (addr : Nat)
  | set (label : String) (addr : Nat)
  | find (label : String)
deriving DecidableEq

/-- The label a call names. -/
def labelCall.name : labelCall → String
  | .enter _ l _ => l
  | .set l _ => l
  | .find l => l

/-- The list `labels` after one call. -/
def labelCall.run : labelCall → List backpatchRec → List backpatchRec
  | .enter m l a, labels => enterLabel m l a labels
  | .set l a, labels => (setLabelAddr l a labels).1
  | .find l, labels => (findLabelRec l labels).1

/-- The list `labels` after a sequence of calls. -/
def runCalls : List labelCall → List backpatchRec → List backpatchRec
  | [], labels => labels
  | c :: cs, labels => runCalls cs (c.run labels)

/-- The image of `JMP.W forward ; HLT` before linking. -/
def jmpForwardImage : List Nat := [0x4D, 0x00, 0x00, 0x1B]

/-- The label list of `JMP.W forward ; forward: HLT`: the reference at location 1, then
the definition at address 3. -/
def jmpForwardLabels : List backpatchRec :=
  (setLabelAddr "forward" 3 (enterLabel true "forward" 1 [])).1

/-- The calls for `JMP.W last ; ... ; last:` with the label on the last byte of a
64 KiB core: the reference at location 1, then the definition at address 0xFFFF. -/
def lastByteCalls : List labelCall :=
  [labelCall.enter true "last" 1, labelCall.set "last" 0xFFFF]

/-- The calls for `JMP.W forward ; forward: HLT`. -/
def jmpForwardCalls : List labelCall :=
  [labelCall.enter true "forward" 1, labelCall.set "forward" 3]

/-- The label list of `x: NOP ; x: HLT`, where `x` is defined at 0 and again at 1. -/
def twiceDefined : List backpatchRec × Bool :=
  setLabelAddr "x" 1 (setLabelAddr "x" 0 []).1

/-! ## Parse records of the assembler (`parseinfo.c`) -/

/-- Enumeration `teNumType`. -/
inductive teNumType where
  | eINTEGER
  | eFLOAT
  | eHEXADECIMAL
deriving DecidableEq

/-- Enumeration `teParseType`. -/
inductive teParseType where
  | eUNKNOWN_PARSE_TYPE
  | eUINT8
  | eSINT8
  | eUINT16
  | eSINT16
  | eUINT32
  | eSINT32
  | eFLOAT32
  | eLABEL
  | eSTRING
  | eCHAR
  | eREGISTER
  | eOP
deriving DecidableEq

/-- Record `tzParseInfo`.  The numeric members of the union `value` overlay each other;
`value` is the pattern of its first four bytes (little-endian host), so that `ucVal`,
`scVal`, `regnum` and `op` are its low byte, `uiVal` and `siVal` its low two bytes and
`ulVal`, `slVal` and `fVal` all four.  `pStrVal` is the string that the pointer member
addresses, without its terminating NUL; `none` is the NULL pointer. -/
structure tzParseInfo where
  type : teParseType
  n : Nat
  width : Nat
  value : Nat
  pStrVal : Option (List Char) := none
deriving DecidableEq

/-- The record after `memset(&parseInfo, 0, sizeof( parseInfo ))`. -/
def zeroParseInfo : tzParseInfo :=
  { type := teParseType.eUNKNOWN_PARSE_TYPE, n := 0, width := 0, value := 0 }

/-- The signed reading of the low `bits` bits of a pattern. -/
def signedView (bits : Nat) (x : Nat) : Int :=
  if x % 2 ^ bits < 2 ^ (bits - 1) then ((x % 2 ^ bits : Nat) : Int)
  else ((x % 2 ^ bits : Nat) : Int) - 2 ^ bits

/-- Union member `value.scVal`. -/
def scVal (p : tzParseInfo) : Int := signedView 8 p.value
/-- Union member `value.siVal`. -/
def siVal (p : tzParseInfo) : Int := signedView 16 p.value
/-- Union member `value.slVal`. -/
def slVal (p : tzParseInfo) : Int := signedView 32 p.value
/-- Union member `value.ucVal`. -/
def ucVal (p : tzParseInfo) : Nat := p.value % 2 ^ 8
/-- Union member `value.uiVal`. -/
def uiVal (p : tzParseInfo) : Nat := p.value % 2 ^ 16
/-- Union member `value.ulVal`. -/
def ulVal (p : tzParseInfo) : Nat := p.value % 2 ^ 32

/-- The digits that the C library function `atol` reads, accumulated in base ten. -/
def atolDigits : Nat → List Char → Nat
  | acc, [] => acc
  | acc, c :: rest =>
    if c.isDigit then atolDigits (10 * acc + (c.toNat - 48)) rest else acc

/-- The C library function `atol` on a token: an optional sign and decimal digits, up
to the first other character.  Leading white space, which a token does not have, and
values outside `long` are not modelled. -/
def atol : List Char → Int
  | '-' :: rest => - (atolDigits 0 rest : Int)
  | '+' :: rest => (atolDigits 0 rest : Int)
  | text => (atolDigits 0 text : Int)

/-- Function `hexdigit`: `some val` for the return value 1, `none` for 0. -/
def hexdigit (digit : Char) : Option Nat :=
  if '0' ≤ digit ∧ digit ≤ '9' then some (digit.toNat - ('0').toNat)
  else if 'a' ≤ digit ∧ digit ≤ 'f' then some (digit.toNat - ('a').toNat + 10)
  else if 'A' ≤ digit ∧ digit ≤ 'F' then some (digit.toNat - ('A').toNat + 10)
  else none

/-- The loop of `xtol`; the end of the list is the terminating NUL, which is no hex
digit. -/
def xtolLoop : Nat → List Char → Nat
  | value, [] => value
  | value, c :: rest =>
    match hexdigit c with
    | some digit => xtolLoop (((value <<< 4) ||| digit) % 2 ^ 32) rest
    | none => value

/-- Function `xtol`. -/
def xtol (hexstring : List Char) : Nat := xtolLoop 0 hexstring

/-- Function `EncodeValue`; `atof` is the C library function, giving the pattern of the
`float`.  The `default` branch of the `switch` is not reachable with a `teNumType`. -/
def EncodeValue (atof : List Char → Nat) (valueText : List Char) (numType : teNumType) :
    tzParseInfo :=
  match numType with
  | teNumType.eINTEGER =>
    if valueText.head? = some '-' then
      let stemp : Int := (2 ^ 31 + atol valueText) % 2 ^ 32 - 2 ^ 31
      if stemp ≥ -128 ∧ stemp ≤ 127 then
        { type := teParseType.eSINT8, n := 1, width := 1, value := (stemp % 2 ^ 8).toNat }
      else if stemp ≥ -32768 ∧ stemp ≤ 32767 then
        { type := teParseType.eSINT16, n := 2, width := 2, value := (stemp % 2 ^ 16).toNat }
      else
        { type := teParseType.eSINT32, n := 4, width := 4, value := (stemp % 2 ^ 32).toNat }
    else
      let utemp : Nat := (atol valueText % 2 ^ 32).toNat
      if utemp ≤ 0x7F then
        { type := teParseType.eUINT8, n := 1, width := 1, value := (utemp &&& 0xFF) % 2 ^ 8 }
      else if utemp ≤ 0x7FFF then
        { type := teParseType.eUINT16, n := 2, width := 2, value := (utemp &&& 0xFFFF) % 2 ^ 16 }
      else
        { type := teParseType.eUINT32, n := 4, width := 4, value := utemp }
  | teNumType.eFLOAT =>
    { type := teParseType.eFLOAT32, n := 4, width := 4, value := atof valueText % 2 ^ 32 }
  | teNumType.eHEXADECIMAL =>
    let utemp : Nat := xtol valueText
    if utemp ≤ 0xFF then
      { type := teParseType.eUINT8, n := 1, width := 1, value := (utemp &&& 0xFF) % 2 ^ 8 }
    else if utemp ≤ 0xFFFF then
      { type := teParseType.eUINT16, n := 2, width := 2, value := (utemp &&& 0xFFFF) % 2 ^ 16 }
    else
      { type := teParseType.eUINT32, n := 4, width := 4, value := utemp }

/-- The C library function `toupper` in the C locale. -/
def toupper (c : Char) : Char := c.toUpper

/-- The `for` loop of `EncodeOp` over `operator_name[i]`, `i < length`, where `length`
is the length of the name: `operator_name[i+1]` after the last character is the
terminating NUL. -/
def lengthSpecLoop : Char → List Char → Char
  | length_spec, [] => length_spec
  | length_spec, c :: rest =>
    if c = '.' then lengthSpecLoop (toupper (rest.headD (Char.ofNat 0))) rest
    else lengthSpecLoop length_spec rest

/-- Function `EncodeOp`: the record it returns, and whether "Invalid length specifier"
was printed. -/
def EncodeOp (operator_name : List Char) (operator_value : Nat) : tzParseInfo × Bool :=
  let length_spec := lengthSpecLoop 'L' operator_name
  let parseInfo : tzParseInfo :=
    { zeroParseInfo with type := teParseType.eOP, n := 1, value := operator_value % 2 ^ 8 }
  if length_spec = 'H' then
    ({ parseInfo with value := (parseInfo.value ||| 0x60) % 2 ^ 8, width := 1 }, false)
  else if length_spec = 'S' ∨ length_spec = 'B' then
    ({ parseInfo with value := (parseInfo.value ||| 0x80) % 2 ^ 8, width := 1 }, false)
  else if length_spec = 'W' then
    ({ parseInfo with value := (parseInfo.value ||| 0x40) % 2 ^ 8, width := 2 }, false)
  else if length_spec = 'F' then
    ({ parseInfo with value := (parseInfo.value ||| 0xC0) % 2 ^ 8, width := 4 }, false)
  else if length_spec = 'L' then
    ({ parseInfo with width := 4 }, false)
  else (parseInfo, true)

/-- Function `CheckParseInfo` on the instruction byte `instptr[0]` and the two records:
the byte and the records afterwards; `none` is the `exit(1)` of the width error. -/
def CheckParseInfo (inst : Nat) (pParseInfo1 pParseInfo2 : tzParseInfo) :
    Option (Nat × tzParseInfo × tzParseInfo) :=
  if pParseInfo2.type = teParseType.eREGISTER then some (inst, pParseInfo1, pParseInfo2)
  else if pParseInfo2.width > pParseInfo1.width then none
  else
    let p1 : tzParseInfo :=
      if pParseInfo1.width > pParseInfo2.width then
        { pParseInfo1 with width := pParseInfo2.width }
      else pParseInfo1
    let i1 := if pParseInfo2.type = teParseType.eREGISTER then inst ||| MODE_REG else inst
    let i2 := if p1.width = 2 then i1 ||| WORD else if p1.width = 1 then i1 ||| BYTE else i1
    let i3 :=
      if p1.width = 4 ∧ pParseInfo2.type = teParseType.eFLOAT32 then i2 ||| FLOAT32 else i2
    some (i3, p1, pParseInfo2)

/-- The hexadecimal loop of `ParseChar` on the value so far, the count so far and the
rest of the input. -/
def parseHex : Nat → Nat → List Char → Nat × Nat
  | charVal, n, [] => (charVal, n)
  | charVal, n, c :: rest =>
    match hexdigit c with
    | some val => parseHex (((charVal <<< 4) ||| val) % 2 ^ 8) (n + 1) rest
    | none => (charVal, n)

/-- The decimal loop of `ParseChar` on the value so far, the count so far and the rest
of the input. -/
def parseDec : Nat → Nat → List Char → Nat × Nat
  | charVal, n, [] => (charVal, n)
  | charVal, n, c :: rest =>
    if '0' ≤ c ∧ c ≤ '9' then
      parseDec ((charVal * 10 + c.toNat - ('0').toNat) % 2 ^ 8) (n + 1) rest
    else (charVal, n)

/-- Function `ParseChar` on the text that follows the backslash (the end of the list is
the terminating NUL): the character value and the count stored to `*length`. -/
def ParseChar (input : List Char) : Nat × Nat :=
  match input with
  | [] => (0, 1)
  | c :: rest =>
    if c = 'n' then (0x0A, 1)
    else if c = 't' then (0x09, 1)
    else if c = 'b' then (0x08, 1)
    else if c = 'r' then (0x0D, 1)
    else if c = 'f' then (0x0C, 1)
    else if c = '\\' then (0x5C, 1)
    else if c = '\'' then (0x27, 1)
    else if c = '0' then
      if rest.head? = some 'x' ∨ rest.head? = some 'X' then parseHex 0 2 (rest.drop 1)
      else (0, 1)
    else if '1' ≤ c ∧ c ≤ '9' then parseDec 0 1 (c :: rest)
    else (0, 1)

/-- The `while` loop of `copystring` on the escape flag and the rest of the source: the
bytes stored to the destination, the closing NUL included.  Each turn moves the
source pointer forward, so a bound of one more than the length of the source is never
used up; `none` is a source pointer that `source += n` moved beyond the terminating
NUL. -/
def copyLoop : Nat → Bool → List Char → Option (List Nat)
  | 0, _, _ => none
  | _ + 1, _, [] => some [0]
  | fuel + 1, escape, c :: rest =>
    if c = '\\' then copyLoop fuel true rest
    else if escape then
      let r := ParseChar (c :: rest)
      if r.2 ≤ (c :: rest).length then
        (copyLoop fuel false ((c :: rest).drop r.2)).map (fun out => r.1 :: out)
      else none
    else (copyLoop fuel false rest).map (fun out => c.toNat % 2 ^ 8 :: out)

/-- Function `copystring` for a non-NULL record: the return value and the bytes stored
to the destination; `none` when the source is the NULL pointer or is read beyond its
end. -/
def copystring (pParseInfo : tzParseInfo) : Option (Nat × List Nat) :=
  if pParseInfo.type ≠ teParseType.eSTRING then some (0, [])
  else
    match pParseInfo.pStrVal with
    | none => none
    | some source => (copyLoop (source.length + 1) false source).map (fun out => (out.length, out))

/-- The string record of a quoted text. -/
def stringInfo (text : String) : tzParseInfo :=
  { type := teParseType.eSTRING, n := 0, width := 0, value := 0, pStrVal := some text.toList }

/-! ## File descriptor manager (`files.c`) -/

/-- Constant `MAX_OPEN_FILES`. -/
def MAX_OPEN_FILES : Nat := 20

/-- Error code `EOK`. -/
def EOK : Int := 0
/-- Error code `ENOENT` of `errno.h`. -/
def ENOENT : Int := 2
/-- Error code `EBADF` of `errno.h`. -/
def EBADF : Int := 9
/-- Error code `EEXIST` of `errno.h`. -/
def EEXIST : Int := 17
/-- Error code `EINVAL` of `errno.h`. -/
def EINVAL : Int := 22
/-- Error code `ENOSPC` of `errno.h`. -/
def ENOSPC : Int := 28

/-- Record `FileDescriptor`: `uint32_t fd` by its pattern (0xFFFFFFFF is the −1 of a
free slot) and `char mode`. -/
structure FileDescriptor where
  fd : Nat
  mode : Char
deriving DecidableEq

/-- The file scoped variables of `files.c`. -/
structure FilesState where
  FILES : List FileDescriptor
  active_read_fd : Int
  active_write_fd : Int
  numOpenFiles : Int
deriving DecidableEq

/-- A free slot: `fd = -1`, `mode = 0`. -/
def freeSlot : FileDescriptor := { fd := 0xFFFFFFFF, mode := Char.ofNat 0 }

/-- Function `InitFiles`. -/
def InitFiles (st : FilesState) : FilesState :=
  { st with
    FILES := [{ fd := 0, mode := 'r' }, { fd := 1, mode := 'w' }, { fd := 2, mode := 'w' }] ++
      List.replicate (MAX_OPEN_FILES - 3) freeSlot
    numOpenFiles := 3 }

/-- The state after `InitFiles` on the initial values of the variables
(`active_read_fd = STDIN_FILENO`, `active_write_fd = STDOUT_FILENO`). -/
def filesInit : FilesState :=
  InitFiles { FILES := List.replicate MAX_OPEN_FILES { fd := 0, mode := Char.ofNat 0 },
              active_read_fd := 0, active_write_fd := 1, numOpenFiles := 3 }

/-- The loop `for ( idx = 3; idx < MAX_OPEN_FILES ; idx++ )` of `Findfd` and
`GetFreeFDIndex`, from index `idx` on over the slots from there on: the first index
whose `fd` is the pattern, or −1. -/
def findSlot (fd : Nat) : Nat → List FileDescriptor → Int
  | _, [] => -1
  | idx, f :: rest => if f.fd = fd then (idx : Int) else findSlot fd (idx + 1) rest

/-- The slots `FILES[3]` ... `FILES[MAX_OPEN_FILES-1]`. -/
def fileSlots (st : FilesState) : List FileDescriptor :=
  (st.FILES.take MAX_OPEN_FILES).drop 3

/-- Function `Findfd`. -/
def Findfd (fd : Int) (st : FilesState) : Int :=
  if fd ≥ 0 then findSlot (ofInt fd) 3 (fileSlots st) else -1

/-- Function `GetFreeFDIndex`. -/
def GetFreeFDIndex (st : FilesState) : Int :=
  findSlot (ofInt (-1)) 3 (fileSlots st)

/-- Function `SetExternWriteFileDescriptor`. -/
def SetExternWriteFileDescriptor (fd : Int) (mode : Char) (st : FilesState) :
    Int × FilesState :=
  if fd > 0 then
    if Findfd fd st = -1 then
      let idx := GetFreeFDIndex st
      if idx ≠ -1 then
        (EOK, { st with FILES := st.FILES.set idx.toNat { fd := ofInt fd, mode := mode }
                        numOpenFiles := st.numOpenFiles + 1 })
      else (ENOSPC, st)
    else (EEXIST, st)
  else (EBADF, st)

/-- Function `ClearExternFileDescriptor`. -/
def ClearExternFileDescriptor (fd : Int) (st : FilesState) : Int × FilesState :=
  if fd > 0 then
    let idx := Findfd fd st
    if idx ≠ -1 then
      (EOK, { st with FILES := st.FILES.set idx.toNat freeSlot
                      numOpenFiles := st.numOpenFiles - 1 })
    else (ENOENT, st)
  else (EBADF, st)

/-- The C library function `tolower` in the C locale. -/
def tolower (c : Char) : Char := c.toLower

/-- Function `SetActiveFileDescriptor`. -/
def SetActiveFileDescriptor (fd : Int) (st : FilesState) : Int × FilesState :=
  if fd > 0 ∧ fd < MAX_OPEN_FILES then
    let idx := Findfd fd st
    if idx ≠ -1 then
      if tolower (st.FILES.getD idx.toNat freeSlot).mode = 'r' then
        (EOK, { st with active_read_fd := fd })
      else if tolower (st.FILES.getD idx.toNat freeSlot).mode = 'w' then
        (EOK, { st with active_write_fd := fd })
      else (EBADF, st)
    else (EBADF, st)
  else (EBADF, st)

/-- Function `OpenFileDescriptor` for a non-NULL `fd`: the return value, the value
stored to `*fd` if any, and the state.  The path is the string of buffer `stringID` in
the manager `m`; `openResult` is what the system call `open` returns for it. -/
def OpenFileDescriptor (m : StrBufState) (openResult : Int) (stringID : Int) (mode : Char)
    (st : FilesState) : Int × Option Int × FilesState :=
  if mode = 'r' ∨ mode = 'w' ∨ mode = 'R' ∨ mode = 'W' then
    match STRINGBUFFER_fnGet stringID m with
    | some _ =>
      let idx := GetFreeFDIndex st
      if idx ≠ -1 then
        if openResult ≠ -1 then
          (EOK, some openResult,
            { st with FILES := st.FILES.set idx.toNat { fd := ofInt openResult, mode := tolower mode }
                      numOpenFiles := st.numOpenFiles + 1 })
        else (ENOENT, some openResult, st)
      else (ENOSPC, none, st)
    | none => (EINVAL, none, st)
  else (EINVAL, none, st)

/-- The loop of `CloseFileDescriptor` over the slots from index 3 on: the slots
afterwards and the number of slots freed. -/
def closeLoop (fd : Nat) : List FileDescriptor → List FileDescriptor × Nat
  | [] => ([], 0)
  | f :: rest =>
    if f.fd = fd then (freeSlot :: (closeLoop fd rest).1, (closeLoop fd rest).2 + 1)
    else (f :: (closeLoop fd rest).1, (closeLoop fd rest).2)

/-- Function `CloseFileDescriptor`. -/
def CloseFileDescriptor (fd : Int) (st : FilesState) : Int × FilesState :=
  if fd > 3 then
    let r := closeLoop (ofInt fd) (fileSlots st)
    ((if r.2 = 0 then ENOENT else EOK),
      { st with FILES := st.FILES.take 3 ++ r.1 ++ st.FILES.drop MAX_OPEN_FILES
                numOpenFiles := st.numOpenFiles - r.2 })
  else (EBADF, st)

/-- Constant `BUFSIZ` of `stdio.h` (the value of the GNU C library). -/
def BUFSIZ : Nat := 8192

/-- The `while` loop of `ScanNumber` on the state of its machine, the sign, the digits
stored in `buf` and the unread input of the active read descriptor: the sign, the
digits and the input left unread when the loop ends.  At the end of the input `read`
no longer returns 1 and the loop does not end: `none`. -/
def scanLoop : Nat → Int → List Char → List Char → Option (Int × List Char × List Char)
  | _, sign, buf, [] => if buf.length < BUFSIZ - 1 then none else some (sign, buf, [])
  | state, sign, buf, ch :: rest =>
    if buf.length < BUFSIZ - 1 then
      if state = 1 then
        if ch.isDigit then scanLoop 1 sign (buf ++ [ch]) rest
        else some (sign, buf, rest)
      else
        if ch = ' ' ∨ ch = '\t' then scanLoop state sign buf rest
        else if ch = '-' then scanLoop state (-1) buf rest
        else if ch.isDigit then scanLoop 1 sign (buf ++ [ch]) rest
        else some (sign, buf, rest)
    else some (sign, buf, ch :: rest)

/-- The value that a store into an `int` keeps. -/
def wrapInt (z : Int) : Int := (2 ^ 31 + z) % 2 ^ 32 - 2 ^ 31

/-- Function `ScanNumber` on the unread input of the active read descriptor: the
return value and the input left unread.  The product `result * sign` wraps in the
model; in C it is undefined for the one case `INT_MIN * -1`. -/
def ScanNumber (input : List Char) : Option (Int × List Char) :=
  (scanLoop 0 1 [] input).map (fun r => (wrapInt (wrapInt (atol r.2.1) * r.1), r.2.2))

/-- A string-buffer manager whose buffer 7 holds the path `data.txt`. -/
def pathManager : StrBufState :=
  STRINGBUFFER_fnAppendString true 7 (ascii "data.txt")
    (STRINGBUFFER_fnCreate plainHost.malloc 7 StrBufState.init).2

/-- The descriptor table after `OFD` of `data.txt` for reading, where `open` returned the
host descriptor `fd`. -/
def openedFile (fd : Int) : FilesState := (OpenFileDescriptor pathManager fd 7 'r' filesInit).2.2

/-- The descriptor table after `OFD` of `data.txt` for writing, where `open` returned the
host descriptor `fd`, and `SFD` of this descriptor. -/
def selectedFile (fd : Int) : FilesState :=
  (SetActiveFileDescriptor fd (OpenFileDescriptor pathManager fd 7 'w' filesInit).2.2).2

/-! ## Variable server bridge (`libvarvm.c`) -/

/-- The variable types of the variable server that `libvarvm.c` names.
`VARTYPE_INVALID` stands for every other type. -/
inductive VarType where
  | VARTYPE_INVALID
  | VARTYPE_UINT16
  | VARTYPE_UINT32
  | VARTYPE_FLOAT
  | VARTYPE_STR
deriving DecidableEq

/-- Record `VarObject` of the variable server: the numeric members `val.ul`, `val.ui`
and `val.f` overlay each other and are given by the pattern `val` of their four bytes
(little-endian host); `str` is the string that `val.str` addresses. -/
structure VarObject where
  type : VarType
  len : Nat
  val : Nat
  str : Option (List Nat)
deriving DecidableEq

/-- The variable server library, which is not part of the sources: the type whose code
is 0 (the type of a zeroed `VarObject`), the handle `VAR_INVALID`, the committed value
that `VAR_Get` delivers for a handle (`none` when it does not return EOK), and the
conversion of a `uint32_t` to `float`. -/
structure VarServer where
  zeroType : VarType
  VAR_INVALID : Nat
  get : Nat → Option VarObject
  floatOfUInt : Nat → Nat

/-- A zeroed `VarObject` (`= {0}` or `memset`). -/
def zeroVarObject (srv : VarServer) : VarObject :=
  { type := srv.zeroType, len := 0, val := 0, str := none }

/-- Record `VarVM`: whether the pointer `get` is set, the handle of the variable being
validated and the validation data. -/
structure VarVM where
  getLoaded : Bool
  hValidationVar : Nat
  validationData : VarObject
deriving DecidableEq

/-- The object that `pVarObject` addresses in the three get functions: the validation
data for the handle being validated, else what `VAR_Get` delivers; `none` is NULL. -/
def varvmObject (srv : VarServer) (vm : VarVM) (handle : Nat) : Option VarObject :=
  if vm.hValidationVar = handle then some vm.validationData else srv.get handle

/-- Function `varvm_fnGet` for a non-NULL `pExt`. -/
def varvm_fnGet (srv : VarServer) (vm : VarVM) (handle : Nat) : Nat :=
  if vm.getLoaded then
    match varvmObject srv vm handle with
    | some o =>
      if o.type = VarType.VARTYPE_UINT32 then o.val % 2 ^ 32
      else if o.type = VarType.VARTYPE_UINT16 then o.val % 2 ^ 16
      else 0
    | none => 0
  else 0

/-- Function `varvm_fnGetFloat` for a non-NULL `pExt`: the pattern of the `float`.  Its
`switch` is on the type of the local `varObject`, which `VAR_Get` has filled when the
handle is not the one being validated and which is still zeroed when it is. -/
def varvm_fnGetFloat (srv : VarServer) (vm : VarVM) (handle : Nat) : Nat :=
  if vm.getLoaded then
    let varObject : VarObject :=
      if vm.hValidationVar = handle then zeroVarObject srv
      else (srv.get handle).getD (zeroVarObject srv)
    match varvmObject srv vm handle with
    | some o =>
      if varObject.type = VarType.VARTYPE_UINT32 then srv.floatOfUInt (o.val % 2 ^ 32)
      else if varObject.type = VarType.VARTYPE_UINT16 then srv.floatOfUInt (o.val % 2 ^ 16)
      else if varObject.type = VarType.VARTYPE_FLOAT then o.val % 2 ^ 32
      else 0
    | none => 0
  else 0

/-- Function `varvm_fnGetString` for a non-NULL `pExt`; `none` is NULL. -/
def varvm_fnGetString (srv : VarServer) (vm : VarVM) (handle : Nat) : Option (List Nat) :=
  if vm.getLoaded then
    match varvmObject srv vm handle with
    | some o => if o.type = VarType.VARTYPE_STR then o.str else none
    | none => none
  else none

/-- Function `varvm_fnValidateStart` for non-NULL arguments.  `req` is what
`VAR_GetValidationRequest` returns and leaves in `*hVar` and in the validation data. -/
def varvm_fnValidateStart (req : Int × Nat × VarObject) (vm : VarVM) : Int × Nat × VarVM :=
  (req.1, req.2.1,
    { vm with validationData := req.2.2
              hValidationVar := if req.1 = EOK then req.2.1 else vm.hValidationVar })

/-- Function `varvm_fnValidateEnd` for a non-NULL `pExt`; `sent` is what
`VAR_SendValidationResponse` returns. -/
def varvm_fnValidateEnd (srv : VarServer) (sent : Int) (vm : VarVM) : Int × VarVM :=
  (sent, { vm with hValidationVar := srv.VAR_INVALID, validationData := zeroVarObject srv })

/-- A variable server with the committed values 5 (uint32) for handle 7, the float
pattern 0x40000000 (2.0) for handle 8 and the string "old" for handle 9, whose zero
type is none of the types tested. -/
def demoServer : VarServer :=
  { zeroType := VarType.VARTYPE_INVALID
    VAR_INVALID := 0
    get := fun h =>
      if h = 7 then some { type := VarType.VARTYPE_UINT32, len := 4, val := 5, str := none }
      else if h = 8 then
        some { type := VarType.VARTYPE_FLOAT, len := 4, val := 0x40000000, str := none }
      else if h = 9 then
        some { type := VarType.VARTYPE_STR, len := 3, val := 0, str := some (ascii "old") }
      else none
    floatOfUInt := fun n => n }

/-- The bridge after `init`. -/
def demoVM : VarVM :=
  { getLoaded := true, hValidationVar := 0, validationData := zeroVarObject demoServer }

/-- The bridge during the validation of handle `h` with the captured object `o`. -/
def validating (h : Nat) (o : VarObject) : VarVM :=
  (varvm_fnValidateStart (EOK, h, o) demoVM).2.2

/-! ## Default external variables (`externvars.c`) -/

/-- Record `ExtVar`; `sval` is the string that the pointer addresses. -/
structure ExtVar where
  name : String
  handle : Nat
  val : Nat
  sval : Option (List Nat)
  fval : Nat
  len : Nat
deriving DecidableEq

/-- The list that `pExt` addresses and the file scoped counter `handle`. -/
structure ExtVarState where
  pExtVars : List ExtVar
  handle : Nat
deriving DecidableEq

/-- The state after `EXTERNVAR_Init`: the list is empty and no handle was issued. -/
def extvarInit : ExtVarState := { pExtVars := [], handle := 0 }

/-- Function `extvar_fnNew` for non-NULL arguments.  `alloc` is the record that the first
`malloc` delivers (its members are indeterminate; `none` when it fails), `nameOk` the
outcome of the `malloc` for the name. -/
def extvar_fnNew (alloc : Option ExtVar) (nameOk : Bool) (name : String)
    (st : ExtVarState) : Nat × ExtVarState :=
  match alloc with
  | none => (0, st)
  | some pNew =>
    if nameOk then
      (u32 (st.handle + 1),
        { pExtVars := { pNew with name := name, handle := u32 (st.handle + 1) } :: st.pExtVars
          handle := u32 (st.handle + 1) })
    else (0, st)

/-- Function `extvar_fnFindByName`. -/
def extvar_fnFindByName (name : String) : List ExtVar → Option ExtVar
  | [] => none
  | v :: rest => if name = v.name then some v else extvar_fnFindByName name rest

/-- Function `extvar_fnGetHandle` for non-NULL arguments. -/
def extvar_fnGetHandle (alloc : Option ExtVar) (nameOk : Bool) (name : String)
    (st : ExtVarState) : Nat × ExtVarState :=
  match st.pExtVars with
  | [] => extvar_fnNew alloc nameOk name st
  | _ :: _ =>
    match extvar_fnFindByName name st.pExtVars with
    | none => extvar_fnNew alloc nameOk name st
    | some pExtVar => (pExtVar.handle, st)

/-- The state after a sequence of `get_handle` calls without allocation failure, where
every `malloc` delivers the record `g`. -/
def getHandleRun (g : ExtVar) : List String → ExtVarState → ExtVarState
  | [], st => st
  | n :: rest, st => getHandleRun g rest (extvar_fnGetHandle (some g) true n st).2

/-- The handle that `get_handle` returns for the name `n` after the calls for the names
of `pre`, from the initial state on. -/
def issued (g : ExtVar) (pre : List String) (n : String) : Nat :=
  (extvar_fnGetHandle (some g) true n (getHandleRun g pre extvarInit)).1

/-- The invariant of the list: every handle lies between 1 and the counter, no two
records share a handle or a name, and the counter is the length of the list. -/
def extvarInv (st : ExtVarState) : Prop :=
  (∀ r ∈ st.pExtVars, 1 ≤ r.handle ∧ r.handle ≤ st.handle) ∧
  (st.pExtVars.map (fun r => r.handle)).Nodup ∧
  (st.pExtVars.map (fun r => r.name)).Nodup ∧
  st.handle = st.pExtVars.length

/-- A record as `malloc` may deliver it. -/
def rawExtVar : ExtVar := { name := "", handle := 0, val := 0, sval := none, fval := 0, len := 0 }

/-! ## String buffers once more -/

/-- A running core whose program is `MOV.B R3, 7 ; CSB R3 ; CSB R3 ; HLT`. -/
def twoCsbCore : tzCore :=
  { loaded 64 4 [0x83, 0x03, 0x07, 0x1F, 0x03, 0x03, 0x1F, 0x03, 0x03, 0x1B] with
    running := true }

/-- The manager after `CSB 7` and the append of 300 letters `A` to buffer 7. -/
def grownBuffer : StrBufState :=
  STRINGBUFFER_fnAppendString true 7 (List.replicate 300 0x41)
    (STRINGBUFFER_fnCreate plainHost.malloc 7 StrBufState.init).2

/-! ## String buffers: random access and numbers (`strbuf.c`) -/

/-- Function `STRINGBUFFER_fnSetRWOffset`. -/
def STRINGBUFFER_fnSetRWOffset (id : Int) (offset : Nat) (m : StrBufState) : StrBufState :=
  { m with
    pFirst := stringbuffer_fnUpdate id
                (fun p => if offset < p.offset then { p with rwOffset := offset } else p)
                m.pFirst }

/-- Function `STRINGBUFFER_fnGetCharAtOffset`: the byte it returns.  The read through a
NULL block is undefined in C; the model yields 0 there. -/
def STRINGBUFFER_fnGetCharAtOffset (id : Int) (m : StrBufState) : Nat :=
  match stringbuffer_fnFind id m.pFirst with
  | some p => if p.rwOffset < p.offset then (p.pBuffer.getD []).getD p.rwOffset 0 else 0
  | none => 0

/-- The body of `STRINGBUFFER_fnSetCharAtOffset` on the record found.  The store
through a NULL block is undefined in C; the model leaves the record alone. -/
def setCharAt (c : Nat) (p : tzStringBuffer) : tzStringBuffer :=
  if p.rwOffset < p.offset then
    match p.pBuffer with
    | some b =>
      { p with pBuffer := some (b.set p.rwOffset c),
               offset := if c = 0 then p.rwOffset else p.offset }
    | none => p
  else p

/-- Function `STRINGBUFFER_fnSetCharAtOffset`. -/
def STRINGBUFFER_fnSetCharAtOffset (id : Int) (c : Nat) (m : StrBufState) : StrBufState :=
  { m with pFirst := stringbuffer_fnUpdate id (setCharAt c) m.pFirst }

/-- The content of a string buffer: the bytes of its block below the append offset. -/
def bufferContent (p : tzStringBuffer) : List Nat := (p.pBuffer.getD []).take p.offset

/-- A string buffer in use by a program: it has a block, the block is at least as long as
the recorded size, the append offset lies inside the block and no byte below the
append offset is a NUL. -/
def bufferOk (p : tzStringBuffer) : Bool :=
  match p.pBuffer with
  | some b =>
    decide (p.size ≤ b.length) && decide (p.offset < b.length) &&
      (b.take p.offset).all (fun x => decide (x ≠ 0))
  | none => false

/-- The manager after `CSB 7` and the append of `hello` to buffer 7. -/
def helloBuffer : StrBufState :=
  STRINGBUFFER_fnAppendString true 7 (ascii "hello")
    (STRINGBUFFER_fnCreate plainHost.malloc 7 StrBufState.init).2

/-- A running core whose program is `DIV R1, R2 ; HLT` with R1 = 7 and R2 = 0. -/
def divZeroCore : tzCore :=
  { setReg (loaded 64 4 [0x27, 0x12, 0x1B]) 1 7 with running := true }

/-- A running core whose program is `DIV.B R1, 0 ; HLT` with R1 = 7. -/
def divZeroImmCore : tzCore :=
  { setReg (loaded 64 4 [0x87, 0x01, 0x00, 0x1B]) 1 7 with running := true }

/-- A running core whose program is `CMP R1, R2 ; HLT` with R1 = 0x80000000 (−2^31) and
R2 = 1. -/
def cmpOverflowCore : tzCore :=
  { setReg (setReg (loaded 64 4 [0x36, 0x12, 0x1B]) 1 0x80000000) 2 1 with running := true }

/-- A running core whose program is `CMP R1, R2 ; HLT` with R1 = 5 and R2 = 9. -/
def cmpLessCore : tzCore :=
  { setReg (setReg (loaded 64 4 [0x36, 0x12, 0x1B]) 1 5) 2 9 with running := true }

/-- A running core whose program is `STR.B 32, R2 ; HLT` (immediate address) with
R2 = 0x11223344. -/
def strImmByteCore : tzCore :=
  { setReg (loaded 64 4 [0x82, 0x02, 0x20, 0x1B]) 2 0x11223344 with running := true }

/-- A running core whose program is `STR.B [R1], R2 ; HLT` (register mode) with R1 = 32
and R2 = 0x11223344. -/
def strRegByteCore : tzCore :=
  { setReg (setReg (loaded 64 4 [0xA2, 0x12, 0x1B]) 1 32) 2 0x11223344 with running := true }

/-- A running core whose program is `STR.W 32, R2 ; HLT` (immediate address) with
R2 = 0x11223344. -/
def strImmWordCore : tzCore :=
  { setReg (loaded 64 4 [0x42, 0x02, 0x00, 0x20, 0x1B]) 2 0x11223344 with running := true }

/-- A running core whose program is `STR.W [R1], R2 ; HLT` (register mode) with R1 = 32
and R2 = 0x11223344. -/
def strRegWordCore : tzCore :=
  { setReg (setReg (loaded 64 4 [0x62, 0x12, 0x1B]) 1 32) 2 0x11223344 with running := true }

/-- The image `LOD.B R3, 32 ; HLT` followed by zeros up to address 32, where the bytes
AA BB CC DD stand. -/
def lodImmImage : List Nat :=
  [0x81, 0x03, 0x20, 0x1B] ++ List.replicate 28 0 ++ [0xAA, 0xBB, 0xCC, 0xDD]

/-- A running core with the image `lodImmImage`. -/
def lodImmByteCore : tzCore := { loaded 64 4 lodImmImage with running := true }

/-- The image `LOD.B R3, [R1] ; HLT` followed by zeros up to address 32, where the bytes
AA BB CC DD stand. -/
def lodRegImage : List Nat :=
  [0xA1, 0x31, 0x1B, 0x00] ++ List.replicate 28 0 ++ [0xAA, 0xBB, 0xCC, 0xDD]

/-- A running core with the image `lodRegImage` and R1 = 32. -/
def lodRegByteCore : tzCore := { setReg (loaded 64 4 lodRegImage) 1 32 with running := true }

/-- Function `storeValue`: the bytes it stores at `memory[0]`, `memory[1]`, ...; `none`
is the `exit(1)` of the `default` branch.  The `float` is viewed as on a little-endian
host, where `data.uVal[3]` is the most significant byte of the pattern. -/
def storeValue (pParseInfo : tzParseInfo) : Option (List Nat) :=
  match pParseInfo.type with
  | teParseType.eUINT8 => some [ucVal pParseInfo]
  | teParseType.eSINT8 => some [(scVal pParseInfo % 2 ^ 8).toNat]
  | teParseType.eUINT16 =>
    let uiVal := uiVal pParseInfo
    some [((uiVal &&& 0xFF00) >>> 8) % 2 ^ 8, (uiVal &&& 0x00FF) % 2 ^ 8]
  | teParseType.eSINT16 =>
    let uiVal := (siVal pParseInfo % 2 ^ 16).toNat
    some [((uiVal &&& 0xFF00) >>> 8) % 2 ^ 8, (uiVal &&& 0x00FF) % 2 ^ 8]
  | teParseType.eUINT32 =>
    let ulVal := ulVal pParseInfo
    some [((ulVal &&& 0xFF000000) >>> 24) % 2 ^ 8, ((ulVal &&& 0x00FF0000) >>> 16) % 2 ^ 8,
          ((ulVal &&& 0x0000FF00) >>> 8) % 2 ^ 8, (ulVal &&& 0x000000FF) % 2 ^ 8]
  | teParseType.eSINT32 =>
    let ulVal := (slVal pParseInfo % 2 ^ 32).toNat
    some [((ulVal &&& 0xFF000000) >>> 24) % 2 ^ 8, ((ulVal &&& 0x00FF0000) >>> 16) % 2 ^ 8,
          ((ulVal &&& 0x0000FF00) >>> 8) % 2 ^ 8, (ulVal &&& 0x000000FF) % 2 ^ 8]
  | teParseType.eFLOAT32 =>
    some [regByte pParseInfo.value 3, regByte pParseInfo.value 2, regByte pParseInfo.value 1,
          regByte pParseInfo.value 0]
  | _ => none

/-- An instruction with an immediate as the assembler lays it out for the record `lit`
of the literal: the instruction byte is tagged by `CheckParseInfo` against the record
`op` of the mnemonic, the register byte follows and `storeValue` emits the literal.
`none` is an `exit(1)` of `CheckParseInfo` or `storeValue`. -/
def emitImmediate (inst reg : Nat) (op lit : tzParseInfo) : Option (List Nat) :=
  match CheckParseInfo inst op lit with
  | some r => (storeValue r.2.2).map (fun bytes => r.1 :: reg :: bytes)
  | none => none

/-- An instruction with a numeric immediate given by its text: the literal is encoded by
`EncodeValue` and laid out by `emitImmediate`. -/
def assembleImmediate (atof : List Char → Nat) (inst reg : Nat) (op : tzParseInfo)
    (valueText : List Char) (numType : teNumType) : Option (List Nat) :=
  emitImmediate inst reg op (EncodeValue atof valueText numType)

/-- A core whose memory is the given image, with PC = 0. -/
def imageCore (image : List Nat) : tzCore :=
  { core_size := image.length, memory := image, stack_size := 0, programSize := image.length,
    reg := fun _ => 0, status := 0, call_depth := 0, error := false, running := true,
    strbuf := StrBufState.init, output := [] }

/-- The signed value that `core_fnGetSignedData( pCore, MEMORY, PC, 2 )` decodes from an
instruction at address 0, as the immediate forms of `MOV`, `ADD`, `SUB`, `AND`, `OR`
and `CMP` do. -/
def decodeImmediate (image : List Nat) : Int :=
  toInt (core_fnGetSignedData (imageCore image) 0 2).1

/-- The value that a hexadecimal literal `m` has after assembling and decoding, in the
words of the amended statement: literals of one byte with bit 7 set and of two bytes
with bit 15 set come back sign extended. -/
def hexDecoded (m : Nat) : Int :=
  if m ≤ 0x7F then m
  else if m ≤ 0xFF then (m : Int) - 2 ^ 8
  else if m ≤ 0x7FFF then m
  else if m ≤ 0xFFFF then (m : Int) - 2 ^ 16
  else toInt m

/-! ## The loop of `ScanNumber`, pass by pass (`files.c`) -/

/-- The local variables of `ScanNumber` together with the unread input of the active
read descriptor.  `buf` holds the characters stored so far, `buf[0]` to `buf[idx-1]`. -/
structure ScanState where
  done : Bool
  idx : Nat
  state : Nat
  sign : Int
  buf : List Char
  input : List Char
  deriving DecidableEq

/-- The locals of `ScanNumber` before its loop. -/
def scanStart (input : List Char) : ScanState :=
  { done := false, idx := 0, state := 0, sign := 1, buf := [], input := input }

/-- The condition of the `while` loop of `ScanNumber`. -/
def scanGuard (st : ScanState) : Bool := !st.done && decide (st.idx < BUFSIZ - 1)

/-- One pass through the body of the `while` loop of `ScanNumber`.  At the end of the
input `read` returns 0, the `if` has no `else` and nothing changes. -/
def scanPass (st : ScanState) : ScanState :=
  match st.input with
  | [] => st
  | ch :: rest =>
    if st.state = 1 then
      if ch.isDigit then { st with buf := st.buf ++ [ch], idx := st.idx + 1, input := rest }
      else
        { st with buf := st.buf ++ [Char.ofNat 0], idx := st.idx + 1, done := true,
                  input := rest }
    else
      if ch = ' ' ∨ ch = '\t' then { st with input := rest }
      else if ch = '-' then { st with sign := -1, input := rest }
      else if ch.isDigit then
        { st with buf := st.buf ++ [ch], idx := st.idx + 1, state := 1, input := rest }
      else
        { st with buf := st.buf ++ [Char.ofNat 0], idx := st.idx + 1, done := true,
                  input := rest }

/-- The locals of `ScanNumber` after at most `n` passes of its loop: a pass is made as
long as the loop condition holds. -/
def scanPasses : Nat → ScanState → ScanState
  | 0, st => st
  | n + 1, st => if scanGuard st then scanPasses n (scanPass st) else st

/-! ## The symbol table names of the compiler (`SymbolTableManager.c`) -/

/-- The `while` loop of `replaceUnderscores` on the array `item` and the locals `i`, `j`
and `count`, with the closing `item[j++] = 0`: the array afterwards.  The loop makes
one pass per character, so a fuel of the length of the string plus one is enough. -/
def replaceLoop : Nat → List Char → Nat → Nat → Nat → List Char
  | 0, item, _, _, _ => item
  | fuel + 1, item, i, j, count =>
    let c := item.getD i (Char.ofNat 0)
    if c = Char.ofNat 0 then item.set j (Char.ofNat 0)
    else if c = '_' then
      if count + 1 = 2 then replaceLoop fuel (item.set j '/') (i + 1) (j + 1) 0
      else replaceLoop fuel item (i + 1) j (count + 1)
    else if count = 1 then
      replaceLoop fuel ((item.set j '_').set (j + 1) c) (i + 1) (j + 2) 0
    else replaceLoop fuel (item.set j c) (i + 1) (j + 1) count

/-- Function `replaceUnderscores` on a non-NULL string, given without its terminating
NUL: the string that the array holds afterwards. -/
def replaceUnderscores (item : List Char) : List Char :=
  (replaceLoop (item.length + 1) (item ++ [Char.ofNat 0]) 0 0 0).takeWhile
    (fun c => c ≠ Char.ofNat 0)

/-- The replacement in the words of the specification: each pair of consecutive
underscores, scanned left to right, becomes one `/`; every other character stays. -/
def replacePairs : List Char → List Char
  | '_' :: '_' :: rest => '/' :: replacePairs rest
  | c :: rest => c :: replacePairs rest
  | [] => []

/-! ## The register allocator of the compiler (`Registers.c`) -/

/-- Record `struct Register`; `idEntry` is the identifier that the pointer addresses,
`none` the NULL pointer. -/
structure Register where
  idEntry : Option Nat
  unused : Bool
  deriving DecidableEq

/-- The file scoped variables `Registers` and `lra` of `Registers.c`, and the members
`reg[0]` and `reg[1]` of the identifier entries that the registers point to. -/
structure RegState where
  Registers : Nat → Register
  lra : Nat
  identReg : Nat → Nat → Int

/-- The initial state: every register unused without identifier, `lra = 3`; the entries
of the symbol table start with `reg[0] = reg[1] = -1`. -/
def regInit : RegState :=
  { Registers := fun _ => { idEntry := none, unused := true }, lra := 3,
    identReg := fun _ _ => -1 }

/-- The search `for ( reg = 3; reg<14; reg++)` of `AllocReg` from `reg` on, with the
number of registers still to try: the first unused one. -/
def firstUnused (R : Nat → Register) : Nat → Nat → Option Nat
  | 0, _ => none
  | fuel + 1, reg => if (R reg).unused then some reg else firstUnused R fuel (reg + 1)

/-- The statements of `AllocReg` that hand `reg` to the identifier: the register is
marked used and tied to `idEntry`, and `idEntry->reg[regindex]` is set when the entry is
not NULL and `regindex < 2`. -/
def assignReg (idEntry : Option Nat) (regindex : Nat) (reg : Nat) (st : RegState) :
    RegState :=
  { st with
    Registers := fun r => if r = reg then { idEntry := idEntry, unused := false }
                          else st.Registers r,
    identReg :=
      match idEntry with
      | some e =>
        if regindex < 2 then
          fun e2 i => if e2 = e ∧ i = regindex then (reg : Int) else st.identReg e2 i
        else st.identReg
      | none => st.identReg }

/-- Function `FreeReg`. -/
def FreeReg (reg : Int) (st : RegState) : RegState :=
  if reg > 2 ∧ reg < 14 then
    if (st.Registers reg.toNat).unused = false then
      match (st.Registers reg.toNat).idEntry with
      | some e =>
        { st with
          Registers := fun r => if r = reg.toNat then { idEntry := none, unused := true }
                                else st.Registers r,
          identReg := fun e2 i =>
            if e2 = e ∧ i < 2 ∧ st.identReg e i = reg then -1 else st.identReg e2 i }
      | none =>
        { st with
          Registers := fun r => if r = reg.toNat then { idEntry := none, unused := true }
                                else st.Registers r }
    else st
  else st

/-- Function `FreeTempReg`. -/
def FreeTempReg (reg : Int) (st : RegState) : RegState :=
  if reg > 2 ∧ reg < 14 then
    if (st.Registers reg.toNat).idEntry = none then
      if (st.Registers reg.toNat).unused = false then
        { st with
          Registers := fun r => if r = reg.toNat then { idEntry := none, unused := true }
                                else st.Registers r }
      else st
    else st
  else st

/-- Function `AllocReg`: the register it returns and the state it leaves. -/
def AllocReg (idEntry : Option Nat) (regindex : Nat) (st : RegState) : Nat × RegState :=
  match firstUnused st.Registers 11 3 with
  | some reg => (reg, assignReg idEntry regindex reg st)
  | none =>
    let st1 := FreeReg st.lra st
    let reg := st1.lra
    let st2 := assignReg idEntry regindex reg st1
    (reg, { st2 with lra := if st2.lra + 1 = 14 then 3 else st2.lra + 1 })

/-- A call of the register allocator. -/
inductive RegCall where
  | alloc (idEntry : Option Nat) (regindex : Nat)
  | free (reg : Int)
  | freeTemp (reg : Int)

/-- The allocator after a call. -/
def RegCall.run : RegCall → RegState → RegState
  | RegCall.alloc e i, st => (AllocReg e i st).2
  | RegCall.free r, st => FreeReg r st
  | RegCall.freeTemp r, st => FreeTempReg r st

/-- The allocator after a sequence of calls. -/
def runRegCalls : List RegCall → RegState → RegState
  | [], st => st
  | c :: cs, st => runRegCalls cs (c.run st)

/-- The register that each call of a sequence returns; `none` for the calls that free. -/
def regReturns : List RegCall → RegState → List (Option Nat)
  | [], _ => []
  | RegCall.alloc e i :: cs, st =>
    some (AllocReg e i st).1 :: regReturns cs (AllocReg e i st).2
  | c :: cs, st => none :: regReturns cs (c.run st)

/-- The position in a sequence of calls of the last `AllocReg` that returned `reg`: the
time of the current allocation of `reg` after the sequence. -/
def allocatedAt (returns : List (Option Nat)) (reg : Nat) : Option Nat :=
  (List.range returns.length).reverse.find? (fun k => returns.getD k none = some reg)

/-- Eleven temporary allocations, the release of R3 and one more allocation. -/
def refillCalls : List RegCall :=
  List.replicate 11 (RegCall.alloc none 0) ++ [RegCall.free 3, RegCall.alloc none 0]

/-! ## The loop of `replaceUnderscores` as a scan -/

/-- What the loop of `replaceUnderscores` writes for the characters still to read, given
the counter `count`: an underscore is held back until the next character is read. -/
def scanUnderscores : Nat → List Char → List Char
  | _, [] => []
  | count, c :: rest =>
    if c = '_' then
      if count + 1 = 2 then '/' :: scanUnderscores 0 rest
      else scanUnderscores (count + 1) rest
    else if count = 1 then '_' :: c :: scanUnderscores 0 rest
    else c :: scanUnderscores count rest

/-- The counter `count` of `replaceUnderscores` when the end of the string is reached:
the number of underscores held back and never written. -/
def pendingCount : Nat → List Char → Nat
  | count, [] => count
  | count, c :: rest =>
    if c = '_' then
      if count + 1 = 2 then pendingCount 0 rest else pendingCount (count + 1) rest
    else if count = 1 then pendingCount 0 rest
    else pendingCount count rest

/-! # Theorems -/

/-! ## Auxiliary lemmas -/

theorem shiftRight_and (a b k : Nat) : (a &&& b) >>> k = (a >>> k) &&& (b >>> k) := by
  apply Nat.eq_of_testBit_eq
  intro i
  simp [Nat.testBit_shiftRight, Nat.testBit_and]

theorem byte3_eq (v : Nat) : (v &&& 0xFF000000) >>> 24 = v / 2 ^ 24 % 2 ^ 8 := by
  have h : (0xFF000000 : Nat) >>> 24 = 2 ^ 8 - 1 := by decide
  rw [shiftRight_and, h, Nat.and_pow_two_sub_one_eq_mod, Nat.shiftRight_eq_div_pow]

theorem byte2_eq (v : Nat) : (v &&& 0x00FF0000) >>> 16 = v / 2 ^ 16 % 2 ^ 8 := by
  have h : (0x00FF0000 : Nat) >>> 16 = 2 ^ 8 - 1 := by decide
  rw [shiftRight_and, h, Nat.and_pow_two_sub_one_eq_mod, Nat.shiftRight_eq_div_pow]

theorem byte1_eq (v : Nat) : (v &&& 0x0000FF00) >>> 8 = v / 2 ^ 8 % 2 ^ 8 := by
  have h : (0x0000FF00 : Nat) >>> 8 = 2 ^ 8 - 1 := by decide
  rw [shiftRight_and, h, Nat.and_pow_two_sub_one_eq_mod, Nat.shiftRight_eq_div_pow]

theorem byte0_eq (v : Nat) : v &&& 0x000000FF = v % 2 ^ 8 := by
  have h : (0x000000FF : Nat) = 2 ^ 8 - 1 := by decide
  rw [h, Nat.and_pow_two_sub_one_eq_mod]

theorem nibble_lt (b : Nat) : b &&& 0x0F < 16 := by
  have h : (0x0F : Nat) = 2 ^ 4 - 1 := by decide
  rw [h, Nat.and_pow_two_sub_one_eq_mod]
  exact Nat.mod_lt _ (by decide)

theorem getD_set_same (l : List Nat) (i v : Nat) (h : i < l.length) :
    (l.set i v).getD i 0 = v := by
  simp [List.getD_eq_getElem?_getD, List.getElem?_set, h]

theorem getD_set_other (l : List Nat) (i j v : Nat) (h : i ≠ j) :
    (l.set i v).getD j 0 = l.getD j 0 := by
  simp [List.getD_eq_getElem?_getD, List.getElem?_set, h]

/-- Reading back the four bytes that `core_fnSetStackData` stored gives the value. -/
theorem getStack_setStack (s : tzCore) (sp v : Nat) (hv : v < 2 ^ 32)
    (hsp : sp + 4 ≤ s.memory.length) (hlen : s.memory.length < 2 ^ 32) :
    core_fnGetStackData (core_fnSetStackData s sp v) sp = v := by
  have e1 : u32 (sp + 1) = sp + 1 := by unfold u32; omega
  have e2 : u32 (sp + 2) = sp + 2 := by unfold u32; omega
  have e3 : u32 (sp + 3) = sp + 3 := by unfold u32; omega
  unfold core_fnGetStackData core_fnSetStackData MEM
  simp only [e1, e2, e3, byte3_eq, byte2_eq, byte1_eq, byte0_eq]
  rw [getD_set_same _ (sp + 3) _ (by simp [List.length_set]; omega)]
  rw [getD_set_other _ (sp + 3) (sp + 2) _ (by omega),
      getD_set_same _ (sp + 2) _ (by simp [List.length_set]; omega)]
  rw [getD_set_other _ (sp + 3) (sp + 1) _ (by omega),
      getD_set_other _ (sp + 2) (sp + 1) _ (by omega),
      getD_set_same _ (sp + 1) _ (by simp [List.length_set]; omega)]
  rw [getD_set_other _ (sp + 3) sp _ (by omega),
      getD_set_other _ (sp + 2) sp _ (by omega),
      getD_set_other _ (sp + 1) sp _ (by omega),
      getD_set_same _ sp _ (by omega)]
  simp only [Nat.shiftLeft_eq]
  unfold u32
  omega

@[simp] theorem setReg_reg (s : tzCore) (i v j : Nat) :
    (setReg s i v).reg j = if j = i then u32 v else s.reg j := rfl

@[simp] theorem setReg_memory (s : tzCore) (i v : Nat) : (setReg s i v).memory = s.memory := rfl

@[simp] theorem setReg_core_size (s : tzCore) (i v : Nat) :
    (setReg s i v).core_size = s.core_size := rfl

@[simp] theorem setReg_stack_size (s : tzCore) (i v : Nat) :
    (setReg s i v).stack_size = s.stack_size := rfl

@[simp] theorem setReg_programSize (s : tzCore) (i v : Nat) :
    (setReg s i v).programSize = s.programSize := rfl

@[simp] theorem setReg_running (s : tzCore) (i v : Nat) :
    (setReg s i v).running = s.running := rfl

@[simp] theorem setReg_error (s : tzCore) (i v : Nat) : (setReg s i v).error = s.error := rfl

@[simp] theorem setReg_strbuf (s : tzCore) (i v : Nat) : (setReg s i v).strbuf = s.strbuf := rfl

@[simp] theorem setReg_call_depth (s : tzCore) (i v : Nat) :
    (setReg s i v).call_depth = s.call_depth := rfl

@[simp] theorem setReg_status (s : tzCore) (i v : Nat) : (setReg s i v).status = s.status := rfl

@[simp] theorem STOP_reg (s : tzCore) : (STOP s).reg = s.reg := rfl

@[simp] theorem STOP_memory (s : tzCore) : (STOP s).memory = s.memory := rfl

@[simp] theorem STOP_running (s : tzCore) : (STOP s).running = false := rfl

@[simp] theorem STOP_error (s : tzCore) : (STOP s).error = s.error := rfl

@[simp] theorem STOP_core_size (s : tzCore) : (STOP s).core_size = s.core_size := rfl

@[simp] theorem STOP_stack_size (s : tzCore) : (STOP s).stack_size = s.stack_size := rfl

@[simp] theorem STOP_programSize (s : tzCore) : (STOP s).programSize = s.programSize := rfl

@[simp] theorem STOP_strbuf (s : tzCore) : (STOP s).strbuf = s.strbuf := rfl

@[simp] theorem STOP_call_depth (s : tzCore) : (STOP s).call_depth = s.call_depth := rfl

@[simp] theorem STOP_status (s : tzCore) : (STOP s).status = s.status := rfl

@[simp] theorem INC_PC_reg (n : Nat) (s : tzCore) (j : Nat) :
    (INC_PC n s).reg j = if j = 15 then u32 (PC s + n) else s.reg j := by
  unfold INC_PC; dsimp only; split <;> rfl

@[simp] theorem INC_PC_memory (n : Nat) (s : tzCore) : (INC_PC n s).memory = s.memory := by
  unfold INC_PC; dsimp only; split <;> rfl

@[simp] theorem INC_PC_core_size (n : Nat) (s : tzCore) :
    (INC_PC n s).core_size = s.core_size := by
  unfold INC_PC; dsimp only; split <;> rfl

@[simp] theorem INC_PC_stack_size (n : Nat) (s : tzCore) :
    (INC_PC n s).stack_size = s.stack_size := by
  unfold INC_PC; dsimp only; split <;> rfl

@[simp] theorem INC_PC_programSize (n : Nat) (s : tzCore) :
    (INC_PC n s).programSize = s.programSize := by
  unfold INC_PC; dsimp only; split <;> rfl

@[simp] theorem INC_PC_error (n : Nat) (s : tzCore) : (INC_PC n s).error = s.error := by
  unfold INC_PC; dsimp only; split <;> rfl

@[simp] theorem INC_PC_strbuf (n : Nat) (s : tzCore) : (INC_PC n s).strbuf = s.strbuf := by
  unfold INC_PC; dsimp only; split <;> rfl

@[simp] theorem INC_PC_call_depth (n : Nat) (s : tzCore) :
    (INC_PC n s).call_depth = s.call_depth := by
  unfold INC_PC; dsimp only; split <;> rfl

@[simp] theorem INC_PC_status (n : Nat) (s : tzCore) : (INC_PC n s).status = s.status := by
  unfold INC_PC; dsimp only; split <;> rfl

/-- An advance that stays inside the program leaves the running flag alone. -/
theorem INC_PC_running (n : Nat) (s : tzCore) (h : PC s + n ≤ s.programSize)
    (hp : s.programSize < 2 ^ 31) : (INC_PC n s).running = s.running := by
  have e : u32 (PC s + n) = PC s + n := by unfold u32; omega
  unfold INC_PC
  simp only [PC, setReg_reg, if_true, setReg_programSize]
  simp only [PC] at e h
  rw [e]
  have : toSize (s.reg 15 + n) = s.reg 15 + n := by unfold toSize; rw [if_pos (by omega)]
  rw [this, if_neg (by omega)]
  rfl

theorem u32_idem (x : Nat) : u32 (u32 x) = u32 x := by unfold u32; omega

theorem u32_of_lt (x : Nat) (h : x < 2 ^ 32) : u32 x = x := by unfold u32; omega

theorem getStack_congr (s t : tzCore) (sp : Nat) (h : s.memory = t.memory) :
    core_fnGetStackData s sp = core_fnGetStackData t sp := by
  unfold core_fnGetStackData MEM; rw [h]

theorem getStack_lt (s : tzCore) (sp : Nat) : core_fnGetStackData s sp < 2 ^ 32 := by
  unfold core_fnGetStackData u32; omega

@[simp] theorem setStack_reg (s : tzCore) (sp v : Nat) :
    (core_fnSetStackData s sp v).reg = s.reg := rfl

@[simp] theorem setStack_core_size (s : tzCore) (sp v : Nat) :
    (core_fnSetStackData s sp v).core_size = s.core_size := rfl

@[simp] theorem setStack_programSize (s : tzCore) (sp v : Nat) :
    (core_fnSetStackData s sp v).programSize = s.programSize := rfl

@[simp] theorem setStack_running (s : tzCore) (sp v : Nat) :
    (core_fnSetStackData s sp v).running = s.running := rfl

/-- The stack bound of a core whose stack fits into its memory. -/
theorem stackBase_eq (s : tzCore) (h : 4 * s.stack_size ≤ s.core_size)
    (hc : s.core_size < 2 ^ 31) : stackBase s = s.core_size - 4 * s.stack_size := by
  unfold stackBase STACK_SIZE; omega

/-- The register a `POP` names receives the four bytes at the stack pointer. -/
theorem opPOP_reg (t : tzCore) (d : Nat) (hd : MEM t (PC t + 1) &&& 0x0F = d)
    (h14 : d ≠ 14) (h15 : d ≠ 15) : (opPOP t).reg d = core_fnGetStackData t (SP t) := by
  unfold opPOP
  simp only [hd, INC_PC_reg, if_neg h15]
  split
  · simp [h14, u32_of_lt _ (getStack_lt _ _)]
  · simp [h14, u32_of_lt _ (getStack_lt _ _)]

/-- A `PSH` with room on the stack: the pushed register value sits at the new stack
pointer, which is 4 below the old one. -/
theorem opPSH_ok (s : tzCore) (r : Nat) (hr : MEM s (PC s + 1) &&& 0x0F = r) (h14 : r ≠ 14)
    (hv : s.reg r < 2 ^ 32) (hmem : s.memory.length = s.core_size)
    (hcs : s.core_size < 2 ^ 31) (hstk : 4 * s.stack_size ≤ s.core_size)
    (hlo : s.core_size - 4 * s.stack_size + 4 ≤ SP s) (hhi : SP s ≤ s.core_size) :
    SP (opPSH s) = SP s - 4 ∧ core_fnGetStackData (opPSH s) (SP s - 4) = s.reg r ∧
    (opPSH s).memory.length = s.core_size ∧ (opPSH s).core_size = s.core_size := by
  have e : u32 (2 ^ 32 - 4 + SP s) = SP s - 4 := by unfold u32; omega
  have hb : stackBase (setReg s 14 (2 ^ 32 - 4 + SP s)) = s.core_size - 4 * s.stack_size :=
    stackBase_eq _ hstk hcs
  have hts : toSize (SP s - 4) = SP s - 4 := by unfold toSize; rw [if_pos (by omega)]
  unfold opPSH
  simp only [SP, setReg_reg, if_true] at e hb hts ⊢
  rw [e, hb, hts, if_neg (by simp only [SP] at hlo; omega)]
  have hpc : PC (setReg s 14 (2 ^ 32 - 4 + s.reg 14)) = PC s := by simp [PC]
  have hm : ∀ i, MEM (setReg s 14 (2 ^ 32 - 4 + s.reg 14)) i = MEM s i := fun _ => rfl
  simp only [hpc, hm, hr, if_neg h14]
  refine ⟨?_, ?_, ?_, by simp⟩
  · simp only [INC_PC_reg, setStack_reg, setReg_reg]
    simpa using e
  · rw [getStack_congr (INC_PC 2 _) (core_fnSetStackData (setReg s 14 (2 ^ 32 - 4 + s.reg 14))
      (s.reg 14 - 4) (s.reg r)) _ (by simp)]
    exact getStack_setStack _ _ _ hv (by simp only [setReg_memory, SP] at *; omega)
      (by simp only [setReg_memory]; omega)
  · simp [core_fnSetStackData, hmem]

theorem step_PSH (H : Host) (s : tzCore) (h : MEM s (PC s) &&& 0x1F = 0x19) :
    step H s = some (opPSH s) := by
  unfold step; rw [h]; rfl

theorem step_POP (H : Host) (s : tzCore) (h : MEM s (PC s) &&& 0x1F = 0x1A) :
    step H s = some (opPOP s) := by
  unfold step; rw [h]; rfl

/-- C5 (amended): with at least 4 free bytes of stack, `PSH r` immediately followed
by `POP r'` leaves `R[r']` equal to the value `R[r]` held before the `PSH`, for every
`r` other than SP (14) and every `r'` other than SP (14) and PC (15). -/
theorem C5_psh_pop_restores (H : Host) (s : tzCore) (r r' : Nat)
    (hpsh : MEM s (PC s) &&& 0x1F = 0x19) (hr : MEM s (PC s + 1) &&& 0x0F = r)
    (hpop : MEM (opPSH s) (PC (opPSH s)) &&& 0x1F = 0x1A)
    (hr' : MEM (opPSH s) (PC (opPSH s) + 1) &&& 0x0F = r')
    (h14 : r ≠ 14) (h14' : r' ≠ 14) (h15' : r' ≠ 15)
    (hv : s.reg r < 2 ^ 32) (hmem : s.memory.length = s.core_size)
    (hcs : s.core_size < 2 ^ 31) (hstk : 4 * s.stack_size ≤ s.core_size)
    (hlo : s.core_size - 4 * s.stack_size + 4 ≤ SP s) (hhi : SP s ≤ s.core_size) :
    step H s = some (opPSH s) ∧ step H (opPSH s) = some (opPOP (opPSH s)) ∧
    (opPOP (opPSH s)).reg r' = s.reg r := by
  obtain ⟨hsp, hget, -, -⟩ := opPSH_ok s r hr h14 hv hmem hcs hstk hlo hhi
  refine ⟨step_PSH H s hpsh, step_POP H _ hpop, ?_⟩
  rw [opPOP_reg _ r' hr' h14' h15', hsp, hget]

theorem C5_psh_pop_restores_witness :
    step plainHost pushPopCore = some (opPSH pushPopCore) ∧
    step plainHost (opPSH pushPopCore) = some (opPOP (opPSH pushPopCore)) ∧
    (opPOP (opPSH pushPopCore)).reg 5 = pushPopCore.reg 3 :=
  C5_psh_pop_restores plainHost pushPopCore 3 5 (by decide) (by decide) (by decide) (by decide)
    (by decide) (by decide) (by decide) (by decide) (by decide) (by decide) (by decide)
    (by decide) (by decide)

/-- C5 (counterexample): in `PSH SP ; POP R0` on a fresh core of 64 bytes with a
16-byte stack, R0 ends as 60 although SP held 64 before the `PSH`. -/
theorem C5_counterexample :
    MEM pushSpCore (PC pushSpCore) &&& 0x1F = 0x19 ∧
    MEM pushSpCore (PC pushSpCore + 1) &&& 0x0F = 14 ∧
    MEM (opPSH pushSpCore) (PC (opPSH pushSpCore)) &&& 0x1F = 0x1A ∧
    MEM (opPSH pushSpCore) (PC (opPSH pushSpCore) + 1) &&& 0x0F = 0 ∧
    pushSpCore.core_size - 4 * pushSpCore.stack_size + 4 ≤ SP pushSpCore ∧
    pushSpCore.reg 14 = 64 ∧ (opPOP (opPSH pushSpCore)).reg 0 = 60 ∧
    ¬ ((opPOP (opPSH pushSpCore)).reg 0 = pushSpCore.reg 14) := by
  decide

theorem step_CAL (H : Host) (s : tzCore) (h : MEM s (PC s) &&& 0x1F = 0x14) :
    step H s = some (opCAL s) := by
  unfold step; rw [h]; rfl

theorem step_RET (H : Host) (s : tzCore) (h : MEM s (PC s) &&& 0x1F = 0x15) :
    step H s = some (opRET s) := by
  unfold step; rw [h]; rfl

set_option maxRecDepth 100000 in
theorem and_C0_cases (x : Nat) :
    x &&& 0xC0 = 0 ∨ x &&& 0xC0 = 0x40 ∨ x &&& 0xC0 = 0x80 ∨ x &&& 0xC0 = 0xC0 := by
  have h1 : x &&& 0xC0 = (x % 2 ^ 8) &&& 0xC0 := by
    have h : (0xFF &&& 0xC0 : Nat) = 0xC0 := by decide
    rw [← byte0_eq, Nat.and_assoc, h]
  have h2 : ∀ y < 256, y &&& 0xC0 = 0 ∨ y &&& 0xC0 = 0x40 ∨ y &&& 0xC0 = 0x80 ∨
      y &&& 0xC0 = 0xC0 := by decide
  rw [h1]
  exact h2 _ (Nat.mod_lt _ (by decide))

theorem setReg_setReg (s : tzCore) (i a b : Nat) :
    setReg (setReg s i a) i b = setReg s i b := by
  unfold setReg
  congr 1
  funext j
  by_cases h : j = i <;> simp [h]

/-- An advance that stays inside the program only moves the program counter. -/
theorem INC_PC_eq (n : Nat) (s : tzCore) (h : PC s + n ≤ s.programSize)
    (hp : s.programSize < 2 ^ 31) : INC_PC n s = setReg s 15 (PC s + n) := by
  have e : u32 (PC s + n) = PC s + n := by unfold u32; omega
  have hpc : PC (setReg s 15 (PC s + n)) = PC s + n := by
    show (if (15 : Nat) = 15 then u32 (PC s + n) else s.reg 15) = PC s + n
    rw [if_pos rfl, e]
  unfold INC_PC
  show (if toSize (PC (setReg s 15 (PC s + n))) > s.programSize then _ else _) = _
  rw [hpc]
  have : toSize (PC s + n) = PC s + n := by unfold toSize; rw [if_pos (by omega)]
  rw [this, if_neg (by omega)]

/-- The first half of `opCAL`: the target is read and the program counter is moved
behind the instruction. -/
theorem cal_advance (s : tzCore) (hin : PC s + calLength (MEM s (PC s)) ≤ s.programSize)
    (hp : s.programSize < 2 ^ 31) :
    ∃ val, (if MEM s (PC s) &&& MODE_REG = MODE_REG then
        (s.reg (MEM s (PC s + 1) &&& 0x0F), INC_PC 2 s)
      else ((core_fnGetUnsignedData s (PC s) 1).1, INC_PC 1 (core_fnGetUnsignedData s (PC s) 1).2))
      = (val, setReg s 15 (PC s + calLength (MEM s (PC s)))) := by
  unfold calLength at hin ⊢
  by_cases hm : MEM s (PC s) &&& MODE_REG = MODE_REG
  · rw [if_pos hm] at hin ⊢
    rw [if_pos hm]
    exact ⟨_, by rw [INC_PC_eq 2 s hin hp]⟩
  · rw [if_neg hm] at hin ⊢
    rw [if_neg hm]
    have hbw : BYTE ||| WORD = 0xC0 := by decide
    have hadv : ∀ w, PC s + (1 + w) ≤ s.programSize →
        INC_PC 1 (INC_PC w s) = setReg s 15 (PC s + (1 + w)) := by
      intro w hw
      rw [INC_PC_eq w s (by omega) hp]
      have hpc : PC (setReg s 15 (PC s + w)) = PC s + w := by
        show (if (15 : Nat) = 15 then u32 (PC s + w) else s.reg 15) = PC s + w
        rw [if_pos rfl]; unfold u32; omega
      rw [INC_PC_eq 1 (setReg s 15 (PC s + w)) (by rw [hpc]; show _ ≤ s.programSize; omega) hp, hpc,
        setReg_setReg]
      congr 1; omega
    unfold operandWidth at hin ⊢
    unfold core_fnGetUnsignedData
    simp only [hbw]
    rcases and_C0_cases (MEM s (PC s)) with h | h | h | h
    · rw [h] at hin ⊢
      simp only [BYTE, WORD, LONG, FLOAT32] at hin ⊢
      norm_num at hin ⊢
      have := hadv 4 (by omega)
      norm_num at this
      exact this
    · rw [h] at hin ⊢
      simp only [BYTE, WORD, LONG, FLOAT32] at hin ⊢
      norm_num at hin ⊢
      have := hadv 2 (by omega)
      norm_num at this
      exact this
    · rw [h] at hin ⊢
      simp only [BYTE, WORD, LONG, FLOAT32] at hin ⊢
      norm_num at hin ⊢
      have := hadv 1 (by omega)
      norm_num at this
      exact this
    · rw [h] at hin ⊢
      simp only [BYTE, WORD, LONG, FLOAT32] at hin ⊢
      norm_num at hin ⊢
      have := hadv 4 (by omega)
      norm_num at this
      exact this

/-- A `CAL` that lies inside the program, with room on the stack: the address of the
next instruction sits at the new stack pointer, which is 4 below the old one. -/
theorem opCAL_ok (s : tzCore) (hin : PC s + calLength (MEM s (PC s)) ≤ s.programSize)
    (hp : s.programSize < 2 ^ 31) (hmem : s.memory.length = s.core_size)
    (hcs : s.core_size < 2 ^ 31) (hstk : 4 * s.stack_size ≤ s.core_size)
    (hlo : s.core_size - 4 * s.stack_size + 4 ≤ SP s) (hhi : SP s ≤ s.core_size) :
    SP (opCAL s) = SP s - 4 ∧
    core_fnGetStackData (opCAL s) (SP s - 4) = PC s + calLength (MEM s (PC s)) ∧
    (opCAL s).running = s.running ∧ (opCAL s).core_size = s.core_size ∧
    (opCAL s).call_depth = u32 (s.call_depth + 1) := by
  obtain ⟨val, hv⟩ := cal_advance s hin hp
  have hsa14 : SP (setReg s 15 (PC s + calLength (MEM s (PC s)))) = SP s := by
    simp [SP]
  have e : u32 (2 ^ 32 - 4 + SP s) = SP s - 4 := by unfold u32; omega
  have hpcv : u32 (PC s + calLength (MEM s (PC s))) = PC s + calLength (MEM s (PC s)) := by
    unfold u32; omega
  have hts : toSize (SP s - 4) = SP s - 4 := by unfold toSize; rw [if_pos (by omega)]
  have hsb : ∀ t : tzCore, t.core_size = s.core_size → t.stack_size = s.stack_size →
      stackBase t = s.core_size - 4 * s.stack_size := by
    intro t h1 h2
    rw [stackBase_eq t (by rw [h1, h2]; exact hstk) (by rw [h1]; exact hcs), h1, h2]
  unfold opCAL
  dsimp only
  rw [hv]
  dsimp only
  rw [hsa14]
  have hsp1 : SP (setReg (setReg s 15 (PC s + calLength (MEM s (PC s)))) 14 (2 ^ 32 - 4 + SP s))
      = SP s - 4 := by
    unfold SP at e ⊢
    rw [setReg_reg, if_pos rfl]
    exact e
  have hpc1 : PC (setReg (setReg s 15 (PC s + calLength (MEM s (PC s)))) 14 (2 ^ 32 - 4 + SP s))
      = PC s + calLength (MEM s (PC s)) := by
    unfold PC at hpcv ⊢
    rw [setReg_reg, if_neg (by decide), setReg_reg, if_pos rfl]
    exact hpcv
  have hb1 : stackBase (setReg (setReg s 15 (PC s + calLength (MEM s (PC s)))) 14
      (2 ^ 32 - 4 + SP s)) = s.core_size - 4 * s.stack_size := hsb _ rfl rfl
  rw [hsp1, hpc1, hts, hb1, if_neg (by omega)]
  refine ⟨?_, ?_, rfl, rfl, rfl⟩
  · rw [← hsp1]
    unfold SP
    show (setReg _ 15 val).reg 14 = _
    rw [setReg_reg, if_neg (by decide)]
    rfl
  · refine Eq.trans (getStack_congr _ (core_fnSetStackData (setReg (setReg s 15
      (PC s + calLength (MEM s (PC s)))) 14 (2 ^ 32 - 4 + SP s)) (SP s - 4)
      (PC s + calLength (MEM s (PC s)))) _ rfl) ?_
    exact getStack_setStack _ _ _ (by omega) (by show SP s - 4 + 4 ≤ s.memory.length; omega)
      (by show s.memory.length < 2 ^ 32; omega)

/-- What `opRET` leaves in PC, SP and the running flag. -/
theorem opRET_regs (t : tzCore) :
    PC (opRET t) = core_fnGetStackData t (SP t) ∧ SP (opRET t) = u32 (SP t + 4) ∧
    (opRET t).running = (if toSize (u32 (SP t + 4)) > t.core_size then false else t.running) := by
  have hg := u32_of_lt _ (getStack_lt t (t.reg 14))
  refine ⟨?_, ?_, ?_⟩
  · unfold opRET
    dsimp only
    split_ifs <;> simp [PC, SP, hg]
  · unfold opRET
    dsimp only
    split_ifs <;> simp [PC, SP]
  · unfold opRET
    dsimp only
    split_ifs <;> first | (simp_all [PC, SP]; done) | (simp_all [PC, SP]; omega)

/-- C6: from a running core with at least 4 free bytes of stack, a `CAL` (immediate or
register mode) that lies inside the program, followed by a `RET` located at the call
target, succeeds and leaves SP at its value before the `CAL` and PC at the address of
the instruction that follows the `CAL`. -/
theorem C6_cal_ret_restores (H : Host) (s : tzCore)
    (hcal : MEM s (PC s) &&& 0x1F = 0x14)
    (hret : MEM (opCAL s) (PC (opCAL s)) &&& 0x1F = 0x15)
    (hin : PC s + calLength (MEM s (PC s)) ≤ s.programSize)
    (hp : s.programSize < 2 ^ 31) (hmem : s.memory.length = s.core_size)
    (hcs : s.core_size < 2 ^ 31) (hstk : 4 * s.stack_size ≤ s.core_size)
    (hlo : s.core_size - 4 * s.stack_size + 4 ≤ SP s) (hhi : SP s ≤ s.core_size)
    (hrun : s.running = true) :
    step H s = some (opCAL s) ∧ step H (opCAL s) = some (opRET (opCAL s)) ∧
    (opCAL s).running = true ∧ (opRET (opCAL s)).running = true ∧
    SP (opRET (opCAL s)) = SP s ∧
    PC (opRET (opCAL s)) = PC s + calLength (MEM s (PC s)) := by
  obtain ⟨hsp, hget, hrn, hcz, -⟩ := opCAL_ok s hin hp hmem hcs hstk hlo hhi
  obtain ⟨hpc', hsp', hrn'⟩ := opRET_regs (opCAL s)
  have e : u32 (SP s - 4 + 4) = SP s := by unfold u32; omega
  have hts : toSize (SP s) = SP s := by unfold toSize; rw [if_pos (by omega)]
  refine ⟨step_CAL H s hcal, step_RET H _ hret, by rw [hrn, hrun], ?_, ?_, ?_⟩
  · rw [hrn', hsp, e, hts, hcz, if_neg (by omega), hrn, hrun]
  · rw [hsp', hsp, e]
  · rw [hpc', hsp, hget]

theorem C6_cal_ret_restores_witness :
    step plainHost callCore = some (opCAL callCore) ∧
    step plainHost (opCAL callCore) = some (opRET (opCAL callCore)) ∧
    (opCAL callCore).running = true ∧ (opRET (opCAL callCore)).running = true ∧
    SP (opRET (opCAL callCore)) = SP callCore ∧
    PC (opRET (opCAL callCore)) = PC callCore + calLength (MEM callCore (PC callCore)) :=
  C6_cal_ret_restores plainHost callCore (by decide) (by decide) (by decide) (by decide)
    (by decide) (by decide) (by decide) (by decide) (by decide) (by decide)

theorem step_STR (H : Host) (s : tzCore) (h : MEM s (PC s) &&& 0x1F = 0x02) :
    step H s = some (opSTR s) := by
  unfold step; rw [h]; rfl

theorem step_LOD (H : Host) (s : tzCore) (h : MEM s (PC s) &&& 0x1F = 0x01) :
    step H s = some (opLOD s) := by
  unfold step; rw [h]; rfl

theorem and_80_of_C0 (x : Nat) : x &&& 0x80 = (x &&& 0xC0) &&& 0x80 := by
  have h : (0xC0 &&& 0x80 : Nat) = 0x80 := by decide
  rw [Nat.and_assoc, h]

theorem and_40_of_C0 (x : Nat) : x &&& 0x40 = (x &&& 0xC0) &&& 0x40 := by
  have h : (0xC0 &&& 0x40 : Nat) = 0x40 := by decide
  rw [Nat.and_assoc, h]

/-- The bytes `core_fnStoreData` moves under each of the tags `BYTE`, `WORD`, `LONG`. -/
theorem storeData_of_tag (instr : Nat) (src : Nat → Nat) :
    (instr &&& 0xC0 = BYTE → core_fnStoreData instr src = [src 0]) ∧
    (instr &&& 0xC0 = WORD → core_fnStoreData instr src = [src 1, src 0]) ∧
    (instr &&& 0xC0 = LONG → core_fnStoreData instr src = [src 3, src 2, src 1, src 0]) := by
  unfold core_fnStoreData
  have h80 := and_80_of_C0 instr
  have h40 := and_40_of_C0 instr
  simp only [BYTE, WORD, LONG] at *
  refine ⟨fun h => ?_, fun h => ?_, fun h => ?_⟩
  · rw [h] at h80; rw [if_pos (by rw [h80]; decide)]
  · rw [h] at h80 h40
    rw [if_neg (by rw [h80]; decide), if_pos (by rw [h40]; decide)]
  · rw [h] at h80 h40
    rw [if_neg (by rw [h80]; decide), if_neg (by rw [h40]; decide)]

/-- Loading the bytes that a store of the same width put at `a` replaces the low
bytes of the register by those of the stored value. -/
theorem load_after_store (mem : List Nat) (a v p w : Nat)
    (hw : w = BYTE ∨ w = WORD ∨ w = LONG) (ha : a + tagBytes w ≤ mem.length)
    (hp : p < 2 ^ 32) (instr instr' : Nat) (hi : instr &&& 0xC0 = w) (hi' : instr' &&& 0xC0 = w) :
    regStoreBytes p 0 (core_fnStoreData instr'
      (fun k => (storeBytes mem a (core_fnStoreData instr (regByte v))).getD (a + k) 0)) =
    p / 2 ^ (8 * tagBytes w) * 2 ^ (8 * tagBytes w) + v % 2 ^ (8 * tagBytes w) := by
  obtain ⟨sb, sw, sl⟩ := storeData_of_tag instr (regByte v)
  rcases hw with h | h | h
  · subst h
    obtain ⟨lb, -, -⟩ := storeData_of_tag instr'
      (fun k => (storeBytes mem a (core_fnStoreData instr (regByte v))).getD (a + k) 0)
    rw [lb hi', sb hi]
    have ha' : a < mem.length := by simp [tagBytes, BYTE] at ha; omega
    simp only [storeBytes, regStoreBytes, regSetByte, regByte, tagBytes, if_true, Nat.add_zero]
    rw [getD_set_same _ _ _ ha']
    norm_num
    omega
  · subst h
    obtain ⟨-, lw, -⟩ := storeData_of_tag instr'
      (fun k => (storeBytes mem a (core_fnStoreData instr (regByte v))).getD (a + k) 0)
    rw [lw hi', sw hi]
    have ha' : a + 2 ≤ mem.length := by simp [tagBytes, BYTE, WORD] at ha; omega
    simp only [storeBytes, regStoreBytes, regSetByte, regByte, tagBytes, Nat.add_zero]
    rw [getD_set_same _ _ _ (by rw [List.length_set]; omega),
      getD_set_other _ _ _ _ (by omega), getD_set_same _ _ _ (by omega)]
    norm_num [BYTE, WORD]
    omega
  · subst h
    obtain ⟨-, -, ll⟩ := storeData_of_tag instr'
      (fun k => (storeBytes mem a (core_fnStoreData instr (regByte v))).getD (a + k) 0)
    rw [ll hi', sl hi]
    have ha' : a + 4 ≤ mem.length := by simp [tagBytes, BYTE, WORD, LONG] at ha; omega
    simp only [storeBytes, regStoreBytes, regSetByte, regByte, tagBytes, Nat.add_zero]
    rw [getD_set_same _ (a + 1 + 1 + 1) _ (by simp only [List.length_set]; omega),
      getD_set_other _ (a + 1 + 1 + 1) (a + 2) _ (by omega),
      getD_set_same _ (a + 1 + 1) _ (by simp only [List.length_set]; omega),
      getD_set_other _ (a + 1 + 1 + 1) (a + 1) _ (by omega),
      getD_set_other _ (a + 1 + 1) (a + 1) _ (by omega),
      getD_set_same _ (a + 1) _ (by simp only [List.length_set]; omega),
      getD_set_other _ (a + 1 + 1 + 1) a _ (by omega),
      getD_set_other _ (a + 1 + 1) a _ (by omega),
      getD_set_other _ (a + 1) a _ (by omega),
      getD_set_same _ a _ (by omega)]
    norm_num [BYTE, WORD, LONG]
    omega

/-- A register-mode `STR` to an address not above the core size: the memory it
leaves, and the registers other than PC. -/
theorem opSTR_reg_mode (s : tzCore) (hm : MEM s (PC s) &&& MODE_REG = MODE_REG)
    (ha : s.reg ((MEM s (PC s + 1) >>> 4) &&& 0x0F) ≤ s.core_size) :
    (opSTR s).memory = storeBytes s.memory (s.reg ((MEM s (PC s + 1) >>> 4) &&& 0x0F))
      (core_fnStoreData (MEM s (PC s)) (regByte (s.reg (MEM s (PC s + 1) &&& 0x0F)))) ∧
    (∀ j, j ≠ 15 → (opSTR s).reg j = s.reg j) ∧ (opSTR s).core_size = s.core_size := by
  unfold opSTR
  rw [if_pos hm]
  dsimp only
  rw [if_neg (by omega)]
  refine ⟨by simp, fun j hj => by simp [hj], by simp⟩

/-- A register-mode `LOD` from an address not above the core size: the register it
names, when that is not PC. -/
theorem opLOD_reg_mode (t : tzCore) (hm : MEM t (PC t) &&& MODE_REG = MODE_REG)
    (ha : t.reg (MEM t (PC t + 1) &&& 0x0F) ≤ t.core_size)
    (hd : (MEM t (PC t + 1) >>> 4) &&& 0x0F ≠ 15) :
    (opLOD t).reg ((MEM t (PC t + 1) >>> 4) &&& 0x0F) =
      u32 (regStoreBytes (t.reg ((MEM t (PC t + 1) >>> 4) &&& 0x0F)) 0
        (core_fnStoreData (MEM t (PC t))
          (fun k => MEM t (t.reg (MEM t (PC t + 1) &&& 0x0F) + k)))) := by
  unfold opLOD
  rw [if_pos hm]
  dsimp only
  rw [if_neg (by omega)]
  simp [hd]

theorem low_bytes_lt (p v w : Nat) (hw : w = BYTE ∨ w = WORD ∨ w = LONG) (hp : p < 2 ^ 32) :
    p / 2 ^ (8 * tagBytes w) * 2 ^ (8 * tagBytes w) + v % 2 ^ (8 * tagBytes w) < 2 ^ 32 := by
  rcases hw with h | h | h <;> subst h <;> norm_num [tagBytes, BYTE, WORD, LONG] <;> omega

/-- C4 (amended): a register-mode `STR` of width `w` in {BYTE, WORD, LONG} that stores
`v = R[rv]` at the in-range address `a = R[ra]`, followed by a register-mode `LOD` of
width `w` from `a` into a register `rd` other than PC, leaves the low `w` bytes of
`R[rd]` equal to `v & mask(w)` and its higher bytes as they were before. -/
theorem C4_str_lod_low_bytes (H : Host) (s : tzCore) (w ra rv rd rs : Nat)
    (hw : w = BYTE ∨ w = WORD ∨ w = LONG)
    (hstr : MEM s (PC s) &&& 0x1F = 0x02) (hsm : MEM s (PC s) &&& MODE_REG = MODE_REG)
    (hst : MEM s (PC s) &&& 0xC0 = w)
    (hra : (MEM s (PC s + 1) >>> 4) &&& 0x0F = ra) (hrv : MEM s (PC s + 1) &&& 0x0F = rv)
    (hlod : MEM (opSTR s) (PC (opSTR s)) &&& 0x1F = 0x01)
    (hlm : MEM (opSTR s) (PC (opSTR s)) &&& MODE_REG = MODE_REG)
    (hlt : MEM (opSTR s) (PC (opSTR s)) &&& 0xC0 = w)
    (hrd : (MEM (opSTR s) (PC (opSTR s) + 1) >>> 4) &&& 0x0F = rd)
    (hrs : MEM (opSTR s) (PC (opSTR s) + 1) &&& 0x0F = rs)
    (hsame : (opSTR s).reg rs = s.reg ra) (hd15 : rd ≠ 15)
    (hin : s.reg ra + tagBytes w ≤ s.core_size) (hmem : s.memory.length = s.core_size)
    (hp : s.reg rd < 2 ^ 32) :
    step H s = some (opSTR s) ∧ step H (opSTR s) = some (opLOD (opSTR s)) ∧
    (opLOD (opSTR s)).reg rd =
      s.reg rd / 2 ^ (8 * tagBytes w) * 2 ^ (8 * tagBytes w) + (s.reg rv &&& tagMask w) := by
  refine ⟨step_STR H s hstr, step_LOD H _ hlod, ?_⟩
  obtain ⟨hmem', hregs, hcs⟩ := opSTR_reg_mode s hsm (by rw [hra]; omega)
  have hl := opLOD_reg_mode (opSTR s) hlm (by rw [hrs, hsame, hcs]; omega) (by rw [hrd]; exact hd15)
  rw [hrd, hrs, hsame, hregs rd hd15] at hl
  rw [hl]
  have hfun : (fun k => MEM (opSTR s) (s.reg ra + k)) = fun k =>
      (storeBytes s.memory (s.reg ra) (core_fnStoreData (MEM s (PC s))
        (regByte (s.reg rv)))).getD (s.reg ra + k) 0 := by
    funext k
    show (opSTR s).memory.getD (s.reg ra + k) 0 = _
    rw [hmem', hra, hrv]
  rw [hfun]
  have hmask : s.reg rv &&& tagMask w = s.reg rv % 2 ^ (8 * tagBytes w) := by
    unfold tagMask; exact Nat.and_pow_two_sub_one_eq_mod _ _
  rw [hmask, load_after_store s.memory (s.reg ra) (s.reg rv) (s.reg rd) w hw (by omega) hp _ _
    hst hlt]
  exact u32_of_lt _ (low_bytes_lt _ _ _ hw hp)

theorem C4_str_lod_low_bytes_witness :
    step plainHost storeLoadCore = some (opSTR storeLoadCore) ∧
    step plainHost (opSTR storeLoadCore) = some (opLOD (opSTR storeLoadCore)) ∧
    (opLOD (opSTR storeLoadCore)).reg 3 =
      storeLoadCore.reg 3 / 2 ^ (8 * tagBytes BYTE) * 2 ^ (8 * tagBytes BYTE) +
        (storeLoadCore.reg 2 &&& tagMask BYTE) :=
  C4_str_lod_low_bytes plainHost storeLoadCore BYTE 1 2 3 1 (by decide) (by decide) (by decide)
    (by decide) (by decide) (by decide) (by decide) (by decide) (by decide) (by decide)
    (by decide) (by decide) (by decide) (by decide) (by decide) (by decide)

/-- C4 (counterexample): `STR.B [R1],R2 ; LOD.B R3,[R1]` with R1 = 32, R2 = 0x12 and
R3 = 0xFFFFFFFF before leaves R3 = 0xFFFFFF12, not 0x12 = v & 0xFF. -/
theorem C4_counterexample :
    MEM storeLoadCore (PC storeLoadCore) = 0xA2 ∧
    MEM storeLoadCore (PC storeLoadCore + 1) = 0x12 ∧
    storeLoadCore.reg 1 = 32 ∧ storeLoadCore.reg 2 = 0x12 ∧
    storeLoadCore.reg 3 = 0xFFFFFFFF ∧
    MEM (opSTR storeLoadCore) (PC (opSTR storeLoadCore)) = 0xA1 ∧
    MEM (opSTR storeLoadCore) (PC (opSTR storeLoadCore) + 1) = 0x31 ∧
    MEM (opSTR storeLoadCore) 32 = 0x12 ∧
    (opLOD (opSTR storeLoadCore)).reg 3 = 0xFFFFFF12 ∧
    ¬ ((opLOD (opSTR storeLoadCore)).reg 3 = storeLoadCore.reg 2 &&& 0xFF) := by
  decide

/-! ## String buffers and call frames (C1, C2, C3) -/

/-- With a non-empty free list `STRINGBUFFER_fnCreate` returns true and leaves the
in-use list as it was: no buffer with the id is added. -/
theorem create_with_free_list (heap : Option Fresh) (id : Int) (m : StrBufState)
    (h : m.pFreeList ≠ []) :
    (STRINGBUFFER_fnCreate heap id m).1 = true ∧
    (STRINGBUFFER_fnCreate heap id m).2.pFirst = m.pFirst := by
  unfold STRINGBUFFER_fnCreate
  cases hfl : m.pFreeList with
  | nil => exact absurd hfl h
  | cons p rest => exact ⟨rfl, rfl⟩

/-- With an empty free list and a successful allocation the new buffer heads the
in-use list, tagged with the manager level and with append offset 0. -/
theorem create_with_empty_free_list (h : Fresh) (id : Int) (m : StrBufState)
    (he : m.pFreeList = []) :
    (STRINGBUFFER_fnCreate (some h) id m).1 = true ∧
    ∃ p, stringbuffer_fnFind id (STRINGBUFFER_fnCreate (some h) id m).2.pFirst = some p ∧
      p.id = id ∧ p.level = m.level ∧ p.offset = 0 := by
  unfold STRINGBUFFER_fnCreate
  rw [he]
  refine ⟨rfl, ⟨id, m.level, 0, h.rwOffset, BUFSIZE, some h.bytes⟩, ?_, rfl, rfl, rfl⟩
  simp [stringbuffer_fnFind]

set_option maxRecDepth 100000 in
/-- C1 (failing input): in the scope scenario the manager state of the caller after
the inner frame returned is `afterInnerFrame` (free list not empty).  There
`STRINGBUFFER_fnCreate(7)` returns true, yet no buffer 7 is in the in-use list, the
append of "world" finds no buffer and nothing can be read back; the whole program
runs to `HLT` having written nothing instead of "world". -/
theorem C1_create_reuse_loses_buffer :
    (stepN plainHost 7 scopeCore).map (fun t => t.strbuf) = some afterInnerFrame ∧
    (STRINGBUFFER_fnCreate plainHost.malloc 7 afterInnerFrame).1 = true ∧
    stringbuffer_fnFind 7 (STRINGBUFFER_fnCreate plainHost.malloc 7 afterInnerFrame).2.pFirst
      = none ∧
    STRINGBUFFER_fnGet 7 (STRINGBUFFER_fnAppendString true 7 (ascii "world")
      (STRINGBUFFER_fnCreate plainHost.malloc 7 afterInnerFrame).2) = none ∧
    (CORE_fnExecute plainHost 30 scopeCore).map (fun r => (r.1, r.2.output)) = some (true, []) := by
  decide

set_option maxRecDepth 100000 in
/-- C2 (failing input): in the second-call program the frame at depth 0 creates
buffer 7 and appends "hi" after its first callee returned; the buffer is tagged with
the stale level 1.  Before the second `CAL` it reads "hi"; after the `RET` of the
second callee it is no longer in the in-use list but on the free list. -/
theorem C2_callee_ret_frees_caller_buffer :
    (stepN plainHost 6 secondCallCore).map
      (fun t => (t.call_depth, (stringbuffer_fnFind 7 t.strbuf.pFirst).map (fun p => p.level),
        STRINGBUFFER_fnGet 7 t.strbuf)) = some (0, some 1, some (ascii "hi")) ∧
    (stepN plainHost 7 secondCallCore).map (fun t => t.call_depth) = some 1 ∧
    (stepN plainHost 8 secondCallCore).map
      (fun t => (t.call_depth, stringbuffer_fnFind 7 t.strbuf.pFirst, t.strbuf.pFirst,
        t.strbuf.pFreeList.length)) = some (0, none, [], 1) := by
  decide

set_option maxRecDepth 100000 in
/-- C3 (failing input): in the leak program the frame at depth 1 creates buffer 7
after its own callee returned; the buffer is tagged with the stale level 2.  After
the `RET` of that frame (call depth back to 0) the buffer is still found by id in
the in-use list and the free list is empty. -/
theorem C3_ret_leaves_own_buffer :
    (stepN plainHost 5 leakCore).map
      (fun t => (t.call_depth, (stringbuffer_fnFind 7 t.strbuf.pFirst).map (fun p => p.level)))
      = some (1, some 2) ∧
    (stepN plainHost 6 leakCore).map
      (fun t => (t.call_depth, (stringbuffer_fnFind 7 t.strbuf.pFirst).map (fun p => p.id),
        t.strbuf.pFreeList)) = some (0, some 7, []) := by
  decide

/-! ## The result of `CORE_fnExecute` (C7) -/

set_option maxRecDepth 100000 in
/-- C7 (failing input): the illegal instruction `1F 1F 02`, a `PSH` without stack
room (stack overflow) and a `POP` from the empty stack (stack underflow) each stop
the loop with the error flag still clear, and `CORE_fnExecute` returns true, as it
does for a program that stops at `HLT`. -/
theorem C7_fatal_stop_returns_true :
    (CORE_fnExecute plainHost 5 illegalCore).map (fun r => (r.1, r.2.error, r.2.running))
      = some (true, false, false) ∧
    (CORE_fnExecute plainHost 5 overflowCore).map (fun r => (r.1, r.2.error, r.2.running))
      = some (true, false, false) ∧
    (CORE_fnExecute plainHost 5 underflowCore).map (fun r => (r.1, r.2.error, r.2.running))
      = some (true, false, false) ∧
    (CORE_fnExecute plainHost 5 haltCore).map (fun r => (r.1, r.2.error, r.2.running))
      = some (true, false, false) := by
  decide

@[simp] theorem getUnsigned_error (s : tzCore) (pc o : Nat) :
    (core_fnGetUnsignedData s pc o).2.error = s.error := by
  unfold core_fnGetUnsignedData; dsimp only; split_ifs <;> simp

@[simp] theorem getSigned_error (s : tzCore) (pc o : Nat) :
    (core_fnGetSignedData s pc o).2.error = s.error := by
  unfold core_fnGetSignedData; dsimp only; split_ifs <;> simp

@[simp] theorem getFloat_error (s : tzCore) (pc o : Nat) :
    (core_fnGetFloatData s pc o).2.error = s.error := by
  unfold core_fnGetFloatData; simp

@[simp] theorem SETFLAGS_error (a b : Nat) (s : tzCore) : (SETFLAGS a b s).error = s.error := rfl

@[simp] theorem SETFFLAGS_error (H : Host) (b : Nat) (s : tzCore) :
    (SETFFLAGS H b s).error = s.error := rfl

@[simp] theorem setStack_error (s : tzCore) (sp v : Nat) :
    (core_fnSetStackData s sp v).error = s.error := rfl

theorem opNOP_error (s : tzCore) : (opNOP s).error = s.error := by unfold opNOP; simp

theorem opLOD_error (s : tzCore) : (opLOD s).error = s.error := by
  unfold opLOD; dsimp only; split_ifs <;> simp

theorem opSTR_error (s : tzCore) : (opSTR s).error = s.error := by
  unfold opSTR; dsimp only; split_ifs <;> simp

theorem opMOV_error (s : tzCore) : (opMOV s).error = s.error := by
  unfold opMOV; dsimp only; split_ifs <;> simp

theorem opSUB_error (H : Host) (s : tzCore) : (opSUB H s).error = s.error := by
  unfold opSUB; dsimp only; split_ifs <;> simp

theorem opJMP_error (s : tzCore) : (opJMP s).error = s.error := by
  unfold opJMP; simp

theorem opCAL_error (s : tzCore) : (opCAL s).error = s.error := by
  unfold opCAL; dsimp only; split_ifs <;> simp

theorem opRET_error (s : tzCore) : (opRET s).error = s.error := by
  unfold opRET; dsimp only; split_ifs <;> simp

theorem opPSH_error (s : tzCore) : (opPSH s).error = s.error := by
  unfold opPSH; dsimp only; split_ifs <;> simp

theorem opPOP_error (s : tzCore) : (opPOP s).error = s.error := by
  unfold opPOP; dsimp only; split_ifs <;> simp

theorem opHLT_error (s : tzCore) : (opHLT s).error = s.error := by
  unfold opHLT; simp

theorem opCSB_error (H : Host) (s : tzCore) : (opCSB H s).error = s.error := by
  unfold opCSB; simp

theorem opZSB_error (s : tzCore) : (opZSB s).error = s.error := by
  unfold opZSB; simp

theorem opWSB_error (s : tzCore) : (opWSB s).error = s.error := by
  unfold opWSB; dsimp only; split <;> simp

theorem opASS_error (H : Host) (s : tzCore) : (opASS H s).error = s.error := by
  unfold opASS; simp

theorem opADD_error (H : Host) (s : tzCore) : (opADD H s).error = s.error := by
  unfold opADD; dsimp only; split_ifs <;> simp

theorem opMUL_error (H : Host) (s : tzCore) : (opMUL H s).error = s.error := by
  unfold opMUL; dsimp only; split_ifs <;> simp

theorem opDIV_error (H : Host) (s : tzCore) : (opDIV H s).error = s.error := by
  unfold opDIV; dsimp only; split_ifs <;> simp

theorem opAND_error (s : tzCore) : (opAND s).error = s.error := by
  unfold opAND; dsimp only; split_ifs <;> simp

theorem opOR_error (s : tzCore) : (opOR s).error = s.error := by
  unfold opOR; dsimp only; split_ifs <;> simp

theorem opNOT_error (s : tzCore) : (opNOT s).error = s.error := by
  unfold opNOT; simp

theorem opSHR_error (s : tzCore) : (opSHR s).error = s.error := by
  unfold opSHR; simp

theorem opSHL_error (s : tzCore) : (opSHL s).error = s.error := by
  unfold opSHL; simp

theorem opJZR_error (s : tzCore) : (opJZR s).error = s.error := by
  unfold opJZR; split_ifs <;> first | exact opJMP_error s | simp

theorem opJNZ_error (s : tzCore) : (opJNZ s).error = s.error := by
  unfold opJNZ; split_ifs <;> first | exact opJMP_error s | simp

theorem opJNE_error (s : tzCore) : (opJNE s).error = s.error := by
  unfold opJNE; split_ifs <;> first | exact opJMP_error s | simp

theorem opJPO_error (s : tzCore) : (opJPO s).error = s.error := by
  unfold opJPO; split_ifs <;> first | exact opJMP_error s | simp

theorem opJCA_error (s : tzCore) : (opJCA s).error = s.error := by
  unfold opJCA; split_ifs <;> first | exact opJMP_error s | simp

theorem opJNC_error (s : tzCore) : (opJNC s).error = s.error := by
  unfold opJNC; split_ifs <;> first | exact opJMP_error s | simp

theorem opCMP_error (H : Host) (s : tzCore) : (opCMP H s).error = s.error := by
  unfold opCMP; dsimp only; split_ifs <;> simp

theorem instructions2_error (op : Nat) (h : tzCore → tzCore)
    (hh : instructions2 op = some h) (s : tzCore) : (h s).error = s.error := by
  unfold instructions2 at hh
  split_ifs at hh
  simp only [Option.some.injEq] at hh
  subst hh; rfl

theorem opINST2_error (s t : tzCore) (h : opINST2 s = some t) : t.error = s.error := by
  unfold opINST2 at h
  cases hi : instructions2 (MEM s (PC s + 2) &&& 0x1F) with
  | none => rw [hi] at h; simp at h
  | some g =>
    rw [hi] at h
    simp only [Option.map_some', Option.some.injEq] at h
    rw [← h]; exact instructions2_error _ g hi s

theorem instructions1_error (H : Host) (op : Nat) (h : tzCore → Option tzCore)
    (hh : instructions1 H op = some h) (s t : tzCore) (hs : h s = some t) :
    t.error = s.error := by
  unfold instructions1 at hh
  split_ifs at hh <;> simp only [Option.some.injEq] at hh <;> subst hh
  · simp only [Option.some.injEq] at hs; rw [← hs]; exact opCSB_error H s
  · simp only [Option.some.injEq] at hs; rw [← hs]; exact opZSB_error s
  · simp only [Option.some.injEq] at hs; rw [← hs]; exact opWSB_error s
  · simp only [Option.some.injEq] at hs; rw [← hs]; exact opASS_error H s
  · exact opINST2_error s t hs

theorem opINST1_error (H : Host) (s t : tzCore) (h : opINST1 H s = some t) :
    t.error = s.error := by
  unfold opINST1 at h
  cases hi : instructions1 H (MEM s (PC s + 1) &&& 0x1F) with
  | none => rw [hi] at h; simp at h
  | some g =>
    rw [hi] at h
    simp only [Option.some_bind] at h
    exact instructions1_error H _ g hi s t h

/-- Where `opDIVStrict` has a result, it is the one of `opDIV`. -/
theorem opDIVStrict_some (H : Host) (s t : tzCore) (h : opDIVStrict H s = some t) :
    t = opDIV H s := by
  unfold opDIVStrict at h
  split_ifs at h <;> exact (Option.some.inj h).symm

theorem instructions0_error (H : Host) (op : Nat) (h : tzCore → Option tzCore)
    (hh : instructions0 H op = some h) (s t : tzCore) (hs : h s = some t) :
    t.error = s.error := by
  unfold instructions0 at hh
  by_cases c : op = 0x00
  · rw [if_pos c] at hh
    simp only [Option.some.injEq] at hh
    subst hh
    simp only [Option.some.injEq] at hs
    rw [← hs]; exact opNOP_error s
  rw [if_neg c] at hh
  clear c
  by_cases c : op = 0x01
  · rw [if_pos c] at hh
    simp only [Option.some.injEq] at hh
    subst hh
    simp only [Option.some.injEq] at hs
    rw [← hs]; exact opLOD_error s
  rw [if_neg c] at hh
  clear c
  by_cases c : op = 0x02
  · rw [if_pos c] at hh
    simp only [Option.some.injEq] at hh
    subst hh
    simp only [Option.some.injEq] at hs
    rw [← hs]; exact opSTR_error s
  rw [if_neg c] at hh
  clear c
  by_cases c : op = 0x03
  · rw [if_pos c] at hh
    simp only [Option.some.injEq] at hh
    subst hh
    simp only [Option.some.injEq] at hs
    rw [← hs]; exact opMOV_error s
  rw [if_neg c] at hh
  clear c
  by_cases c : op = 0x04
  · rw [if_pos c] at hh
    simp only [Option.some.injEq] at hh
    subst hh
    simp only [Option.some.injEq] at hs
    rw [← hs]; exact opADD_error H s
  rw [if_neg c] at hh
  clear c
  by_cases c : op = 0x05
  · rw [if_pos c] at hh
    simp only [Option.some.injEq] at hh
    subst hh
    simp only [Option.some.injEq] at hs
    rw [← hs]; exact opSUB_error H s
  rw [if_neg c] at hh
  clear c
  by_cases c : op = 0x06
  · rw [if_pos c] at hh
    simp only [Option.some.injEq] at hh
    subst hh
    simp only [Option.some.injEq] at hs
    rw [← hs]; exact opMUL_error H s
  rw [if_neg c] at hh
  clear c
  by_cases c : op = 0x07
  · rw [if_pos c] at hh
    simp only [Option.some.injEq] at hh
    subst hh
    rw [opDIVStrict_some H s t hs]; exact opDIV_error H s
  rw [if_neg c] at hh
  clear c
  by_cases c : op = 0x08
  · rw [if_pos c] at hh
    simp only [Option.some.injEq] at hh
    subst hh
    simp only [Option.some.injEq] at hs
    rw [← hs]; exact opAND_error s
  rw [if_neg c] at hh
  clear c
  by_cases c : op = 0x09
  · rw [if_pos c] at hh
    simp only [Option.some.injEq] at hh
    subst hh
    simp only [Option.some.injEq] at hs
    rw [← hs]; exact opOR_error s
  rw [if_neg c] at hh
  clear c
  by_cases c : op = 0x0A
  · rw [if_pos c] at hh
    simp only [Option.some.injEq] at hh
    subst hh
    simp only [Option.some.injEq] at hs
    rw [← hs]; exact opNOT_error s
  rw [if_neg c] at hh
  clear c
  by_cases c : op = 0x0B
  · rw [if_pos c] at hh
    simp only [Option.some.injEq] at hh
    subst hh
    simp only [Option.some.injEq] at hs
    rw [← hs]; exact opSHR_error s
  rw [if_neg c] at hh
  clear c
  by_cases c : op = 0x0C
  · rw [if_pos c] at hh
    simp only [Option.some.injEq] at hh
    subst hh
    simp only [Option.some.injEq] at hs
    rw [← hs]; exact opSHL_error s
  rw [if_neg c] at hh
  clear c
  by_cases c : op = 0x0D
  · rw [if_pos c] at hh
    simp only [Option.some.injEq] at hh
    subst hh
    simp only [Option.some.injEq] at hs
    rw [← hs]; exact opJMP_error s
  rw [if_neg c] at hh
  clear c
  by_cases c : op = 0x0E
  · rw [if_pos c] at hh
    simp only [Option.some.injEq] at hh
    subst hh
    simp only [Option.some.injEq] at hs
    rw [← hs]; exact opJZR_error s
  rw [if_neg c] at hh
  clear c
  by_cases c : op = 0x0F
  · rw [if_pos c] at hh
    simp only [Option.some.injEq] at hh
    subst hh
    simp only [Option.some.injEq] at hs
    rw [← hs]; exact opJNZ_error s
  rw [if_neg c] at hh
  clear c
  by_cases c : op = 0x10
  · rw [if_pos c] at hh
    simp only [Option.some.injEq] at hh
    subst hh
    simp only [Option.some.injEq] at hs
    rw [← hs]; exact opJNE_error s
  rw [if_neg c] at hh
  clear c
  by_cases c : op = 0x11
  · rw [if_pos c] at hh
    simp only [Option.some.injEq] at hh
    subst hh
    simp only [Option.some.injEq] at hs
    rw [← hs]; exact opJPO_error s
  rw [if_neg c] at hh
  clear c
  by_cases c : op = 0x12
  · rw [if_pos c] at hh
    simp only [Option.some.injEq] at hh
    subst hh
    simp only [Option.some.injEq] at hs
    rw [← hs]; exact opJCA_error s
  rw [if_neg c] at hh
  clear c
  by_cases c : op = 0x13
  · rw [if_pos c] at hh
    simp only [Option.some.injEq] at hh
    subst hh
    simp only [Option.some.injEq] at hs
    rw [← hs]; exact opJNC_error s
  rw [if_neg c] at hh
  clear c
  by_cases c : op = 0x14
  · rw [if_pos c] at hh
    simp only [Option.some.injEq] at hh
    subst hh
    simp only [Option.some.injEq] at hs
    rw [← hs]; exact opCAL_error s
  rw [if_neg c] at hh
  clear c
  by_cases c : op = 0x15
  · rw [if_pos c] at hh
    simp only [Option.some.injEq] at hh
    subst hh
    simp only [Option.some.injEq] at hs
    rw [← hs]; exact opRET_error s
  rw [if_neg c] at hh
  clear c
  by_cases c : op = 0x16
  · rw [if_pos c] at hh
    simp only [Option.some.injEq] at hh
    subst hh
    simp only [Option.some.injEq] at hs
    rw [← hs]; exact opCMP_error H s
  rw [if_neg c] at hh
  clear c
  by_cases c : op = 0x19
  · rw [if_pos c] at hh
    simp only [Option.some.injEq] at hh
    subst hh
    simp only [Option.some.injEq] at hs
    rw [← hs]; exact opPSH_error s
  rw [if_neg c] at hh
  clear c
  by_cases c : op = 0x1A
  · rw [if_pos c] at hh
    simp only [Option.some.injEq] at hh
    subst hh
    simp only [Option.some.injEq] at hs
    rw [← hs]; exact opPOP_error s
  rw [if_neg c] at hh
  clear c
  by_cases c : op = 0x1B
  · rw [if_pos c] at hh
    simp only [Option.some.injEq] at hh
    subst hh
    simp only [Option.some.injEq] at hs
    rw [← hs]; exact opHLT_error s
  rw [if_neg c] at hh
  clear c
  by_cases c : op = 0x1F
  · rw [if_pos c] at hh
    simp only [Option.some.injEq] at hh
    subst hh
    exact opINST1_error H s t hs
  rw [if_neg c] at hh
  simp at hh

/-- No handler of the embedding touches the error flag. -/
theorem step_error (H : Host) (s t : tzCore) (h : step H s = some t) : t.error = s.error := by
  unfold step at h
  cases hi : instructions0 H (MEM s (PC s) &&& 0x1F) with
  | none => rw [hi] at h; simp at h
  | some g =>
    rw [hi] at h
    simp only [Option.some_bind] at h
    exact instructions0_error H _ g hi s t h

theorem executeLoop_error (H : Host) (fuel : Nat) (s t : tzCore)
    (h : executeLoop H fuel s = some t) : t.error = s.error := by
  induction fuel generalizing s with
  | zero =>
    unfold executeLoop at h
    split_ifs at h
    simp only [Option.some.injEq] at h
    rw [h]
  | succ n ih =>
    unfold executeLoop at h
    split_ifs at h
    · cases hs : step H s with
      | none => rw [hs] at h; simp at h
      | some u =>
        rw [hs] at h
        simp only [Option.some_bind] at h
        rw [ih u h, step_error H s u hs]
    · simp only [Option.some.injEq] at h
      rw [h]

/-- Whenever `CORE_fnExecute` returns from a core whose error flag is clear (as
`CORE_fnCreate` leaves it), it returns true: no stop of the loop is reported. -/
theorem execute_returns_true (H : Host) (fuel : Nat) (s : tzCore) (b : Bool) (t : tzCore)
    (he : s.error = false) (h : CORE_fnExecute H fuel s = some (b, t)) :
    b = true ∧ t.error = false := by
  unfold CORE_fnExecute at h
  cases hl : executeLoop H fuel { s with running := true } with
  | none => rw [hl] at h; simp at h
  | some u =>
    rw [hl] at h
    simp only [Option.map_some', Option.some.injEq, Prod.mk.injEq] at h
    have hu : u.error = false := by rw [executeLoop_error H fuel _ u hl]; exact he
    obtain ⟨h1, h2⟩ := h
    rw [hu] at h1
    exact ⟨by rw [← h1]; rfl, by rw [← h2]; exact hu⟩

/-! ## Program counter bounds (C8) -/

theorem step_JMP (H : Host) (s : tzCore) (h : MEM s (PC s) &&& 0x1F = 0x0D) :
    step H s = some (opJMP s) := by
  unfold step; rw [h]; rfl

theorem step_NOP (H : Host) (s : tzCore) (h : MEM s (PC s) &&& 0x1F = 0x00) :
    step H s = some (opNOP s) := by
  unfold step; rw [h]; rfl

/-- After `INC_PC` a core that is still running has its program counter inside
`[0, programSize]`. -/
theorem INC_PC_bound (n : Nat) (s : tzCore) (h : (INC_PC n s).running = true) :
    toSize (PC (INC_PC n s)) ≤ (INC_PC n s).programSize := by
  unfold INC_PC at h ⊢
  dsimp only at h ⊢
  split_ifs at h ⊢ with c
  · simp at h
  · exact Nat.le_of_not_gt c

theorem le_toSize (x : Nat) : x ≤ toSize x := by
  unfold toSize; split_ifs <;> omega

theorem opLOD_bound (s : tzCore) (hrun : (opLOD s).running = true) :
    toSize (PC (opLOD s)) ≤ (opLOD s).programSize := by
  unfold opLOD at hrun ⊢
  dsimp only at hrun ⊢
  split_ifs at hrun ⊢ <;> first | exact INC_PC_bound _ _ hrun | simp at hrun

theorem opSTR_bound (s : tzCore) (hrun : (opSTR s).running = true) :
    toSize (PC (opSTR s)) ≤ (opSTR s).programSize := by
  unfold opSTR at hrun ⊢
  dsimp only at hrun ⊢
  split_ifs at hrun ⊢ <;> first | exact INC_PC_bound _ _ hrun | simp at hrun

theorem opMOV_bound (s : tzCore) (hrun : (opMOV s).running = true) :
    toSize (PC (opMOV s)) ≤ (opMOV s).programSize := by
  unfold opMOV at hrun ⊢
  dsimp only at hrun ⊢
  split_ifs at hrun ⊢ <;> exact INC_PC_bound _ _ hrun

theorem opSUB_bound (H : Host) (s : tzCore) (hrun : (opSUB H s).running = true) :
    toSize (PC (opSUB H s)) ≤ (opSUB H s).programSize := by
  unfold opSUB at hrun ⊢
  dsimp only at hrun ⊢
  split_ifs at hrun ⊢ <;> exact INC_PC_bound _ _ hrun

theorem opPSH_bound (s : tzCore) (hrun : (opPSH s).running = true) :
    toSize (PC (opPSH s)) ≤ (opPSH s).programSize := by
  unfold opPSH at hrun ⊢
  dsimp only at hrun ⊢
  split_ifs at hrun ⊢ <;> first | exact INC_PC_bound _ _ hrun | simp at hrun

theorem opWSB_bound (s : tzCore) (hrun : (opWSB s).running = true) :
    toSize (PC (opWSB s)) ≤ (opWSB s).programSize := by
  unfold opWSB at hrun ⊢
  dsimp only at hrun ⊢
  split at hrun <;> exact INC_PC_bound _ _ hrun

/-- C8 (counterexample): `JMP.B 48` in a 2-byte program leaves PC = 48, outside
`[0, program_size]`, with the VM still running; the loop goes on to fetch the byte at
48, a `NOP` outside the program, and only its advance halts the VM. -/
theorem C8_counterexample :
    jumpCore.running = true ∧ PC jumpCore ≤ jumpCore.programSize ∧
    step plainHost jumpCore = some (opJMP jumpCore) ∧
    (opJMP jumpCore).running = true ∧ (opJMP jumpCore).programSize = 2 ∧
    PC (opJMP jumpCore) = 48 ∧ ¬ (PC (opJMP jumpCore) ≤ (opJMP jumpCore).programSize) ∧
    step plainHost (opJMP jumpCore) = some (opNOP (opJMP jumpCore)) ∧
    (opNOP (opJMP jumpCore)).running = false :=
  ⟨by decide, by decide, step_JMP _ _ (by decide), by decide, by decide, by decide, by decide,
    step_NOP _ _ (by decide), by decide⟩

/-! ## Stack bounds (C9, C10) -/

theorem INC_PC_running_false (n : Nat) (s : tzCore) (h : s.running = false) :
    (INC_PC n s).running = false := by
  unfold INC_PC
  dsimp only
  split_ifs
  · rfl
  · exact h

/-- The overflow branch of `opPSH`. -/
theorem opPSH_overflow (s : tzCore) (h : toSize (u32 (2 ^ 32 - 4 + SP s)) < stackBase s) :
    opPSH s = STOP (setReg s 14 (2 ^ 32 - 4 + SP s)) := by
  unfold opPSH
  dsimp only
  have e : SP (setReg s 14 (2 ^ 32 - 4 + SP s)) = u32 (2 ^ 32 - 4 + SP s) := by
    unfold SP; rw [setReg_reg, if_pos rfl]
  have b : stackBase (setReg s 14 (2 ^ 32 - 4 + SP s)) = stackBase s := rfl
  rw [e, b, if_pos h]

/-- The storing branch of `opPSH`. -/
theorem opPSH_no_overflow (s : tzCore) (h : ¬ toSize (u32 (2 ^ 32 - 4 + SP s)) < stackBase s) :
    opPSH s = INC_PC 2 (core_fnSetStackData (setReg s 14 (2 ^ 32 - 4 + SP s))
      (SP (setReg s 14 (2 ^ 32 - 4 + SP s)))
      ((setReg s 14 (2 ^ 32 - 4 + SP s)).reg (MEM (setReg s 14 (2 ^ 32 - 4 + SP s))
        (PC (setReg s 14 (2 ^ 32 - 4 + SP s)) + 1) &&& 0x0F))) := by
  unfold opPSH
  dsimp only
  have e : SP (setReg s 14 (2 ^ 32 - 4 + SP s)) = u32 (2 ^ 32 - 4 + SP s) := by
    unfold SP; rw [setReg_reg, if_pos rfl]
  have b : stackBase (setReg s 14 (2 ^ 32 - 4 + SP s)) = stackBase s := rfl
  rw [e, b, if_neg h]

@[simp] theorem getUnsigned_reg14 (s : tzCore) (pc o : Nat) :
    (core_fnGetUnsignedData s pc o).2.reg 14 = s.reg 14 := by
  unfold core_fnGetUnsignedData; dsimp only; split_ifs <;> simp

@[simp] theorem getUnsigned_core_size (s : tzCore) (pc o : Nat) :
    (core_fnGetUnsignedData s pc o).2.core_size = s.core_size := by
  unfold core_fnGetUnsignedData; dsimp only; split_ifs <;> simp

@[simp] theorem getUnsigned_stack_size (s : tzCore) (pc o : Nat) :
    (core_fnGetUnsignedData s pc o).2.stack_size = s.stack_size := by
  unfold core_fnGetUnsignedData; dsimp only; split_ifs <;> simp

@[simp] theorem getUnsigned_memory (s : tzCore) (pc o : Nat) :
    (core_fnGetUnsignedData s pc o).2.memory = s.memory := by
  unfold core_fnGetUnsignedData; dsimp only; split_ifs <;> simp

/-- The overflow branch of `opCAL`: the VM is stopped with the memory as it was and
the stack pointer already moved. -/
theorem opCAL_overflow (s : tzCore) (h : toSize (u32 (2 ^ 32 - 4 + SP s)) < stackBase s) :
    (opCAL s).running = false ∧ (opCAL s).memory = s.memory ∧
    SP (opCAL s) = u32 (2 ^ 32 - 4 + SP s) := by
  have key : ∀ r : Nat × tzCore, r.2.reg 14 = s.reg 14 → r.2.core_size = s.core_size →
      r.2.stack_size = s.stack_size → r.2.memory = s.memory →
      toSize (SP (setReg r.2 14 (2 ^ 32 - 4 + SP r.2))) <
        stackBase (setReg r.2 14 (2 ^ 32 - 4 + SP r.2)) := by
    intro r h1 h2 h3 _
    have e : SP (setReg r.2 14 (2 ^ 32 - 4 + SP r.2)) = u32 (2 ^ 32 - 4 + SP s) := by
      unfold SP; rw [setReg_reg, if_pos rfl, h1]
    have b : stackBase (setReg r.2 14 (2 ^ 32 - 4 + SP r.2)) = stackBase s := by
      unfold stackBase STACK_SIZE
      rw [setReg_core_size, setReg_stack_size, h2, h3]
    rw [e, b]; exact h
  unfold opCAL
  dsimp only
  split_ifs with c1 c2 c3
  · refine ⟨rfl, by simp, ?_⟩
    unfold SP; simp
  · exact absurd (key (s.reg (MEM s (PC s + 1) &&& 0x0F), INC_PC 2 s) (by simp) (by simp)
      (by simp) (by simp)) c2
  · refine ⟨rfl, by simp, ?_⟩
    unfold SP; simp
  · exact absurd (key ((core_fnGetUnsignedData s (PC s) 1).1,
      INC_PC 1 (core_fnGetUnsignedData s (PC s) 1).2) (by simp) (by simp)
      (by simp) (by simp)) c3

theorem opRET_memory (t : tzCore) : (opRET t).memory = t.memory := by
  unfold opRET; dsimp only; split_ifs <;> rfl

/-- The underflow branch of `opPOP` for a destination other than SP. -/
theorem opPOP_underflow (s : tzCore) (hd : MEM s (PC s + 1) &&& 0x0F ≠ 14)
    (h : toSize (u32 (SP s + 4)) > s.core_size) :
    (opPOP s).running = false ∧ (opPOP s).memory = s.memory ∧
    SP (opPOP s) = u32 (SP s + 4) := by
  have e1 : SP (setReg s (MEM s (PC s + 1) &&& 0x0F) (core_fnGetStackData s (SP s))) = SP s := by
    unfold SP; rw [setReg_reg, if_neg (fun c => hd c.symm)]
  have e2 : SP (setReg (setReg s (MEM s (PC s + 1) &&& 0x0F) (core_fnGetStackData s (SP s))) 14
      (SP s + 4)) = u32 (SP s + 4) := by
    unfold SP; rw [setReg_reg, if_pos rfl]
  unfold opPOP
  dsimp only
  rw [e1, e2]
  rw [if_pos (by exact h)]
  refine ⟨INC_PC_running_false _ _ rfl, by simp, ?_⟩
  unfold SP at e2 ⊢
  rw [INC_PC_reg, if_neg (by decide)]
  exact e2

theorem step_SUB (H : Host) (s : tzCore) (h : MEM s (PC s) &&& 0x1F = 0x05) :
    step H s = some (opSUB H s) := by
  unfold step; rw [h]; rfl

/-- The four stack checks: what the halted state is. -/
theorem stack_checks_halt (s : tzCore) (hcs : s.core_size < 2 ^ 31)
    (hstk : 4 * s.stack_size ≤ s.core_size) (hlo : 4 ≤ SP s) (hhi : SP s ≤ s.core_size) :
    (SP s - 4 < s.core_size - 4 * s.stack_size →
      ((opPSH s).running = false ∧ (opPSH s).memory = s.memory ∧ SP (opPSH s) = SP s - 4 ∧
        ∀ j, j ≠ 14 → (opPSH s).reg j = s.reg j) ∧
      ((opCAL s).running = false ∧ (opCAL s).memory = s.memory ∧ SP (opCAL s) = SP s - 4)) ∧
    (s.core_size < SP s + 4 →
      (MEM s (PC s + 1) &&& 0x0F ≠ 14 →
        (opPOP s).running = false ∧ (opPOP s).memory = s.memory ∧ SP (opPOP s) = SP s + 4) ∧
      ((opRET s).running = false ∧ (opRET s).memory = s.memory ∧ SP (opRET s) = SP s + 4)) := by
  have e : u32 (2 ^ 32 - 4 + SP s) = SP s - 4 := by unfold u32; omega
  have hts : toSize (SP s - 4) = SP s - 4 := by unfold toSize; rw [if_pos (by omega)]
  have hb : stackBase s = s.core_size - 4 * s.stack_size := stackBase_eq s hstk hcs
  have e' : u32 (SP s + 4) = SP s + 4 := by unfold u32; omega
  refine ⟨fun h => ?_, fun h => ?_⟩
  · have hov : toSize (u32 (2 ^ 32 - 4 + SP s)) < stackBase s := by rw [e, hts, hb]; exact h
    refine ⟨?_, ?_⟩
    · rw [opPSH_overflow s hov]
      refine ⟨rfl, rfl, ?_, fun j hj => ?_⟩
      · unfold SP at e ⊢
        rw [STOP_reg, setReg_reg, if_pos rfl]
        exact e
      · rw [STOP_reg, setReg_reg, if_neg hj]
    · obtain ⟨h1, h2, h3⟩ := opCAL_overflow s hov
      exact ⟨h1, h2, by rw [h3, e]⟩
  · have hun : toSize (u32 (SP s + 4)) > s.core_size := by
      rw [e']; exact Nat.lt_of_lt_of_le h (le_toSize _)
    refine ⟨fun hd => ?_, ?_⟩
    · obtain ⟨h1, h2, h3⟩ := opPOP_underflow s hd hun
      exact ⟨h1, h2, by rw [h3, e']⟩
    · obtain ⟨-, h2, h3⟩ := opRET_regs s
      refine ⟨by rw [h3, if_pos hun], opRET_memory s, by rw [h2, e']⟩

/-- The storing branch of `opPSH` inside the program leaves the running flag alone. -/
theorem opPSH_running (s : tzCore) (h : ¬ toSize (u32 (2 ^ 32 - 4 + SP s)) < stackBase s)
    (hin : PC s + 2 ≤ s.programSize) (hp : s.programSize < 2 ^ 31) :
    (opPSH s).running = s.running := by
  rw [opPSH_no_overflow s h]
  exact INC_PC_running 2 (core_fnSetStackData (setReg s 14 (2 ^ 32 - 4 + SP s))
      (SP (setReg s 14 (2 ^ 32 - 4 + SP s)))
      ((setReg s 14 (2 ^ 32 - 4 + SP s)).reg (MEM (setReg s 14 (2 ^ 32 - 4 + SP s))
        (PC (setReg s 14 (2 ^ 32 - 4 + SP s)) + 1) &&& 0x0F))) hin hp

/-- C9 (amended): in a core whose stack fits into its memory, a `PSH` or `CAL` whose
decremented SP falls below `core_size - 4 * stack_size` and a `POP` (into a register
other than SP) or `RET` whose incremented SP exceeds `core_size` halt the VM; the
halted state has the memory of the state before, while SP already holds the moved
value (after `PSH` every other register is unchanged). -/
theorem C9_stack_checks_halt (s : tzCore) (hcs : s.core_size < 2 ^ 31)
    (hstk : 4 * s.stack_size ≤ s.core_size) (hlo : 4 ≤ SP s) (hhi : SP s ≤ s.core_size) :
    (SP s - 4 < s.core_size - 4 * s.stack_size →
      ((opPSH s).running = false ∧ (opPSH s).memory = s.memory ∧ SP (opPSH s) = SP s - 4 ∧
        ∀ j, j ≠ 14 → (opPSH s).reg j = s.reg j) ∧
      ((opCAL s).running = false ∧ (opCAL s).memory = s.memory ∧ SP (opCAL s) = SP s - 4)) ∧
    (s.core_size < SP s + 4 →
      (MEM s (PC s + 1) &&& 0x0F ≠ 14 →
        (opPOP s).running = false ∧ (opPOP s).memory = s.memory ∧ SP (opPOP s) = SP s + 4) ∧
      ((opRET s).running = false ∧ (opRET s).memory = s.memory ∧ SP (opRET s) = SP s + 4)) :=
  stack_checks_halt s hcs hstk hlo hhi

theorem C9_stack_checks_halt_witness :
    (opPSH noStackCore).running = false ∧ (opPSH noStackCore).memory = noStackCore.memory ∧
    SP (opPSH noStackCore) = SP noStackCore - 4 :=
  ⟨((C9_stack_checks_halt noStackCore (by decide) (by decide) (by decide) (by decide)).1
      (by decide)).1.1,
   ((C9_stack_checks_halt noStackCore (by decide) (by decide) (by decide) (by decide)).1
      (by decide)).1.2.1,
   ((C9_stack_checks_halt noStackCore (by decide) (by decide) (by decide) (by decide)).1
      (by decide)).1.2.2.1⟩

/-- C9 (counterexample): `SUB.B SP, 100` moves SP from 64 to 0xFFFFFFDC, outside
`[program_size, core_size]`, and the VM keeps running; and the `PSH` that halts a
core without stack leaves SP = 60 where it was 64 before the instruction. -/
theorem C9_counterexample :
    subSpCore.running = true ∧ subSpCore.programSize ≤ SP subSpCore ∧
    SP subSpCore ≤ subSpCore.core_size ∧
    step plainHost subSpCore = some (opSUB plainHost subSpCore) ∧
    (opSUB plainHost subSpCore).running = true ∧
    SP (opSUB plainHost subSpCore) = 0xFFFFFFDC ∧
    ¬ (SP (opSUB plainHost subSpCore) ≤ (opSUB plainHost subSpCore).core_size) ∧
    step plainHost noStackCore = some (opPSH noStackCore) ∧
    (opPSH noStackCore).running = false ∧ noStackCore.reg 14 = 64 ∧
    (opPSH noStackCore).reg 14 = 60 ∧
    ¬ ((opPSH noStackCore).reg 14 = noStackCore.reg 14) :=
  ⟨by decide, by decide, by decide, step_SUB _ _ (by decide), by decide, by decide, by decide,
    step_PSH _ _ (by decide), by decide, by decide, by decide, by decide⟩

/-- C10 (amended): for a core with the sizes given to `CORE_fnCreate(core_size,
stack_size)`, the stack region is the top `4 * stack_size` bytes: a `PSH` or `CAL`
that lies inside the program halts a running VM with Stack Overflow if and only if
the decremented SP is below `core_size - 4 * stack_size`. -/
theorem C10_overflow_iff (ok : Bool) (cs ss : Nat) (s : tzCore)
    (hc : (CORE_fnCreate ok cs ss).map (fun c => (c.core_size, c.stack_size)) =
      some (s.core_size, s.stack_size))
    (hrun : s.running = true) (hcs : cs < 2 ^ 31) (hstk : 4 * ss ≤ cs)
    (hlo : 4 ≤ SP s) (hhi : SP s ≤ cs) (hmem : s.memory.length = cs)
    (hp : s.programSize < 2 ^ 31) :
    (PC s + 2 ≤ s.programSize → ((opPSH s).running = false ↔ SP s - 4 < cs - 4 * ss)) ∧
    (PC s + calLength (MEM s (PC s)) ≤ s.programSize →
      ((opCAL s).running = false ↔ SP s - 4 < cs - 4 * ss)) := by
  have hsz : s.core_size = cs ∧ s.stack_size = ss := by
    unfold CORE_fnCreate at hc
    split_ifs at hc
    · simp at hc
    · simp at hc
    · simp only [Option.map_some', Option.some.injEq, Prod.mk.injEq] at hc
      exact ⟨hc.1.symm, hc.2.symm⟩
  obtain ⟨h1, h2⟩ := hsz
  subst h1 h2
  have e : u32 (2 ^ 32 - 4 + SP s) = SP s - 4 := by unfold u32; omega
  have hts : toSize (SP s - 4) = SP s - 4 := by unfold toSize; rw [if_pos (by omega)]
  have hb : stackBase s = s.core_size - 4 * s.stack_size := stackBase_eq s hstk hcs
  refine ⟨fun hin => ⟨fun hstop => ?_, fun hov => ?_⟩, fun hin => ⟨fun hstop => ?_, fun hov => ?_⟩⟩
  · by_contra hno
    have hn : ¬ toSize (u32 (2 ^ 32 - 4 + SP s)) < stackBase s := by rw [e, hts, hb]; exact hno
    rw [opPSH_running s hn hin hp, hrun] at hstop
    exact Bool.noConfusion hstop
  · exact ((stack_checks_halt s hcs hstk hlo hhi).1 hov).1.1
  · by_contra hno
    obtain ⟨-, -, hr, -, -⟩ := opCAL_ok s hin hp hmem hcs hstk (by omega) hhi
    rw [hr, hrun] at hstop
    exact Bool.noConfusion hstop
  · exact ((stack_checks_halt s hcs hstk hlo hhi).1 hov).2.1

theorem C10_overflow_iff_witness :
    (opPSH twoPushCore).running = false ↔ SP twoPushCore - 4 < 64 - 4 * 4 :=
  (C10_overflow_iff true 64 4 twoPushCore (by decide) (by decide) (by decide) (by decide)
    (by decide) (by decide) (by decide) (by decide)).1 (by decide)

/-- C10 (counterexample): a core created with `CORE_fnCreate(64, 4)` whose SP is 60
after one `PSH`: the next `PSH` decrements SP to 56, below `core_size - stack_size`
= 60, and no Stack Overflow is reported: the VM keeps running. -/
theorem C10_counterexample :
    (CORE_fnCreate true 64 4).map (fun c => (c.core_size, c.stack_size)) =
      some ((opPSH twoPushCore).core_size, (opPSH twoPushCore).stack_size) ∧
    (opPSH twoPushCore).running = true ∧ SP (opPSH twoPushCore) = 60 ∧
    SP (opPSH twoPushCore) - 4 < 64 - 4 ∧
    (opPSH (opPSH twoPushCore)).running = true ∧
    ¬ ((opPSH (opPSH twoPushCore)).running = false ↔ SP (opPSH twoPushCore) - 4 < 64 - 4) := by
  decide


/-! ## Status flags (C11, C12, C13) -/

theorem testBit_ZMASK (i : Nat) : ZMASK.testBit i = (decide (i < 32) && !decide (0 = i)) := by
  have h : ZMASK = (2 ^ 32 - 1) ^^^ 2 ^ 0 := by decide
  rw [h, Nat.testBit_xor, Nat.testBit_two_pow_sub_one, Nat.testBit_two_pow]
  by_cases a : i < 32 <;> by_cases b : 0 = i <;> first | omega | simp [a, b]

theorem testBit_NMASK (i : Nat) : NMASK.testBit i = (decide (i < 32) && !decide (1 = i)) := by
  have h : NMASK = (2 ^ 32 - 1) ^^^ 2 ^ 1 := by decide
  rw [h, Nat.testBit_xor, Nat.testBit_two_pow_sub_one, Nat.testBit_two_pow]
  by_cases a : i < 32 <;> by_cases b : 1 = i <;> first | omega | simp [a, b]

theorem testBit_CMASK (i : Nat) : CMASK.testBit i = (decide (i < 32) && !decide (2 = i)) := by
  have h : CMASK = (2 ^ 32 - 1) ^^^ 2 ^ 2 := by decide
  rw [h, Nat.testBit_xor, Nat.testBit_two_pow_sub_one, Nat.testBit_two_pow]
  by_cases a : i < 32 <;> by_cases b : 2 = i <;> first | omega | simp [a, b]

theorem testBit_ZFLAG (i : Nat) : ZFLAG.testBit i = decide (0 = i) := by
  have h : ZFLAG = 2 ^ 0 := by decide
  rw [h, Nat.testBit_two_pow]

theorem testBit_NFLAG (i : Nat) : NFLAG.testBit i = decide (1 = i) := by
  have h : NFLAG = 2 ^ 1 := by decide
  rw [h, Nat.testBit_two_pow]

theorem testBit_CFLAG (i : Nat) : CFLAG.testBit i = decide (2 = i) := by
  have h : CFLAG = 2 ^ 2 := by decide
  rw [h, Nat.testBit_two_pow]

theorem testBit_high (x i : Nat) (hx : x < 2 ^ 32) (hi : 32 ≤ i) : x.testBit i = false :=
  Nat.testBit_lt_two_pow (Nat.lt_of_lt_of_le hx (Nat.pow_le_pow_right (by decide) hi))

/-- The sign bit of a 32-bit pattern. -/
theorem and_SIGNBIT (x : Nat) (hx : x < 2 ^ 32) :
    x &&& SIGNBIT = if 2 ^ 31 ≤ x then 2 ^ 31 else 0 := by
  have h : SIGNBIT = 2 ^ 31 := by decide
  rw [h, Nat.and_two_pow, Nat.testBit_to_div_mod]
  split_ifs with c
  · have : x / 2 ^ 31 % 2 = 1 := by omega
    rw [decide_eq_true this]; rfl
  · have : ¬ (x / 2 ^ 31 % 2 = 1) := by omega
    rw [decide_eq_false this]; rfl

/-- The test of `CSET` is the exclusive or of the two sign bits. -/
theorem cset_cond (a b : Nat) (ha : a < 2 ^ 32) (hb : b < 2 ^ 32) :
    ((a &&& SIGNBIT) ^^^ (b &&& SIGNBIT) ≠ 0) ↔
      (decide (2 ^ 31 ≤ a) != decide (2 ^ 31 ≤ b)) = true := by
  rw [and_SIGNBIT a ha, and_SIGNBIT b hb]
  by_cases c1 : 2 ^ 31 ≤ a <;> by_cases c2 : 2 ^ 31 ≤ b
  · rw [if_pos c1, if_pos c2, decide_eq_true c1, decide_eq_true c2]; decide
  · rw [if_pos c1, if_neg c2, decide_eq_true c1, decide_eq_false c2]; decide
  · rw [if_neg c1, if_pos c2, decide_eq_false c1, decide_eq_true c2]; decide
  · rw [if_neg c1, if_neg c2, decide_eq_false c1, decide_eq_false c2]; decide

/-- Setting or clearing one flag bit of a 32-bit status word. -/
theorem flag_update (x k M F : Nat) (b : Bool) (hx : x < 2 ^ 32)
    (hF : ∀ i, F.testBit i = decide (k = i))
    (hM : ∀ i, M.testBit i = (decide (i < 32) && !decide (k = i))) (i : Nat) :
    (if b = true then x ||| F else x &&& M).testBit i = if k = i then b else x.testBit i := by
  by_cases h32 : i < 32
  · by_cases hk : k = i <;> cases b <;> simp [Nat.testBit_or, Nat.testBit_and, hF, hM, hk, h32]
  · have hf := testBit_high x i hx (by omega)
    by_cases hk : k = i <;> cases b <;> simp [Nat.testBit_or, Nat.testBit_and, hF, hM, hk, h32, hf]

/-- A flag update keeps the status word inside 32 bits. -/
theorem flag_update_lt (x M F : Nat) (b : Bool) (hx : x < 2 ^ 32) (hF : F < 2 ^ 32) :
    (if b = true then x ||| F else x &&& M) < 2 ^ 32 := by
  cases b
  · exact Nat.lt_of_le_of_lt Nat.and_le_left hx
  · exact Nat.or_lt_two_pow hx hF

theorem ZSET_bit (z : Bool) (s : tzCore) (hst : s.status < 2 ^ 32) (i : Nat) :
    (ZSET z s).status.testBit i = if 0 = i then z else s.status.testBit i :=
  flag_update s.status 0 ZMASK ZFLAG z hst testBit_ZFLAG testBit_ZMASK i

theorem NSET_bit (n : Bool) (s : tzCore) (hst : s.status < 2 ^ 32) (i : Nat) :
    (NSET n s).status.testBit i = if 1 = i then n else s.status.testBit i :=
  flag_update s.status 1 NMASK NFLAG n hst testBit_NFLAG testBit_NMASK i

theorem ZSET_lt (z : Bool) (s : tzCore) (hst : s.status < 2 ^ 32) : (ZSET z s).status < 2 ^ 32 :=
  flag_update_lt s.status ZMASK ZFLAG z hst (by decide)

theorem NSET_lt (n : Bool) (s : tzCore) (hst : s.status < 2 ^ 32) : (NSET n s).status < 2 ^ 32 :=
  flag_update_lt s.status NMASK NFLAG n hst (by decide)

theorem CSET_bit (old new : Nat) (s : tzCore) (hst : s.status < 2 ^ 32)
    (ho : old < 2 ^ 32) (hn : new < 2 ^ 32) (i : Nat) :
    (CSET old new s).status.testBit i =
      if 2 = i then (decide (2 ^ 31 ≤ old) != decide (2 ^ 31 ≤ new)) else s.status.testBit i := by
  have h := flag_update s.status 2 CMASK CFLAG (decide (2 ^ 31 ≤ old) != decide (2 ^ 31 ≤ new)) hst
    testBit_CFLAG testBit_CMASK i
  rw [← h]
  unfold CSET
  dsimp only
  by_cases c : (old &&& SIGNBIT) ^^^ (new &&& SIGNBIT) ≠ 0
  · rw [if_pos c, if_pos ((cset_cond old new ho hn).1 c)]
  · rw [if_neg c, if_neg (fun e => c ((cset_cond old new ho hn).2 e))]

theorem CSET_lt (old new : Nat) (s : tzCore) (hst : s.status < 2 ^ 32) :
    (CSET old new s).status < 2 ^ 32 := by
  unfold CSET
  dsimp only
  split_ifs
  · exact Nat.or_lt_two_pow hst (by decide)
  · exact Nat.lt_of_le_of_lt Nat.and_le_left hst

/-- The bits of the status word after `SETFLAGS`. -/
theorem SETFLAGS_bits (old new : Nat) (s : tzCore) (hst : s.status < 2 ^ 32)
    (ho : old < 2 ^ 32) (hn : new < 2 ^ 32) :
    (SETFLAGS old new s).status.testBit 0 = decide (new = 0) ∧
    (SETFLAGS old new s).status.testBit 1 = decide (2 ^ 31 ≤ new) ∧
    (SETFLAGS old new s).status.testBit 2 = (decide (2 ^ 31 ≤ old) != decide (2 ^ 31 ≤ new)) ∧
    ∀ i, 3 ≤ i → (SETFLAGS old new s).status.testBit i = s.status.testBit i := by
  have hz := ZSET_lt (decide (new = 0)) s hst
  have hnl := NSET_lt (decide (2 ^ 31 ≤ new)) _ hz
  unfold SETFLAGS
  refine ⟨?_, ?_, ?_, ?_⟩
  · rw [CSET_bit old new _ hnl ho hn, if_neg (by decide), NSET_bit _ _ hz, if_neg (by decide),
      ZSET_bit _ _ hst, if_pos rfl]
  · rw [CSET_bit old new _ hnl ho hn, if_neg (by decide), NSET_bit _ _ hz, if_pos rfl]
  · rw [CSET_bit old new _ hnl ho hn, if_pos rfl]
  · intro i hi
    rw [CSET_bit old new _ hnl ho hn, if_neg (by omega), NSET_bit _ _ hz, if_neg (by omega),
      ZSET_bit _ _ hst, if_neg (by omega)]

/-- The status word stays inside 32 bits under `SETFLAGS`. -/
theorem SETFLAGS_lt (old new : Nat) (s : tzCore) (hst : s.status < 2 ^ 32) :
    (SETFLAGS old new s).status < 2 ^ 32 :=
  CSET_lt old new _ (NSET_lt _ _ (ZSET_lt _ s hst))

/-! ## ALU instructions (C11, C12) -/

@[simp] theorem SETFLAGS_reg (a b : Nat) (s : tzCore) : (SETFLAGS a b s).reg = s.reg := rfl

@[simp] theorem SETFLAGS_memory (a b : Nat) (s : tzCore) :
    (SETFLAGS a b s).memory = s.memory := rfl

@[simp] theorem SETFLAGS_programSize (a b : Nat) (s : tzCore) :
    (SETFLAGS a b s).programSize = s.programSize := rfl

theorem SETFLAGS_status_congr (a b : Nat) (s t : tzCore) (h : s.status = t.status) :
    (SETFLAGS a b s).status = (SETFLAGS a b t).status := by
  unfold SETFLAGS CSET NSET ZSET
  dsimp only
  rw [h]

theorem getSigned_reg (s : tzCore) (pc o j : Nat) (hj : j ≠ 15) :
    (core_fnGetSignedData s pc o).2.reg j = s.reg j := by
  unfold core_fnGetSignedData; dsimp only; split_ifs <;> simp [hj]

@[simp] theorem getSigned_status (s : tzCore) (pc o : Nat) :
    (core_fnGetSignedData s pc o).2.status = s.status := by
  unfold core_fnGetSignedData; dsimp only; split_ifs <;> simp

@[simp] theorem getSigned_memory (s : tzCore) (pc o : Nat) :
    (core_fnGetSignedData s pc o).2.memory = s.memory := by
  unfold core_fnGetSignedData; dsimp only; split_ifs <;> simp

theorem getSigned_lt (s : tzCore) (pc o : Nat) : (core_fnGetSignedData s pc o).1 < 2 ^ 32 := by
  unfold core_fnGetSignedData u32; dsimp only; split_ifs <;> dsimp only <;> omega

theorem getUnsigned_reg (s : tzCore) (pc o j : Nat) (hj : j ≠ 15) :
    (core_fnGetUnsignedData s pc o).2.reg j = s.reg j := by
  unfold core_fnGetUnsignedData; dsimp only; split_ifs <;> simp [hj]

@[simp] theorem getUnsigned_status (s : tzCore) (pc o : Nat) :
    (core_fnGetUnsignedData s pc o).2.status = s.status := by
  unfold core_fnGetUnsignedData; dsimp only; split_ifs <;> simp

/-- Integer `ADD` away from `PC`: the register and the status word it leaves. -/
theorem opADD_int (H : Host) (s : tzCore) (hint : MEM s (PC s) &&& FLOAT32 ≠ FLOAT32)
    (hdst : aluDst s ≠ 15) :
    (opADD H s).reg (aluDst s) = u32 (s.reg (aluDst s) + aluOperand s) ∧
    (opADD H s).status =
      (SETFLAGS (s.reg (aluDst s)) (u32 (s.reg (aluDst s) + aluOperand s)) s).status := by
  unfold opADD aluOperand
  unfold aluDst at hdst ⊢
  by_cases hm : MEM s (PC s) &&& MODE_REG = MODE_REG
  · rw [if_pos hm] at hdst
    simp only [if_pos hm, if_neg hint]
    simp only [INC_PC_reg, if_neg hdst, SETFLAGS_reg, setReg_reg, if_true, INC_PC_status,
      true_and]
    exact SETFLAGS_status_congr _ _ _ _ rfl
  · rw [if_neg hm] at hdst
    simp only [if_neg hm, if_neg hint]
    simp only [INC_PC_reg, if_neg hdst, SETFLAGS_reg, setReg_reg, if_true, INC_PC_status,
      getSigned_reg _ _ _ _ hdst, true_and]
    exact SETFLAGS_status_congr _ _ _ _ (by simp)

/-- Integer `SUB` away from `PC`: the register and the status word it leaves. -/
theorem opSUB_int (H : Host) (s : tzCore) (hint : MEM s (PC s) &&& FLOAT32 ≠ FLOAT32)
    (hdst : aluDst s ≠ 15) :
    (opSUB H s).reg (aluDst s) = u32 (2 ^ 32 + s.reg (aluDst s) - aluOperand s) ∧
    (opSUB H s).status =
      (SETFLAGS (s.reg (aluDst s)) (u32 (2 ^ 32 + s.reg (aluDst s) - aluOperand s)) s).status := by
  unfold opSUB aluOperand
  unfold aluDst at hdst ⊢
  by_cases hm : MEM s (PC s) &&& MODE_REG = MODE_REG
  · rw [if_pos hm] at hdst
    simp only [if_pos hm, if_neg hint]
    simp only [INC_PC_reg, if_neg hdst, SETFLAGS_reg, setReg_reg, if_true, INC_PC_status,
      true_and]
    exact SETFLAGS_status_congr _ _ _ _ rfl
  · rw [if_neg hm] at hdst
    simp only [if_neg hm, if_neg hint]
    simp only [INC_PC_reg, if_neg hdst, SETFLAGS_reg, setReg_reg, if_true, INC_PC_status,
      getSigned_reg _ _ _ _ hdst, true_and]
    exact SETFLAGS_status_congr _ _ _ _ (by simp)

/-- Integer `MUL` away from `PC`: the register and the status word it leaves. -/
theorem opMUL_int (H : Host) (s : tzCore) (hint : MEM s (PC s) &&& FLOAT32 ≠ FLOAT32)
    (hdst : aluDst s ≠ 15) :
    (opMUL H s).reg (aluDst s) = u32 (s.reg (aluDst s) * aluOperand s) ∧
    (opMUL H s).status =
      (SETFLAGS (s.reg (aluDst s)) (u32 (s.reg (aluDst s) * aluOperand s)) s).status := by
  unfold opMUL aluOperand
  unfold aluDst at hdst ⊢
  by_cases hm : MEM s (PC s) &&& MODE_REG = MODE_REG
  · rw [if_pos hm] at hdst
    simp only [if_pos hm, if_neg hint]
    simp only [INC_PC_reg, if_neg hdst, SETFLAGS_reg, setReg_reg, if_true, INC_PC_status,
      true_and]
    exact SETFLAGS_status_congr _ _ _ _ rfl
  · rw [if_neg hm] at hdst
    simp only [if_neg hm, if_neg hint]
    simp only [INC_PC_reg, if_neg hdst, SETFLAGS_reg, setReg_reg, if_true, INC_PC_status,
      getSigned_reg _ _ _ _ hdst, true_and]
    exact SETFLAGS_status_congr _ _ _ _ (by simp)

/-- Integer `DIV` away from `PC`: the register and the status word it leaves. -/
theorem opDIV_int (H : Host) (s : tzCore) (hint : MEM s (PC s) &&& FLOAT32 ≠ FLOAT32)
    (hdst : aluDst s ≠ 15) :
    (opDIV H s).reg (aluDst s) = u32 (sdiv (s.reg (aluDst s)) (aluOperand s)) ∧
    (opDIV H s).status =
      (SETFLAGS (s.reg (aluDst s)) (u32 (sdiv (s.reg (aluDst s)) (aluOperand s))) s).status := by
  unfold opDIV aluOperand
  unfold aluDst at hdst ⊢
  by_cases hm : MEM s (PC s) &&& MODE_REG = MODE_REG
  · rw [if_pos hm] at hdst
    simp only [if_pos hm, if_neg hint]
    simp only [INC_PC_reg, if_neg hdst, SETFLAGS_reg, setReg_reg, if_true, INC_PC_status,
      true_and]
    exact SETFLAGS_status_congr _ _ _ _ rfl
  · rw [if_neg hm] at hdst
    simp only [if_neg hm, if_neg hint]
    simp only [INC_PC_reg, if_neg hdst, SETFLAGS_reg, setReg_reg, if_true, INC_PC_status,
      getSigned_reg _ _ _ _ hdst, true_and]
    exact SETFLAGS_status_congr _ _ _ _ (by simp)

/-- Handler `opAND` away from `PC`: the register and the status word it leaves. -/
theorem opAND_int (s : tzCore) (hdst : aluDst s ≠ 15) :
    (opAND s).reg (aluDst s) = u32 (s.reg (aluDst s) &&& aluOperand s) ∧
    (opAND s).status =
      (SETFLAGS (s.reg (aluDst s)) (u32 (s.reg (aluDst s) &&& aluOperand s)) s).status := by
  unfold opAND aluOperand
  unfold aluDst at hdst ⊢
  by_cases hm : MEM s (PC s) &&& MODE_REG = MODE_REG
  · rw [if_pos hm] at hdst
    simp only [if_pos hm]
    simp only [INC_PC_reg, if_neg hdst, SETFLAGS_reg, setReg_reg, if_true, true_and]
    exact SETFLAGS_status_congr _ _ _ _ (by simp)
  · rw [if_neg hm] at hdst
    simp only [if_neg hm]
    simp only [INC_PC_reg, if_neg hdst, SETFLAGS_reg, setReg_reg, if_true,
      getSigned_reg _ _ _ _ hdst, true_and]
    exact SETFLAGS_status_congr _ _ _ _ (by simp)

/-- Handler `opOR` away from `PC`: the register and the status word it leaves. -/
theorem opOR_int (s : tzCore) (hdst : aluDst s ≠ 15) :
    (opOR s).reg (aluDst s) = u32 (s.reg (aluDst s) ||| aluOperand s) ∧
    (opOR s).status =
      (SETFLAGS (s.reg (aluDst s)) (u32 (s.reg (aluDst s) ||| aluOperand s)) s).status := by
  unfold opOR aluOperand
  unfold aluDst at hdst ⊢
  by_cases hm : MEM s (PC s) &&& MODE_REG = MODE_REG
  · rw [if_pos hm] at hdst
    simp only [if_pos hm]
    simp only [INC_PC_reg, if_neg hdst, SETFLAGS_reg, setReg_reg, if_true, true_and]
    exact SETFLAGS_status_congr _ _ _ _ (by simp)
  · rw [if_neg hm] at hdst
    simp only [if_neg hm]
    simp only [INC_PC_reg, if_neg hdst, SETFLAGS_reg, setReg_reg, if_true,
      getSigned_reg _ _ _ _ hdst, true_and]
    exact SETFLAGS_status_congr _ _ _ _ (by simp)


theorem u32_lt (x : Nat) : u32 x < 2 ^ 32 := by unfold u32; omega

/-- The test `x & FLAG` of a one-bit flag reads that bit. -/
theorem and_flag_ne (x k F : Nat) (hF : F = 2 ^ k) : x &&& F ≠ 0 ↔ x.testBit k = true := by
  rw [hF, Nat.and_two_pow]
  have h : 0 < 2 ^ k := Nat.two_pow_pos k
  cases x.testBit k
  · simp
  · simp [Nat.ne_of_gt h]

theorem bne_decide_iff (A B : Prop) [Decidable A] [Decidable B] :
    (decide A != decide B) = true ↔ ¬ (A ↔ B) := by
  by_cases a : A <;> by_cases b : B <;> simp [a, b]

/-- The flags after `SETFLAGS` on the new value of a register. -/
theorem flags_of_nf (s t : tzCore) (d v : Nat) (hreg : t.reg d = u32 v)
    (hstat : t.status = (SETFLAGS (s.reg d) (u32 v) s).status)
    (hd : s.reg d < 2 ^ 32) (hst : s.status < 2 ^ 32) :
    (t.status &&& ZFLAG ≠ 0 ↔ t.reg d = 0) ∧
    (t.status &&& NFLAG ≠ 0 ↔ 2 ^ 31 ≤ t.reg d) ∧
    (t.status &&& CFLAG ≠ 0 ↔ ¬ (2 ^ 31 ≤ s.reg d ↔ 2 ^ 31 ≤ t.reg d)) ∧
    ∀ i, 3 ≤ i → t.status.testBit i = s.status.testBit i := by
  obtain ⟨b0, b1, b2, b3⟩ := SETFLAGS_bits (s.reg d) (u32 v) s hst hd (u32_lt v)
  rw [and_flag_ne _ 0 ZFLAG (by decide), and_flag_ne _ 1 NFLAG (by decide),
    and_flag_ne _ 2 CFLAG (by decide), hstat, hreg, b0, b1, b2]
  exact ⟨decide_eq_true_iff, decide_eq_true_iff, bne_decide_iff _ _, b3⟩

/-- The zero flag after `SETFLAGS`, whatever the old value was. -/
theorem zflag_of_nf (s t : tzCore) (d o v : Nat) (hreg : t.reg d = u32 v)
    (hstat : t.status = (SETFLAGS o (u32 v) s).status) :
    t.status &&& ZFLAG ≠ 0 ↔ t.reg d = 0 := by
  rw [and_flag_ne _ 0 ZFLAG (by decide), hstat, hreg]
  unfold SETFLAGS CSET NSET ZSET
  dsimp only
  split_ifs <;>
    simp_all [Nat.testBit_or, Nat.testBit_and, ZMASK, NMASK, CMASK, ZFLAG, NFLAG, CFLAG]

theorem opNOT_status (s : tzCore) : (opNOT s).status = s.status := by unfold opNOT; simp

theorem opSHR_status (s : tzCore) : (opSHR s).status = s.status := by unfold opSHR; simp

theorem opSHL_status (s : tzCore) : (opSHL s).status = s.status := by unfold opSHL; simp

theorem step_NOT (H : Host) (s : tzCore) (h : MEM s (PC s) &&& 0x1F = 0x0A) :
    step H s = some (opNOT s) := by
  unfold step; rw [h]; rfl

theorem step_SHR (H : Host) (s : tzCore) (h : MEM s (PC s) &&& 0x1F = 0x0B) :
    step H s = some (opSHR s) := by
  unfold step; rw [h]; rfl

theorem step_MOV (H : Host) (s : tzCore) (h : MEM s (PC s) &&& 0x1F = 0x03) :
    step H s = some (opMOV s) := by
  unfold step; rw [h]; rfl

theorem step_ADD (H : Host) (s : tzCore) (h : MEM s (PC s) &&& 0x1F = 0x04) :
    step H s = some (opADD H s) := by
  unfold step; rw [h]; rfl

theorem step_CMP (H : Host) (s : tzCore) (h : MEM s (PC s) &&& 0x1F = 0x16) :
    step H s = some (opCMP H s) := by
  unfold step; rw [h]; rfl

set_option maxRecDepth 100000 in
/-- C11 (counterexample): `NOT`, `SHR` and `SHL` have no `SETFLAGS`.  After
`NOT R0 ; NOT R0` from a fresh core R0 is 0 and Z is clear; after
`MOV.B R0, 1 ; SHR.B R0, 1` R0 is 0 and Z is clear.  With PC as destination the flags
are those of the value before the final advance: `ADD.B PC, −1` at address 0 sets Z and
leaves PC = 2. -/
theorem C11_counterexample :
    step plainHost notCore = some (opNOT notCore) ∧
    step plainHost (opNOT notCore) = some (opNOT (opNOT notCore)) ∧
    (opNOT (opNOT notCore)).reg 0 = 0 ∧ (opNOT (opNOT notCore)).status &&& ZFLAG = 0 ∧
    step plainHost shrCore = some (opMOV shrCore) ∧
    step plainHost (opMOV shrCore) = some (opSHR (opMOV shrCore)) ∧
    (opMOV shrCore).reg 0 = 1 ∧
    (opSHR (opMOV shrCore)).reg 0 = 0 ∧ (opSHR (opMOV shrCore)).status &&& ZFLAG = 0 ∧
    step plainHost addPcCore = some (opADD plainHost addPcCore) ∧
    MEM addPcCore (PC addPcCore) &&& FLOAT32 ≠ FLOAT32 ∧ aluDst addPcCore = 15 ∧
    (opADD plainHost addPcCore).reg 15 = 2 ∧
    (opADD plainHost addPcCore).status &&& ZFLAG ≠ 0 :=
  ⟨step_NOT _ _ (by decide), step_NOT _ _ (by decide), by decide, by decide,
    step_MOV _ _ (by decide), step_SHR _ _ (by decide), by decide, by decide, by decide,
    step_ADD _ _ (by decide), by decide, by decide, by decide, by decide⟩

/-- The zero flag after `SETFLAGS` says that the value is 0. -/
theorem zflag_SETFLAGS (o v : Nat) (s : tzCore) :
    (SETFLAGS o v s).status &&& ZFLAG ≠ 0 ↔ v = 0 := by
  rw [and_flag_ne _ 0 ZFLAG (by decide)]
  unfold SETFLAGS CSET NSET ZSET
  dsimp only
  split_ifs <;>
    simp_all [Nat.testBit_or, Nat.testBit_and, ZMASK, NMASK, CMASK, ZFLAG, NFLAG, CFLAG]

/-- Handler `opAND` sets Z from the destination as it is after the advance, whatever
the destination. -/
theorem opAND_zero_flag (s : tzCore) :
    (opAND s).status &&& ZFLAG ≠ 0 ↔ (opAND s).reg (aluDst s) = 0 := by
  unfold opAND aluDst
  by_cases hm : MEM s (PC s) &&& MODE_REG = MODE_REG
  · simp only [if_pos hm]
    rw [zflag_SETFLAGS, SETFLAGS_reg]
  · simp only [if_neg hm]
    rw [zflag_SETFLAGS, SETFLAGS_reg]

/-- Handler `opOR` sets Z from the destination as it is after the advance, whatever
the destination. -/
theorem opOR_zero_flag (s : tzCore) :
    (opOR s).status &&& ZFLAG ≠ 0 ↔ (opOR s).reg (aluDst s) = 0 := by
  unfold opOR aluDst
  by_cases hm : MEM s (PC s) &&& MODE_REG = MODE_REG
  · simp only [if_pos hm]
    rw [zflag_SETFLAGS, SETFLAGS_reg]
  · simp only [if_neg hm]
    rw [zflag_SETFLAGS, SETFLAGS_reg]

/-- C11 (amended): after an integer-view `ADD`, `SUB`, `MUL` or `DIV` with a destination
register other than PC, and after an `AND` or `OR` with any destination register, in
register or immediate mode, the Z flag is set if and only if the resulting value of
the destination register is exactly 0; `NOT`, `SHR` and `SHL` leave the status word as
it was.  The `DIV` is one whose division is defined: it has no result for a zero
divisor and for `INT_MIN / -1`, and a result in every other case. -/
theorem C11_zero_flag (H : Host) (s : tzCore) (hint : MEM s (PC s) &&& FLOAT32 ≠ FLOAT32) :
    (aluDst s ≠ 15 →
      (∀ h ∈ flagsBeforeAdvance H,
        ((h s).status &&& ZFLAG ≠ 0 ↔ (h s).reg (aluDst s) = 0)) ∧
      ∀ t, opDIVStrict H s = some t → (t.status &&& ZFLAG ≠ 0 ↔ t.reg (aluDst s) = 0)) ∧
    (∀ h ∈ flagsAfterAdvance, ((h s).status &&& ZFLAG ≠ 0 ↔ (h s).reg (aluDst s) = 0)) ∧
    (∀ h ∈ statusFreeHandlers, (h s).status = s.status) ∧
    (opDIVStrict H s = none ↔
      (toInt (aluOperand s) = 0 ∨
        (toInt (cmpLhs s) = -2 ^ 31 ∧ toInt (aluOperand s) = -1))) := by
  refine ⟨fun hdst => ⟨?_, ?_⟩, ?_, ?_, ?_⟩
  · intro h hh
    simp only [flagsBeforeAdvance, List.mem_cons, List.mem_singleton, List.not_mem_nil,
      or_false] at hh
    rcases hh with rfl | rfl | rfl
    · exact zflag_of_nf s _ _ _ _ (opADD_int H s hint hdst).1 (opADD_int H s hint hdst).2
    · exact zflag_of_nf s _ _ _ _ (opSUB_int H s hint hdst).1 (opSUB_int H s hint hdst).2
    · exact zflag_of_nf s _ _ _ _ (opMUL_int H s hint hdst).1 (opMUL_int H s hint hdst).2
  · intro t ht
    rw [opDIVStrict_some H s t ht]
    exact zflag_of_nf s _ _ _ _ (opDIV_int H s hint hdst).1 (opDIV_int H s hint hdst).2
  · intro h hh
    simp only [flagsAfterAdvance, List.mem_cons, List.mem_singleton, List.not_mem_nil,
      or_false] at hh
    rcases hh with rfl | rfl
    · exact opAND_zero_flag s
    · exact opOR_zero_flag s
  · intro h hh
    simp only [statusFreeHandlers, List.mem_cons, List.mem_singleton, List.not_mem_nil,
      or_false] at hh
    rcases hh with rfl | rfl | rfl
    · exact opNOT_status s
    · exact opSHR_status s
    · exact opSHL_status s
  · unfold opDIVStrict
    rw [if_neg hint]
    by_cases c1 : toInt (aluOperand s) = 0
    · rw [if_pos c1]
      exact ⟨fun _ => Or.inl c1, fun _ => rfl⟩
    · rw [if_neg c1]
      by_cases c2 : toInt (cmpLhs s) = -2 ^ 31 ∧ toInt (aluOperand s) = -1
      · rw [if_pos c2]
        exact ⟨fun _ => Or.inr c2, fun _ => rfl⟩
      · rw [if_neg c2]
        exact ⟨fun h => (by cases h), fun h => absurd h (by rintro (h | h) <;> contradiction)⟩

set_option maxRecDepth 100000 in
/-- C11 (witness): `DIV.B R1, 2` with R1 = 7 leaves R1 = 3 with Z clear. -/
theorem C11_zero_flag_witness :
    (opDIVStrict plainHost divCore).map (fun t => (t.reg 1, t.status &&& ZFLAG)) =
      some (3, 0) ∧
    aluDst divCore = 1 ∧
    ((aluDst divCore ≠ 15 →
      (∀ h ∈ flagsBeforeAdvance plainHost,
        ((h divCore).status &&& ZFLAG ≠ 0 ↔ (h divCore).reg (aluDst divCore) = 0)) ∧
      ∀ t, opDIVStrict plainHost divCore = some t →
        (t.status &&& ZFLAG ≠ 0 ↔ t.reg (aluDst divCore) = 0)) ∧
    (∀ h ∈ flagsAfterAdvance,
      ((h divCore).status &&& ZFLAG ≠ 0 ↔ (h divCore).reg (aluDst divCore) = 0)) ∧
    (∀ h ∈ statusFreeHandlers, (h divCore).status = divCore.status) ∧
    (opDIVStrict plainHost divCore = none ↔
      (toInt (aluOperand divCore) = 0 ∨
        (toInt (cmpLhs divCore) = -2 ^ 31 ∧ toInt (aluOperand divCore) = -1)))) :=
  ⟨by decide, by decide, C11_zero_flag plainHost divCore (by decide)⟩

/-- C12: for `ADD`, `SUB`, `MUL`, `AND` and `OR` on the integer view, in register or
immediate mode and with a destination other than PC, the destination receives the
result modulo 2^32, Z says that it is 0, N is its sign bit, C says that the sign bit of
the destination changed, and no other bit of the status word changes. -/
theorem C12_alu_result_and_flags (H : Host) (s : tzCore)
    (p : (tzCore → tzCore) × (Int → Int → Int)) (hp : p ∈ aluOps H)
    (hint : MEM s (PC s) &&& FLOAT32 ≠ FLOAT32) (hdst : aluDst s ≠ 15)
    (hd : s.reg (aluDst s) < 2 ^ 32) (ho : aluOperand s < 2 ^ 32)
    (hst : s.status < 2 ^ 32) :
    ((p.1 s).reg (aluDst s) : Int) = p.2 (s.reg (aluDst s)) (aluOperand s) % 2 ^ 32 ∧
    ((p.1 s).status &&& ZFLAG ≠ 0 ↔ (p.1 s).reg (aluDst s) = 0) ∧
    ((p.1 s).status &&& NFLAG ≠ 0 ↔ 2 ^ 31 ≤ (p.1 s).reg (aluDst s)) ∧
    ((p.1 s).status &&& CFLAG ≠ 0 ↔
      ¬ (2 ^ 31 ≤ s.reg (aluDst s) ↔ 2 ^ 31 ≤ (p.1 s).reg (aluDst s))) ∧
    ∀ i, 3 ≤ i → (p.1 s).status.testBit i = s.status.testBit i := by
  simp only [aluOps, List.mem_cons, List.mem_singleton, List.not_mem_nil, or_false] at hp
  rcases hp with rfl | rfl | rfl | rfl | rfl
  · refine ⟨?_, flags_of_nf s _ _ _ (opADD_int H s hint hdst).1 (opADD_int H s hint hdst).2 hd hst⟩
    rw [(opADD_int H s hint hdst).1]
    unfold u32
    push_cast
    rfl
  · refine ⟨?_, flags_of_nf s _ _ _ (opSUB_int H s hint hdst).1 (opSUB_int H s hint hdst).2 hd hst⟩
    rw [(opSUB_int H s hint hdst).1]
    unfold u32
    dsimp only
    omega
  · refine ⟨?_, flags_of_nf s _ _ _ (opMUL_int H s hint hdst).1 (opMUL_int H s hint hdst).2 hd hst⟩
    rw [(opMUL_int H s hint hdst).1]
    unfold u32
    push_cast
    rfl
  · refine ⟨?_, flags_of_nf s _ _ _ (opAND_int s hdst).1 (opAND_int s hdst).2 hd hst⟩
    rw [(opAND_int s hdst).1]
    have hlt : s.reg (aluDst s) &&& aluOperand s < 2 ^ 32 := Nat.lt_of_le_of_lt Nat.and_le_left hd
    rw [u32_of_lt _ hlt]
    dsimp only
    rw [Int.toNat_ofNat, Int.toNat_ofNat]
    omega
  · refine ⟨?_, flags_of_nf s _ _ _ (opOR_int s hdst).1 (opOR_int s hdst).2 hd hst⟩
    rw [(opOR_int s hdst).1]
    have hlt : s.reg (aluDst s) ||| aluOperand s < 2 ^ 32 := Nat.or_lt_two_pow hd ho
    rw [u32_of_lt _ hlt]
    dsimp only
    rw [Int.toNat_ofNat, Int.toNat_ofNat]
    omega

set_option maxRecDepth 100000 in
/-- C12 (witness): `ADD.B R1, −128` on a fresh core leaves R1 = 0xFFFFFF80 with N and C
set and Z clear. -/
theorem C12_alu_result_and_flags_witness :
    (opADD plainHost addCore).reg 1 = 0xFFFFFF80 ∧
    (((opADD plainHost addCore).reg (aluDst addCore) : Int) =
        ((addCore.reg (aluDst addCore) : Int) + (aluOperand addCore : Int)) % 2 ^ 32 ∧
      ((opADD plainHost addCore).status &&& ZFLAG ≠ 0 ↔
        (opADD plainHost addCore).reg (aluDst addCore) = 0) ∧
      ((opADD plainHost addCore).status &&& NFLAG ≠ 0 ↔
        2 ^ 31 ≤ (opADD plainHost addCore).reg (aluDst addCore)) ∧
      ((opADD plainHost addCore).status &&& CFLAG ≠ 0 ↔
        ¬ (2 ^ 31 ≤ addCore.reg (aluDst addCore) ↔
          2 ^ 31 ≤ (opADD plainHost addCore).reg (aluDst addCore))) ∧
      ∀ i, 3 ≤ i → (opADD plainHost addCore).status.testBit i = addCore.status.testBit i) :=
  ⟨by decide,
    C12_alu_result_and_flags plainHost addCore (opADD plainHost, fun a b => a + b)
      (List.mem_cons_self _ _) (by decide) (by decide) (by decide) (by decide) (by decide)⟩

/-! ## Instruction `CMP` (C13) -/

/-- Integer `CMP`: what it leaves. -/
theorem opCMP_int (H : Host) (s : tzCore) (hint : MEM s (PC s) &&& FLOAT32 ≠ FLOAT32) :
    (∀ j, j ≠ 15 → (opCMP H s).reg j = s.reg j) ∧ (opCMP H s).memory = s.memory ∧
    (opCMP H s).status =
      (SETFLAGS (cmpLhs s) (u32 (2 ^ 32 + cmpLhs s - aluOperand s)) s).status := by
  unfold opCMP cmpLhs aluOperand aluDst
  by_cases hm : MEM s (PC s) &&& MODE_REG = MODE_REG
  · simp only [if_pos hm, if_neg hint]
    refine ⟨?_, ?_, ?_⟩
    · intro j hj
      simp [hj]
    · simp
    · simp only [INC_PC_status]
  · simp only [if_neg hm, if_neg hint]
    refine ⟨?_, ?_, ?_⟩
    · intro j hj
      simp [hj, getSigned_reg _ _ _ _ hj]
    · simp
    · simp only [INC_PC_status]
      exact SETFLAGS_status_congr _ _ _ _ (by simp)

/-- C13: integer `CMP`, in register or immediate mode, writes nothing back: every
register other than PC and the whole memory are unchanged; Z is set iff lhs = rhs, N is
the sign bit of (lhs − rhs) mod 2^32 and C says that this sign bit differs from the one
of lhs.  Here lhs is `REG[dst]` as the handler reads it, which is the register before
the instruction whenever the mode is register mode or dst is not PC. -/
theorem C13_cmp_no_write_back (H : Host) (s : tzCore)
    (hint : MEM s (PC s) &&& FLOAT32 ≠ FLOAT32) (hst : s.status < 2 ^ 32)
    (hl : cmpLhs s < 2 ^ 32) (hr : aluOperand s < 2 ^ 32) :
    (∀ j, j ≠ 15 → (opCMP H s).reg j = s.reg j) ∧ (opCMP H s).memory = s.memory ∧
    ((MEM s (PC s) &&& MODE_REG = MODE_REG ∨ aluDst s ≠ 15) →
      cmpLhs s = s.reg (aluDst s)) ∧
    ((opCMP H s).status &&& ZFLAG ≠ 0 ↔ cmpLhs s = aluOperand s) ∧
    ((opCMP H s).status &&& NFLAG ≠ 0 ↔
      2 ^ 31 ≤ ((cmpLhs s : Int) - (aluOperand s : Int)) % 2 ^ 32) ∧
    ((opCMP H s).status &&& CFLAG ≠ 0 ↔
      ¬ (2 ^ 31 ≤ cmpLhs s ↔ 2 ^ 31 ≤ ((cmpLhs s : Int) - (aluOperand s : Int)) % 2 ^ 32)) ∧
    ∀ i, 3 ≤ i → (opCMP H s).status.testBit i = s.status.testBit i := by
  obtain ⟨hregs, hmem, hstat⟩ := opCMP_int H s hint
  obtain ⟨b0, b1, b2, b3⟩ := SETFLAGS_bits (cmpLhs s) (u32 (2 ^ 32 + cmpLhs s - aluOperand s)) s
    hst hl (u32_lt _)
  have hz : u32 (2 ^ 32 + cmpLhs s - aluOperand s) = 0 ↔ cmpLhs s = aluOperand s := by
    unfold u32; omega
  have hn : 2 ^ 31 ≤ u32 (2 ^ 32 + cmpLhs s - aluOperand s) ↔
      2 ^ 31 ≤ ((cmpLhs s : Int) - (aluOperand s : Int)) % 2 ^ 32 := by
    unfold u32; omega
  refine ⟨hregs, hmem, ?_, ?_, ?_, ?_, ?_⟩
  · intro h
    unfold cmpLhs
    by_cases hm : MEM s (PC s) &&& MODE_REG = MODE_REG
    · rw [if_pos hm]
    · rw [if_neg hm]
      exact getSigned_reg _ _ _ _ (h.resolve_left hm)
  · rw [and_flag_ne _ 0 ZFLAG (by decide), hstat, b0, decide_eq_true_iff]
    exact hz
  · rw [and_flag_ne _ 1 NFLAG (by decide), hstat, b1, decide_eq_true_iff]
    exact hn
  · rw [and_flag_ne _ 2 CFLAG (by decide), hstat, b2, bne_decide_iff, hn]
  · intro i hi
    rw [hstat]
    exact b3 i hi

set_option maxRecDepth 100000 in
/-- C13 (witness): `CMP.B R0, 1` on a fresh core, where R0 = 0: R0 stays 0, Z is clear
and N is set. -/
theorem C13_cmp_no_write_back_witness :
    (opCMP plainHost cmpCore).reg 0 = 0 ∧ (opCMP plainHost cmpCore).status &&& ZFLAG = 0 ∧
    (opCMP plainHost cmpCore).status &&& NFLAG ≠ 0 ∧
    ((∀ j, j ≠ 15 → (opCMP plainHost cmpCore).reg j = cmpCore.reg j) ∧
      (opCMP plainHost cmpCore).memory = cmpCore.memory ∧
      ((MEM cmpCore (PC cmpCore) &&& MODE_REG = MODE_REG ∨ aluDst cmpCore ≠ 15) →
        cmpLhs cmpCore = cmpCore.reg (aluDst cmpCore)) ∧
      ((opCMP plainHost cmpCore).status &&& ZFLAG ≠ 0 ↔ cmpLhs cmpCore = aluOperand cmpCore) ∧
      ((opCMP plainHost cmpCore).status &&& NFLAG ≠ 0 ↔
        2 ^ 31 ≤ ((cmpLhs cmpCore : Int) - (aluOperand cmpCore : Int)) % 2 ^ 32) ∧
      ((opCMP plainHost cmpCore).status &&& CFLAG ≠ 0 ↔
        ¬ (2 ^ 31 ≤ cmpLhs cmpCore ↔
          2 ^ 31 ≤ ((cmpLhs cmpCore : Int) - (aluOperand cmpCore : Int)) % 2 ^ 32)) ∧
      ∀ i, 3 ≤ i → (opCMP plainHost cmpCore).status.testBit i = cmpCore.status.testBit i) :=
  ⟨by decide, by decide, by decide,
    C13_cmp_no_write_back plainHost cmpCore (by decide) (by decide) (by decide) (by decide)⟩

/-! ## Conditional jumps (C14) -/

/-- Handler `opJMP` on a WORD-tagged instruction inside the program. -/
theorem opJMP_word (s : tzCore) (hw : MEM s (PC s) &&& (BYTE ||| WORD) = WORD)
    (hin : PC s + 3 ≤ s.programSize) (hp : s.programSize < 2 ^ 31)
    (h1 : MEM s (PC s + 1) < 256) (h2 : MEM s (PC s + 2) < 256) :
    PC (opJMP s) = MEM s (PC s + 1) * 256 + MEM s (PC s + 2) ∧
    (∀ j, j ≠ 15 → (opJMP s).reg j = s.reg j) ∧ (opJMP s).status = s.status ∧
    (opJMP s).memory = s.memory ∧ (opJMP s).running = s.running := by
  have hnb : ¬ (MEM s (PC s) &&& (BYTE ||| WORD) = BYTE) := by rw [hw]; decide
  have e : opJMP s = setReg (INC_PC 2 s) 15
      (u32 (u32 (MEM s (PC s + 1) <<< 8) + MEM s (PC s + (1 + 1)))) := by
    unfold opJMP core_fnGetUnsignedData
    simp only [if_neg hnb, if_pos hw]
  rw [e]
  refine ⟨?_, ?_, ?_, ?_, ?_⟩
  · unfold PC
    rw [setReg_reg, if_pos rfl, Nat.shiftLeft_eq]
    unfold u32
    have : (1 + 1 : Nat) = 2 := rfl
    rw [this]
    unfold PC at h1 h2
    omega
  · intro j hj
    simp [hj]
  · simp
  · simp
  · rw [setReg_running]
    exact INC_PC_running 2 s (by omega) hp

theorem INC_PC_3 (s : tzCore) (hin : PC s + 3 ≤ s.programSize) (hp : s.programSize < 2 ^ 31) :
    PC (INC_PC 3 s) = PC s + 3 ∧
    (∀ j, j ≠ 15 → (INC_PC 3 s).reg j = s.reg j) ∧ (INC_PC 3 s).status = s.status ∧
    (INC_PC 3 s).memory = s.memory ∧ (INC_PC 3 s).running = s.running := by
  refine ⟨?_, ?_, ?_, ?_, ?_⟩
  · unfold PC
    rw [INC_PC_reg, if_pos rfl]
    unfold u32 PC
    unfold PC at hin
    omega
  · intro j hj
    simp [hj]
  · simp
  · simp
  · exact INC_PC_running 3 s hin hp

/-- A conditional jump that tests `flag` and jumps when the outcome is `b`. -/
theorem cond_jump (s : tzCore) (flag : Nat) (b : Bool) (h : tzCore → tzCore)
    (hh : h s = if decide (s.status &&& flag ≠ 0) = b then opJMP s else INC_PC 3 s)
    (hw : MEM s (PC s) &&& (BYTE ||| WORD) = WORD)
    (hin : PC s + 3 ≤ s.programSize) (hp : s.programSize < 2 ^ 31)
    (h1 : MEM s (PC s + 1) < 256) (h2 : MEM s (PC s + 2) < 256) :
    (decide (s.status &&& flag ≠ 0) = b →
      PC (h s) = MEM s (PC s + 1) * 256 + MEM s (PC s + 2)) ∧
    (¬ (decide (s.status &&& flag ≠ 0) = b) → PC (h s) = PC s + 3) ∧
    (∀ j, j ≠ 15 → (h s).reg j = s.reg j) ∧ (h s).status = s.status ∧
    (h s).memory = s.memory ∧ (h s).running = s.running := by
  rw [hh]
  by_cases c : decide (s.status &&& flag ≠ 0) = b
  · rw [if_pos c]
    obtain ⟨a1, a2, a3, a4, a5⟩ := opJMP_word s hw hin hp h1 h2
    exact ⟨fun _ => a1, fun n => absurd c n, a2, a3, a4, a5⟩
  · rw [if_neg c]
    obtain ⟨a1, a2, a3, a4, a5⟩ := INC_PC_3 s hin hp
    exact ⟨fun y => absurd y c, fun _ => a1, a2, a3, a4, a5⟩

/-- C14: for each conditional jump with a WORD-tagged 16-bit target inside the program,
`JZR` jumps iff Z is set, `JNZ` iff Z is clear, `JNE` iff N is set, `JPO` iff N is clear,
`JCA` iff C is set and `JNC` iff Z is clear; a jump taken leaves PC at the target,
otherwise PC advances by 3, and no other register, no flag and no memory byte changes;
the VM keeps running. -/
theorem C14_conditional_jumps (s : tzCore) (p : (tzCore → tzCore) × Nat × Bool)
    (hp : p ∈ condJumps) (hw : MEM s (PC s) &&& (BYTE ||| WORD) = WORD)
    (hin : PC s + 3 ≤ s.programSize) (hsz : s.programSize < 2 ^ 31)
    (h1 : MEM s (PC s + 1) < 256) (h2 : MEM s (PC s + 2) < 256) :
    (decide (s.status &&& p.2.1 ≠ 0) = p.2.2 →
      PC (p.1 s) = MEM s (PC s + 1) * 256 + MEM s (PC s + 2)) ∧
    (¬ (decide (s.status &&& p.2.1 ≠ 0) = p.2.2) → PC (p.1 s) = PC s + 3) ∧
    (∀ j, j ≠ 15 → (p.1 s).reg j = s.reg j) ∧ (p.1 s).status = s.status ∧
    (p.1 s).memory = s.memory ∧ (p.1 s).running = s.running := by
  simp only [condJumps, List.mem_cons, List.mem_singleton, List.not_mem_nil, or_false] at hp
  rcases hp with rfl | rfl | rfl | rfl | rfl | rfl
  · refine cond_jump s ZFLAG true opJZR ?_ hw hin hsz h1 h2
    unfold opJZR
    by_cases c : s.status &&& ZFLAG ≠ 0 <;> simp [c]
  · refine cond_jump s ZFLAG false opJNZ ?_ hw hin hsz h1 h2
    unfold opJNZ
    by_cases c : s.status &&& ZFLAG ≠ 0 <;> simp [c]
  · refine cond_jump s NFLAG true opJNE ?_ hw hin hsz h1 h2
    unfold opJNE
    by_cases c : s.status &&& NFLAG ≠ 0 <;> simp [c]
  · refine cond_jump s NFLAG false opJPO ?_ hw hin hsz h1 h2
    unfold opJPO
    by_cases c : s.status &&& NFLAG ≠ 0 <;> simp [c]
  · refine cond_jump s CFLAG true opJCA ?_ hw hin hsz h1 h2
    unfold opJCA
    by_cases c : s.status &&& CFLAG ≠ 0 <;> simp [c]
  · refine cond_jump s ZFLAG false opJNC ?_ hw hin hsz h1 h2
    unfold opJNC
    by_cases c : s.status &&& ZFLAG ≠ 0 <;> simp [c]

set_option maxRecDepth 100000 in
/-- C14 (witness): `JNC.W 5` at address 0 of a fresh core, whose Z flag is clear, jumps
to 5. -/
theorem C14_conditional_jumps_witness :
    PC (opJNC jncCore) = 5 ∧
    ((decide (jncCore.status &&& ZFLAG ≠ 0) = false →
        PC (opJNC jncCore) = MEM jncCore (PC jncCore + 1) * 256 + MEM jncCore (PC jncCore + 2)) ∧
      (¬ (decide (jncCore.status &&& ZFLAG ≠ 0) = false) → PC (opJNC jncCore) = PC jncCore + 3) ∧
      (∀ j, j ≠ 15 → (opJNC jncCore).reg j = jncCore.reg j) ∧
      (opJNC jncCore).status = jncCore.status ∧
      (opJNC jncCore).memory = jncCore.memory ∧ (opJNC jncCore).running = jncCore.running) :=
  ⟨by decide,
    C14_conditional_jumps jncCore (opJNC, ZFLAG, false) (by simp [condJumps]) (by decide)
      (by decide) (by decide) (by decide) (by decide)⟩

/-! ## Label manager (C15, C16, C17) -/

theorem linkLocale_length (a : Nat) (locs : List Nat) (mem : List Nat) :
    (linkLocale a locs mem).length = mem.length := by
  induction locs generalizing mem with
  | nil => rfl
  | cons s r ih => simp only [linkLocale, ih, List.length_set]

theorem linkLocale_other (a : Nat) (locs : List Nat) (mem : List Nat) (j : Nat)
    (h : j ∉ localeBytes locs) : (linkLocale a locs mem).getD j 0 = mem.getD j 0 := by
  induction locs generalizing mem with
  | nil => rfl
  | cons s r ih =>
    simp only [localeBytes, List.mem_cons, not_or] at h
    obtain ⟨h1, h2, h3⟩ := h
    simp only [linkLocale]
    rw [ih _ h3, getD_set_other _ _ _ _ (Ne.symm h2), getD_set_other _ _ _ _ (Ne.symm h1)]

theorem linkLocale_written (a : Nat) (locs : List Nat) (mem : List Nat)
    (hnd : (localeBytes locs).Nodup) (hin : ∀ b ∈ localeBytes locs, b < mem.length) :
    ∀ s ∈ locs, (linkLocale a locs mem).getD s 0 = (a &&& 0xFF00) >>> 8 ∧
      (linkLocale a locs mem).getD (s + 1) 0 = a &&& 0x00FF := by
  induction locs generalizing mem with
  | nil => intro s hs; cases hs
  | cons x r ih =>
    intro s hs
    simp only [localeBytes, List.nodup_cons, List.mem_cons, not_or] at hnd
    obtain ⟨⟨_, hx⟩, hx1, hr⟩ := hnd
    have hxl : x < mem.length := hin x (by simp [localeBytes])
    have hx1l : x + 1 < mem.length := hin (x + 1) (by simp [localeBytes])
    simp only [linkLocale]
    rcases List.mem_cons.1 hs with rfl | hs
    · rw [linkLocale_other _ _ _ _ hx, linkLocale_other _ _ _ _ hx1]
      constructor
      · rw [getD_set_other _ _ _ _ (by omega), getD_set_same _ _ _ hxl]
      · rw [getD_set_same _ _ _ (by rw [List.length_set]; exact hx1l)]
    · refine ih _ hr ?_ s hs
      intro b hb
      rw [List.length_set, List.length_set]
      exact hin b (by simp [localeBytes, hb])

theorem mem_siteBytes (labels : List backpatchRec) (r : backpatchRec) (hr : r ∈ labels)
    (b : Nat) (hb : b ∈ localeBytes r.locale) : b ∈ siteBytes labels := by
  induction labels with
  | nil => cases hr
  | cons l ls ih =>
    simp only [siteBytes, List.mem_append]
    rcases List.mem_cons.1 hr with rfl | hr
    · exact Or.inl hb
    · exact Or.inr (ih hr)

theorem mem_localeBytes (locs : List Nat) (b : Nat) :
    b ∈ localeBytes locs ↔ ∃ s ∈ locs, b = s ∨ b = s + 1 := by
  induction locs with
  | nil => simp [localeBytes]
  | cons x r ih =>
    simp only [localeBytes, List.mem_cons, ih]
    constructor
    · rintro (h | h | ⟨s, hs, h⟩)
      · exact ⟨x, Or.inl rfl, Or.inl h⟩
      · exact ⟨x, Or.inl rfl, Or.inr h⟩
      · exact ⟨s, Or.inr hs, h⟩
    · rintro ⟨s, rfl | hs, h⟩
      · rcases h with h | h
        · exact Or.inl h
        · exact Or.inr (Or.inl h)
      · exact Or.inr (Or.inr ⟨s, hs, h⟩)

theorem linkLoop_length (labels : List backpatchRec) (st : Int) (mem : List Nat) :
    (linkLoop labels st mem).2.length = mem.length := by
  induction labels generalizing st mem with
  | nil => rfl
  | cons l ls ih =>
    simp only [linkLoop]
    split_ifs
    · exact ih _ _
    · rw [ih, linkLocale_length]

theorem linkLoop_other (labels : List backpatchRec) (st : Int) (mem : List Nat) (j : Nat)
    (h : ∀ r ∈ labels, r.address ≠ 0xFFFF → j ∉ localeBytes r.locale) :
    (linkLoop labels st mem).2.getD j 0 = mem.getD j 0 := by
  induction labels generalizing st mem with
  | nil => rfl
  | cons l ls ih =>
    have hls : ∀ r ∈ ls, r.address ≠ 0xFFFF → j ∉ localeBytes r.locale :=
      fun r hr => h r (List.mem_cons_of_mem _ hr)
    simp only [linkLoop]
    split_ifs with c
    · exact ih _ _ hls
    · rw [ih _ _ hls, linkLocale_other _ _ _ _ (h l (List.mem_cons_self _ _) c)]

theorem linkLoop_written (labels : List backpatchRec) (st : Int) (mem : List Nat)
    (hnd : (siteBytes labels).Nodup) (hin : ∀ b ∈ siteBytes labels, b < mem.length) :
    ∀ r ∈ labels, r.address ≠ 0xFFFF → ∀ s ∈ r.locale,
      (linkLoop labels st mem).2.getD s 0 = (r.address &&& 0xFF00) >>> 8 ∧
      (linkLoop labels st mem).2.getD (s + 1) 0 = r.address &&& 0x00FF := by
  induction labels generalizing st mem with
  | nil => intro r hr; cases hr
  | cons l ls ih =>
    intro r hr hdef s hs
    simp only [siteBytes] at hnd hin
    obtain ⟨hl, hrest, hdisj⟩ := List.nodup_append.1 hnd
    have hinl : ∀ b ∈ localeBytes l.locale, b < mem.length :=
      fun b hb => hin b (List.mem_append_left _ hb)
    have hinr : ∀ b ∈ siteBytes ls, b < mem.length :=
      fun b hb => hin b (List.mem_append_right _ hb)
    simp only [linkLoop]
    rcases List.mem_cons.1 hr with rfl | hr
    · rw [if_neg hdef]
      have hs0 : s ∈ localeBytes r.locale := (mem_localeBytes _ _).2 ⟨s, hs, Or.inl rfl⟩
      have hs1 : s + 1 ∈ localeBytes r.locale := (mem_localeBytes _ _).2 ⟨s, hs, Or.inr rfl⟩
      have n0 : ∀ q ∈ ls, q.address ≠ 0xFFFF → s ∉ localeBytes q.locale :=
        fun q hq _ hb => hdisj hs0 (mem_siteBytes ls q hq s hb)
      have n1 : ∀ q ∈ ls, q.address ≠ 0xFFFF → s + 1 ∉ localeBytes q.locale :=
        fun q hq _ hb => hdisj hs1 (mem_siteBytes ls q hq (s + 1) hb)
      rw [linkLoop_other _ _ _ _ n0, linkLoop_other _ _ _ _ n1]
      exact linkLocale_written _ _ _ hl hinl s hs
    · split_ifs with c
      · exact ih _ _ hrest hinr r hr hdef s hs
      · exact ih _ _ hrest (by rw [linkLocale_length]; exact hinr) r hr hdef s hs

/-- The high byte of a 16-bit address as `LinkLabels` computes it. -/
theorem high_byte_eq (a : Nat) (h : a < 2 ^ 16) : (a &&& 0xFF00) >>> 8 = a >>> 8 := by
  rw [shiftRight_and]
  have e : (0xFF00 : Nat) >>> 8 = 2 ^ 8 - 1 := by decide
  rw [e, Nat.and_pow_two_sub_one_eq_mod, Nat.shiftRight_eq_div_pow]
  omega

/-- C15: for every label list and image whose registered backpatch locations are
pairwise disjoint and inside the image, `LinkLabels` yields the input image with, for
every label that has an address a and every location s registered for it,
memory[s] = a >> 8 and memory[s+1] = a & 0xFF; every other byte, the locations of labels
without address included, is unchanged. -/
theorem C15_link_writes_addresses (labels : List backpatchRec) (mem : List Nat)
    (haddr : ∀ r ∈ labels, r.address < 2 ^ 16)
    (hnd : (siteBytes labels).Nodup) (hin : ∀ b ∈ siteBytes labels, b < mem.length) :
    (LinkLabels labels mem).2.length = mem.length ∧
    (∀ r ∈ labels, r.address ≠ 0xFFFF → ∀ s ∈ r.locale,
      (LinkLabels labels mem).2.getD s 0 = r.address >>> 8 ∧
      (LinkLabels labels mem).2.getD (s + 1) 0 = r.address &&& 0xFF) ∧
    (∀ j, (∀ r ∈ labels, r.address ≠ 0xFFFF → ∀ s ∈ r.locale, j ≠ s ∧ j ≠ s + 1) →
      (LinkLabels labels mem).2.getD j 0 = mem.getD j 0) := by
  unfold LinkLabels
  refine ⟨linkLoop_length _ _ _, ?_, ?_⟩
  · intro r hr hdef s hs
    have h := linkLoop_written labels 0 mem hnd hin r hr hdef s hs
    rw [high_byte_eq _ (haddr r hr)] at h
    exact h
  · intro j hj
    refine linkLoop_other _ _ _ _ ?_
    intro r hr hdef hb
    obtain ⟨s, hs, e⟩ := (mem_localeBytes _ _).1 hb
    have := hj r hr hdef s hs
    omega

set_option maxRecDepth 100000 in
/-- C15 (witness): `JMP.W forward` at 0 (location 1) with `forward` defined at 3 links
bytes 1..2 to 00 03. -/
theorem C15_link_writes_addresses_witness :
    LinkLabels jmpForwardLabels jmpForwardImage = (0, [0x4D, 0x00, 0x03, 0x1B]) ∧
    ((LinkLabels jmpForwardLabels jmpForwardImage).2.length = jmpForwardImage.length ∧
      (∀ r ∈ jmpForwardLabels, r.address ≠ 0xFFFF → ∀ s ∈ r.locale,
        (LinkLabels jmpForwardLabels jmpForwardImage).2.getD s 0 = r.address >>> 8 ∧
        (LinkLabels jmpForwardLabels jmpForwardImage).2.getD (s + 1) 0 = r.address &&& 0xFF) ∧
      (∀ j, (∀ r ∈ jmpForwardLabels, r.address ≠ 0xFFFF → ∀ s ∈ r.locale, j ≠ s ∧ j ≠ s + 1) →
        (LinkLabels jmpForwardLabels jmpForwardImage).2.getD j 0 = jmpForwardImage.getD j 0)) :=
  ⟨by decide,
    C15_link_writes_addresses jmpForwardLabels jmpForwardImage (by decide) (by decide)
      (by decide)⟩

theorem updateLabel_nil (f : backpatchRec → backpatchRec) (n : String) :
    updateLabel f n [] = [f (newLabelRec n)] := rfl

theorem updateLabel_cons_eq (f : backpatchRec → backpatchRec) (n : String) (bp : backpatchRec)
    (rest : List backpatchRec) (h : bp.label = n) :
    updateLabel f n (bp :: rest) = f bp :: rest := by
  unfold updateLabel
  simp only [findLabelRec, if_pos h, writeRec]

theorem updateLabel_cons_ne (f : backpatchRec → backpatchRec) (n : String) (bp : backpatchRec)
    (rest : List backpatchRec) (h : ¬ bp.label = n) :
    updateLabel f n (bp :: rest) = bp :: updateLabel f n rest := by
  unfold updateLabel
  simp only [findLabelRec, if_neg h, writeRec]

/-- The record that `findLabelRec` returns holds the address that `addrOf` reads, and
−1 when the record is new. -/
theorem recAt_find (n : String) (t : List backpatchRec) :
    (recAt (findLabelRec n t).1 (findLabelRec n t).2).address = (addrOf t n).getD 0xFFFF := by
  induction t with
  | nil => rfl
  | cons bp rest ih =>
    by_cases h : bp.label = n
    · simp only [findLabelRec, if_pos h, addrOf, recAt, List.getD_cons_zero, Option.getD_some]
    · simp only [findLabelRec, if_neg h, addrOf]
      exact ih

theorem writeRec_congr (f g : backpatchRec → backpatchRec) (i : Nat) (t : List backpatchRec)
    (h : f (recAt t i) = g (recAt t i)) : writeRec f i t = writeRec g i t := by
  induction t generalizing i with
  | nil => cases i <;> rfl
  | cons bp rest ih =>
    cases i with
    | zero =>
      simp only [writeRec]
      have : f bp = g bp := h
      rw [this]
    | succ i =>
      simp only [writeRec]
      rw [ih i h]

theorem writeRec_id (i : Nat) (t : List backpatchRec) : writeRec (fun bp => bp) i t = t := by
  induction t generalizing i with
  | nil => cases i <;> rfl
  | cons bp rest ih =>
    cases i with
    | zero => rfl
    | succ i => simp only [writeRec, ih]

/-- The assignment of `setLabelAddr` as a function of the record. -/
theorem setLabelAddr_eq (n : String) (a : Nat) (t : List backpatchRec) :
    (setLabelAddr n a t).1 =
      updateLabel (fun bp => if bp.address ≠ 0xFFFF then bp
        else { bp with address := a % 2 ^ 16 }) n t := by
  unfold setLabelAddr updateLabel
  dsimp only
  by_cases h : (recAt (findLabelRec n t).1 (findLabelRec n t).2).address ≠ 0xFFFF
  · rw [if_pos h]
    dsimp only
    rw [writeRec_congr _ (fun bp => bp) _ _ (by simp only [if_pos h]), writeRec_id]
  · rw [if_neg h]
    dsimp only
    exact writeRec_congr _ _ _ _ (by simp only [if_neg h])

theorem findLabelRec_eq (n : String) (t : List backpatchRec) :
    (findLabelRec n t).1 = updateLabel (fun bp => bp) n t := by
  unfold updateLabel
  rw [writeRec_id]

theorem addrOf_update (f : backpatchRec → backpatchRec) (g : Nat → Nat)
    (hl : ∀ r, (f r).label = r.label) (hg : ∀ r, (f r).address = g r.address)
    (n : String) (t : List backpatchRec) (m : String) :
    addrOf (updateLabel f n t) m =
      if m = n then some (g ((addrOf t n).getD 0xFFFF)) else addrOf t m := by
  induction t with
  | nil =>
    rw [updateLabel_nil]
    simp only [addrOf, hl, hg, newLabelRec, Option.getD_none]
    by_cases c : m = n
    · rw [if_pos c, if_pos c.symm]
    · rw [if_neg c, if_neg (fun e => c e.symm)]
  | cons bp rest ih =>
    by_cases h : bp.label = n
    · rw [updateLabel_cons_eq _ _ _ _ h]
      simp only [addrOf, hl, hg, if_pos h, Option.getD_some]
      by_cases c : m = n
      · rw [if_pos c, if_pos (h.trans c.symm)]
      · rw [if_neg c, if_neg (fun e => c (e.symm.trans h)), if_neg (fun e => c (e.symm.trans h))]
    · rw [updateLabel_cons_ne _ _ _ _ h]
      simp only [addrOf, if_neg h, ih]
      by_cases c : m = n
      · rw [if_pos c, if_pos c, if_neg (fun e => h (e.trans c))]
      · rw [if_neg c, if_neg c]

theorem names_update (f : backpatchRec → backpatchRec) (hl : ∀ r, (f r).label = r.label)
    (n : String) (t : List backpatchRec) :
    (updateLabel f n t).map (fun r => r.label) =
      if n ∈ t.map (fun r => r.label) then t.map (fun r => r.label)
      else t.map (fun r => r.label) ++ [n] := by
  induction t with
  | nil => simp [updateLabel_nil, hl, newLabelRec]
  | cons bp rest ih =>
    by_cases h : bp.label = n
    · rw [updateLabel_cons_eq _ _ _ _ h]
      simp [hl, h]
    · rw [updateLabel_cons_ne _ _ _ _ h]
      have h2 : ¬ n = bp.label := fun e => h e.symm
      simp only [List.map_cons, ih, List.mem_cons, h2, false_or]
      split_ifs <;> simp

theorem nodup_update (f : backpatchRec → backpatchRec) (hl : ∀ r, (f r).label = r.label)
    (n : String) (t : List backpatchRec) (h : (t.map (fun r => r.label)).Nodup) :
    ((updateLabel f n t).map (fun r => r.label)).Nodup := by
  rw [names_update f hl]
  split_ifs with c
  · exact h
  · rw [List.nodup_append]
    refine ⟨h, List.nodup_singleton n, ?_⟩
    intro x hx hx2
    rw [List.mem_singleton] at hx2
    exact c (hx2 ▸ hx)

theorem set_keeps_label (a : Nat) (r : backpatchRec) :
    (if r.address ≠ 0xFFFF then r else { r with address := a % 2 ^ 16 }).label = r.label := by
  split_ifs <;> rfl

theorem set_address (a : Nat) (r : backpatchRec) :
    (if r.address ≠ 0xFFFF then r else { r with address := a % 2 ^ 16 }).address =
      (fun x => if x ≠ 0xFFFF then x else a % 2 ^ 16) r.address := by
  dsimp only
  split_ifs <;> rfl

/-- One call of the label manager, seen from a label other than the one it names. -/
theorem run_addrOf_other (c : labelCall) (t : List backpatchRec) (m : String)
    (h : m ≠ c.name) : addrOf (c.run t) m = addrOf t m := by
  cases c with
  | enter ok l a =>
    have e := addrOf_update
      (fun bp => { bp with locale := if ok then (a % 2 ^ 16) :: bp.locale else [] })
      (fun x => x) (fun _ => rfl) (fun _ => rfl) l t m
    rw [if_neg (show m ≠ l from h)] at e
    exact e
  | set l a =>
    have e := addrOf_update
      (fun bp => if bp.address ≠ 0xFFFF then bp else { bp with address := a % 2 ^ 16 })
      (fun x => if x ≠ 0xFFFF then x else a % 2 ^ 16)
      (set_keeps_label a) (set_address a) l t m
    rw [if_neg (show m ≠ l from h)] at e
    simp only [labelCall.run, setLabelAddr_eq]
    exact e
  | find l =>
    have e := addrOf_update (fun bp => bp) (fun x => x) (fun _ => rfl) (fun _ => rfl) l t m
    rw [if_neg (show m ≠ l from h)] at e
    simp only [labelCall.run, findLabelRec_eq]
    exact e

/-- One call of the label manager, seen from the label it names: afterwards the label
has a record, and its address is −1 iff it was −1 (or the record is new) and the call
is not a `setLabelAddr` with an address other than 0xFFFF. -/
theorem run_addrOf_name (c : labelCall) (t : List backpatchRec) :
    ∃ x, addrOf (c.run t) c.name = some x ∧
      (x = 0xFFFF ↔ ((addrOf t c.name).getD 0xFFFF = 0xFFFF ∧
        ∀ a, c = labelCall.set c.name a → a % 2 ^ 16 = 0xFFFF)) := by
  cases c with
  | enter ok l a =>
    have e := addrOf_update
      (fun bp => { bp with locale := if ok then (a % 2 ^ 16) :: bp.locale else [] })
      (fun x => x) (fun _ => rfl) (fun _ => rfl) l t l
    rw [if_pos rfl] at e
    refine ⟨_, e, ?_⟩
    simp [labelCall.name]
  | set l a =>
    have e := addrOf_update
      (fun bp => if bp.address ≠ 0xFFFF then bp else { bp with address := a % 2 ^ 16 })
      (fun x => if x ≠ 0xFFFF then x else a % 2 ^ 16)
      (set_keeps_label a) (set_address a) l t l
    rw [if_pos rfl] at e
    refine ⟨_, by simp only [labelCall.run, setLabelAddr_eq, labelCall.name]; exact e, ?_⟩
    simp only [labelCall.name]
    by_cases h : (addrOf t l).getD 0xFFFF ≠ 0xFFFF
    · rw [if_pos h]
      constructor
      · intro x; exact absurd x h
      · intro x; exact absurd x.1 h
    · rw [if_neg h]
      constructor
      · intro x
        refine ⟨not_not.1 h, ?_⟩
        intro b hb
        injection hb with _ hb
        rw [← hb]; exact x
      · intro x
        exact x.2 a rfl
  | find l =>
    have e := addrOf_update (fun bp => bp) (fun x => x) (fun _ => rfl) (fun _ => rfl) l t l
    rw [if_pos rfl] at e
    refine ⟨_, by simp only [labelCall.run, findLabelRec_eq, labelCall.name]; exact e, ?_⟩
    simp [labelCall.name]

theorem run_nodup (c : labelCall) (t : List backpatchRec)
    (h : (t.map (fun r => r.label)).Nodup) : ((c.run t).map (fun r => r.label)).Nodup := by
  cases c with
  | enter ok l a =>
    exact nodup_update
      (fun bp => { bp with locale := if ok then (a % 2 ^ 16) :: bp.locale else [] })
      (fun _ => rfl) l t h
  | set l a =>
    simp only [labelCall.run, setLabelAddr_eq]
    exact nodup_update _ (set_keeps_label a) l t h
  | find l =>
    simp only [labelCall.run, findLabelRec_eq]
    exact nodup_update _ (fun _ => rfl) l t h

theorem runCalls_nodup (cs : List labelCall) (t : List backpatchRec)
    (h : (t.map (fun r => r.label)).Nodup) :
    ((runCalls cs t).map (fun r => r.label)).Nodup := by
  induction cs generalizing t with
  | nil => exact h
  | cons c cs ih => exact ih _ (run_nodup c t h)

theorem getD_eq_sentinel (o : Option Nat) :
    o.getD 0xFFFF = 0xFFFF ↔ (o = some 0xFFFF ∨ o = none) := by
  cases o <;> simp

/-- The address of a label after a sequence of calls is −1 iff it was −1 before, or the
label was new and some call names it, and no `setLabelAddr` of the sequence gives it
an address other than 0xFFFF. -/
theorem runCalls_addrOf (cs : List labelCall) (t : List backpatchRec) (n : String) :
    addrOf (runCalls cs t) n = some 0xFFFF ↔
      ((addrOf t n = some 0xFFFF ∨ (addrOf t n = none ∧ ∃ c ∈ cs, c.name = n)) ∧
        ∀ a, labelCall.set n a ∈ cs → a % 2 ^ 16 = 0xFFFF) := by
  induction cs generalizing t with
  | nil => simp [runCalls]
  | cons c cs ih =>
    simp only [runCalls]
    rw [ih]
    by_cases h : n = c.name
    · subst h
      obtain ⟨x, hx, hx2⟩ := run_addrOf_name c t
      rw [hx]
      simp only [Option.some.injEq, List.mem_cons, reduceCtorEq, false_and, or_false]
      rw [hx2, getD_eq_sentinel]
      constructor
      · rintro ⟨⟨h1, h2⟩, h3⟩
        refine ⟨?_, ?_⟩
        · rcases h1 with h1 | h1
          · exact Or.inl h1
          · exact Or.inr ⟨h1, c, Or.inl rfl, rfl⟩
        · intro a ha
          rcases ha with ha | ha
          · exact h2 a ha.symm
          · exact h3 a ha
      · rintro ⟨h1, h2⟩
        refine ⟨⟨?_, ?_⟩, ?_⟩
        · rcases h1 with h1 | h1
          · exact Or.inl h1
          · exact Or.inr h1.1
        · intro a ha
          exact h2 a (Or.inl ha.symm)
        · intro a ha
          exact h2 a (Or.inr ha)
    · rw [run_addrOf_other c t n h]
      have e1 : (∃ c' ∈ c :: cs, c'.name = n) ↔ ∃ c' ∈ cs, c'.name = n := by
        constructor
        · rintro ⟨c', hc, hn⟩
          rcases List.mem_cons.1 hc with rfl | hc
          · exact absurd hn.symm h
          · exact ⟨c', hc, hn⟩
        · rintro ⟨c', hc, hn⟩
          exact ⟨c', List.mem_cons_of_mem _ hc, hn⟩
      have e2 : ∀ a, labelCall.set n a ∈ c :: cs ↔ labelCall.set n a ∈ cs := by
        intro a
        constructor
        · intro ha
          rcases List.mem_cons.1 ha with ha | ha
          · exact absurd (by rw [← ha]; rfl) h
          · exact ha
        · exact List.mem_cons_of_mem _
      simp only [e1, e2]

theorem addrOf_of_mem (t : List backpatchRec) (h : (t.map (fun r => r.label)).Nodup)
    (r : backpatchRec) (hr : r ∈ t) : addrOf t r.label = some r.address := by
  induction t with
  | nil => cases hr
  | cons bp rest ih =>
    simp only [List.map_cons, List.nodup_cons] at h
    rcases List.mem_cons.1 hr with rfl | hr
    · simp [addrOf]
    · have hne : ¬ bp.label = r.label := fun e =>
        h.1 (e ▸ List.mem_map_of_mem (fun r => r.label) hr)
      simp only [addrOf, if_neg hne]
      exact ih h.2 hr

theorem mem_of_addrOf (t : List backpatchRec) (n : String) (a : Nat)
    (h : addrOf t n = some a) : ∃ r ∈ t, r.label = n ∧ r.address = a := by
  induction t with
  | nil => cases h
  | cons bp rest ih =>
    by_cases c : bp.label = n
    · simp only [addrOf, if_pos c, Option.some.injEq] at h
      exact ⟨bp, List.mem_cons_self _ _, c, h⟩
    · simp only [addrOf, if_neg c] at h
      obtain ⟨r, hr, e⟩ := ih h
      exact ⟨r, List.mem_cons_of_mem _ hr, e⟩

/-- The status of `LinkLabels`: −1 when some record has no address, else the initial
one. -/
theorem linkLoop_status (t : List backpatchRec) (st : Int) (mem : List Nat) :
    (linkLoop t st mem).1 = if ∃ r ∈ t, r.address = 0xFFFF then -1 else st := by
  induction t generalizing st mem with
  | nil => simp [linkLoop]
  | cons l ls ih =>
    simp only [linkLoop]
    by_cases c : l.address = 0xFFFF
    · rw [if_pos c, ih]
      have : ∃ r ∈ l :: ls, r.address = 0xFFFF := ⟨l, List.mem_cons_self _ _, c⟩
      rw [if_pos this]
      split_ifs <;> rfl
    · rw [if_neg c, ih]
      have : (∃ r ∈ l :: ls, r.address = 0xFFFF) ↔ ∃ r ∈ ls, r.address = 0xFFFF := by
        simp [c]
      simp only [this]

/-- The status of `LinkLabels` after a sequence of calls on the empty list. -/
theorem link_status_of_calls (calls : List labelCall) (mem : List Nat) :
    ((LinkLabels (runCalls calls []) mem).1 = -1 ↔
      ∃ c ∈ calls, ∀ a, labelCall.set c.name a ∈ calls → a % 2 ^ 16 = 0xFFFF) ∧
    ((LinkLabels (runCalls calls []) mem).1 = 0 ↔
      ¬ ∃ c ∈ calls, ∀ a, labelCall.set c.name a ∈ calls → a % 2 ^ 16 = 0xFFFF) := by
  unfold LinkLabels
  rw [linkLoop_status]
  have hnd := runCalls_nodup calls [] List.nodup_nil
  have e : (∃ r ∈ runCalls calls [], r.address = 0xFFFF) ↔
      ∃ c ∈ calls, ∀ a, labelCall.set c.name a ∈ calls → a % 2 ^ 16 = 0xFFFF := by
    constructor
    · rintro ⟨r, hr, ha⟩
      have h1 := addrOf_of_mem _ hnd r hr
      rw [ha, runCalls_addrOf] at h1
      obtain ⟨h2, h3⟩ := h1
      rcases h2 with h2 | ⟨_, c, hc, hn⟩
      · cases h2
      · exact ⟨c, hc, by rw [hn]; exact h3⟩
    · rintro ⟨c, hc, h⟩
      have h1 : addrOf (runCalls calls []) c.name = some 0xFFFF :=
        (runCalls_addrOf calls [] c.name).2 ⟨Or.inr ⟨rfl, c, hc, rfl⟩, h⟩
      obtain ⟨r, hr, _, ha⟩ := mem_of_addrOf _ _ _ h1
      exact ⟨r, hr, ha⟩
  rw [← e]
  by_cases c : ∃ r ∈ runCalls calls [], r.address = 0xFFFF
  · rw [if_pos c]
    exact ⟨⟨fun _ => c, fun _ => rfl⟩, by simp [c]⟩
  · rw [if_neg c]
    exact ⟨by simp [c], by simp [c]⟩

set_option maxRecDepth 100000 in
/-- C16 (counterexample): a label referenced at location 1 and then defined by
`setLabelAddr` at address 0xFFFF keeps the address −1, since `short address` holds
0xFFFF as −1: `LinkLabels` returns −1 and patches nothing, although every label of the
list has been defined by `setLabelAddr`. -/
theorem C16_counterexample :
    LinkLabels (runCalls lastByteCalls []) jmpForwardImage = (-1, jmpForwardImage) ∧
    ¬ (∃ c ∈ lastByteCalls, ∀ a, labelCall.set c.name a ∉ lastByteCalls) :=
  ⟨by decide, fun ⟨c, hc, h⟩ => by
    have e : c.name = "last" := by
      simp only [lastByteCalls, List.mem_cons, List.mem_singleton, List.not_mem_nil,
        or_false] at hc
      rcases hc with rfl | rfl <;> rfl
    exact h 0xFFFF (by rw [e]; simp [lastByteCalls])⟩

/-- C16 (amended): after any sequence of `enterLabel`, `setLabelAddr` and `findLabelRec`
calls on the empty list, `LinkLabels` returns −1 if and only if some label named by a
call has never been given an address other than 0xFFFF by `setLabelAddr`; otherwise it
returns 0. -/
theorem C16_link_status (calls : List labelCall) (mem : List Nat) :
    ((LinkLabels (runCalls calls []) mem).1 = -1 ↔
      ∃ c ∈ calls, ∀ a, labelCall.set c.name a ∈ calls → a % 2 ^ 16 = 0xFFFF) ∧
    ((LinkLabels (runCalls calls []) mem).1 = 0 ↔
      ¬ ∃ c ∈ calls, ∀ a, labelCall.set c.name a ∈ calls → a % 2 ^ 16 = 0xFFFF) :=
  link_status_of_calls calls mem

set_option maxRecDepth 100000 in
/-- C16 (witness): `JMP.W forward ; forward: HLT` links with status 0. -/
theorem C16_link_status_witness :
    (LinkLabels (runCalls jmpForwardCalls []) jmpForwardImage).1 = 0 ∧
    (((LinkLabels (runCalls jmpForwardCalls []) jmpForwardImage).1 = -1 ↔
        ∃ c ∈ jmpForwardCalls,
          ∀ a, labelCall.set c.name a ∈ jmpForwardCalls → a % 2 ^ 16 = 0xFFFF) ∧
      ((LinkLabels (runCalls jmpForwardCalls []) jmpForwardImage).1 = 0 ↔
        ¬ ∃ c ∈ jmpForwardCalls,
          ∀ a, labelCall.set c.name a ∈ jmpForwardCalls → a % 2 ^ 16 = 0xFFFF)) :=
  ⟨by decide, C16_link_status jmpForwardCalls jmpForwardImage⟩

theorem find_fst_of_some (n : String) (t : List backpatchRec) (a : Nat)
    (h : addrOf t n = some a) : (findLabelRec n t).1 = t := by
  induction t with
  | nil => cases h
  | cons bp rest ih =>
    by_cases c : bp.label = n
    · simp only [findLabelRec, if_pos c]
    · simp only [addrOf, if_neg c] at h
      simp only [findLabelRec, if_neg c, ih h]

/-- A `setLabelAddr` on a label that already has an address changes nothing and
reports "multiple labels found". -/
theorem setLabelAddr_again (n : String) (a x : Nat) (t : List backpatchRec)
    (h : addrOf t n = some x) (hx : x ≠ 0xFFFF) : setLabelAddr n a t = (t, true) := by
  unfold setLabelAddr
  dsimp only
  have e : (recAt (findLabelRec n t).1 (findLabelRec n t).2).address ≠ 0xFFFF := by
    rw [recAt_find, h]
    exact hx
  rw [if_pos e, find_fst_of_some n t x h]

theorem addrOf_setLabelAddr (n : String) (a : Nat) (t : List backpatchRec)
    (h : a % 2 ^ 16 ≠ 0xFFFF) :
    ∃ x, addrOf (setLabelAddr n a t).1 n = some x ∧ x ≠ 0xFFFF := by
  rw [setLabelAddr_eq, addrOf_update _ (fun x => if x ≠ 0xFFFF then x else a % 2 ^ 16)
    (set_keeps_label a) (set_address a), if_pos rfl]
  refine ⟨_, rfl, ?_⟩
  dsimp only
  split_ifs with c
  · exact c
  · exact h

/-- A second `setLabelAddr` on a label that the first call gave an address (other than
0xFFFF) only reports "multiple labels found": the label list, and with it the first
address, is unchanged, and the subsequent `LinkLabels` returns the status and the image
that it returns without the second call. -/
theorem redefinition_only_reported (labels : List backpatchRec) (label : String)
    (a1 a2 : Nat) (h : a1 % 2 ^ 16 ≠ 0xFFFF) :
    setLabelAddr label a2 (setLabelAddr label a1 labels).1 =
      ((setLabelAddr label a1 labels).1, true) ∧
    ∀ mem, LinkLabels (setLabelAddr label a2 (setLabelAddr label a1 labels).1).1 mem =
      LinkLabels (setLabelAddr label a1 labels).1 mem := by
  obtain ⟨x, hx, hne⟩ := addrOf_setLabelAddr label a1 labels h
  have e := setLabelAddr_again label a2 x _ hx hne
  refine ⟨e, ?_⟩
  intro mem
  rw [e]

set_option maxRecDepth 100000 in
/-- C17: a redefinition is detected and reported, but it is not recorded as an error.
In `x: NOP ; x: HLT` the label `x` is defined at 0 and again at 1: the second
`setLabelAddr` reports "multiple labels found", the address stays 0 and `LinkLabels`
returns 0, the status of a successful link.  With `forward` defined at 3 and again at
5 after `JMP.W forward`, the link patches the first address and returns 0 as well. -/
theorem C17_redefinition_not_an_error :
    twiceDefined = ([{ label := "x", address := 0, locale := [] }], true) ∧
    LinkLabels twiceDefined.1 [0x00, 0x1B] = (0, [0x00, 0x1B]) ∧
    (setLabelAddr "forward" 5
      (setLabelAddr "forward" 3 (enterLabel true "forward" 1 [])).1).2 = true ∧
    LinkLabels (setLabelAddr "forward" 5
      (setLabelAddr "forward" 3 (enterLabel true "forward" 1 [])).1).1 jmpForwardImage =
      (0, [0x4D, 0x00, 0x03, 0x1B]) := by
  decide

/-! ## Parse records (C18, C19, C20) -/

theorem and_FF (x : Nat) : (x &&& 0xFF) % 2 ^ 8 = x % 2 ^ 8 := by
  have e : (0xFF : Nat) = 2 ^ 8 - 1 := rfl
  rw [e, Nat.and_pow_two_sub_one_eq_mod, Nat.mod_mod]

theorem and_FFFF (x : Nat) : (x &&& 0xFFFF) % 2 ^ 16 = x % 2 ^ 16 := by
  have e : (0xFFFF : Nat) = 2 ^ 16 - 1 := rfl
  rw [e, Nat.and_pow_two_sub_one_eq_mod, Nat.mod_mod]

/-- The unsigned auto-sizing shared by the decimal and the hexadecimal branch of
`EncodeValue`, for the two bounds of the branch. -/
theorem unsigned_size (u b8 b16 : Nat) (h8 : b8 < 2 ^ 8) (h16 : b16 < 2 ^ 16) :
    (if u ≤ b8 then
        ({ type := teParseType.eUINT8, n := 1, width := 1, value := (u &&& 0xFF) % 2 ^ 8 } :
          tzParseInfo)
      else if u ≤ b16 then
        { type := teParseType.eUINT16, n := 2, width := 2, value := (u &&& 0xFFFF) % 2 ^ 16 }
      else { type := teParseType.eUINT32, n := 4, width := 4, value := u }) =
    (if u ≤ b8 then { type := teParseType.eUINT8, n := 1, width := 1, value := u }
      else if u ≤ b16 then { type := teParseType.eUINT16, n := 2, width := 2, value := u }
      else { type := teParseType.eUINT32, n := 4, width := 4, value := u }) := by
  by_cases c1 : u ≤ b8
  · rw [if_pos c1, if_pos c1, and_FF, Nat.mod_eq_of_lt (by omega)]
  · rw [if_neg c1, if_neg c1]
    by_cases c2 : u ≤ b16
    · rw [if_pos c2, if_pos c2, and_FFFF, Nat.mod_eq_of_lt (by omega)]
    · rw [if_neg c2, if_neg c2]

theorem unsigned_size_type (u b8 b16 : Nat) :
    (if u ≤ b8 then ({ type := teParseType.eUINT8, n := 1, width := 1, value := u } : tzParseInfo)
      else if u ≤ b16 then { type := teParseType.eUINT16, n := 2, width := 2, value := u }
      else { type := teParseType.eUINT32, n := 4, width := 4, value := u }).type =
      teParseType.eUINT8 ↔ u ≤ b8 := by
  by_cases c1 : u ≤ b8
  · rw [if_pos c1]; exact ⟨fun _ => c1, fun _ => rfl⟩
  · rw [if_neg c1]
    by_cases c2 : u ≤ b16
    · rw [if_pos c2]; exact ⟨fun h => (by cases h), fun h => absurd h c1⟩
    · rw [if_neg c2]; exact ⟨fun h => (by cases h), fun h => absurd h c1⟩

theorem EncodeValue_decimal (atof : List Char → Nat) (text : List Char) (n : Nat)
    (hd : text.head? ≠ some '-') (hn : atol text = (n : Int)) (hn32 : n < 2 ^ 32) :
    EncodeValue atof text teNumType.eINTEGER =
      (if n ≤ 0x7F then { type := teParseType.eUINT8, n := 1, width := 1, value := n }
       else if n ≤ 0x7FFF then { type := teParseType.eUINT16, n := 2, width := 2, value := n }
       else { type := teParseType.eUINT32, n := 4, width := 4, value := n }) := by
  have e : ((n : Int) % 2 ^ 32).toNat = n := by omega
  unfold EncodeValue
  simp only [if_neg hd]
  rw [hn, e]
  exact unsigned_size n 0x7F 0x7FFF (by decide) (by decide)

theorem EncodeValue_hex (atof : List Char → Nat) (text : List Char) :
    EncodeValue atof text teNumType.eHEXADECIMAL =
      (if xtol text ≤ 0xFF then
         { type := teParseType.eUINT8, n := 1, width := 1, value := xtol text }
       else if xtol text ≤ 0xFFFF then
         { type := teParseType.eUINT16, n := 2, width := 2, value := xtol text }
       else { type := teParseType.eUINT32, n := 4, width := 4, value := xtol text }) := by
  unfold EncodeValue
  exact unsigned_size (xtol text) 0xFF 0xFFFF (by decide) (by decide)

set_option maxRecDepth 100000 in
/-- C18 (counterexample): the hexadecimal literals 80 and FF are auto-sized to UINT8
with one byte, while the decimal literal 128 is a UINT16; a text with the prefix,
`0x80`, reads as 0 in `xtol` and is a UINT8 as well. -/
theorem C18_counterexample :
    xtol "80".toList = 0x80 ∧
    EncodeValue (fun _ => 0) "80".toList teNumType.eHEXADECIMAL =
      { type := teParseType.eUINT8, n := 1, width := 1, value := 0x80 } ∧
    EncodeValue (fun _ => 0) "FF".toList teNumType.eHEXADECIMAL =
      { type := teParseType.eUINT8, n := 1, width := 1, value := 0xFF } ∧
    EncodeValue (fun _ => 0) "0x80".toList teNumType.eHEXADECIMAL =
      { type := teParseType.eUINT8, n := 1, width := 1, value := 0 } ∧
    EncodeValue (fun _ => 0) "128".toList teNumType.eINTEGER =
      { type := teParseType.eUINT16, n := 2, width := 2, value := 128 } := by
  decide

/-- C18 (amended): an unsigned literal with value n < 2^32 written in decimal is
auto-sized to UINT8 (1 byte) iff n ≤ 0x7F, to UINT16 (2 bytes) for 0x80..0x7FFF and to
UINT32 above; a literal with value m written in hexadecimal is auto-sized to UINT8 iff
m ≤ 0xFF, to UINT16 for 0x100..0xFFFF and to UINT32 above. -/
theorem C18_unsigned_auto_size (atof : List Char → Nat) (dtext htext : List Char)
    (n m : Nat) (hd : dtext.head? ≠ some '-') (hn : atol dtext = (n : Int))
    (hn32 : n < 2 ^ 32) (hm : xtol htext = m) :
    EncodeValue atof dtext teNumType.eINTEGER =
      (if n ≤ 0x7F then { type := teParseType.eUINT8, n := 1, width := 1, value := n }
       else if n ≤ 0x7FFF then { type := teParseType.eUINT16, n := 2, width := 2, value := n }
       else { type := teParseType.eUINT32, n := 4, width := 4, value := n }) ∧
    ((EncodeValue atof dtext teNumType.eINTEGER).type = teParseType.eUINT8 ↔ n ≤ 0x7F) ∧
    EncodeValue atof htext teNumType.eHEXADECIMAL =
      (if m ≤ 0xFF then { type := teParseType.eUINT8, n := 1, width := 1, value := m }
       else if m ≤ 0xFFFF then { type := teParseType.eUINT16, n := 2, width := 2, value := m }
       else { type := teParseType.eUINT32, n := 4, width := 4, value := m }) ∧
    ((EncodeValue atof htext teNumType.eHEXADECIMAL).type = teParseType.eUINT8 ↔ m ≤ 0xFF) := by
  have e1 := EncodeValue_decimal atof dtext n hd hn hn32
  have e2 := EncodeValue_hex atof htext
  rw [hm] at e2
  refine ⟨e1, ?_, e2, ?_⟩
  · rw [e1]; exact unsigned_size_type n 0x7F 0x7FFF
  · rw [e2]; exact unsigned_size_type m 0xFF 0xFFFF

set_option maxRecDepth 100000 in
/-- C18 (witness): the decimal literal 127 and the hexadecimal literal 100. -/
theorem C18_unsigned_auto_size_witness :
    EncodeValue (fun _ => 0) "127".toList teNumType.eINTEGER =
      (if 127 ≤ 0x7F then { type := teParseType.eUINT8, n := 1, width := 1, value := 127 }
       else if 127 ≤ 0x7FFF then { type := teParseType.eUINT16, n := 2, width := 2, value := 127 }
       else { type := teParseType.eUINT32, n := 4, width := 4, value := 127 }) ∧
    ((EncodeValue (fun _ => 0) "127".toList teNumType.eINTEGER).type = teParseType.eUINT8 ↔
      127 ≤ 0x7F) ∧
    EncodeValue (fun _ => 0) "100".toList teNumType.eHEXADECIMAL =
      (if 256 ≤ 0xFF then { type := teParseType.eUINT8, n := 1, width := 1, value := 256 }
       else if 256 ≤ 0xFFFF then { type := teParseType.eUINT16, n := 2, width := 2, value := 256 }
       else { type := teParseType.eUINT32, n := 4, width := 4, value := 256 }) ∧
    ((EncodeValue (fun _ => 0) "100".toList teNumType.eHEXADECIMAL).type = teParseType.eUINT8 ↔
      256 ≤ 0xFF) :=
  C18_unsigned_auto_size (fun _ => 0) "127".toList "100".toList 127 256 (by decide) (by decide)
    (by decide) (by decide)

theorem signedView_8 (n : Int) (h1 : -128 ≤ n) (h2 : n ≤ 127) :
    signedView 8 (n % 2 ^ 8).toNat = n := by
  unfold signedView
  have e : (8 - 1 : Nat) = 7 := rfl
  rw [e]
  split_ifs <;> omega

theorem signedView_16 (n : Int) (h1 : -32768 ≤ n) (h2 : n ≤ 32767) :
    signedView 16 (n % 2 ^ 16).toNat = n := by
  unfold signedView
  have e : (16 - 1 : Nat) = 15 := rfl
  rw [e]
  split_ifs <;> omega

theorem signedView_32 (n : Int) (h1 : -2 ^ 31 ≤ n) (h2 : n < 2 ^ 31) :
    signedView 32 (n % 2 ^ 32).toNat = n := by
  unfold signedView
  have e : (32 - 1 : Nat) = 31 := rfl
  rw [e]
  split_ifs <;> omega

theorem EncodeValue_negative (atof : List Char → Nat) (text : List Char) (n : Int)
    (hd : text.head? = some '-') (hn : atol text = n) (hlo : -2 ^ 31 ≤ n) (hhi : n < 2 ^ 31) :
    EncodeValue atof text teNumType.eINTEGER =
      (if n ≥ -128 ∧ n ≤ 127 then
         { type := teParseType.eSINT8, n := 1, width := 1, value := (n % 2 ^ 8).toNat }
       else if n ≥ -32768 ∧ n ≤ 32767 then
         { type := teParseType.eSINT16, n := 2, width := 2, value := (n % 2 ^ 16).toNat }
       else { type := teParseType.eSINT32, n := 4, width := 4, value := (n % 2 ^ 32).toNat }) := by
  have e : (2 ^ 31 + n) % 2 ^ 32 - 2 ^ 31 = n := by omega
  unfold EncodeValue
  simp only [if_pos hd]
  rw [hn, e]

/-- C19: for every decimal literal with a leading `-` whose value n satisfies
−2^31 ≤ n ≤ 0, `EncodeValue` yields SINT8 with size and width 1 iff n ≥ −128, SINT16
with size and width 2 iff −32768 ≤ n < −128, and SINT32 with size and width 4
otherwise, and the stored payload, read through the member of that type, is n. -/
theorem C19_negative_auto_size (atof : List Char → Nat) (text : List Char) (n : Int)
    (hd : text.head? = some '-') (hn : atol text = n) (hlo : -2 ^ 31 ≤ n) (hhi : n ≤ 0) :
    ((EncodeValue atof text teNumType.eINTEGER).type = teParseType.eSINT8 ↔ -128 ≤ n) ∧
    ((EncodeValue atof text teNumType.eINTEGER).type = teParseType.eSINT16 ↔
      (-32768 ≤ n ∧ n < -128)) ∧
    ((EncodeValue atof text teNumType.eINTEGER).type = teParseType.eSINT32 ↔ n < -32768) ∧
    (-128 ≤ n →
      (EncodeValue atof text teNumType.eINTEGER).n = 1 ∧
      (EncodeValue atof text teNumType.eINTEGER).width = 1 ∧
      scVal (EncodeValue atof text teNumType.eINTEGER) = n) ∧
    (-32768 ≤ n ∧ n < -128 →
      (EncodeValue atof text teNumType.eINTEGER).n = 2 ∧
      (EncodeValue atof text teNumType.eINTEGER).width = 2 ∧
      siVal (EncodeValue atof text teNumType.eINTEGER) = n) ∧
    (n < -32768 →
      (EncodeValue atof text teNumType.eINTEGER).n = 4 ∧
      (EncodeValue atof text teNumType.eINTEGER).width = 4 ∧
      slVal (EncodeValue atof text teNumType.eINTEGER) = n) := by
  rw [EncodeValue_negative atof text n hd hn hlo (by omega)]
  by_cases c1 : n ≥ -128 ∧ n ≤ 127
  · rw [if_pos c1]
    refine ⟨⟨fun _ => c1.1, fun _ => rfl⟩, ⟨fun h => (by cases h), fun h => (by omega)⟩,
      ⟨fun h => (by cases h), fun h => (by omega)⟩, fun _ => ⟨rfl, rfl, ?_⟩, fun h => (by omega),
      fun h => (by omega)⟩
    exact signedView_8 n c1.1 c1.2
  · rw [if_neg c1]
    by_cases c2 : n ≥ -32768 ∧ n ≤ 32767
    · rw [if_pos c2]
      refine ⟨⟨fun h => (by cases h), fun h => (by omega)⟩, ⟨fun _ => (by omega), fun _ => rfl⟩,
        ⟨fun h => (by cases h), fun h => (by omega)⟩, fun h => (by omega), fun _ => ⟨rfl, rfl, ?_⟩,
        fun h => (by omega)⟩
      exact signedView_16 n c2.1 c2.2
    · rw [if_neg c2]
      refine ⟨⟨fun h => (by cases h), fun h => (by omega)⟩, ⟨fun h => (by cases h), fun h => (by omega)⟩,
        ⟨fun _ => (by omega), fun _ => rfl⟩, fun h => (by omega), fun h => (by omega),
        fun _ => ⟨rfl, rfl, ?_⟩⟩
      exact signedView_32 n hlo (by omega)

set_option maxRecDepth 100000 in
/-- C19 (witness): −128 encodes to one byte and −129 to two bytes. -/
theorem C19_negative_auto_size_witness :
    EncodeValue (fun _ => 0) "-128".toList teNumType.eINTEGER =
      { type := teParseType.eSINT8, n := 1, width := 1, value := 0x80 } ∧
    EncodeValue (fun _ => 0) "-129".toList teNumType.eINTEGER =
      { type := teParseType.eSINT16, n := 2, width := 2, value := 0xFF7F } ∧
    (((EncodeValue (fun _ => 0) "-128".toList teNumType.eINTEGER).type = teParseType.eSINT8 ↔
        (-128 : Int) ≤ -128) ∧
      ((EncodeValue (fun _ => 0) "-128".toList teNumType.eINTEGER).type = teParseType.eSINT16 ↔
        ((-32768 : Int) ≤ -128 ∧ (-128 : Int) < -128)) ∧
      ((EncodeValue (fun _ => 0) "-128".toList teNumType.eINTEGER).type = teParseType.eSINT32 ↔
        (-128 : Int) < -32768) ∧
      ((-128 : Int) ≤ -128 →
        (EncodeValue (fun _ => 0) "-128".toList teNumType.eINTEGER).n = 1 ∧
        (EncodeValue (fun _ => 0) "-128".toList teNumType.eINTEGER).width = 1 ∧
        scVal (EncodeValue (fun _ => 0) "-128".toList teNumType.eINTEGER) = -128) ∧
      ((-32768 : Int) ≤ -128 ∧ (-128 : Int) < -128 →
        (EncodeValue (fun _ => 0) "-128".toList teNumType.eINTEGER).n = 2 ∧
        (EncodeValue (fun _ => 0) "-128".toList teNumType.eINTEGER).width = 2 ∧
        siVal (EncodeValue (fun _ => 0) "-128".toList teNumType.eINTEGER) = -128) ∧
      ((-128 : Int) < -32768 →
        (EncodeValue (fun _ => 0) "-128".toList teNumType.eINTEGER).n = 4 ∧
        (EncodeValue (fun _ => 0) "-128".toList teNumType.eINTEGER).width = 4 ∧
        slVal (EncodeValue (fun _ => 0) "-128".toList teNumType.eINTEGER) = -128)) :=
  ⟨by decide, by decide,
    C19_negative_auto_size (fun _ => 0) "-128".toList (-128) (by decide) (by decide) (by decide)
      (by decide)⟩

/-- C21: for every pair of records whose right-hand side is not a register,
`CheckParseInfo` fails (exits) iff RHS.width > LHS.width; otherwise it sets LHS.width to
RHS.width, leaves RHS unchanged, and ORs into the instruction byte WORD (0x40) when the
resulting width is 2, BYTE (0x80) when it is 1, the FLOAT bits (0xC0) when it is 4 and
RHS has type float32, and nothing else. -/
theorem C21_check_parse_info (inst : Nat) (lhs rhs : tzParseInfo)
    (hreg : rhs.type ≠ teParseType.eREGISTER) :
    (CheckParseInfo inst lhs rhs = none ↔ rhs.width > lhs.width) ∧
    (¬ rhs.width > lhs.width →
      CheckParseInfo inst lhs rhs =
        some ((if rhs.width = 2 then inst ||| 0x40
               else if rhs.width = 1 then inst ||| 0x80
               else if rhs.width = 4 ∧ rhs.type = teParseType.eFLOAT32 then inst ||| 0xC0
               else inst),
              { lhs with width := rhs.width }, rhs)) := by
  unfold CheckParseInfo
  rw [if_neg hreg]
  by_cases h : rhs.width > lhs.width
  · rw [if_pos h]
    exact ⟨⟨fun _ => h, fun _ => rfl⟩, fun n => absurd h n⟩
  · rw [if_neg h]
    refine ⟨⟨fun e => (by cases e), fun e => absurd e h⟩, fun _ => ?_⟩
    have hp : (if lhs.width > rhs.width then { lhs with width := rhs.width } else lhs) =
        { lhs with width := rhs.width } := by
      by_cases c : lhs.width > rhs.width
      · rw [if_pos c]
      · rw [if_neg c]
        have e : lhs.width = rhs.width := by omega
        rw [← e]
    simp only [hp, if_neg hreg]
    by_cases c2 : rhs.width = 2
    · have n4 : ¬ (rhs.width = 4 ∧ rhs.type = teParseType.eFLOAT32) := fun e => by omega
      simp only [if_pos c2, if_neg n4]
      rfl
    · by_cases c1 : rhs.width = 1
      · have n4 : ¬ (rhs.width = 4 ∧ rhs.type = teParseType.eFLOAT32) := fun e => by omega
        simp only [if_neg c2, if_pos c1, if_neg n4]
        rfl
      · simp only [if_neg c2, if_neg c1]
        by_cases c4 : rhs.width = 4 ∧ rhs.type = teParseType.eFLOAT32
        · simp only [if_pos c4]
          rfl
        · simp only [if_neg c4]

set_option maxRecDepth 100000 in
/-- C21 (witness): `MOV R1, 5` with a register record of width 4 on the left and the
UINT8 record of `5` on the right gives the opcode byte 0x83 and narrows the left record
to width 1. -/
theorem C21_check_parse_info_witness :
    CheckParseInfo 0x03
      { type := teParseType.eREGISTER, n := 1, width := 4, value := 1 }
      { type := teParseType.eUINT8, n := 1, width := 1, value := 5 } =
      some (0x83, { type := teParseType.eREGISTER, n := 1, width := 1, value := 1 },
        { type := teParseType.eUINT8, n := 1, width := 1, value := 5 }) ∧
    ((CheckParseInfo 0x03
        { type := teParseType.eREGISTER, n := 1, width := 4, value := 1 }
        { type := teParseType.eUINT8, n := 1, width := 1, value := 5 } = none ↔
        (1 : Nat) > 4) ∧
      (¬ (1 : Nat) > 4 →
        CheckParseInfo 0x03
          { type := teParseType.eREGISTER, n := 1, width := 4, value := 1 }
          { type := teParseType.eUINT8, n := 1, width := 1, value := 5 } =
          some ((if (1 : Nat) = 2 then 0x03 ||| 0x40
                 else if (1 : Nat) = 1 then 0x03 ||| 0x80
                 else if (1 : Nat) = 4 ∧ teParseType.eUINT8 = teParseType.eFLOAT32 then
                   0x03 ||| 0xC0
                 else 0x03),
                { type := teParseType.eREGISTER, n := 1, width := 1, value := 1 },
                { type := teParseType.eUINT8, n := 1, width := 1, value := 5 }))) :=
  ⟨by decide,
    C21_check_parse_info 0x03
      { type := teParseType.eREGISTER, n := 1, width := 4, value := 1 }
      { type := teParseType.eUINT8, n := 1, width := 1, value := 5 } (by decide)⟩

set_option maxRecDepth 100000 in
/-- C22: the escape `\\` is never handed to `ParseChar`, because `copystring` tests for a
backslash before it tests its escape flag: the second backslash only sets the flag
again, and the character after it is taken as an escape.  The text `a\\b` gives the
bytes 'a', 0x08, NUL (3 bytes) and `a\\` gives 'a', NUL, instead of 'a', 0x5C, 'b', NUL
and 'a', 0x5C, NUL; the other six escapes give their byte. -/
theorem C22_double_backslash_lost :
    ParseChar "\\".toList = (0x5C, 1) ∧
    copystring (stringInfo "a\\\\b") = some (3, [0x61, 0x08, 0]) ∧
    copystring (stringInfo "a\\\\") = some (2, [0x61, 0]) ∧
    copystring (stringInfo "\\n\\r\\t\\b\\f\\'") =
      some (7, [0x0A, 0x0D, 0x09, 0x08, 0x0C, 0x27, 0]) := by
  decide

set_option maxRecDepth 100000 in
/-- C23: `ParseChar` starts its count at 1 and adds 1 for every decimal digit, so that
`copystring` moves its source pointer over the k digits and over the character after
them.  The text `\65B` gives the bytes 'A', NUL: the 'B' is skipped.  When the digits end
the string, as in `\65`, the pointer is moved beyond the terminating NUL. -/
theorem C23_decimal_escape_skips_next :
    ParseChar "65B".toList = (65, 3) ∧
    copystring (stringInfo "\\65B") = some (2, [65, 0]) ∧
    copystring (stringInfo "x\\10yz") = some (4, [0x78, 10, 0x7A, 0]) ∧
    copystring (stringInfo "\\65") = none := by
  decide

/-! ## File descriptors and number input (C24, C25, C26) -/

set_option maxRecDepth 100000 in
/-- C24: `CloseFileDescriptor` rejects every descriptor up to 3, and 3 is the descriptor
that `open` returns first in a process whose descriptors 0, 1 and 2 are open.  After a
successful `OFD` that registered the host descriptor 3 in slot 3, `CFD` of 3 returns
EBADF and leaves the slot in use; for the host descriptor 4 the first `CFD` frees the
slot and returns EOK, the second returns ENOENT. -/
theorem C24_close_rejects_descriptor_3 :
    OpenFileDescriptor pathManager 3 7 'r' filesInit = (EOK, some 3, openedFile 3) ∧
    (openedFile 3).FILES.getD 3 freeSlot = { fd := 3, mode := 'r' } ∧
    (openedFile 3).numOpenFiles = 4 ∧
    CloseFileDescriptor 3 (openedFile 3) = (EBADF, openedFile 3) ∧
    OpenFileDescriptor pathManager 4 7 'r' filesInit = (EOK, some 4, openedFile 4) ∧
    CloseFileDescriptor 4 (openedFile 4) = (EOK, filesInit) ∧
    CloseFileDescriptor 4 filesInit = (ENOENT, filesInit) := by
  decide

set_option maxRecDepth 100000 in
/-- C25: `Findfd` searches the slots 3 to 19 only and `SetActiveFileDescriptor` accepts
0 < fd < 20 only, so the descriptors of the slots 0, 1 and 2 cannot be selected: `SFD`
of 0, 1 or 2 returns EBADF and changes nothing.  After output was directed to a file
(host descriptor 3), `SFD` of 1 or 2 leaves the file as the active write descriptor.  A
print session descriptor 25 is registered by `SetExternWriteFileDescriptor` and then
refused by `SetActiveFileDescriptor`. -/
theorem C25_standard_descriptors_not_selectable :
    filesInit.FILES.take 3 =
      [{ fd := 0, mode := 'r' }, { fd := 1, mode := 'w' }, { fd := 2, mode := 'w' }] ∧
    Findfd 0 filesInit = -1 ∧ Findfd 1 filesInit = -1 ∧ Findfd 2 filesInit = -1 ∧
    SetActiveFileDescriptor 0 filesInit = (EBADF, filesInit) ∧
    SetActiveFileDescriptor 1 filesInit = (EBADF, filesInit) ∧
    SetActiveFileDescriptor 2 filesInit = (EBADF, filesInit) ∧
    (selectedFile 3).active_write_fd = 3 ∧
    SetActiveFileDescriptor 1 (selectedFile 3) = (EBADF, selectedFile 3) ∧
    SetActiveFileDescriptor 2 (selectedFile 3) = (EBADF, selectedFile 3) ∧
    (SetExternWriteFileDescriptor 25 'w' filesInit).1 = EOK ∧
    Findfd 25 (SetExternWriteFileDescriptor 25 'w' filesInit).2 = 3 ∧
    SetActiveFileDescriptor 25 (SetExternWriteFileDescriptor 25 'w' filesInit).2 =
      (EBADF, (SetExternWriteFileDescriptor 25 'w' filesInit).2) := by
  decide

theorem scanLoop_blanks (sign : Int) (ws x : List Char) (hws : ∀ c ∈ ws, c = ' ' ∨ c = '\t') :
    scanLoop 0 sign [] (ws ++ x) = scanLoop 0 sign [] x := by
  induction ws with
  | nil => rfl
  | cons c ws ih =>
    have hc : c = ' ' ∨ c = '\t' := hws c (List.mem_cons_self _ _)
    have h0 : ([] : List Char).length < BUFSIZ - 1 := by decide
    rw [List.cons_append, scanLoop, if_pos h0, if_neg (by decide), if_pos hc]
    exact ih (fun d hd => hws d (List.mem_cons_of_mem _ hd))

theorem scanLoop_digits (sign : Int) (buf ds : List Char) (t : Char) (rest : List Char)
    (hds : ∀ c ∈ ds, c.isDigit = true) (ht : ¬ t.isDigit = true)
    (hlen : buf.length + ds.length < BUFSIZ - 1) :
    scanLoop 1 sign buf (ds ++ t :: rest) = some (sign, buf ++ ds, rest) := by
  induction ds generalizing buf with
  | nil =>
    have h0 : buf.length < BUFSIZ - 1 := by simpa using hlen
    rw [List.nil_append, scanLoop, if_pos h0, if_pos rfl, if_neg ht, List.append_nil]
  | cons d ds ih =>
    have h0 : buf.length < BUFSIZ - 1 := by
      simp only [List.length_cons] at hlen; omega
    have hd : d.isDigit = true := hds d (List.mem_cons_self _ _)
    rw [List.cons_append, scanLoop, if_pos h0, if_pos rfl, if_pos hd,
      ih (buf ++ [d]) (fun c hc => hds c (List.mem_cons_of_mem _ hc))
        (by simp only [List.length_append, List.length_cons, List.length_nil] at hlen ⊢; omega)]
    simp

theorem isDigit_ne (d c : Char) (hd : d.isDigit = true) (hc : c.isDigit = false) : d ≠ c := by
  intro e
  rw [e, hc] at hd
  cases hd

theorem scanLoop_first_digit (sign : Int) (d : Char) (x : List Char)
    (hd : d.isDigit = true) : scanLoop 0 sign [] (d :: x) = scanLoop 1 sign [d] x := by
  have h0 : ([] : List Char).length < BUFSIZ - 1 := by decide
  have n1 : ¬ (d = ' ' ∨ d = '\t') := by
    rintro (e | e)
    · exact isDigit_ne d ' ' hd (by decide) e
    · exact isDigit_ne d '\t' hd (by decide) e
  have n2 : ¬ d = '-' := isDigit_ne d '-' hd (by decide)
  rw [scanLoop, if_pos h0, if_neg (by decide), if_neg n1, if_neg n2, if_pos hd]
  rfl

theorem atol_digits (d : Char) (ds : List Char) (hd : d.isDigit = true) :
    atol (d :: ds) = (atolDigits 0 (d :: ds) : Int) := by
  have n1 : d ≠ '-' := isDigit_ne d '-' hd (by decide)
  have n2 : d ≠ '+' := isDigit_ne d '+' hd (by decide)
  unfold atol
  split
  · rename_i h; injection h with h1 _; exact absurd h1 n1
  · rename_i h; injection h with h1 _; exact absurd h1 n2
  · rfl

/-- Function `ScanNumber` on blanks, an optional `-`, at least one digit and a
terminator. -/
theorem scan_number (ws : List Char) (neg : Bool) (ds : List Char) (t : Char)
    (rest : List Char) (hws : ∀ c ∈ ws, c = ' ' ∨ c = '\t') (hne : ds ≠ [])
    (hds : ∀ c ∈ ds, c.isDigit = true) (hlen : ds.length ≤ BUFSIZ - 2)
    (ht : ¬ t.isDigit = true) (hval : atolDigits 0 ds < 2 ^ 31) :
    ScanNumber (ws ++ ((if neg then ['-'] else []) ++ (ds ++ t :: rest))) =
      some ((if neg then - (atolDigits 0 ds : Int) else (atolDigits 0 ds : Int)), rest) := by
  obtain ⟨d, ds', rfl⟩ := List.exists_cons_of_ne_nil hne
  have hd : d.isDigit = true := hds d (List.mem_cons_self _ _)
  have hB : BUFSIZ = 8192 := rfl
  have hrun : ∀ sign : Int, scanLoop 0 sign [] (d :: ds' ++ t :: rest) =
      some (sign, d :: ds', rest) := by
    intro sign
    rw [List.cons_append, scanLoop_first_digit sign d _ hd,
      scanLoop_digits sign [d] ds' t rest (fun c hc => hds c (List.mem_cons_of_mem _ hc)) ht
        (by simp only [List.length_cons, List.length_nil] at hlen ⊢; omega)]
    rfl
  unfold ScanNumber
  rw [scanLoop_blanks 1 ws _ hws]
  cases neg
  · simp only [Bool.false_eq_true, if_false, List.nil_append]
    rw [hrun 1]
    simp only [Option.map, atol_digits d ds' hd]
    unfold wrapInt
    congr 2
    omega
  · have h0 : ([] : List Char).length < BUFSIZ - 1 := by decide
    simp only [if_true, List.cons_append, List.nil_append]
    rw [scanLoop, if_pos h0, if_neg (by decide), if_neg (by decide), if_pos rfl]
    have e := hrun (-1)
    rw [List.cons_append] at e
    rw [e]
    simp only [Option.map, atol_digits d ds' hd]
    unfold wrapInt
    congr 2
    omega

set_option maxRecDepth 100000 in
/-- C26 (counterexample): a newline or a carriage return before the number is not
skipped; it ends the scan with the value 0 and the number is left unread. -/
theorem C26_counterexample :
    ScanNumber "\n5 ".toList = some (0, "5 ".toList) ∧
    ScanNumber "\r-12;".toList = some (0, "-12;".toList) ∧
    ScanNumber " \n7;".toList = some (0, "7;".toList) := by
  decide

/-- C26 (amended): for every text-mode input of the form w* ['-'] d1..dk t rest, where
w* is any run of spaces and tabs, 1 ≤ k ≤ BUFSIZ − 2, the digits denote a value below
2^31 and t is any non-digit character, `ScanNumber` returns the value of d1..dk,
negated when the '-' is present, and leaves exactly rest unread. -/
theorem C26_scan_number (ws : List Char) (neg : Bool) (ds : List Char) (t : Char)
    (rest : List Char) (hws : ∀ c ∈ ws, c = ' ' ∨ c = '\t') (hne : ds ≠ [])
    (hds : ∀ c ∈ ds, c.isDigit = true) (hlen : ds.length ≤ BUFSIZ - 2)
    (ht : ¬ t.isDigit = true) (hval : atolDigits 0 ds < 2 ^ 31) :
    ScanNumber (ws ++ ((if neg then ['-'] else []) ++ (ds ++ t :: rest))) =
      some ((if neg then - (atolDigits 0 ds : Int) else (atolDigits 0 ds : Int)), rest) :=
  scan_number ws neg ds t rest hws hne hds hlen ht hval

set_option maxRecDepth 100000 in
/-- C26 (witness): the input ` \t-12;rest` gives −12 and leaves `rest`. -/
theorem C26_scan_number_witness :
    ScanNumber " \t-12;rest".toList = some (-12, "rest".toList) ∧
    ScanNumber (" \t".toList ++ ((if true then ['-'] else []) ++
        ("12".toList ++ ';' :: "rest".toList))) =
      some ((if true then - (atolDigits 0 "12".toList : Int)
             else (atolDigits 0 "12".toList : Int)), "rest".toList) :=
  ⟨by decide,
    C26_scan_number " \t".toList true "12".toList ';' "rest".toList (by decide) (by decide)
      (by decide) (by decide) (by decide) (by decide)⟩

/-! ## Variable server bridge (C27) -/

set_option maxRecDepth 100000 in
/-- C27: `varvm_fnGetFloat` switches on the type of its local, still zeroed `varObject`
and not on the type of the object that `pVarObject` addresses.  During the validation of
handle 8 with the captured float 1.5 (pattern 0x3FC00000) it returns 0.0, neither the
captured value nor the committed 2.0; `varvm_fnGet` and `varvm_fnGetString` return the
captured value, and after `validate_end` all three read the committed value. -/
theorem C27_get_float_ignores_captured_value :
    (validating 8
      { type := VarType.VARTYPE_FLOAT, len := 4, val := 0x3FC00000, str := none }).hValidationVar
      = 8 ∧
    varvm_fnGetFloat demoServer (validating 8
      { type := VarType.VARTYPE_FLOAT, len := 4, val := 0x3FC00000, str := none }) 8 = 0 ∧
    varvm_fnGetFloat demoServer demoVM 8 = 0x40000000 ∧
    varvm_fnGet demoServer (validating 7
      { type := VarType.VARTYPE_UINT32, len := 4, val := 42, str := none }) 7 = 42 ∧
    varvm_fnGet demoServer demoVM 7 = 5 ∧
    varvm_fnGetString demoServer (validating 9
      { type := VarType.VARTYPE_STR, len := 3, val := 0, str := some (ascii "new") }) 9 =
      some (ascii "new") ∧
    varvm_fnGetFloat demoServer (varvm_fnValidateEnd demoServer EOK (validating 8
      { type := VarType.VARTYPE_FLOAT, len := 4, val := 0x3FC00000, str := none })).2 8 =
      0x40000000 := by
  decide

/-- During a validation `varvm_fnGetFloat` ignores the captured object whenever the type
with code 0 is none of the three types of its `switch`. -/
theorem getFloat_during_validation (srv : VarServer) (vm : VarVM) (h : Nat)
    (hv : vm.hValidationVar = h) (h1 : srv.zeroType ≠ VarType.VARTYPE_UINT32)
    (h2 : srv.zeroType ≠ VarType.VARTYPE_UINT16) (h3 : srv.zeroType ≠ VarType.VARTYPE_FLOAT) :
    varvm_fnGetFloat srv vm h = 0 := by
  unfold varvm_fnGetFloat varvmObject zeroVarObject
  cases vm.getLoaded
  · rfl
  · simp only [if_true, if_pos hv, if_neg h1, if_neg h2, if_neg h3]

/-- During a validation `varvm_fnGet` and `varvm_fnGetString` read the captured
object. -/
theorem get_during_validation (srv : VarServer) (vm : VarVM) (h : Nat)
    (hg : vm.getLoaded = true) (hv : vm.hValidationVar = h) :
    (vm.validationData.type = VarType.VARTYPE_UINT32 →
      varvm_fnGet srv vm h = vm.validationData.val % 2 ^ 32) ∧
    (vm.validationData.type = VarType.VARTYPE_STR →
      varvm_fnGetString srv vm h = vm.validationData.str) := by
  unfold varvm_fnGet varvm_fnGetString varvmObject
  constructor
  · intro e
    simp only [hg, if_true, if_pos hv, e]
  · intro e
    simp only [hg, if_true, if_pos hv, e]

/-! ## Handles of external variables (C28) -/

theorem findByName_none (n : String) (l : List ExtVar) :
    extvar_fnFindByName n l = none ↔ n ∉ l.map (fun r => r.name) := by
  induction l with
  | nil => simp [extvar_fnFindByName]
  | cons v rest ih =>
    simp only [extvar_fnFindByName, List.map_cons, List.mem_cons, not_or]
    by_cases c : n = v.name
    · simp [c]
    · simp [c, ih]

theorem findByName_some (n : String) (l : List ExtVar) (r : ExtVar)
    (h : extvar_fnFindByName n l = some r) : r ∈ l ∧ r.name = n := by
  induction l with
  | nil => cases h
  | cons v rest ih =>
    simp only [extvar_fnFindByName] at h
    by_cases c : n = v.name
    · rw [if_pos c] at h
      injection h with h
      subst h
      exact ⟨List.mem_cons_self _ _, c.symm⟩
    · rw [if_neg c] at h
      exact ⟨List.mem_cons_of_mem _ (ih h).1, (ih h).2⟩

theorem getHandle_found (g : ExtVar) (n : String) (st : ExtVarState) (r : ExtVar)
    (h : extvar_fnFindByName n st.pExtVars = some r) :
    extvar_fnGetHandle (some g) true n st = (r.handle, st) := by
  unfold extvar_fnGetHandle
  cases hl : st.pExtVars with
  | nil => rw [hl] at h; cases h
  | cons v rest =>
    rw [hl] at h
    simp only [h]

theorem getHandle_new (g : ExtVar) (n : String) (st : ExtVarState)
    (h : extvar_fnFindByName n st.pExtVars = none) :
    extvar_fnGetHandle (some g) true n st =
      (u32 (st.handle + 1),
        { pExtVars := { g with name := n, handle := u32 (st.handle + 1) } :: st.pExtVars
          handle := u32 (st.handle + 1) }) := by
  unfold extvar_fnGetHandle
  cases hl : st.pExtVars with
  | nil => simp [extvar_fnNew, hl]
  | cons v rest =>
    rw [hl] at h
    simp only [h]
    simp [extvar_fnNew, hl]

/-- One call keeps the invariant, as long as the counter does not wrap. -/
theorem getHandle_inv (g : ExtVar) (n : String) (st : ExtVarState) (hi : extvarInv st)
    (hb : extvar_fnFindByName n st.pExtVars = none → st.handle + 1 < 2 ^ 32) :
    extvarInv (extvar_fnGetHandle (some g) true n st).2 := by
  cases hf : extvar_fnFindByName n st.pExtVars with
  | some r => rw [getHandle_found g n st r hf]; exact hi
  | none =>
    rw [getHandle_new g n st hf]
    have e : u32 (st.handle + 1) = st.handle + 1 := u32_of_lt _ (hb hf)
    obtain ⟨i1, i2, i3, i4⟩ := hi
    rw [e]
    refine ⟨?_, ?_, ?_, ?_⟩
    · intro r hr
      rcases List.mem_cons.1 hr with rfl | hr
      · exact ⟨Nat.le_add_left 1 _, Nat.le_refl _⟩
      · exact ⟨(i1 r hr).1, Nat.le_succ_of_le (i1 r hr).2⟩
    · simp only [List.map_cons, List.nodup_cons]
      refine ⟨?_, i2⟩
      intro hm
      obtain ⟨r, hr, e2⟩ := List.mem_map.1 hm
      have := (i1 r hr).2
      omega
    · simp only [List.map_cons, List.nodup_cons]
      exact ⟨(findByName_none n st.pExtVars).1 hf, i3⟩
    · simp only [List.length_cons]
      omega

theorem getHandle_names (g : ExtVar) (n : String) (st : ExtVarState) (m : String) :
    m ∈ (extvar_fnGetHandle (some g) true n st).2.pExtVars.map (fun r => r.name) ↔
      (m ∈ st.pExtVars.map (fun r => r.name) ∨ m = n) := by
  cases hf : extvar_fnFindByName n st.pExtVars with
  | some r =>
    rw [getHandle_found g n st r hf]
    obtain ⟨hr, hn⟩ := findByName_some n _ r hf
    constructor
    · exact Or.inl
    · rintro (h | h)
      · exact h
      · rw [h, ← hn]; exact List.mem_map_of_mem (fun r => r.name) hr
  | none =>
    rw [getHandle_new g n st hf]
    simp only [List.map_cons, List.mem_cons]
    constructor
    · rintro (h | h)
      · exact Or.inr h
      · exact Or.inl h
    · rintro (h | h)
      · exact Or.inr h
      · exact Or.inl h

theorem getHandle_keeps (g : ExtVar) (n : String) (st : ExtVarState) (r : ExtVar)
    (hr : r ∈ st.pExtVars) : r ∈ (extvar_fnGetHandle (some g) true n st).2.pExtVars := by
  cases hf : extvar_fnFindByName n st.pExtVars with
  | some q => rw [getHandle_found g n st q hf]; exact hr
  | none => rw [getHandle_new g n st hf]; exact List.mem_cons_of_mem _ hr

/-- The record of the name of a call is in the list after the call, with the handle that
the call returned. -/
theorem getHandle_record (g : ExtVar) (n : String) (st : ExtVarState) :
    ∃ r ∈ (extvar_fnGetHandle (some g) true n st).2.pExtVars,
      r.name = n ∧ r.handle = (extvar_fnGetHandle (some g) true n st).1 := by
  cases hf : extvar_fnFindByName n st.pExtVars with
  | some q =>
    rw [getHandle_found g n st q hf]
    exact ⟨q, (findByName_some n _ q hf).1, (findByName_some n _ q hf).2, rfl⟩
  | none =>
    rw [getHandle_new g n st hf]
    exact ⟨_, List.mem_cons_self _ _, rfl, rfl⟩

theorem run_append (g : ExtVar) (a b : List String) (st : ExtVarState) :
    getHandleRun g (a ++ b) st = getHandleRun g b (getHandleRun g a st) := by
  induction a generalizing st with
  | nil => rfl
  | cons n a ih =>
    rw [List.cons_append]
    simp only [getHandleRun]
    exact ih _

theorem run_keeps (g : ExtVar) (a : List String) (st : ExtVarState) (r : ExtVar)
    (hr : r ∈ st.pExtVars) : r ∈ (getHandleRun g a st).pExtVars := by
  induction a generalizing st with
  | nil => exact hr
  | cons n a ih => exact ih _ (getHandle_keeps g n st r hr)

/-- The state after a sequence of calls from the initial state: the invariant holds and
the names of the list are the names of the calls. -/
theorem run_inv (g : ExtVar) (pre : List String) (hc : pre.toFinset.card < 2 ^ 32) :
    extvarInv (getHandleRun g pre extvarInit) ∧
    ∀ m, m ∈ (getHandleRun g pre extvarInit).pExtVars.map (fun r => r.name) ↔ m ∈ pre := by
  induction pre using List.reverseRecOn with
  | nil =>
    refine ⟨⟨?_, List.nodup_nil, List.nodup_nil, rfl⟩, ?_⟩
    · intro r hr; cases hr
    · intro m; simp [getHandleRun, extvarInit]
  | append_singleton pre n ih =>
    have hsub : pre.toFinset ⊆ (pre ++ [n]).toFinset := by
      intro x hx
      rw [List.mem_toFinset] at hx ⊢
      exact List.mem_append_left _ hx
    have hc1 : pre.toFinset.card < 2 ^ 32 := Nat.lt_of_le_of_lt (Finset.card_le_card hsub) hc
    obtain ⟨hi, hn⟩ := ih hc1
    rw [run_append]
    simp only [getHandleRun]
    refine ⟨getHandle_inv g n _ hi ?_, ?_⟩
    · intro hf
      have hnot : n ∉ pre := fun h => (findByName_none n _).1 hf ((hn n).2 h)
      obtain ⟨_, _, i3, i4⟩ := hi
      have hlen : (getHandleRun g pre extvarInit).pExtVars.length = pre.toFinset.card := by
        rw [← List.length_map (getHandleRun g pre extvarInit).pExtVars (fun r => r.name),
          ← List.toFinset_card_of_nodup i3]
        congr 1
        ext x
        rw [List.mem_toFinset, List.mem_toFinset]
        exact hn x
      have hcard : (pre ++ [n]).toFinset.card = pre.toFinset.card + 1 := by
        have e : (pre ++ [n]).toFinset = insert n pre.toFinset := by
          ext x
          simp only [List.mem_toFinset, List.mem_append, List.mem_singleton, Finset.mem_insert]
          exact Or.comm
        rw [e, Finset.card_insert_of_not_mem (by rw [List.mem_toFinset]; exact hnot)]
      omega
    · intro m
      rw [getHandle_names, hn m, List.mem_append, List.mem_singleton]

theorem run_length (g : ExtVar) (pre : List String) (hc : pre.toFinset.card < 2 ^ 32) :
    (getHandleRun g pre extvarInit).handle = pre.toFinset.card := by
  obtain ⟨⟨_, _, i3, i4⟩, hn⟩ := run_inv g pre hc
  rw [i4, ← List.length_map (getHandleRun g pre extvarInit).pExtVars (fun r => r.name),
    ← List.toFinset_card_of_nodup i3]
  congr 1
  ext x
  rw [List.mem_toFinset, List.mem_toFinset]
  exact hn x

/-- The record of an earlier call is still in the list, with the handle issued then. -/
theorem earlier_record (g : ExtVar) (p1 : List String) (m : String) (p2 : List String) :
    ∃ r ∈ (getHandleRun g (p1 ++ m :: p2) extvarInit).pExtVars,
      r.name = m ∧ r.handle = issued g p1 m := by
  obtain ⟨r, hr, e1, e2⟩ := getHandle_record g m (getHandleRun g p1 extvarInit)
  refine ⟨r, ?_, e1, e2⟩
  rw [run_append]
  simp only [getHandleRun]
  exact run_keeps g p2 _ r hr

/-- C28: in the default bridge, for every sequence of `get_handle` calls without
allocation failure and with fewer than 2^32 distinct names: the first call for a name
inserts one record and returns a non-zero handle greater than every handle issued
before; every later call with the same name returns that same handle and leaves the
list unchanged; and distinct names never share a handle. -/
theorem C28_get_handle (g : ExtVar) (pre : List String) (n : String)
    (hc : (n :: pre).toFinset.card < 2 ^ 32) :
    issued g pre n ≠ 0 ∧
    (n ∉ pre →
      (extvar_fnGetHandle (some g) true n (getHandleRun g pre extvarInit)).2.pExtVars =
        { g with name := n, handle := issued g pre n } ::
          (getHandleRun g pre extvarInit).pExtVars ∧
      ∀ p1 m p2, pre = p1 ++ m :: p2 → issued g p1 m < issued g pre n) ∧
    (n ∈ pre →
      (extvar_fnGetHandle (some g) true n (getHandleRun g pre extvarInit)).2 =
        getHandleRun g pre extvarInit) ∧
    (∀ p1 m p2, pre = p1 ++ m :: p2 → (m = n ↔ issued g p1 m = issued g pre n)) := by
  have hsub : pre.toFinset ⊆ (n :: pre).toFinset := by
    intro x hx
    rw [List.mem_toFinset] at hx ⊢
    exact List.mem_cons_of_mem _ hx
  have hc1 : pre.toFinset.card < 2 ^ 32 := Nat.lt_of_le_of_lt (Finset.card_le_card hsub) hc
  obtain ⟨hi, hn⟩ := run_inv g pre hc1
  have hlen := run_length g pre hc1
  obtain ⟨i1, i2, i3, i4⟩ := hi
  have hrec : ∀ p1 m p2, pre = p1 ++ m :: p2 →
      ∃ r ∈ (getHandleRun g pre extvarInit).pExtVars, r.name = m ∧ r.handle = issued g p1 m := by
    intro p1 m p2 e
    rw [e]
    exact earlier_record g p1 m p2
  unfold issued at hrec ⊢
  cases hf : extvar_fnFindByName n (getHandleRun g pre extvarInit).pExtVars with
  | none =>
    have hnot : n ∉ pre := fun h => (findByName_none n _).1 hf ((hn n).2 h)
    have hb : (getHandleRun g pre extvarInit).handle + 1 < 2 ^ 32 := by
      rw [hlen]
      have e : (n :: pre).toFinset.card = pre.toFinset.card + 1 := by
        rw [List.toFinset_cons,
          Finset.card_insert_of_not_mem (by rw [List.mem_toFinset]; exact hnot)]
      omega
    have e : u32 ((getHandleRun g pre extvarInit).handle + 1) =
        (getHandleRun g pre extvarInit).handle + 1 := u32_of_lt _ hb
    rw [getHandle_new g n _ hf, e]
    refine ⟨Nat.succ_ne_zero _, fun _ => ⟨rfl, ?_⟩, fun h => absurd h hnot, ?_⟩
    · intro p1 m p2 hp
      obtain ⟨r, hr, _, e2⟩ := hrec p1 m p2 hp
      rw [← e2]
      exact Nat.lt_succ_of_le (i1 r hr).2
    · intro p1 m p2 hp
      obtain ⟨r, hr, e1, e2⟩ := hrec p1 m p2 hp
      have hm : m ∈ pre := by rw [hp]; simp
      constructor
      · intro h; rw [h] at hm; exact absurd hm hnot
      · intro h
        have := (i1 r hr).2
        rw [e2] at this
        dsimp only at h
        omega
  | some q =>
    obtain ⟨hq, hqn⟩ := findByName_some n _ q hf
    have hin : n ∈ pre := (hn n).1 (hqn ▸ List.mem_map_of_mem (fun r => r.name) hq)
    rw [getHandle_found g n _ q hf]
    refine ⟨?_, fun h => absurd hin h, fun _ => rfl, ?_⟩
    · have := (i1 q hq).1
      dsimp only
      omega
    · intro p1 m p2 hp
      obtain ⟨r, hr, e1, e2⟩ := hrec p1 m p2 hp
      rw [← e2]
      constructor
      · intro h
        have : r = q := List.inj_on_of_nodup_map i3 hr hq (by rw [e1, hqn, h])
        rw [this]
      · intro h
        have : r = q := List.inj_on_of_nodup_map i2 hr hq h
        rw [← e1, this, hqn]

set_option maxRecDepth 100000 in
/-- C28 (witness): after the calls for `a`, `b`, `a` the name `b` has the handle 2 and a
call for `c` returns the new handle 3. -/
theorem C28_get_handle_witness :
    issued rawExtVar [] "a" = 1 ∧ issued rawExtVar ["a"] "b" = 2 ∧
    issued rawExtVar ["a", "b"] "a" = 1 ∧ issued rawExtVar ["a", "b", "a"] "b" = 2 ∧
    issued rawExtVar ["a", "b", "a"] "c" = 3 ∧
    (issued rawExtVar ["a", "b", "a"] "b" ≠ 0 ∧
      ("b" ∉ ["a", "b", "a"] →
        (extvar_fnGetHandle (some rawExtVar) true "b"
            (getHandleRun rawExtVar ["a", "b", "a"] extvarInit)).2.pExtVars =
          { rawExtVar with name := "b", handle := issued rawExtVar ["a", "b", "a"] "b" } ::
            (getHandleRun rawExtVar ["a", "b", "a"] extvarInit).pExtVars ∧
        ∀ p1 m p2, ["a", "b", "a"] = p1 ++ m :: p2 →
          issued rawExtVar p1 m < issued rawExtVar ["a", "b", "a"] "b") ∧
      ("b" ∈ ["a", "b", "a"] →
        (extvar_fnGetHandle (some rawExtVar) true "b"
            (getHandleRun rawExtVar ["a", "b", "a"] extvarInit)).2 =
          getHandleRun rawExtVar ["a", "b", "a"] extvarInit) ∧
      (∀ p1 m p2, ["a", "b", "a"] = p1 ++ m :: p2 →
        (m = "b" ↔ issued rawExtVar p1 m = issued rawExtVar ["a", "b", "a"] "b"))) :=
  ⟨by decide, by decide, by decide, by decide, by decide,
    C28_get_handle rawExtVar ["a", "b", "a"] "b" (by decide)⟩

/-! ## String buffers: identity and capacity (C29, C30) -/

set_option maxRecDepth 100000 in
/-- C29 (counterexample): `MOV.B R3, 7 ; CSB R3 ; CSB R3` leaves two in-use buffers with
the id 7 at level 0. -/
theorem C29_counterexample :
    (stepN plainHost 3 twoCsbCore).map
      (fun s => (s.strbuf.pFirst.map (fun p => (p.id, p.level)), s.strbuf.pFreeList)) =
      some ([(7, 0), (7, 0)], []) ∧
    (STRINGBUFFER_fnCreate plainHost.malloc 7
      (STRINGBUFFER_fnCreate plainHost.malloc 7 StrBufState.init).2).2.pFirst.map
        (fun p => (p.id, p.level)) = [(7, 0), (7, 0)] := by
  decide

/-- C29 (amended): the in-use list may hold several buffers with the same (id, level)
pair.  With an empty free list and a successful allocation `STRINGBUFFER_fnCreate` puts
a new buffer with the given id and the current level in front of the in-use list,
whether or not one with this id is there already; two `CSB` with the same id at the same
call depth leave two in-use buffers with that id and level, and a search by id finds the
newer one. -/
theorem C29_create_pushes_duplicate (h1 h2 : Fresh) (id : Int) (m : StrBufState)
    (he : m.pFreeList = []) :
    (STRINGBUFFER_fnCreate (some h2) id (STRINGBUFFER_fnCreate (some h1) id m).2).2.pFirst =
      { id := id, level := m.level, offset := 0, rwOffset := h2.rwOffset, size := BUFSIZE,
        pBuffer := some h2.bytes } ::
      { id := id, level := m.level, offset := 0, rwOffset := h1.rwOffset, size := BUFSIZE,
        pBuffer := some h1.bytes } :: m.pFirst ∧
    stringbuffer_fnFind id
      (STRINGBUFFER_fnCreate (some h2) id (STRINGBUFFER_fnCreate (some h1) id m).2).2.pFirst =
      some { id := id, level := m.level, offset := 0, rwOffset := h2.rwOffset, size := BUFSIZE,
             pBuffer := some h2.bytes } := by
  have e1 : STRINGBUFFER_fnCreate (some h1) id m =
      (true, { m with pFirst :=
        { id := id, level := m.level, offset := 0, rwOffset := h1.rwOffset, size := BUFSIZE,
          pBuffer := some h1.bytes } :: m.pFirst }) := by
    unfold STRINGBUFFER_fnCreate
    rw [he]
  have e2 : STRINGBUFFER_fnCreate (some h2) id (STRINGBUFFER_fnCreate (some h1) id m).2 =
      (true, { m with pFirst :=
        { id := id, level := m.level, offset := 0, rwOffset := h2.rwOffset, size := BUFSIZE,
          pBuffer := some h2.bytes } ::
        { id := id, level := m.level, offset := 0, rwOffset := h1.rwOffset, size := BUFSIZE,
          pBuffer := some h1.bytes } :: m.pFirst }) := by
    rw [e1]
    unfold STRINGBUFFER_fnCreate
    simp only [he]
  rw [e2]
  refine ⟨rfl, ?_⟩
  simp [stringbuffer_fnFind]

set_option maxRecDepth 100000 in
/-- C29 (witness): two creations of buffer 7 in the initial manager. -/
theorem C29_create_pushes_duplicate_witness :
    (STRINGBUFFER_fnCreate (some { rwOffset := 0, bytes := [] }) 7
      (STRINGBUFFER_fnCreate (some { rwOffset := 0, bytes := [] }) 7 StrBufState.init).2).2.pFirst =
      { id := 7, level := StrBufState.init.level, offset := 0, rwOffset := 0, size := BUFSIZE,
        pBuffer := some [] } ::
      { id := 7, level := StrBufState.init.level, offset := 0, rwOffset := 0, size := BUFSIZE,
        pBuffer := some [] } :: StrBufState.init.pFirst ∧
    stringbuffer_fnFind 7
      (STRINGBUFFER_fnCreate (some { rwOffset := 0, bytes := [] }) 7
        (STRINGBUFFER_fnCreate (some { rwOffset := 0, bytes := [] }) 7
          StrBufState.init).2).2.pFirst =
      some { id := 7, level := StrBufState.init.level, offset := 0, rwOffset := 0,
             size := BUFSIZE, pBuffer := some [] } :=
  C29_create_pushes_duplicate { rwOffset := 0, bytes := [] } { rwOffset := 0, bytes := [] } 7
    StrBufState.init rfl

/-- Function `stringbuffer_fnAppend` never writes the `size` member. -/
theorem append_keeps_size (ok : Bool) (p : tzStringBuffer) (str : List Nat) :
    (stringbuffer_fnAppend ok p str).size = p.size := by
  unfold stringbuffer_fnAppend
  dsimp only
  split_ifs <;> first | rfl | (cases p.pBuffer <;> rfl)

set_option maxRecDepth 100000 in
/-- C30: `stringbuffer_fnAppend` grows the block with `realloc` and never updates
`p->size`.  After `CSB 7` and the append of 300 characters the buffer has the append
offset 300, a block of 512 bytes and the recorded capacity 256. -/
theorem C30_offset_exceeds_recorded_size :
    (stringbuffer_fnFind 7 grownBuffer.pFirst).map
      (fun p => (p.offset, p.size, p.pBuffer.map List.length)) = some (300, 256, some 512) := by
  decide

/-! ## The failing paths in general -/

/-- In `copystring` a backslash after a backslash only sets the escape flag again. -/
theorem copyLoop_double_backslash (fuel : Nat) (escape : Bool) (rest : List Char) :
    copyLoop (fuel + 2) escape ('\\' :: '\\' :: rest) = copyLoop fuel true rest := by
  rw [copyLoop, if_pos rfl, copyLoop, if_pos rfl]

theorem parseDec_digits (v n : Nat) (ds : List Char) (t : Char) (rest : List Char)
    (hds : ∀ c ∈ ds, '0' ≤ c ∧ c ≤ '9') (ht : ¬ ('0' ≤ t ∧ t ≤ '9')) :
    (parseDec v n (ds ++ t :: rest)).2 = n + ds.length := by
  induction ds generalizing v n with
  | nil => rw [List.nil_append, parseDec, if_neg ht]; rfl
  | cons d ds ih =>
    rw [List.cons_append, parseDec, if_pos (hds d (List.mem_cons_self _ _)),
      ih _ _ (fun c hc => hds c (List.mem_cons_of_mem _ hc)), List.length_cons]
    omega

/-- The count of `ParseChar` for a decimal escape of k digits is k + 1. -/
theorem ParseChar_decimal_count (d : Char) (ds : List Char) (t : Char) (rest : List Char)
    (hd : '1' ≤ d ∧ d ≤ '9') (hds : ∀ c ∈ ds, '0' ≤ c ∧ c ≤ '9')
    (ht : ¬ ('0' ≤ t ∧ t ≤ '9')) :
    (ParseChar (d :: ds ++ t :: rest)).2 = (d :: ds).length + 1 := by
  have h0 : '0' ≤ d ∧ d ≤ '9' := ⟨Char.le_trans (by decide) hd.1, hd.2⟩
  have e : ParseChar (d :: ds ++ t :: rest) = parseDec 0 1 (d :: ds ++ t :: rest) := by
    rw [List.cons_append]
    unfold ParseChar
    have ne : ∀ c : Char, ¬ ('1' ≤ c ∧ c ≤ '9') → d ≠ c := fun c hc e => hc (e ▸ hd)
    simp only [if_neg (ne 'n' (by decide)), if_neg (ne 't' (by decide)),
      if_neg (ne 'b' (by decide)), if_neg (ne 'r' (by decide)), if_neg (ne 'f' (by decide)),
      if_neg (ne '\\' (by decide)), if_neg (ne '\'' (by decide)), if_neg (ne '0' (by decide)),
      if_pos hd]
  rw [e, parseDec_digits 0 1 (d :: ds) t rest
    (fun c hc => by
      rcases List.mem_cons.1 hc with rfl | hc
      · exact h0
      · exact hds c hc) ht]
  omega

/-- After a decimal escape of k digits `copystring` resumes behind the character that
follows the digits, whatever this character is. -/
theorem copyLoop_decimal_escape (fuel : Nat) (d : Char) (ds : List Char) (t : Char)
    (rest : List Char) (hd : '1' ≤ d ∧ d ≤ '9') (hds : ∀ c ∈ ds, '0' ≤ c ∧ c ≤ '9')
    (ht : ¬ ('0' ≤ t ∧ t ≤ '9')) :
    copyLoop (fuel + 1) true (d :: ds ++ t :: rest) =
      (copyLoop fuel false rest).map
        (fun out => (ParseChar (d :: ds ++ t :: rest)).1 :: out) := by
  have hn := ParseChar_decimal_count d ds t rest hd hds ht
  have hb : d ≠ '\\' := fun e => by
    rw [e] at hd
    exact absurd hd (by decide)
  have hdrop : (d :: (ds ++ t :: rest)).drop ((d :: ds).length + 1) = rest := by
    have : d :: (ds ++ t :: rest) = (d :: ds ++ [t]) ++ rest := by simp
    have hl : (d :: ds).length + 1 = (d :: ds ++ [t]).length := by simp
    rw [this, hl, List.drop_left]
  rw [List.cons_append] at hn ⊢
  rw [copyLoop, if_neg hb]
  simp only [if_true, hn, hdrop]
  rw [if_pos (by simp)]

/-- No descriptor up to 3 is ever closed. -/
theorem close_rejects_low (fd : Int) (st : FilesState) (h : fd ≤ 3) :
    CloseFileDescriptor fd st = (EBADF, st) := by
  unfold CloseFileDescriptor
  rw [if_neg (by omega)]

/-- No descriptor outside 1..19 is ever selected. -/
theorem select_rejects_outside (fd : Int) (st : FilesState) (h : fd ≤ 0 ∨ 20 ≤ fd) :
    SetActiveFileDescriptor fd st = (EBADF, st) := by
  unfold SetActiveFileDescriptor MAX_OPEN_FILES
  rw [if_neg (by push_cast; omega)]

/-- The descriptors of the slots below 3 are not looked at: after `InitFiles` no
descriptor is found. -/
theorem select_rejects_after_init (fd : Int) (h32 : -2 ^ 31 ≤ fd ∧ fd < 2 ^ 31) :
    SetActiveFileDescriptor fd filesInit = (EBADF, filesInit) := by
  have hf : Findfd fd filesInit = -1 := by
    unfold Findfd
    split_ifs with c
    · have e : ofInt fd = fd.toNat := by unfold ofInt; omega
      have hne : ¬ (0xFFFFFFFF : Nat) = ofInt fd := by rw [e]; omega
      have hs : fileSlots filesInit = List.replicate 17 freeSlot := by decide
      rw [hs]
      simp only [List.replicate, findSlot, freeSlot, if_neg hne]
    · rfl
  unfold SetActiveFileDescriptor
  dsimp only
  rw [hf]
  split_ifs <;> first | rfl | (exfalso; omega)


/-! ## String buffers: cursor, random access and append (C31, C32, C33) -/

/-- The record that `stringbuffer_fnFind` returns splits the in-use list: no record in
front of it has the id, and a write through the pointer replaces exactly this record. -/
theorem find_split (id : Int) (f : tzStringBuffer → tzStringBuffer) (l : List tzStringBuffer)
    (p : tzStringBuffer) (hf : stringbuffer_fnFind id l = some p) :
    p.id = id ∧
    ∃ pre post, l = pre ++ p :: post ∧ (∀ q ∈ pre, q.id ≠ id) ∧
      stringbuffer_fnUpdate id f l = pre ++ f p :: post := by
  induction l with
  | nil => simp [stringbuffer_fnFind] at hf
  | cons q rest ih =>
    unfold stringbuffer_fnFind at hf
    by_cases c : q.id = id
    · rw [if_pos c] at hf
      injection hf with hf
      subst hf
      refine ⟨c, [], rest, rfl, fun q hq => (by cases hq), ?_⟩
      unfold stringbuffer_fnUpdate
      rw [if_pos c]
      rfl
    · rw [if_neg c] at hf
      obtain ⟨hid, pre, post, e1, e2, e3⟩ := ih hf
      refine ⟨hid, q :: pre, post, by rw [e1]; rfl, ?_, ?_⟩
      · intro x hx
        rcases List.mem_cons.mp hx with h | h
        · rw [h]; exact c
        · exact e2 x h
      · unfold stringbuffer_fnUpdate
        rw [if_neg c, e3]
        rfl

/-- The first record with the id behind records of other ids is the one found. -/
theorem find_of_split (id : Int) (pre post : List tzStringBuffer) (p : tzStringBuffer)
    (hp : p.id = id) (hpre : ∀ q ∈ pre, q.id ≠ id) :
    stringbuffer_fnFind id (pre ++ p :: post) = some p := by
  induction pre with
  | nil =>
    rw [List.nil_append]
    unfold stringbuffer_fnFind
    rw [if_pos hp]
  | cons q rest ih =>
    rw [List.cons_append]
    unfold stringbuffer_fnFind
    rw [if_neg (hpre q (List.mem_cons_self _ _))]
    exact ih (fun x hx => hpre x (List.mem_cons_of_mem _ hx))

/-- A write through the pointer of `stringbuffer_fnFind` that keeps the id: the record
found afterwards is the image of the record found before, and the records around it
stay. -/
theorem find_update (id : Int) (f : tzStringBuffer → tzStringBuffer) (l : List tzStringBuffer)
    (p : tzStringBuffer) (hf : stringbuffer_fnFind id l = some p) (hid : (f p).id = p.id) :
    stringbuffer_fnFind id (stringbuffer_fnUpdate id f l) = some (f p) ∧
    ∃ pre post, l = pre ++ p :: post ∧ stringbuffer_fnUpdate id f l = pre ++ f p :: post := by
  obtain ⟨h1, pre, post, e1, e2, e3⟩ := find_split id f l p hf
  refine ⟨?_, pre, post, e1, e3⟩
  rw [e3]
  exact find_of_split id pre post (f p) (by rw [hid, h1]) e2

/-- C31 (amended): for every buffer found by its id, with append offset n and cursor r,
`STRINGBUFFER_fnSetRWOffset` with the offset o sets the cursor to o when o < n and
leaves it at r when o ≥ n (o = n included); nothing else in the record, no other record
and no other part of the manager changes. -/
theorem C31_set_rw_offset (m : StrBufState) (id : Int) (o : Nat) (p : tzStringBuffer)
    (hf : stringbuffer_fnFind id m.pFirst = some p) :
    stringbuffer_fnFind id (STRINGBUFFER_fnSetRWOffset id o m).pFirst =
      some { p with rwOffset := if o < p.offset then o else p.rwOffset } ∧
    (∃ pre post, m.pFirst = pre ++ p :: post ∧
      (STRINGBUFFER_fnSetRWOffset id o m).pFirst =
        pre ++ { p with rwOffset := if o < p.offset then o else p.rwOffset } :: post) ∧
    (STRINGBUFFER_fnSetRWOffset id o m).pFreeList = m.pFreeList ∧
    (STRINGBUFFER_fnSetRWOffset id o m).level = m.level := by
  have e : (fun q : tzStringBuffer => if o < q.offset then { q with rwOffset := o } else q) p =
      { p with rwOffset := if o < p.offset then o else p.rwOffset } := by
    by_cases c : o < p.offset
    · simp only [if_pos c]
    · simp only [if_neg c]
  have h := find_update id
    (fun q : tzStringBuffer => if o < q.offset then { q with rwOffset := o } else q) m.pFirst p hf
    (by rw [e])
  rw [e] at h
  exact ⟨h.1, h.2, rfl, rfl⟩

set_option maxRecDepth 100000 in
/-- C31 (witness): buffer 7 holds `hello`; the offset 2 moves the cursor to 2. -/
theorem C31_set_rw_offset_witness :
    stringbuffer_fnFind 7 (STRINGBUFFER_fnSetRWOffset 7 2 helloBuffer).pFirst =
      some { id := 7, level := 0, offset := 5, rwOffset := 2, size := 256,
             pBuffer := some (ascii "hello" ++ List.replicate 251 0) } ∧
    (stringbuffer_fnFind 7 (STRINGBUFFER_fnSetRWOffset 7 2 helloBuffer).pFirst =
      some { (⟨7, 0, 5, 0, 256, some (ascii "hello" ++ List.replicate 251 0)⟩ : tzStringBuffer)
             with rwOffset := if 2 < 5 then 2 else 0 } ∧
    (∃ pre post, helloBuffer.pFirst =
        pre ++ (⟨7, 0, 5, 0, 256, some (ascii "hello" ++ List.replicate 251 0)⟩ :
          tzStringBuffer) :: post ∧
      (STRINGBUFFER_fnSetRWOffset 7 2 helloBuffer).pFirst =
        pre ++ { (⟨7, 0, 5, 0, 256, some (ascii "hello" ++ List.replicate 251 0)⟩ :
          tzStringBuffer) with rwOffset := if 2 < 5 then 2 else 0 } :: post) ∧
    (STRINGBUFFER_fnSetRWOffset 7 2 helloBuffer).pFreeList = helloBuffer.pFreeList ∧
    (STRINGBUFFER_fnSetRWOffset 7 2 helloBuffer).level = helloBuffer.level) :=
  ⟨by decide,
    C31_set_rw_offset helloBuffer 7 2 ⟨7, 0, 5, 0, 256, some (ascii "hello" ++ List.replicate 251 0)⟩
      (by decide)⟩

set_option maxRecDepth 100000 in
/-- C31 (counterexample): buffer 7 holds `hello` (append offset 5) and its cursor is 2;
the offset 5, which is ≤ the append offset, leaves the cursor at 2. -/
theorem C31_counterexample :
    STRINGBUFFER_fnGetLength 7 (STRINGBUFFER_fnSetRWOffset 7 2 helloBuffer) = 5 ∧
    (stringbuffer_fnFind 7 (STRINGBUFFER_fnSetRWOffset 7 2 helloBuffer).pFirst).map
      (fun p => p.rwOffset) = some 2 ∧
    (stringbuffer_fnFind 7
      (STRINGBUFFER_fnSetRWOffset 7 5 (STRINGBUFFER_fnSetRWOffset 7 2 helloBuffer)).pFirst).map
      (fun p => p.rwOffset) = some 2 ∧
    (stringbuffer_fnFind 7
      (STRINGBUFFER_fnSetRWOffset 7 4 (STRINGBUFFER_fnSetRWOffset 7 2 helloBuffer)).pFirst).map
      (fun p => p.rwOffset) = some 4 := by
  decide

/-- What `bufferOk` says about the block of a buffer. -/
theorem bufferOk_block (p : tzStringBuffer) (h : bufferOk p = true) :
    ∃ b, p.pBuffer = some b ∧ p.size ≤ b.length ∧ p.offset < b.length ∧
      ∀ x ∈ b.take p.offset, x ≠ 0 := by
  unfold bufferOk at h
  cases hb : p.pBuffer with
  | none => rw [hb] at h; cases h
  | some b =>
    rw [hb] at h
    simp only [Bool.and_eq_true, decide_eq_true_eq, List.all_eq_true] at h
    exact ⟨b, rfl, h.1.1, h.1.2, h.2⟩

theorem bufferOk_of_block (p : tzStringBuffer) (b : List Nat) (hb : p.pBuffer = some b)
    (h1 : p.size ≤ b.length) (h2 : p.offset < b.length) (h3 : ∀ x ∈ b.take p.offset, x ≠ 0) :
    bufferOk p = true := by
  unfold bufferOk
  rw [hb]
  simp only [Bool.and_eq_true, decide_eq_true_eq, List.all_eq_true]
  exact ⟨⟨h1, h2⟩, h3⟩

/-- The C string at the head of a block whose first NUL stands behind `l`. -/
theorem cstr_append_nul (l r : List Nat) (h : ∀ x ∈ l, x ≠ 0) : cstr (l ++ 0 :: r) = l := by
  unfold cstr
  induction l with
  | nil => simp
  | cons a l ih =>
    have ha : a ≠ 0 := h a (List.mem_cons_self _ _)
    rw [List.cons_append, List.takeWhile_cons, if_pos (by simpa using ha),
      ih (fun x hx => h x (List.mem_cons_of_mem _ hx))]

theorem getD_take_lt (b : List Nat) (c n : Nat) (h : c < n) :
    (b.take n).getD c 0 = b.getD c 0 := by
  rw [List.getD_eq_getElem?_getD, List.getD_eq_getElem?_getD, List.getElem?_take, if_pos h]

/-- A block is its part below `c`, the byte at `c` and the rest. -/
theorem set_split (b : List Nat) (c x : Nat) (h : c < b.length) :
    b.set c x = b.take c ++ x :: b.drop (c + 1) := by
  induction b generalizing c with
  | nil => simp at h
  | cons a b ih =>
    cases c with
    | zero => rfl
    | succ c =>
      rw [List.set_cons_succ, ih c (by simpa using h)]
      rfl

/-- C32: for every buffer in use found by its id, with cursor c, append offset n and
content t, and every byte x: when c < n, `STRINGBUFFER_fnGetCharAtOffset` returns the
byte of t at c and `STRINGBUFFER_fnSetCharAtOffset` stores x at c, and when x is NUL it
also moves the append offset to c, so that the content becomes the first c bytes of t
(as `STRINGBUFFER_fnGet` and `STRINGBUFFER_fnGetLength` report); when c ≥ n (c = n
included) the read returns 0 and the store changes nothing. -/
theorem C32_random_access (m : StrBufState) (id : Int) (x : Nat) (p : tzStringBuffer)
    (hf : stringbuffer_fnFind id m.pFirst = some p) (hok : bufferOk p = true) :
    (p.rwOffset < p.offset →
      STRINGBUFFER_fnGetCharAtOffset id m = (bufferContent p).getD p.rwOffset 0 ∧
      stringbuffer_fnFind id (STRINGBUFFER_fnSetCharAtOffset id x m).pFirst =
        some (setCharAt x p) ∧
      (∃ pre post, m.pFirst = pre ++ p :: post ∧
        (STRINGBUFFER_fnSetCharAtOffset id x m).pFirst = pre ++ setCharAt x p :: post) ∧
      (setCharAt x p).rwOffset = p.rwOffset ∧
      (x ≠ 0 →
        (setCharAt x p).offset = p.offset ∧
        bufferContent (setCharAt x p) = (bufferContent p).set p.rwOffset x ∧
        bufferOk (setCharAt x p) = true) ∧
      (x = 0 →
        (setCharAt x p).offset = p.rwOffset ∧
        bufferContent (setCharAt x p) = (bufferContent p).take p.rwOffset ∧
        bufferOk (setCharAt x p) = true ∧
        STRINGBUFFER_fnGetLength id (STRINGBUFFER_fnSetCharAtOffset id x m) = p.rwOffset ∧
        STRINGBUFFER_fnGet id (STRINGBUFFER_fnSetCharAtOffset id x m) =
          some ((bufferContent p).take p.rwOffset))) ∧
    (p.offset ≤ p.rwOffset →
      STRINGBUFFER_fnGetCharAtOffset id m = 0 ∧
      STRINGBUFFER_fnSetCharAtOffset id x m = m) := by
  obtain ⟨b, hb, h1, h2, h3⟩ := bufferOk_block p hok
  constructor
  · intro hc
    have hs : setCharAt x p =
        { p with pBuffer := some (b.set p.rwOffset x),
                 offset := if x = 0 then p.rwOffset else p.offset } := by
      unfold setCharAt
      rw [if_pos hc, hb]
    have hid : (setCharAt x p).id = p.id := by rw [hs]
    have hfu := find_update id (setCharAt x) m.pFirst p hf hid
    have hcont : bufferContent p = b.take p.offset := by
      unfold bufferContent; rw [hb]; rfl
    refine ⟨?_, hfu.1, hfu.2, by rw [hs], ?_, ?_⟩
    · unfold STRINGBUFFER_fnGetCharAtOffset
      rw [hf]
      simp only [if_pos hc]
      rw [hcont, hb, getD_take_lt b _ _ hc]
      rfl
    · intro hx
      have e : setCharAt x p = { p with pBuffer := some (b.set p.rwOffset x) } := by
        rw [hs, if_neg hx]
      have hc2 : bufferContent (setCharAt x p) = (bufferContent p).set p.rwOffset x := by
        rw [hcont, e]
        unfold bufferContent
        exact List.set_take
      refine ⟨by rw [e], hc2, ?_⟩
      refine bufferOk_of_block _ (b.set p.rwOffset x) (by rw [e]) ?_ ?_ ?_
      · rw [e, List.length_set]; exact h1
      · rw [e, List.length_set]; exact h2
      · intro y hy
        have e2 : (setCharAt x p).offset = p.offset := by rw [e]
        rw [e2, List.set_take] at hy
        rcases List.mem_or_eq_of_mem_set hy with h | h
        · exact h3 y h
        · rw [h]; exact hx
    · intro hx
      have e : setCharAt x p =
          { p with pBuffer := some (b.set p.rwOffset 0), offset := p.rwOffset } := by
        rw [hs, hx, if_pos rfl]
      have hlt : p.rwOffset < b.length := by omega
      have ht : (b.set p.rwOffset 0).take p.rwOffset = (bufferContent p).take p.rwOffset := by
        rw [hcont, List.take_take, Nat.min_eq_left (Nat.le_of_lt hc), set_split b _ _ hlt,
          List.take_append_of_le_length (by rw [List.length_take]; omega), List.take_take,
          Nat.min_self]
      have hnul : ∀ y ∈ (bufferContent p).take p.rwOffset, y ≠ 0 := by
        intro y hy
        rw [hcont] at hy
        exact h3 y (List.mem_of_mem_take hy)
      have hc2 : bufferContent (setCharAt x p) = (bufferContent p).take p.rwOffset := by
        rw [e]
        unfold bufferContent
        exact ht
      refine ⟨by rw [e], hc2, ?_, ?_, ?_⟩
      · refine bufferOk_of_block _ (b.set p.rwOffset 0) (by rw [e]) ?_ ?_ ?_
        · rw [e, List.length_set]; exact h1
        · rw [e, List.length_set]; exact hlt
        · intro y hy
          have e2 : (setCharAt x p).offset = p.rwOffset := by rw [e]
          rw [e2, ht] at hy
          exact hnul y hy
      · unfold STRINGBUFFER_fnGetLength
        have hfu1 : stringbuffer_fnFind id (STRINGBUFFER_fnSetCharAtOffset id x m).pFirst =
            some (setCharAt x p) := hfu.1
        rw [hfu1, e]
      · unfold STRINGBUFFER_fnGet
        have hfu1 : stringbuffer_fnFind id (STRINGBUFFER_fnSetCharAtOffset id x m).pFirst =
            some (setCharAt x p) := hfu.1
        rw [hfu1, e]
        simp only [Option.map]
        rw [set_split b _ _ hlt]
        have hb2 : b.take p.rwOffset = (bufferContent p).take p.rwOffset := by
          rw [hcont, List.take_take, Nat.min_eq_left (Nat.le_of_lt hc)]
        rw [hb2, cstr_append_nul _ _ hnul]
  · intro hc
    have hn : ¬ p.rwOffset < p.offset := by omega
    constructor
    · unfold STRINGBUFFER_fnGetCharAtOffset
      rw [hf]
      simp only [if_neg hn]
    · have hs : setCharAt x p = p := by
        unfold setCharAt
        rw [if_neg hn]
      obtain ⟨_, pre, post, e1, _, e3⟩ := find_split id (setCharAt x) m.pFirst p hf
      unfold STRINGBUFFER_fnSetCharAtOffset
      rw [e3, hs, ← e1]

set_option maxRecDepth 100000 in
/-- C32 (witness): buffer 7 holds `hello` with the cursor at 2; the read returns `l`
and the store of a NUL leaves `he`. -/
theorem C32_random_access_witness :
    STRINGBUFFER_fnGetCharAtOffset 7 (STRINGBUFFER_fnSetRWOffset 7 2 helloBuffer) = 0x6C ∧
    STRINGBUFFER_fnGet 7
      (STRINGBUFFER_fnSetCharAtOffset 7 0 (STRINGBUFFER_fnSetRWOffset 7 2 helloBuffer)) =
      some (ascii "he") ∧
    STRINGBUFFER_fnGet 7
      (STRINGBUFFER_fnSetCharAtOffset 7 0x4C (STRINGBUFFER_fnSetRWOffset 7 2 helloBuffer)) =
      some (ascii "heLlo") ∧
    ((2 < 5 →
      STRINGBUFFER_fnGetCharAtOffset 7 (STRINGBUFFER_fnSetRWOffset 7 2 helloBuffer) =
        (bufferContent ⟨7, 0, 5, 2, 256, some (ascii "hello" ++ List.replicate 251 0)⟩).getD
          2 0 ∧
      stringbuffer_fnFind 7
        (STRINGBUFFER_fnSetCharAtOffset 7 0 (STRINGBUFFER_fnSetRWOffset 7 2 helloBuffer)).pFirst =
        some (setCharAt 0 ⟨7, 0, 5, 2, 256, some (ascii "hello" ++ List.replicate 251 0)⟩) ∧
      (∃ pre post, (STRINGBUFFER_fnSetRWOffset 7 2 helloBuffer).pFirst =
          pre ++ (⟨7, 0, 5, 2, 256, some (ascii "hello" ++ List.replicate 251 0)⟩ :
            tzStringBuffer) :: post ∧
        (STRINGBUFFER_fnSetCharAtOffset 7 0
          (STRINGBUFFER_fnSetRWOffset 7 2 helloBuffer)).pFirst =
          pre ++ setCharAt 0 ⟨7, 0, 5, 2, 256, some (ascii "hello" ++ List.replicate 251 0)⟩ ::
            post) ∧
      (setCharAt 0 ⟨7, 0, 5, 2, 256, some (ascii "hello" ++ List.replicate 251 0)⟩).rwOffset =
        2 ∧
      ((0 : Nat) ≠ 0 →
        (setCharAt 0 ⟨7, 0, 5, 2, 256, some (ascii "hello" ++ List.replicate 251 0)⟩).offset =
          5 ∧
        bufferContent
            (setCharAt 0 ⟨7, 0, 5, 2, 256, some (ascii "hello" ++ List.replicate 251 0)⟩) =
          (bufferContent ⟨7, 0, 5, 2, 256, some (ascii "hello" ++ List.replicate 251 0)⟩).set
            2 0 ∧
        bufferOk (setCharAt 0 ⟨7, 0, 5, 2, 256, some (ascii "hello" ++ List.replicate 251 0)⟩) =
          true) ∧
      ((0 : Nat) = 0 →
        (setCharAt 0 ⟨7, 0, 5, 2, 256, some (ascii "hello" ++ List.replicate 251 0)⟩).offset =
          2 ∧
        bufferContent
            (setCharAt 0 ⟨7, 0, 5, 2, 256, some (ascii "hello" ++ List.replicate 251 0)⟩) =
          (bufferContent ⟨7, 0, 5, 2, 256, some (ascii "hello" ++ List.replicate 251 0)⟩).take
            2 ∧
        bufferOk (setCharAt 0 ⟨7, 0, 5, 2, 256, some (ascii "hello" ++ List.replicate 251 0)⟩) =
          true ∧
        STRINGBUFFER_fnGetLength 7
          (STRINGBUFFER_fnSetCharAtOffset 7 0 (STRINGBUFFER_fnSetRWOffset 7 2 helloBuffer)) = 2 ∧
        STRINGBUFFER_fnGet 7
          (STRINGBUFFER_fnSetCharAtOffset 7 0 (STRINGBUFFER_fnSetRWOffset 7 2 helloBuffer)) =
          some ((bufferContent
            ⟨7, 0, 5, 2, 256, some (ascii "hello" ++ List.replicate 251 0)⟩).take 2))) ∧
    (5 ≤ 2 →
      STRINGBUFFER_fnGetCharAtOffset 7 (STRINGBUFFER_fnSetRWOffset 7 2 helloBuffer) = 0 ∧
      STRINGBUFFER_fnSetCharAtOffset 7 0 (STRINGBUFFER_fnSetRWOffset 7 2 helloBuffer) =
        STRINGBUFFER_fnSetRWOffset 7 2 helloBuffer)) :=
  ⟨by decide, by decide, by decide,
    C32_random_access (STRINGBUFFER_fnSetRWOffset 7 2 helloBuffer) 7 0
      ⟨7, 0, 5, 2, 256, some (ascii "hello" ++ List.replicate 251 0)⟩ (by decide) (by decide)⟩

/-! ## Appending to a string buffer (C33) -/

set_option maxRecDepth 100000 in
/-- C34: in immediate-address mode `opLOD` and `opSTR` hand `&MEMORY[PC]` to
`core_fnStoreData` after the fetch of the address has advanced PC, so the width tag is
read from an operand byte and not from the opcode byte.  `STR.B 32, R2` with
R2 = 0x11223344 stores the four bytes 11 22 33 44 at 32..35 where the register-mode
`STR.B [R1], R2` stores the one byte 44; `STR.W 32, R2` stores four bytes where
`STR.W [R1], R2` stores the two bytes 33 44; `LOD.B R3, 32` loads four bytes into R3
where `LOD.B R3, [R1]` loads one. -/
theorem C34_immediate_mode_reads_tag_after_fetch :
    MEM strImmByteCore (PC strImmByteCore) = 0x82 ∧
    MEM strImmByteCore (PC strImmByteCore) &&& (BYTE ||| WORD) = BYTE ∧
    MEM strImmByteCore (PC strImmByteCore) &&& MODE_REG ≠ MODE_REG ∧
    (core_fnGetUnsignedData strImmByteCore (PC strImmByteCore) 2).1 = 32 ∧
    ((opSTR strImmByteCore).memory.drop 32).take 4 = [0x11, 0x22, 0x33, 0x44] ∧
    ((opSTR strRegByteCore).memory.drop 32).take 4 = [0x44, 0, 0, 0] ∧
    MEM strImmWordCore (PC strImmWordCore) &&& (BYTE ||| WORD) = WORD ∧
    ((opSTR strImmWordCore).memory.drop 32).take 4 = [0x11, 0x22, 0x33, 0x44] ∧
    ((opSTR strRegWordCore).memory.drop 32).take 4 = [0x33, 0x44, 0, 0] ∧
    MEM lodImmByteCore (PC lodImmByteCore) &&& (BYTE ||| WORD) = BYTE ∧
    (lodImmByteCore.memory.drop 32).take 4 = [0xAA, 0xBB, 0xCC, 0xDD] ∧
    lodImmByteCore.reg 3 = 0 ∧ (opLOD lodImmByteCore).reg 3 = 0xAABBCCDD ∧
    lodRegByteCore.reg 3 = 0 ∧ (opLOD lodRegByteCore).reg 3 = 0xAA := by
  decide

/-! ## The N flag of `CMP` (C36) -/

/-- C36 (amended): after an integer `CMP` of lhs and rhs (the destination register and
the source register or literal, as the handler reads them) the N flag is the sign bit
of the 32-bit difference: it is set iff lhs < rhs as signed 32-bit integers whenever
the signed difference lhs − rhs lies in [−2^31, 2^31 − 1], and it is set iff
lhs > rhs whenever that difference overflows. -/
theorem C36_cmp_negative_flag (H : Host) (s : tzCore)
    (hint : MEM s (PC s) &&& FLOAT32 ≠ FLOAT32) (hst : s.status < 2 ^ 32)
    (hl : cmpLhs s < 2 ^ 32) (hr : aluOperand s < 2 ^ 32) :
    ((-2 ^ 31 ≤ toInt (cmpLhs s) - toInt (aluOperand s) ∧
        toInt (cmpLhs s) - toInt (aluOperand s) < 2 ^ 31) →
      ((opCMP H s).status &&& NFLAG ≠ 0 ↔ toInt (cmpLhs s) < toInt (aluOperand s))) ∧
    (¬ (-2 ^ 31 ≤ toInt (cmpLhs s) - toInt (aluOperand s) ∧
        toInt (cmpLhs s) - toInt (aluOperand s) < 2 ^ 31) →
      ((opCMP H s).status &&& NFLAG ≠ 0 ↔ toInt (aluOperand s) < toInt (cmpLhs s))) := by
  obtain ⟨_, _, hstat⟩ := opCMP_int H s hint
  obtain ⟨_, b1, _, _⟩ := SETFLAGS_bits (cmpLhs s) (u32 (2 ^ 32 + cmpLhs s - aluOperand s)) s
    hst hl (u32_lt _)
  have hn : (opCMP H s).status &&& NFLAG ≠ 0 ↔
      2 ^ 31 ≤ u32 (2 ^ 32 + cmpLhs s - aluOperand s) := by
    rw [and_flag_ne _ 1 NFLAG (by decide), hstat, b1, decide_eq_true_iff]
  rw [hn]
  unfold u32 toInt
  constructor
  · intro h
    split_ifs at h ⊢ <;> omega
  · intro h
    split_ifs at h ⊢ <;> omega

set_option maxRecDepth 100000 in
/-- C36 (witness): `CMP R1, R2` with R1 = 5 and R2 = 9 sets N. -/
theorem C36_cmp_negative_flag_witness :
    (opCMP plainHost cmpLessCore).status &&& NFLAG ≠ 0 ∧
    (((-2 ^ 31 ≤ toInt (cmpLhs cmpLessCore) - toInt (aluOperand cmpLessCore) ∧
        toInt (cmpLhs cmpLessCore) - toInt (aluOperand cmpLessCore) < 2 ^ 31) →
      ((opCMP plainHost cmpLessCore).status &&& NFLAG ≠ 0 ↔
        toInt (cmpLhs cmpLessCore) < toInt (aluOperand cmpLessCore))) ∧
    (¬ (-2 ^ 31 ≤ toInt (cmpLhs cmpLessCore) - toInt (aluOperand cmpLessCore) ∧
        toInt (cmpLhs cmpLessCore) - toInt (aluOperand cmpLessCore) < 2 ^ 31) →
      ((opCMP plainHost cmpLessCore).status &&& NFLAG ≠ 0 ↔
        toInt (aluOperand cmpLessCore) < toInt (cmpLhs cmpLessCore)))) :=
  ⟨by decide,
    C36_cmp_negative_flag plainHost cmpLessCore (by decide) (by decide) (by decide) (by decide)⟩

set_option maxRecDepth 100000 in
/-- C36 (counterexample): `CMP R1, R2` with R1 = 0x80000000 (−2^31) and R2 = 1: R1 < R2
as signed integers, the difference wraps to 0x7FFFFFFF and N is clear, so the `JNE` of
a compiled less-than does not jump. -/
theorem C36_counterexample :
    MEM cmpOverflowCore (PC cmpOverflowCore) = 0x36 ∧
    cmpLhs cmpOverflowCore = 0x80000000 ∧ aluOperand cmpOverflowCore = 1 ∧
    toInt (cmpLhs cmpOverflowCore) = -2 ^ 31 ∧ toInt (aluOperand cmpOverflowCore) = 1 ∧
    toInt (cmpLhs cmpOverflowCore) < toInt (aluOperand cmpOverflowCore) ∧
    (opCMP plainHost cmpOverflowCore).status &&& NFLAG = 0 ∧
    ¬ ((opCMP plainHost cmpOverflowCore).status &&& NFLAG ≠ 0 ↔
      toInt (cmpLhs cmpOverflowCore) < toInt (aluOperand cmpOverflowCore)) := by
  decide

/-! ## Division by zero (C37) -/

/-- Handler `opDIV` has no test of the divisor: with an integer instruction and a zero
divisor it evaluates the division. -/
theorem opDIV_zero_divisor (H : Host) (s : tzCore)
    (hint : MEM s (PC s) &&& FLOAT32 ≠ FLOAT32) (h0 : aluOperand s = 0) :
    opDIVStrict H s = none := by
  unfold opDIVStrict
  rw [if_neg hint, h0, if_pos (by decide)]

/-- Handler `opDIV` never stops the core by itself: the `running` flag can only be
cleared by the `INC_PC` at its end, when PC leaves the program. -/
theorem opDIV_running (H : Host) (s : tzCore) (hint : MEM s (PC s) &&& FLOAT32 ≠ FLOAT32)
    (hm : MEM s (PC s) &&& MODE_REG = MODE_REG) (hpc : PC s + 2 ≤ s.programSize)
    (hp : s.programSize < 2 ^ 31) (hd : aluDst s ≠ 15) :
    (opDIV H s).running = s.running := by
  have hd2 : ¬ ((MEM s (PC s + 1) >>> 4) &&& 0x0F = 15) := by
    unfold aluDst at hd
    rw [if_pos hm] at hd
    exact hd
  unfold opDIV
  simp only [if_pos hm, if_neg hint]
  rw [INC_PC_running]
  · rfl
  · have e : PC (SETFLAGS (s.reg ((MEM s (PC s + 1) >>> 4) &&& 0x0F))
        ((setReg s ((MEM s (PC s + 1) >>> 4) &&& 0x0F)
          (sdiv (s.reg ((MEM s (PC s + 1) >>> 4) &&& 0x0F))
            (s.reg (MEM s (PC s + 1) &&& 0x0F)))).reg ((MEM s (PC s + 1) >>> 4) &&& 0x0F))
        (setReg s ((MEM s (PC s + 1) >>> 4) &&& 0x0F)
          (sdiv (s.reg ((MEM s (PC s + 1) >>> 4) &&& 0x0F))
            (s.reg (MEM s (PC s + 1) &&& 0x0F))))) = PC s := by
      unfold PC
      simp only [SETFLAGS_reg, setReg_reg]
      rw [if_neg (fun h => hd2 h.symm)]
    rw [e]
    exact hpc
  · exact hp

set_option maxRecDepth 100000 in
/-- C37: `opDIV` has no zero check.  `DIV R1, R2` with R1 = 7 and R2 = 0, and
`DIV.B R1, 0`, reach the division with the divisor 0, which is undefined in C; the
handler contains no `STOP`, and past the division the core is still running with PC
behind the instruction. -/
theorem C37_div_by_zero_not_guarded :
    MEM divZeroCore (PC divZeroCore) &&& 0x1F = 0x07 ∧
    MEM divZeroCore (PC divZeroCore) &&& FLOAT32 ≠ FLOAT32 ∧
    cmpLhs divZeroCore = 7 ∧ aluOperand divZeroCore = 0 ∧
    (opDIVStrict plainHost divZeroCore).isNone = true ∧
    (opDIV plainHost divZeroCore).running = true ∧ PC (opDIV plainHost divZeroCore) = 2 ∧
    MEM divZeroImmCore (PC divZeroImmCore) &&& 0x1F = 0x07 ∧
    cmpLhs divZeroImmCore = 7 ∧ aluOperand divZeroImmCore = 0 ∧
    (opDIVStrict plainHost divZeroImmCore).isNone = true ∧
    (opDIV plainHost divZeroImmCore).running = true ∧
    PC (opDIV plainHost divZeroImmCore) = 3 := by
  decide

/-! ## `ScanNumber` at the end of the input (C38) -/

/-- At the end of the input a pass of the loop of `ScanNumber` changes nothing. -/
theorem scanPass_eof (st : ScanState) (h : st.input = []) : scanPass st = st := by
  unfold scanPass
  rw [h]

/-- Once the input has ended with the loop condition true, the loop of `ScanNumber`
stays in the same state, with the condition true, for any number of passes. -/
theorem scanPasses_eof (n : Nat) (st : ScanState) (h : st.input = []) :
    scanPasses n st = st := by
  induction n with
  | zero => rfl
  | succ n ih =>
    unfold scanPasses
    by_cases c : scanGuard st = true
    · rw [if_pos c, scanPass_eof st h, ih]
    · rw [if_neg c]

theorem scanPasses_succ (n : Nat) (st : ScanState) :
    scanPasses (n + 1) st = if scanGuard st then scanPasses n (scanPass st) else st := rfl

theorem scanPasses_stop (n : Nat) (st : ScanState) (h : ¬ scanGuard st = true) :
    scanPasses n st = st := by
  cases n with
  | zero => rfl
  | succ n => rw [scanPasses_succ, if_neg h]

theorem scanPasses_add (a b : Nat) (st : ScanState) :
    scanPasses (a + b) st = scanPasses b (scanPasses a st) := by
  induction a generalizing st with
  | zero => rw [Nat.zero_add]; rfl
  | succ a ih =>
    rw [Nat.succ_add, scanPasses_succ (a + b), scanPasses_succ a]
    by_cases c : scanGuard st = true
    · rw [if_pos c, if_pos c, ih]
    · rw [if_neg c, if_neg c, scanPasses_stop b st c]

/-- The loop of `scanLoop` does not end on digits that run to the end of the input. -/
theorem scanLoop_digits_eof (sign : Int) (buf ds : List Char)
    (hds : ∀ c ∈ ds, c.isDigit = true) (hlen : buf.length + ds.length < BUFSIZ - 1) :
    scanLoop 1 sign buf ds = none := by
  induction ds generalizing buf with
  | nil =>
    unfold scanLoop
    rw [if_pos (by simpa using hlen)]
  | cons d ds ih =>
    have h1 : buf.length < BUFSIZ - 1 := by rw [List.length_cons] at hlen; omega
    rw [scanLoop, if_pos h1, if_pos rfl, if_pos (hds d (List.mem_cons_self _ _))]
    exact ih (buf ++ [d]) (fun c hc => hds c (List.mem_cons_of_mem _ hc))
      (by rw [List.length_append, List.length_singleton]; rw [List.length_cons] at hlen; omega)

/-- Function `ScanNumber` does not return for an input that is a number up to its very
end: a digit followed by digits and the end of the input. -/
theorem ScanNumber_digits_eof (d : Char) (ds : List Char) (hd : d.isDigit = true)
    (hds : ∀ c ∈ ds, c.isDigit = true) (hlen : ds.length + 1 < BUFSIZ - 1) :
    ScanNumber (d :: ds) = none := by
  unfold ScanNumber
  rw [scanLoop_first_digit 1 d ds hd, scanLoop_digits_eof 1 [d] ds hds
    (by rw [List.length_singleton]; omega)]
  rfl

set_option maxRecDepth 100000 in
/-- C38: on the input `42` followed by the end of the file `ScanNumber` does not
terminate.  After two passes of its loop both digits are stored, `done` is false and
the input is at its end; from then on `read` returns 0, the body of the loop does
nothing and the loop condition stays true, for any number of further passes: the
function never reaches `atol` and returns nothing. -/
theorem C38_scan_number_spins_at_eof :
    scanPasses 2 (scanStart "42".toList) =
      { done := false, idx := 2, state := 1, sign := 1, buf := "42".toList, input := [] } ∧
    (∀ n, scanPasses (2 + n) (scanStart "42".toList) = scanPasses 2 (scanStart "42".toList) ∧
      scanGuard (scanPasses (2 + n) (scanStart "42".toList)) = true) ∧
    ScanNumber "42".toList = none := by
  have h2 : scanPasses 2 (scanStart "42".toList) =
      { done := false, idx := 2, state := 1, sign := 1, buf := "42".toList, input := [] } := by
    decide
  refine ⟨h2, fun n => ?_, by decide⟩
  have e : scanPasses (2 + n) (scanStart "42".toList) = scanPasses 2 (scanStart "42".toList) := by
    rw [scanPasses_add, scanPasses_eof n _ (by rw [h2])]
  rw [e]
  exact ⟨rfl, by rw [h2]; decide⟩

/-! ## Assembling and decoding an immediate (C35) -/

/-- The width tag of an instruction byte built from an opcode below 32. -/
theorem tag_bits (inst : Nat) (h : inst < 32) :
    (inst ||| BYTE) &&& (BYTE ||| WORD) = BYTE ∧ (inst ||| WORD) &&& (BYTE ||| WORD) = WORD ∧
    inst &&& (BYTE ||| WORD) = LONG := by
  interval_cases inst <;> exact ⟨rfl, rfl, rfl⟩

theorem decode_byte (i reg b0 : Nat) (hi : i &&& (BYTE ||| WORD) = BYTE) :
    decodeImmediate [i, reg, b0] =
      toInt (if b0 % 2 ^ 8 < 2 ^ 7 then b0 % 2 ^ 8 else (2 ^ 32 - 2 ^ 8) + b0 % 2 ^ 8) := by
  have m0 : MEM (imageCore [i, reg, b0]) 0 = i := rfl
  have m2 : MEM (imageCore [i, reg, b0]) (0 + 2) = b0 := rfl
  unfold decodeImmediate core_fnGetSignedData
  simp only [m0, m2, hi, if_true]

theorem decode_word (i reg b1 b0 : Nat) (hi : i &&& (BYTE ||| WORD) = WORD) :
    decodeImmediate [i, reg, b1, b0] =
      toInt (if ((b1 <<< 8) + b0) % 2 ^ 16 < 2 ^ 15 then ((b1 <<< 8) + b0) % 2 ^ 16
             else (2 ^ 32 - 2 ^ 16) + ((b1 <<< 8) + b0) % 2 ^ 16) := by
  have m0 : MEM (imageCore [i, reg, b1, b0]) 0 = i := rfl
  have m2 : MEM (imageCore [i, reg, b1, b0]) (0 + 2) = b1 := rfl
  have m3 : MEM (imageCore [i, reg, b1, b0]) (0 + (2 + 1)) = b0 := rfl
  have nb : ¬ (WORD = BYTE) := by decide
  unfold decodeImmediate core_fnGetSignedData
  simp only [m0, m2, m3, hi, nb, if_true, if_false]

theorem decode_long (i reg b3 b2 b1 b0 : Nat) (hi : i &&& (BYTE ||| WORD) = LONG) :
    decodeImmediate [i, reg, b3, b2, b1, b0] =
      toInt (u32 ((b3 <<< 24) + (b2 <<< 16) + (b1 <<< 8) + b0)) := by
  have m0 : MEM (imageCore [i, reg, b3, b2, b1, b0]) 0 = i := rfl
  have m2 : MEM (imageCore [i, reg, b3, b2, b1, b0]) (0 + 2) = b3 := rfl
  have m3 : MEM (imageCore [i, reg, b3, b2, b1, b0]) (0 + (2 + 1)) = b2 := rfl
  have m4 : MEM (imageCore [i, reg, b3, b2, b1, b0]) (0 + (2 + 2)) = b1 := rfl
  have m5 : MEM (imageCore [i, reg, b3, b2, b1, b0]) (0 + (2 + 3)) = b0 := rfl
  have n1 : ¬ (LONG = BYTE) := by decide
  have n2 : ¬ (LONG = WORD) := by decide
  unfold decodeImmediate core_fnGetSignedData
  simp only [m0, m2, m3, m4, m5, hi, n1, n2, if_true, if_false, true_or]

/-- The two bytes that `storeValue` emits for a 16-bit pattern. -/
theorem word_bytes (u : Nat) (h : u < 2 ^ 16) :
    ((((u &&& 0xFF00) >>> 8) % 2 ^ 8) <<< 8) + (u &&& 0x00FF) % 2 ^ 8 = u := by
  have e : (u &&& 0x00FF) = u &&& 0x000000FF := rfl
  have e1 : (u &&& 0xFF00) = u &&& 0x0000FF00 := rfl
  rw [e, e1, byte1_eq, byte0_eq, Nat.shiftLeft_eq]
  omega

/-- The four bytes that `storeValue` emits for a 32-bit pattern. -/
theorem long_bytes (u : Nat) (h : u < 2 ^ 32) :
    ((((u &&& 0xFF000000) >>> 24) % 2 ^ 8) <<< 24) + ((((u &&& 0x00FF0000) >>> 16) % 2 ^ 8) <<< 16) +
      ((((u &&& 0x0000FF00) >>> 8) % 2 ^ 8) <<< 8) + (u &&& 0x000000FF) % 2 ^ 8 = u := by
  rw [byte3_eq, byte2_eq, byte1_eq, byte0_eq]
  simp only [Nat.shiftLeft_eq]
  omega

theorem emit_w1 (inst : Nat) (op lit : tzParseInfo) (hop : op.width = 4)
    (hw : lit.width = 1) (ht : lit.type = teParseType.eUINT8 ∨ lit.type = teParseType.eSINT8) :
    CheckParseInfo inst op lit = some (inst ||| BYTE, { op with width := 1 }, lit) := by
  have h1 : lit.type ≠ teParseType.eREGISTER := by rcases ht with h | h <;> rw [h] <;> decide
  have h2 : lit.type ≠ teParseType.eFLOAT32 := by rcases ht with h | h <;> rw [h] <;> decide
  unfold CheckParseInfo
  simp [h1, h2, hop, hw]

theorem emit_w2 (inst : Nat) (op lit : tzParseInfo) (hop : op.width = 4)
    (hw : lit.width = 2)
    (ht : lit.type = teParseType.eUINT16 ∨ lit.type = teParseType.eSINT16) :
    CheckParseInfo inst op lit = some (inst ||| WORD, { op with width := 2 }, lit) := by
  have h1 : lit.type ≠ teParseType.eREGISTER := by rcases ht with h | h <;> rw [h] <;> decide
  have h2 : lit.type ≠ teParseType.eFLOAT32 := by rcases ht with h | h <;> rw [h] <;> decide
  unfold CheckParseInfo
  simp [h1, h2, hop, hw]

theorem emit_w4 (inst : Nat) (op lit : tzParseInfo) (hop : op.width = 4)
    (hw : lit.width = 4)
    (ht : lit.type = teParseType.eUINT32 ∨ lit.type = teParseType.eSINT32) :
    CheckParseInfo inst op lit = some (inst, op, lit) := by
  have h1 : lit.type ≠ teParseType.eREGISTER := by rcases ht with h | h <;> rw [h] <;> decide
  have h2 : lit.type ≠ teParseType.eFLOAT32 := by rcases ht with h | h <;> rw [h] <;> decide
  unfold CheckParseInfo
  simp [h1, h2, hop, hw]

/-- An unsigned byte comes back sign extended. -/
theorem round_u8 (inst reg : Nat) (op : tzParseInfo) (u : Nat) (hinst : inst < 32)
    (hop : op.width = 4) (hu : u < 2 ^ 8) :
    (emitImmediate inst reg op
      { type := teParseType.eUINT8, n := 1, width := 1, value := u }).map decodeImmediate =
      some (if u < 2 ^ 7 then (u : Int) else (u : Int) - 2 ^ 8) := by
  unfold emitImmediate
  rw [emit_w1 inst op _ hop rfl (Or.inl rfl)]
  simp only [storeValue, ucVal, Option.map]
  rw [decode_byte _ _ _ (tag_bits inst hinst).1]
  congr 1
  unfold toInt
  split_ifs <;> omega

theorem round_s8 (inst reg : Nat) (op : tzParseInfo) (n : Int) (hinst : inst < 32)
    (hop : op.width = 4) (h1 : -128 ≤ n) (h2 : n ≤ 127) :
    (emitImmediate inst reg op
      { type := teParseType.eSINT8, n := 1, width := 1,
        value := (n % 2 ^ 8).toNat }).map decodeImmediate = some n := by
  unfold emitImmediate
  rw [emit_w1 inst op _ hop rfl (Or.inr rfl)]
  simp only [storeValue, scVal, Option.map]
  rw [signedView_8 n h1 h2, decode_byte _ _ _ (tag_bits inst hinst).1]
  congr 1
  unfold toInt
  split_ifs <;> omega

/-- An unsigned 16-bit literal comes back sign extended. -/
theorem round_u16 (inst reg : Nat) (op : tzParseInfo) (u : Nat) (hinst : inst < 32)
    (hop : op.width = 4) (hu : u < 2 ^ 16) :
    (emitImmediate inst reg op
      { type := teParseType.eUINT16, n := 2, width := 2, value := u }).map decodeImmediate =
      some (if u < 2 ^ 15 then (u : Int) else (u : Int) - 2 ^ 16) := by
  unfold emitImmediate
  rw [emit_w2 inst op _ hop rfl (Or.inl rfl)]
  simp only [storeValue, uiVal, Option.map]
  rw [decode_word _ _ _ _ (tag_bits inst hinst).2.1, Nat.mod_eq_of_lt hu, word_bytes u hu]
  congr 1
  unfold toInt
  split_ifs <;> omega

theorem round_s16 (inst reg : Nat) (op : tzParseInfo) (n : Int) (hinst : inst < 32)
    (hop : op.width = 4) (h1 : -32768 ≤ n) (h2 : n ≤ 32767) :
    (emitImmediate inst reg op
      { type := teParseType.eSINT16, n := 2, width := 2,
        value := (n % 2 ^ 16).toNat }).map decodeImmediate = some n := by
  have hu : (n % 2 ^ 16).toNat < 2 ^ 16 := by omega
  unfold emitImmediate
  rw [emit_w2 inst op _ hop rfl (Or.inr rfl)]
  simp only [storeValue, siVal, Option.map]
  rw [signedView_16 n h1 h2, decode_word _ _ _ _ (tag_bits inst hinst).2.1,
    word_bytes _ hu]
  congr 1
  unfold toInt
  split_ifs <;> omega

theorem round_u32 (inst reg : Nat) (op : tzParseInfo) (u : Nat) (hinst : inst < 32)
    (hop : op.width = 4) (hu : u < 2 ^ 32) :
    (emitImmediate inst reg op
      { type := teParseType.eUINT32, n := 4, width := 4, value := u }).map decodeImmediate =
      some (toInt u) := by
  unfold emitImmediate
  rw [emit_w4 inst op _ hop rfl (Or.inl rfl)]
  simp only [storeValue, ulVal, Option.map]
  rw [decode_long _ _ _ _ _ _ (tag_bits inst hinst).2.2, Nat.mod_eq_of_lt hu, long_bytes u hu,
    u32_of_lt u hu]

theorem round_s32 (inst reg : Nat) (op : tzParseInfo) (n : Int) (hinst : inst < 32)
    (hop : op.width = 4) (h1 : -2 ^ 31 ≤ n) (h2 : n < 2 ^ 31) :
    (emitImmediate inst reg op
      { type := teParseType.eSINT32, n := 4, width := 4,
        value := (n % 2 ^ 32).toNat }).map decodeImmediate = some n := by
  have hu : (n % 2 ^ 32).toNat < 2 ^ 32 := by omega
  unfold emitImmediate
  rw [emit_w4 inst op _ hop rfl (Or.inr rfl)]
  simp only [storeValue, slVal, Option.map]
  rw [signedView_32 n h1 h2, decode_long _ _ _ _ _ _ (tag_bits inst hinst).2.2,
    long_bytes _ hu, u32_of_lt _ hu]
  congr 1
  unfold toInt
  split_ifs <;> omega

theorem xtolLoop_lt (value : Nat) (text : List Char) (h : value < 2 ^ 32) :
    xtolLoop value text < 2 ^ 32 := by
  induction text generalizing value with
  | nil => exact h
  | cons c rest ih =>
    unfold xtolLoop
    cases hexdigit c with
    | none => exact h
    | some d => exact ih _ (Nat.mod_lt _ (by decide))

theorem atol_nonneg (text : List Char) (h : text.head? ≠ some '-') : 0 ≤ atol text := by
  unfold atol
  split
  · exact absurd rfl h
  · exact Int.natCast_nonneg _
  · exact Int.natCast_nonneg _

/-- C35 (amended): assembling and decoding an integer immediate is value-preserving for
every decimal literal with a value in [−2^31, 2^31 − 1], and for every hexadecimal
literal with a value in [0, 0x7F], [0x100, 0x7FFF] or [0x10000, 2^31 − 1]; a
hexadecimal literal in [0x80, 0xFF] decodes to its value − 2^8 and one in
[0x8000, 0xFFFF] to its value − 2^16 (`hexDecoded`).  The instruction is an opcode
below 32 whose mnemonic has the width 4 (no suffix), the literal is encoded by
`EncodeValue`, tagged by `CheckParseInfo`, emitted by `storeValue` and decoded by
`core_fnGetSignedData`. -/
theorem C35_immediate_round_trip (atof : List Char → Nat) (inst reg : Nat) (op : tzParseInfo)
    (dtext htext : List Char) (v : Int) (hinst : inst < 32) (hop : op.width = 4)
    (hv : atol dtext = v) (hlo : -2 ^ 31 ≤ v) (hhi : v < 2 ^ 31) :
    (assembleImmediate atof inst reg op dtext teNumType.eINTEGER).map decodeImmediate =
      some v ∧
    (assembleImmediate atof inst reg op htext teNumType.eHEXADECIMAL).map decodeImmediate =
      some (hexDecoded (xtol htext)) ∧
    ((xtol htext ≤ 0x7F ∨ (0x100 ≤ xtol htext ∧ xtol htext ≤ 0x7FFF) ∨
        (0x10000 ≤ xtol htext ∧ xtol htext < 2 ^ 31)) →
      hexDecoded (xtol htext) = (xtol htext : Int)) := by
  refine ⟨?_, ?_, ?_⟩
  · unfold assembleImmediate
    by_cases hd : dtext.head? = some '-'
    · rw [EncodeValue_negative atof dtext v hd hv hlo hhi]
      by_cases c1 : v ≥ -128 ∧ v ≤ 127
      · rw [if_pos c1]
        exact round_s8 inst reg op v hinst hop c1.1 c1.2
      · rw [if_neg c1]
        by_cases c2 : v ≥ -32768 ∧ v ≤ 32767
        · rw [if_pos c2]
          exact round_s16 inst reg op v hinst hop c2.1 c2.2
        · rw [if_neg c2]
          exact round_s32 inst reg op v hinst hop hlo hhi
    · have h0 : 0 ≤ v := by rw [← hv]; exact atol_nonneg dtext hd
      obtain ⟨n, hn⟩ := Int.eq_ofNat_of_zero_le h0
      rw [hn] at hv hhi ⊢
      rw [EncodeValue_decimal atof dtext n hd hv (by omega)]
      by_cases c1 : n ≤ 0x7F
      · rw [if_pos c1, round_u8 inst reg op n hinst hop (by omega), if_pos (by omega)]
      · rw [if_neg c1]
        by_cases c2 : n ≤ 0x7FFF
        · rw [if_pos c2, round_u16 inst reg op n hinst hop (by omega), if_pos (by omega)]
        · rw [if_neg c2, round_u32 inst reg op n hinst hop (by omega)]
          congr 1
          unfold toInt
          rw [if_pos (by omega)]
  · have hm : xtol htext < 2 ^ 32 := xtolLoop_lt 0 htext (by decide)
    unfold assembleImmediate
    rw [EncodeValue_hex atof htext]
    unfold hexDecoded
    by_cases c1 : xtol htext ≤ 0xFF
    · rw [if_pos c1, round_u8 inst reg op _ hinst hop (by omega)]
      congr 1
      split_ifs <;> omega
    · rw [if_neg c1]
      by_cases c2 : xtol htext ≤ 0xFFFF
      · rw [if_pos c2, round_u16 inst reg op _ hinst hop (by omega)]
        congr 1
        split_ifs <;> omega
      · rw [if_neg c2, round_u32 inst reg op _ hinst hop hm]
        congr 1
        split_ifs <;> omega
  · intro h
    unfold hexDecoded toInt
    split_ifs <;> omega

set_option maxRecDepth 100000 in
/-- C35 (witness): `MOV R0, -129` and `MOV R0, 0x7FFF`. -/
theorem C35_immediate_round_trip_witness :
    assembleImmediate (fun _ => 0) 0x03 0x00 (EncodeOp "MOV".toList 0x03).1 "-129".toList
      teNumType.eINTEGER = some [0x43, 0x00, 0xFF, 0x7F] ∧
    ((assembleImmediate (fun _ => 0) 0x03 0x00 (EncodeOp "MOV".toList 0x03).1 "-129".toList
        teNumType.eINTEGER).map decodeImmediate = some (-129) ∧
    (assembleImmediate (fun _ => 0) 0x03 0x00 (EncodeOp "MOV".toList 0x03).1 "7FFF".toList
        teNumType.eHEXADECIMAL).map decodeImmediate = some (hexDecoded (xtol "7FFF".toList)) ∧
    ((xtol "7FFF".toList ≤ 0x7F ∨ (0x100 ≤ xtol "7FFF".toList ∧ xtol "7FFF".toList ≤ 0x7FFF) ∨
        (0x10000 ≤ xtol "7FFF".toList ∧ xtol "7FFF".toList < 2 ^ 31)) →
      hexDecoded (xtol "7FFF".toList) = (xtol "7FFF".toList : Int))) :=
  ⟨by decide,
    C35_immediate_round_trip (fun _ => 0) 0x03 0x00 (EncodeOp "MOV".toList 0x03).1
      "-129".toList "7FFF".toList (-129) (by decide) (by decide) (by decide) (by decide)
      (by decide)⟩

set_option maxRecDepth 100000 in
/-- C35 (counterexample): `MOV R0, 0x80` is assembled to 83 00 80, with the BYTE tag, and
decodes to −128; `MOV R0, 0xFFFF` is assembled to 43 00 FF FF and decodes to −1. -/
theorem C35_counterexample :
    xtol "80".toList = 128 ∧
    assembleImmediate (fun _ => 0) 0x03 0x00 (EncodeOp "MOV".toList 0x03).1 "80".toList
      teNumType.eHEXADECIMAL = some [0x83, 0x00, 0x80] ∧
    (assembleImmediate (fun _ => 0) 0x03 0x00 (EncodeOp "MOV".toList 0x03).1 "80".toList
      teNumType.eHEXADECIMAL).map decodeImmediate = some (-128) ∧
    xtol "FFFF".toList = 65535 ∧
    assembleImmediate (fun _ => 0) 0x03 0x00 (EncodeOp "MOV".toList 0x03).1 "FFFF".toList
      teNumType.eHEXADECIMAL = some [0x43, 0x00, 0xFF, 0xFF] ∧
    (assembleImmediate (fun _ => 0) 0x03 0x00 (EncodeOp "MOV".toList 0x03).1 "FFFF".toList
      teNumType.eHEXADECIMAL).map decodeImmediate = some (-1) ∧
    (assembleImmediate (fun _ => 0) 0x03 0x00 (EncodeOp "MOV".toList 0x03).1 "128".toList
      teNumType.eINTEGER).map decodeImmediate = some 128 := by
  decide

/-! ## Symbol table names (C39) -/

set_option maxRecDepth 100000 in
/-- C39: `replaceUnderscores` emits a single underscore only when the next character is
read, so a single underscore at the end of the identifier is lost: `x_` becomes `x`,
the name that `x` itself maps to, although the two identifiers do not differ in `__`
versus `/`; `a___` becomes `a/` where the replacement of the specification gives
`a/_`.  Inside an identifier the function does what the specification says. -/
theorem C39_trailing_underscore_dropped :
    replaceUnderscores "x_".toList = "x".toList ∧
    replacePairs "x_".toList = "x_".toList ∧
    replaceUnderscores "x".toList = "x".toList ∧
    replaceUnderscores "a___".toList = "a/".toList ∧
    replacePairs "a___".toList = "a/_".toList ∧
    replaceUnderscores "_".toList = [] ∧
    replaceUnderscores "a__b_c".toList = replacePairs "a__b_c".toList ∧
    replaceUnderscores "a__b_c".toList = "a/b_c".toList ∧
    replaceUnderscores "_a___b".toList = "_a/_b".toList := by
  decide

/-! ## The register allocator (C40) -/

/-- The search of `AllocReg` returns the first unused register of its range. -/
theorem firstUnused_some (R : Nat → Register) (fuel start r : Nat)
    (h : firstUnused R fuel start = some r) :
    start ≤ r ∧ r < start + fuel ∧ (R r).unused = true ∧
    ∀ k, start ≤ k → k < r → (R k).unused = false := by
  induction fuel generalizing start with
  | zero => simp [firstUnused] at h
  | succ fuel ih =>
    unfold firstUnused at h
    by_cases c : (R start).unused = true
    · rw [if_pos c] at h
      injection h with h
      subst h
      exact ⟨Nat.le_refl _, by omega, c, fun k h1 h2 => (by omega)⟩
    · rw [if_neg c] at h
      obtain ⟨a1, a2, a3, a4⟩ := ih (start + 1) h
      refine ⟨by omega, by omega, a3, fun k h1 h2 => ?_⟩
      by_cases e : k = start
      · rw [e]; simpa using c
      · exact a4 k (by omega) h2

/-- The search of `AllocReg` fails only when every register of its range is in use. -/
theorem firstUnused_none (R : Nat → Register) (fuel start : Nat)
    (h : firstUnused R fuel start = none) :
    ∀ k, start ≤ k → k < start + fuel → (R k).unused = false := by
  induction fuel generalizing start with
  | zero => intro k h1 h2; omega
  | succ fuel ih =>
    unfold firstUnused at h
    by_cases c : (R start).unused = true
    · rw [if_pos c] at h; cases h
    · rw [if_neg c] at h
      intro k h1 h2
      by_cases e : k = start
      · rw [e]; simpa using c
      · exact ih (start + 1) h k (by omega) (by omega)

/-- Function `AllocReg` while a register of R3..R13 is free: it returns the lowest
numbered free one and marks it used. -/
theorem AllocReg_lowest_free (idEntry : Option Nat) (regindex : Nat) (st : RegState)
    (k : Nat) (h3 : 3 ≤ k) (h13 : k < 14) (hk : (st.Registers k).unused = true) :
    3 ≤ (AllocReg idEntry regindex st).1 ∧ (AllocReg idEntry regindex st).1 ≤ k ∧
    (st.Registers (AllocReg idEntry regindex st).1).unused = true ∧
    (∀ j, 3 ≤ j → j < (AllocReg idEntry regindex st).1 → (st.Registers j).unused = false) ∧
    ((AllocReg idEntry regindex st).2.Registers (AllocReg idEntry regindex st).1).unused =
      false ∧
    (AllocReg idEntry regindex st).2.lra = st.lra := by
  cases hf : firstUnused st.Registers 11 3 with
  | none =>
    have := firstUnused_none st.Registers 11 3 hf k h3 (by omega)
    rw [hk] at this
    cases this
  | some r =>
    obtain ⟨a1, a2, a3, a4⟩ := firstUnused_some st.Registers 11 3 r hf
    have e : AllocReg idEntry regindex st = (r, assignReg idEntry regindex r st) := by
      unfold AllocReg
      rw [hf]
    rw [e]
    refine ⟨a1, ?_, a3, a4, ?_, rfl⟩
    · by_contra hc
      have := a4 k h3 (by omega)
      rw [hk] at this
      cases this
    · show ((assignReg idEntry regindex r st).Registers r).unused = false
      unfold assignReg
      simp

/-- Function `AllocReg` while every register of R3..R13 is in use: it returns the
register that `lra` names and moves `lra` on by one, from 13 back to 3. -/
theorem AllocReg_all_used (idEntry : Option Nat) (regindex : Nat) (st : RegState)
    (h : ∀ k, 3 ≤ k → k < 14 → (st.Registers k).unused = false) :
    (AllocReg idEntry regindex st).1 = st.lra ∧
    ((AllocReg idEntry regindex st).2.Registers st.lra).unused = false ∧
    (AllocReg idEntry regindex st).2.lra = (if st.lra + 1 = 14 then 3 else st.lra + 1) := by
  have hf : firstUnused st.Registers 11 3 = none := by
    cases hf : firstUnused st.Registers 11 3 with
    | none => rfl
    | some r =>
      obtain ⟨a1, a2, a3, _⟩ := firstUnused_some st.Registers 11 3 r hf
      have := h r a1 (by omega)
      rw [a3] at this
      cases this
  have hl : (FreeReg (st.lra : Int) st).lra = st.lra := by
    unfold FreeReg
    split_ifs
    · split <;> rfl
    · rfl
    · rfl
  unfold AllocReg
  rw [hf]
  simp only [hl]
  refine ⟨trivial, ?_, ?_⟩
  · unfold assignReg
    simp
  · unfold assignReg
    simp only [hl]

set_option maxRecDepth 100000 in
/-- C40: `lra` is a pointer that only moves when a register is taken away, not the
register whose allocation is the oldest.  After eleven allocations (R3..R13, calls 0
to 10), `FreeReg(3)` and one more allocation (R3 again, call 12), every register is in
use, R3 holds the newest allocation and R4 the oldest (call 1); the next `AllocReg`
takes away and returns R3. -/
theorem C40_eviction_is_round_robin :
    regReturns refillCalls regInit =
      [some 3, some 4, some 5, some 6, some 7, some 8, some 9, some 10, some 11, some 12,
       some 13, none, some 3] ∧
    firstUnused (runRegCalls refillCalls regInit).Registers 11 3 = none ∧
    (runRegCalls refillCalls regInit).lra = 3 ∧
    allocatedAt (regReturns refillCalls regInit) 3 = some 12 ∧
    allocatedAt (regReturns refillCalls regInit) 4 = some 1 ∧
    (AllocReg none 0 (runRegCalls refillCalls regInit)).1 = 3 := by
  decide

/-! ## The width of an immediate-address `STR` in general, buffers in use -/

/-- A BYTE-tagged `STR` with an immediate address takes the width tag from the byte at
PC + 1, the register byte, because the fetch of the address has advanced PC by one
when `&MEMORY[PC]` is handed to `core_fnStoreData`. -/
theorem opSTR_imm_byte_memory (s : tzCore) (hm : MEM s (PC s) &&& MODE_REG ≠ MODE_REG)
    (hb : MEM s (PC s) &&& (BYTE ||| WORD) = BYTE) (ha : MEM s (PC s + 2) ≤ s.core_size)
    (hpc : PC s + 1 < 2 ^ 32) (hsrc : MEM s (PC s + 1) &&& 0x0F ≠ 15) :
    (opSTR s).memory =
      storeBytes s.memory (MEM s (PC s + 2))
        (core_fnStoreData (MEM s (PC s + 1)) (regByte (s.reg (MEM s (PC s + 1) &&& 0x0F)))) := by
  have e1 : PC (INC_PC 1 s) = PC s + 1 := by
    unfold PC
    rw [INC_PC_reg, if_pos rfl]
    exact u32_of_lt _ hpc
  have e2 : ∀ k, MEM (INC_PC 1 s) k = MEM s k := by
    intro k
    unfold MEM
    rw [INC_PC_memory]
  unfold opSTR core_fnGetUnsignedData
  simp only [if_neg hm, hb, if_true, INC_PC_core_size, if_neg (Nat.not_lt.mpr ha), e1, e2,
    INC_PC_memory, INC_PC_reg, if_neg hsrc]

/-- With a register number in the register byte, a BYTE-tagged `STR` with an immediate
address stores the four bytes of the register, most significant first. -/
theorem opSTR_imm_byte_stores_long (s : tzCore) (hm : MEM s (PC s) &&& MODE_REG ≠ MODE_REG)
    (hb : MEM s (PC s) &&& (BYTE ||| WORD) = BYTE) (ha : MEM s (PC s + 2) ≤ s.core_size)
    (hpc : PC s + 1 < 2 ^ 32) (hreg : MEM s (PC s + 1) < 15) :
    (opSTR s).memory =
      storeBytes s.memory (MEM s (PC s + 2))
        [regByte (s.reg (MEM s (PC s + 1))) 3, regByte (s.reg (MEM s (PC s + 1))) 2,
         regByte (s.reg (MEM s (PC s + 1))) 1, regByte (s.reg (MEM s (PC s + 1))) 0] := by
  have h : MEM s (PC s + 1) &&& 0x0F = MEM s (PC s + 1) ∧
      ¬ (MEM s (PC s + 1) &&& BYTE = BYTE) ∧ ¬ (MEM s (PC s + 1) &&& WORD = WORD) := by
    generalize MEM s (PC s + 1) = r at hreg
    interval_cases r <;> exact ⟨rfl, by decide, by decide⟩
  rw [opSTR_imm_byte_memory s hm hb ha hpc (by rw [h.1]; omega), h.1]
  unfold core_fnStoreData
  rw [if_neg h.2.1, if_neg h.2.2]

/-- The buffer that `STRINGBUFFER_fnCreate` allocates with a block of `BUFSIZE` bytes is a
buffer in use, with the empty content. -/
theorem create_bufferOk (h : Fresh) (id : Int) (m : StrBufState) (hfl : m.pFreeList = [])
    (hlen : h.bytes.length = BUFSIZE) :
    ∃ p, stringbuffer_fnFind id (STRINGBUFFER_fnCreate (some h) id m).2.pFirst = some p ∧
      bufferOk p = true ∧ bufferContent p = [] := by
  refine ⟨{ id := id, level := m.level, offset := 0, rwOffset := h.rwOffset, size := BUFSIZE,
            pBuffer := some h.bytes }, ?_, ?_, ?_⟩
  · unfold STRINGBUFFER_fnCreate
    rw [hfl]
    unfold stringbuffer_fnFind
    simp
  · refine bufferOk_of_block _ h.bytes rfl (by rw [hlen])
      (by rw [hlen]; exact (by decide : 0 < BUFSIZE)) ?_
    intro x hx
    simp at hx
  · rfl

/-- Function `STRINGBUFFER_fnClear` keeps a buffer in use and empties its content. -/
theorem clear_bufferOk (p : tzStringBuffer) (hok : bufferOk p = true) :
    bufferOk (clearBuffer p) = true ∧ bufferContent (clearBuffer p) = [] := by
  obtain ⟨b, hb, h1, h2, _⟩ := bufferOk_block p hok
  have e : clearBuffer p = { p with pBuffer := some (copyAt b 0 [0]), offset := 0 } := by
    unfold clearBuffer
    rw [hb]
  have hl : (copyAt b 0 [0]).length = b.length := by
    unfold copyAt
    simp only [List.take_zero, List.nil_append, List.length_cons, List.length_nil,
      List.length_append, List.length_drop]
    omega
  rw [e]
  refine ⟨bufferOk_of_block _ (copyAt b 0 [0]) rfl (by rw [hl]; exact h1)
    (by rw [hl]; exact Nat.lt_of_le_of_lt (Nat.zero_le _) h2) ?_, rfl⟩
  intro x hx
  simp at hx

/-! ## The register allocator over call sequences -/

theorem FreeReg_lra (reg : Int) (st : RegState) : (FreeReg reg st).lra = st.lra := by
  unfold FreeReg
  split_ifs
  · split <;> rfl
  · rfl
  · rfl

theorem FreeTempReg_lra (reg : Int) (st : RegState) : (FreeTempReg reg st).lra = st.lra := by
  unfold FreeTempReg
  split_ifs <;> rfl

/-- Function `AllocReg` with `lra` in 3..13: the register returned lies in 3..13 and is
marked used, and `lra` stays in 3..13. -/
theorem AllocReg_in_range (idEntry : Option Nat) (regindex : Nat) (st : RegState)
    (h3 : 3 ≤ st.lra) (h13 : st.lra < 14) :
    3 ≤ (AllocReg idEntry regindex st).1 ∧ (AllocReg idEntry regindex st).1 < 14 ∧
    ((AllocReg idEntry regindex st).2.Registers (AllocReg idEntry regindex st).1).unused =
      false ∧
    3 ≤ (AllocReg idEntry regindex st).2.lra ∧ (AllocReg idEntry regindex st).2.lra < 14 := by
  cases hf : firstUnused st.Registers 11 3 with
  | some r =>
    obtain ⟨a1, a2, a3, _⟩ := firstUnused_some st.Registers 11 3 r hf
    obtain ⟨b1, b2, _, _, b5, b6⟩ := AllocReg_lowest_free idEntry regindex st r a1 (by omega) a3
    exact ⟨b1, by omega, b5, by rw [b6]; exact h3, by rw [b6]; exact h13⟩
  | none =>
    obtain ⟨b1, b2, b3⟩ := AllocReg_all_used idEntry regindex st
      (fun k k3 k13 => firstUnused_none st.Registers 11 3 hf k k3 (by omega))
    rw [b1, b3]
    refine ⟨h3, h13, b2, ?_, ?_⟩
    · split_ifs <;> omega
    · split_ifs <;> omega

/-- Every sequence of calls keeps `lra` in 3..13. -/
theorem runRegCalls_lra (calls : List RegCall) (st : RegState) (h3 : 3 ≤ st.lra)
    (h13 : st.lra < 14) :
    3 ≤ (runRegCalls calls st).lra ∧ (runRegCalls calls st).lra < 14 := by
  induction calls generalizing st with
  | nil => exact ⟨h3, h13⟩
  | cons c cs ih =>
    unfold runRegCalls
    cases c with
    | alloc e i =>
      obtain ⟨_, _, _, a4, a5⟩ := AllocReg_in_range e i st h3 h13
      exact ih _ a4 a5
    | free r =>
      exact ih _ (by show 3 ≤ (FreeReg r st).lra; rw [FreeReg_lra]; exact h3)
        (by show (FreeReg r st).lra < 14; rw [FreeReg_lra]; exact h13)
    | freeTemp r =>
      exact ih _ (by show 3 ≤ (FreeTempReg r st).lra; rw [FreeTempReg_lra]; exact h3)
        (by show (FreeTempReg r st).lra < 14; rw [FreeTempReg_lra]; exact h13)

/-- After every sequence of `AllocReg`, `FreeReg` and `FreeTempReg` calls from the
initial state, `AllocReg` returns a register in 3..13 and marks it used, and it is the
lowest-numbered free register whenever one of R3..R13 is free. -/
theorem AllocReg_after_calls (calls : List RegCall) (idEntry : Option Nat) (regindex : Nat) :
    3 ≤ (AllocReg idEntry regindex (runRegCalls calls regInit)).1 ∧
    (AllocReg idEntry regindex (runRegCalls calls regInit)).1 < 14 ∧
    ((AllocReg idEntry regindex (runRegCalls calls regInit)).2.Registers
      (AllocReg idEntry regindex (runRegCalls calls regInit)).1).unused = false ∧
    ∀ k, 3 ≤ k → k < 14 → ((runRegCalls calls regInit).Registers k).unused = true →
      (AllocReg idEntry regindex (runRegCalls calls regInit)).1 ≤ k ∧
      ((runRegCalls calls regInit).Registers
        (AllocReg idEntry regindex (runRegCalls calls regInit)).1).unused = true := by
  obtain ⟨l3, l13⟩ := runRegCalls_lra calls regInit (by decide) (by decide)
  obtain ⟨a1, a2, a3, _, _⟩ :=
    AllocReg_in_range idEntry regindex (runRegCalls calls regInit) l3 l13
  refine ⟨a1, a2, a3, fun k k3 k13 hk => ?_⟩
  obtain ⟨_, b2, b3, _, _, _⟩ :=
    AllocReg_lowest_free idEntry regindex (runRegCalls calls regInit) k k3 k13 hk
  exact ⟨b2, b3⟩

/-! ## The loop of `replaceUnderscores` in general -/

theorem set_at_length (out r : List Char) (x y : Char) :
    (out ++ x :: r).set out.length y = out ++ y :: r := by
  induction out with
  | nil => rfl
  | cons a out ih => simp [List.set, ih]

theorem getD_at_length (out r : List Char) (x d : Char) :
    (out ++ x :: r).getD out.length d = x := by
  induction out with
  | nil => rfl
  | cons a out ih => simpa using ih

/-- The in-place loop of `replaceUnderscores` writes what `scanUnderscores` gives.  The
array holds the characters written (`out`), characters already read and not yet
overwritten (`junk`), the characters still to read and the terminating NUL. -/
theorem replaceLoop_scan (rest : List Char) (fuel count : Nat) (out junk tail : List Char)
    (hnul : ∀ c ∈ rest, c ≠ Char.ofNat 0) (hf : rest.length < fuel)
    (hc : count ≤ junk.length) (hc1 : count ≤ 1) :
    ∃ tail2, replaceLoop fuel (out ++ junk ++ rest ++ Char.ofNat 0 :: tail)
        (out.length + junk.length) out.length count =
      out ++ scanUnderscores count rest ++ Char.ofNat 0 :: tail2 := by
  induction rest generalizing fuel count out junk tail with
  | nil =>
    cases fuel with
    | zero => simp at hf
    | succ fuel =>
      have hg : (out ++ junk ++ [] ++ Char.ofNat 0 :: tail).getD (out.length + junk.length)
          (Char.ofNat 0) = Char.ofNat 0 := by
        have := getD_at_length (out ++ junk) tail (Char.ofNat 0) (Char.ofNat 0)
        rw [List.length_append] at this
        rw [List.append_nil]
        exact this
      unfold replaceLoop
      simp only [hg, if_true]
      cases junk with
      | nil =>
        refine ⟨tail, ?_⟩
        simp only [List.append_nil, scanUnderscores]
        exact set_at_length out tail _ _
      | cons x junk =>
        refine ⟨junk ++ Char.ofNat 0 :: tail, ?_⟩
        simp only [List.append_nil, scanUnderscores, List.append_assoc, List.cons_append]
        exact set_at_length out _ _ _
  | cons c rest ih =>
    have hcn : c ≠ Char.ofNat 0 := hnul c (List.mem_cons_self _ _)
    have hnul2 : ∀ d ∈ rest, d ≠ Char.ofNat 0 := fun d hd => hnul d (List.mem_cons_of_mem _ hd)
    cases fuel with
    | zero => simp at hf
    | succ fuel =>
      have hf2 : rest.length < fuel := by rw [List.length_cons] at hf; omega
      have hg : (out ++ junk ++ (c :: rest) ++ Char.ofNat 0 :: tail).getD
          (out.length + junk.length) (Char.ofNat 0) = c := by
        have := getD_at_length (out ++ junk) (rest ++ Char.ofNat 0 :: tail) c (Char.ofNat 0)
        rw [List.length_append] at this
        rw [List.append_assoc (out ++ junk), List.cons_append]
        exact this
      unfold replaceLoop
      simp only [hg, if_neg hcn]
      by_cases hu : c = '_'
      · simp only [hu, if_true]
        by_cases h2 : count + 1 = 2
        · simp only [if_pos h2]
          cases junk with
          | nil => simp at hc; omega
          | cons x junk =>
            have e : (out ++ x :: junk ++ '_' :: rest ++ Char.ofNat 0 :: tail).set out.length '/' =
                (out ++ ['/']) ++ (junk ++ ['_']) ++ rest ++ Char.ofNat 0 :: tail := by
              have := set_at_length out (junk ++ '_' :: rest ++ Char.ofNat 0 :: tail) x '/'
              simp only [List.append_assoc, List.cons_append, List.nil_append] at this ⊢
              exact this
            have el : out.length + (x :: junk).length + 1 =
                (out ++ ['/']).length + (junk ++ ['_']).length := by
              simp only [List.length_append, List.length_cons, List.length_nil]
              omega
            have el2 : out.length + 1 = (out ++ ['/']).length := by simp
            rw [e, el, el2]
            obtain ⟨t2, ht⟩ := ih fuel 0 (out ++ ['/']) (junk ++ ['_']) tail hnul2 hf2
              (Nat.zero_le _) (Nat.zero_le _)
            refine ⟨t2, ?_⟩
            rw [ht]
            simp only [scanUnderscores, if_true, if_pos h2, List.append_assoc, List.cons_append,
              List.nil_append]
        · simp only [if_neg h2]
          have h0 : count = 0 := by omega
          have e : out ++ junk ++ '_' :: rest ++ Char.ofNat 0 :: tail =
              out ++ (junk ++ ['_']) ++ rest ++ Char.ofNat 0 :: tail := by
            simp only [List.append_assoc, List.cons_append, List.nil_append]
          have el : out.length + junk.length + 1 = out.length + (junk ++ ['_']).length := by
            simp only [List.length_append, List.length_cons, List.length_nil]
            omega
          rw [e, el]
          obtain ⟨t2, ht⟩ := ih fuel (count + 1) out (junk ++ ['_']) tail hnul2 hf2
            (by simp only [List.length_append, List.length_cons, List.length_nil]; omega)
            (by omega)
          refine ⟨t2, ?_⟩
          rw [ht]
          simp only [scanUnderscores, if_true, if_neg h2]
      · simp only [if_neg hu]
        by_cases h1 : count = 1
        · simp only [if_pos h1]
          cases junk with
          | nil => simp at hc; omega
          | cons x junk =>
            cases junk with
            | nil =>
              have e : ((out ++ [x] ++ c :: rest ++ Char.ofNat 0 :: tail).set out.length '_').set
                  (out.length + 1) c =
                  (out ++ ['_', c]) ++ [] ++ rest ++ Char.ofNat 0 :: tail := by
                have s1 := set_at_length out (c :: rest ++ Char.ofNat 0 :: tail) x '_'
                have s2 := set_at_length (out ++ ['_']) (rest ++ Char.ofNat 0 :: tail) c c
                simp only [List.append_assoc, List.cons_append, List.nil_append,
                  List.length_append, List.length_cons, List.length_nil] at s1 s2 ⊢
                rw [s1, s2]
              have el : out.length + [x].length + 1 =
                  (out ++ ['_', c]).length + ([] : List Char).length := by
                simp only [List.length_append, List.length_cons, List.length_nil]
              have el2 : out.length + 2 = (out ++ ['_', c]).length := by simp
              rw [e, el, el2]
              obtain ⟨t2, ht⟩ := ih fuel 0 (out ++ ['_', c]) [] tail hnul2 hf2
                (Nat.zero_le _) (Nat.zero_le _)
              refine ⟨t2, ?_⟩
              rw [ht]
              simp only [scanUnderscores, if_neg hu, if_pos h1, List.append_assoc,
                List.cons_append, List.nil_append]
            | cons y junk =>
              have e : ((out ++ x :: y :: junk ++ c :: rest ++ Char.ofNat 0 :: tail).set
                  out.length '_').set (out.length + 1) c =
                  (out ++ ['_', c]) ++ (junk ++ [c]) ++ rest ++ Char.ofNat 0 :: tail := by
                have s1 := set_at_length out (y :: junk ++ c :: rest ++ Char.ofNat 0 :: tail)
                  x '_'
                have s2 := set_at_length (out ++ ['_'])
                  (junk ++ c :: rest ++ Char.ofNat 0 :: tail) y c
                simp only [List.append_assoc, List.cons_append, List.nil_append,
                  List.length_append, List.length_cons, List.length_nil] at s1 s2 ⊢
                rw [s1, s2]
              have el : out.length + (x :: y :: junk).length + 1 =
                  (out ++ ['_', c]).length + (junk ++ [c]).length := by
                simp only [List.length_append, List.length_cons, List.length_nil]
                omega
              have el2 : out.length + 2 = (out ++ ['_', c]).length := by simp
              rw [e, el, el2]
              obtain ⟨t2, ht⟩ := ih fuel 0 (out ++ ['_', c]) (junk ++ [c]) tail hnul2 hf2
                (Nat.zero_le _) (Nat.zero_le _)
              refine ⟨t2, ?_⟩
              rw [ht]
              simp only [scanUnderscores, if_neg hu, if_pos h1, List.append_assoc,
                List.cons_append, List.nil_append]
        · simp only [if_neg h1]
          have h0 : count = 0 := by omega
          cases junk with
          | nil =>
            have e : (out ++ [] ++ c :: rest ++ Char.ofNat 0 :: tail).set out.length c =
                (out ++ [c]) ++ [] ++ rest ++ Char.ofNat 0 :: tail := by
              have s1 := set_at_length out (rest ++ Char.ofNat 0 :: tail) c c
              simp only [List.append_assoc, List.cons_append, List.nil_append,
                List.append_nil] at s1 ⊢
              exact s1
            have el : out.length + ([] : List Char).length + 1 =
                (out ++ [c]).length + ([] : List Char).length := by
              simp only [List.length_append, List.length_cons, List.length_nil]
            have el2 : out.length + 1 = (out ++ [c]).length := by simp
            rw [e, el, el2]
            obtain ⟨t2, ht⟩ := ih fuel count (out ++ [c]) [] tail hnul2 hf2
              (by rw [h0]; exact Nat.zero_le _) hc1
            refine ⟨t2, ?_⟩
            rw [ht]
            simp only [scanUnderscores, if_neg hu, if_neg h1, List.append_assoc,
              List.cons_append, List.nil_append]
          | cons x junk =>
            have e : (out ++ x :: junk ++ c :: rest ++ Char.ofNat 0 :: tail).set out.length c =
                (out ++ [c]) ++ (junk ++ [c]) ++ rest ++ Char.ofNat 0 :: tail := by
              have s1 := set_at_length out (junk ++ c :: rest ++ Char.ofNat 0 :: tail) x c
              simp only [List.append_assoc, List.cons_append, List.nil_append] at s1 ⊢
              exact s1
            have el : out.length + (x :: junk).length + 1 =
                (out ++ [c]).length + (junk ++ [c]).length := by
              simp only [List.length_append, List.length_cons, List.length_nil]
              omega
            have el2 : out.length + 1 = (out ++ [c]).length := by simp
            rw [e, el, el2]
            obtain ⟨t2, ht⟩ := ih fuel count (out ++ [c]) (junk ++ [c]) tail hnul2 hf2
              (by rw [h0]; exact Nat.zero_le _) hc1
            refine ⟨t2, ?_⟩
            rw [ht]
            simp only [scanUnderscores, if_neg hu, if_neg h1, List.append_assoc,
              List.cons_append, List.nil_append]

theorem scanUnderscores_nul_free (rest : List Char) (count : Nat)
    (hnul : ∀ c ∈ rest, c ≠ Char.ofNat 0) :
    ∀ c ∈ scanUnderscores count rest, c ≠ Char.ofNat 0 := by
  induction rest generalizing count with
  | nil => intro c hc; cases hc
  | cons d rest ih =>
    have hd : d ≠ Char.ofNat 0 := hnul d (List.mem_cons_self _ _)
    have hr : ∀ c ∈ rest, c ≠ Char.ofNat 0 := fun c hc => hnul c (List.mem_cons_of_mem _ hc)
    intro c hc
    unfold scanUnderscores at hc
    split_ifs at hc
    · rcases List.mem_cons.mp hc with h | h
      · rw [h]; decide
      · exact ih 0 hr c h
    · exact ih _ hr c hc
    · rcases List.mem_cons.mp hc with h | h
      · rw [h]; decide
      · rcases List.mem_cons.mp h with h | h
        · rw [h]; exact hd
        · exact ih 0 hr c h
    · rcases List.mem_cons.mp hc with h | h
      · rw [h]; exact hd
      · exact ih _ hr c h

theorem takeWhile_nul (l r : List Char) (h : ∀ c ∈ l, c ≠ Char.ofNat 0) :
    (l ++ Char.ofNat 0 :: r).takeWhile (fun c => c ≠ Char.ofNat 0) = l := by
  induction l with
  | nil => simp
  | cons a l ih =>
    have ha : a ≠ Char.ofNat 0 := h a (List.mem_cons_self _ _)
    rw [List.cons_append, List.takeWhile_cons, if_pos (by simpa using ha),
      ih (fun x hx => h x (List.mem_cons_of_mem _ hx))]

/-- Function `replaceUnderscores` on a string is the scan of its characters from the
counter 0. -/
theorem replaceUnderscores_eq (item : List Char) (hnul : ∀ c ∈ item, c ≠ Char.ofNat 0) :
    replaceUnderscores item = scanUnderscores 0 item := by
  obtain ⟨t2, ht⟩ := replaceLoop_scan item (item.length + 1) 0 [] [] [] hnul (by omega)
    (Nat.zero_le _) (Nat.zero_le _)
  simp only [List.nil_append, List.length_nil, Nat.add_zero] at ht
  unfold replaceUnderscores
  rw [ht]
  exact takeWhile_nul _ _ (scanUnderscores_nul_free item 0 hnul)

theorem replacePairs_pair (rest : List Char) :
    replacePairs ('_' :: '_' :: rest) = '/' :: replacePairs rest := by
  rw [replacePairs]

theorem replacePairs_other (c : Char) (rest : List Char) (hu : c ≠ '_') :
    replacePairs (c :: rest) = c :: replacePairs rest := by
  rw [replacePairs]
  intro r2 h
  exact absurd h hu

theorem replacePairs_single (c : Char) (rest : List Char) (hu : c ≠ '_') :
    replacePairs ('_' :: c :: rest) = '_' :: c :: replacePairs rest := by
  rw [replacePairs, replacePairs_other c rest hu]
  intro r2 _ h
  injection h with h3 _
  exact hu h3

/-- The replacement of the specification is the scan followed by the underscores that
the loop holds back at the end of the string. -/
theorem replacePairs_scan (rest : List Char) (count : Nat) (hc1 : count ≤ 1) :
    replacePairs (List.replicate count '_' ++ rest) =
      scanUnderscores count rest ++ List.replicate (pendingCount count rest) '_' := by
  induction rest generalizing count with
  | nil =>
    have h : count = 0 ∨ count = 1 := by omega
    rcases h with h | h <;> subst h <;> rfl
  | cons c rest ih =>
    have h : count = 0 ∨ count = 1 := by omega
    by_cases hu : c = '_'
    · subst hu
      rcases h with h | h <;> subst h
      · exact ih 1 (Nat.le_refl _)
      · show replacePairs ('_' :: '_' :: rest) =
          '/' :: (scanUnderscores 0 rest ++ List.replicate (pendingCount 0 rest) '_')
        rw [replacePairs_pair]
        exact congrArg _ (ih 0 (Nat.zero_le _))
    · rcases h with h | h <;> subst h
      · show replacePairs (c :: rest) = _
        rw [replacePairs_other c rest hu, scanUnderscores, pendingCount, if_neg hu, if_neg hu,
          if_neg (by decide), if_neg (by decide)]
        exact congrArg _ (ih 0 (Nat.zero_le _))
      · show replacePairs ('_' :: c :: rest) = _
        rw [replacePairs_single c rest hu, scanUnderscores, pendingCount, if_neg hu, if_neg hu,
          if_pos rfl, if_pos rfl]
        exact congrArg (fun l => '_' :: c :: l) (ih 0 (Nat.zero_le _))

/-- Function `replaceUnderscores` gives the replacement of the specification without the
single underscore that the loop holds back when the string ends: the two agree exactly
when no underscore is pending at the end. -/
theorem replaceUnderscores_spec (item : List Char) (hnul : ∀ c ∈ item, c ≠ Char.ofNat 0) :
    replacePairs item = replaceUnderscores item ++ List.replicate (pendingCount 0 item) '_' := by
  rw [replaceUnderscores_eq item hnul]
  exact replacePairs_scan item 0 (Nat.zero_le _)

/-! ## Program counter bounds for every instruction (C8) -/

/-- The dispatch of `step`: the handler that runs for each value of the opcode field. -/
theorem step_cases (H : Host) (s t : tzCore) (h : step H s = some t) :
    (MEM s (PC s) &&& 0x1F = 0x00 ∧ t = opNOP s) ∨
    (MEM s (PC s) &&& 0x1F = 0x01 ∧ t = opLOD s) ∨
    (MEM s (PC s) &&& 0x1F = 0x02 ∧ t = opSTR s) ∨
    (MEM s (PC s) &&& 0x1F = 0x03 ∧ t = opMOV s) ∨
    (MEM s (PC s) &&& 0x1F = 0x04 ∧ t = opADD H s) ∨
    (MEM s (PC s) &&& 0x1F = 0x05 ∧ t = opSUB H s) ∨
    (MEM s (PC s) &&& 0x1F = 0x06 ∧ t = opMUL H s) ∨
    (MEM s (PC s) &&& 0x1F = 0x07 ∧ opDIVStrict H s = some t) ∨
    (MEM s (PC s) &&& 0x1F = 0x08 ∧ t = opAND s) ∨
    (MEM s (PC s) &&& 0x1F = 0x09 ∧ t = opOR s) ∨
    (MEM s (PC s) &&& 0x1F = 0x0A ∧ t = opNOT s) ∨
    (MEM s (PC s) &&& 0x1F = 0x0B ∧ t = opSHR s) ∨
    (MEM s (PC s) &&& 0x1F = 0x0C ∧ t = opSHL s) ∨
    (MEM s (PC s) &&& 0x1F = 0x0D ∧ t = opJMP s) ∨
    (MEM s (PC s) &&& 0x1F = 0x0E ∧ t = opJZR s) ∨
    (MEM s (PC s) &&& 0x1F = 0x0F ∧ t = opJNZ s) ∨
    (MEM s (PC s) &&& 0x1F = 0x10 ∧ t = opJNE s) ∨
    (MEM s (PC s) &&& 0x1F = 0x11 ∧ t = opJPO s) ∨
    (MEM s (PC s) &&& 0x1F = 0x12 ∧ t = opJCA s) ∨
    (MEM s (PC s) &&& 0x1F = 0x13 ∧ t = opJNC s) ∨
    (MEM s (PC s) &&& 0x1F = 0x14 ∧ t = opCAL s) ∨
    (MEM s (PC s) &&& 0x1F = 0x15 ∧ t = opRET s) ∨
    (MEM s (PC s) &&& 0x1F = 0x16 ∧ t = opCMP H s) ∨
    (MEM s (PC s) &&& 0x1F = 0x19 ∧ t = opPSH s) ∨
    (MEM s (PC s) &&& 0x1F = 0x1A ∧ t = opPOP s) ∨
    (MEM s (PC s) &&& 0x1F = 0x1B ∧ t = opHLT s) ∨
    (MEM s (PC s) &&& 0x1F = 0x1F ∧ opINST1 H s = some t) := by
  unfold step at h
  generalize MEM s (PC s) &&& 0x1F = op at h ⊢
  unfold instructions0 at h
  by_cases c0 : op = 0x00
  · rw [if_pos c0] at h
    simp only [Option.some_bind] at h
    exact Or.inl ⟨c0, (Option.some.inj h).symm⟩
  rw [if_neg c0] at h
  refine Or.inr ?_
  by_cases c1 : op = 0x01
  · rw [if_pos c1] at h
    simp only [Option.some_bind] at h
    exact Or.inl ⟨c1, (Option.some.inj h).symm⟩
  rw [if_neg c1] at h
  refine Or.inr ?_
  by_cases c2 : op = 0x02
  · rw [if_pos c2] at h
    simp only [Option.some_bind] at h
    exact Or.inl ⟨c2, (Option.some.inj h).symm⟩
  rw [if_neg c2] at h
  refine Or.inr ?_
  by_cases c3 : op = 0x03
  · rw [if_pos c3] at h
    simp only [Option.some_bind] at h
    exact Or.inl ⟨c3, (Option.some.inj h).symm⟩
  rw [if_neg c3] at h
  refine Or.inr ?_
  by_cases c4 : op = 0x04
  · rw [if_pos c4] at h
    simp only [Option.some_bind] at h
    exact Or.inl ⟨c4, (Option.some.inj h).symm⟩
  rw [if_neg c4] at h
  refine Or.inr ?_
  by_cases c5 : op = 0x05
  · rw [if_pos c5] at h
    simp only [Option.some_bind] at h
    exact Or.inl ⟨c5, (Option.some.inj h).symm⟩
  rw [if_neg c5] at h
  refine Or.inr ?_
  by_cases c6 : op = 0x06
  · rw [if_pos c6] at h
    simp only [Option.some_bind] at h
    exact Or.inl ⟨c6, (Option.some.inj h).symm⟩
  rw [if_neg c6] at h
  refine Or.inr ?_
  by_cases c7 : op = 0x07
  · rw [if_pos c7] at h
    simp only [Option.some_bind] at h
    exact Or.inl ⟨c7, h⟩
  rw [if_neg c7] at h
  refine Or.inr ?_
  by_cases c8 : op = 0x08
  · rw [if_pos c8] at h
    simp only [Option.some_bind] at h
    exact Or.inl ⟨c8, (Option.some.inj h).symm⟩
  rw [if_neg c8] at h
  refine Or.inr ?_
  by_cases c9 : op = 0x09
  · rw [if_pos c9] at h
    simp only [Option.some_bind] at h
    exact Or.inl ⟨c9, (Option.some.inj h).symm⟩
  rw [if_neg c9] at h
  refine Or.inr ?_
  by_cases c10 : op = 0x0A
  · rw [if_pos c10] at h
    simp only [Option.some_bind] at h
    exact Or.inl ⟨c10, (Option.some.inj h).symm⟩
  rw [if_neg c10] at h
  refine Or.inr ?_
  by_cases c11 : op = 0x0B
  · rw [if_pos c11] at h
    simp only [Option.some_bind] at h
    exact Or.inl ⟨c11, (Option.some.inj h).symm⟩
  rw [if_neg c11] at h
  refine Or.inr ?_
  by_cases c12 : op = 0x0C
  · rw [if_pos c12] at h
    simp only [Option.some_bind] at h
    exact Or.inl ⟨c12, (Option.some.inj h).symm⟩
  rw [if_neg c12] at h
  refine Or.inr ?_
  by_cases c13 : op = 0x0D
  · rw [if_pos c13] at h
    simp only [Option.some_bind] at h
    exact Or.inl ⟨c13, (Option.some.inj h).symm⟩
  rw [if_neg c13] at h
  refine Or.inr ?_
  by_cases c14 : op = 0x0E
  · rw [if_pos c14] at h
    simp only [Option.some_bind] at h
    exact Or.inl ⟨c14, (Option.some.inj h).symm⟩
  rw [if_neg c14] at h
  refine Or.inr ?_
  by_cases c15 : op = 0x0F
  · rw [if_pos c15] at h
    simp only [Option.some_bind] at h
    exact Or.inl ⟨c15, (Option.some.inj h).symm⟩
  rw [if_neg c15] at h
  refine Or.inr ?_
  by_cases c16 : op = 0x10
  · rw [if_pos c16] at h
    simp only [Option.some_bind] at h
    exact Or.inl ⟨c16, (Option.some.inj h).symm⟩
  rw [if_neg c16] at h
  refine Or.inr ?_
  by_cases c17 : op = 0x11
  · rw [if_pos c17] at h
    simp only [Option.some_bind] at h
    exact Or.inl ⟨c17, (Option.some.inj h).symm⟩
  rw [if_neg c17] at h
  refine Or.inr ?_
  by_cases c18 : op = 0x12
  · rw [if_pos c18] at h
    simp only [Option.some_bind] at h
    exact Or.inl ⟨c18, (Option.some.inj h).symm⟩
  rw [if_neg c18] at h
  refine Or.inr ?_
  by_cases c19 : op = 0x13
  · rw [if_pos c19] at h
    simp only [Option.some_bind] at h
    exact Or.inl ⟨c19, (Option.some.inj h).symm⟩
  rw [if_neg c19] at h
  refine Or.inr ?_
  by_cases c20 : op = 0x14
  · rw [if_pos c20] at h
    simp only [Option.some_bind] at h
    exact Or.inl ⟨c20, (Option.some.inj h).symm⟩
  rw [if_neg c20] at h
  refine Or.inr ?_
  by_cases c21 : op = 0x15
  · rw [if_pos c21] at h
    simp only [Option.some_bind] at h
    exact Or.inl ⟨c21, (Option.some.inj h).symm⟩
  rw [if_neg c21] at h
  refine Or.inr ?_
  by_cases c22 : op = 0x16
  · rw [if_pos c22] at h
    simp only [Option.some_bind] at h
    exact Or.inl ⟨c22, (Option.some.inj h).symm⟩
  rw [if_neg c22] at h
  refine Or.inr ?_
  by_cases c23 : op = 0x19
  · rw [if_pos c23] at h
    simp only [Option.some_bind] at h
    exact Or.inl ⟨c23, (Option.some.inj h).symm⟩
  rw [if_neg c23] at h
  refine Or.inr ?_
  by_cases c24 : op = 0x1A
  · rw [if_pos c24] at h
    simp only [Option.some_bind] at h
    exact Or.inl ⟨c24, (Option.some.inj h).symm⟩
  rw [if_neg c24] at h
  refine Or.inr ?_
  by_cases c25 : op = 0x1B
  · rw [if_pos c25] at h
    simp only [Option.some_bind] at h
    exact Or.inl ⟨c25, (Option.some.inj h).symm⟩
  rw [if_neg c25] at h
  refine Or.inr ?_
  by_cases c26 : op = 0x1F
  · rw [if_pos c26] at h
    simp only [Option.some_bind] at h
    exact ⟨c26, h⟩
  rw [if_neg c26] at h
  simp at h

/-- The dispatch of `opINST1` and `opINST2`. -/
theorem opINST1_cases (H : Host) (s t : tzCore) (h : opINST1 H s = some t) :
    t = opCSB H s ∨ t = opZSB s ∨ t = opWSB s ∨ t = opASS H s ∨ t = opILLEGAL s := by
  unfold opINST1 at h
  generalize MEM s (PC s + 1) &&& 0x1F = op at h
  unfold instructions1 at h
  split_ifs at h
  · exact Or.inl (Option.some.inj h).symm
  · exact Or.inr (Or.inl (Option.some.inj h).symm)
  · exact Or.inr (Or.inr (Or.inl (Option.some.inj h).symm))
  · exact Or.inr (Or.inr (Or.inr (Or.inl (Option.some.inj h).symm)))
  · simp only [Option.some_bind] at h
    unfold opINST2 at h
    generalize MEM s (PC s + 2) &&& 0x1F = op2 at h
    unfold instructions2 at h
    split_ifs at h
    · cases h
    · exact Or.inr (Or.inr (Or.inr (Or.inr (Option.some.inj h).symm)))
  · cases h

/-- The macro `SETFLAGS` changes neither PC nor the running flag. -/
theorem SETFLAGS_bound (o v : Nat) (s : tzCore) (hrun : (SETFLAGS o v s).running = true)
    (hb : s.running = true → toSize (PC s) ≤ s.programSize) :
    toSize (PC (SETFLAGS o v s)) ≤ (SETFLAGS o v s).programSize :=
  hb hrun

theorem opADD_bound (H : Host) (s : tzCore) (hrun : (opADD H s).running = true) :
    toSize (PC (opADD H s)) ≤ (opADD H s).programSize := by
  unfold opADD at hrun ⊢
  dsimp only at hrun ⊢
  split_ifs at hrun ⊢ <;> exact INC_PC_bound _ _ hrun

theorem opMUL_bound (H : Host) (s : tzCore) (hrun : (opMUL H s).running = true) :
    toSize (PC (opMUL H s)) ≤ (opMUL H s).programSize := by
  unfold opMUL at hrun ⊢
  dsimp only at hrun ⊢
  split_ifs at hrun ⊢ <;> exact INC_PC_bound _ _ hrun

theorem opDIV_bound (H : Host) (s : tzCore) (hrun : (opDIV H s).running = true) :
    toSize (PC (opDIV H s)) ≤ (opDIV H s).programSize := by
  unfold opDIV at hrun ⊢
  dsimp only at hrun ⊢
  split_ifs at hrun ⊢ <;> exact INC_PC_bound _ _ hrun

theorem opCMP_bound (H : Host) (s : tzCore) (hrun : (opCMP H s).running = true) :
    toSize (PC (opCMP H s)) ≤ (opCMP H s).programSize := by
  unfold opCMP at hrun ⊢
  dsimp only at hrun ⊢
  split_ifs at hrun ⊢ <;> exact INC_PC_bound _ _ hrun

theorem opAND_bound (s : tzCore) (hrun : (opAND s).running = true) :
    toSize (PC (opAND s)) ≤ (opAND s).programSize := by
  unfold opAND at hrun ⊢
  dsimp only at hrun ⊢
  split_ifs at hrun ⊢ <;> exact SETFLAGS_bound _ _ _ hrun (INC_PC_bound _ _)

theorem opOR_bound (s : tzCore) (hrun : (opOR s).running = true) :
    toSize (PC (opOR s)) ≤ (opOR s).programSize := by
  unfold opOR at hrun ⊢
  dsimp only at hrun ⊢
  split_ifs at hrun ⊢ <;> exact SETFLAGS_bound _ _ _ hrun (INC_PC_bound _ _)

/-- C8 (amended): after every instruction that `step` executes, other than `JMP`, `CAL`,
`RET` and a conditional jump whose condition holds, a core that is still running has
`0 <= PC <= program_size`: these instructions (NOP, LOD, STR, MOV, ADD, SUB, MUL, DIV,
AND, OR, NOT, SHR, SHL, CMP, PSH, POP, CSB, ZSB, WSB, ASS and a conditional jump that
is not taken) end with the `INC_PC` advance, which halts the VM when PC would pass
`program_size`. -/
theorem C8_step_keeps_pc_in_program (H : Host) (s t : tzCore) (hstep : step H s = some t)
    (hrun : t.running = true) (hno : transfersControl s = false) :
    toSize (PC t) ≤ t.programSize ∧ PC t ≤ t.programSize := by
  have hn : ¬ (MEM s (PC s) &&& 0x1F = 0x0D ∨ MEM s (PC s) &&& 0x1F = 0x14 ∨
      MEM s (PC s) &&& 0x1F = 0x15 ∨
      (MEM s (PC s) &&& 0x1F = 0x0E ∧ s.status &&& ZFLAG ≠ 0) ∨
      (MEM s (PC s) &&& 0x1F = 0x0F ∧ ¬ (s.status &&& ZFLAG ≠ 0)) ∨
      (MEM s (PC s) &&& 0x1F = 0x10 ∧ s.status &&& NFLAG ≠ 0) ∨
      (MEM s (PC s) &&& 0x1F = 0x11 ∧ ¬ (s.status &&& NFLAG ≠ 0)) ∨
      (MEM s (PC s) &&& 0x1F = 0x12 ∧ s.status &&& CFLAG ≠ 0) ∨
      (MEM s (PC s) &&& 0x1F = 0x13 ∧ ¬ (s.status &&& ZFLAG ≠ 0))) := by
    unfold transfersControl at hno
    exact of_decide_eq_false hno
  suffices hb : toSize (PC t) ≤ t.programSize from ⟨hb, Nat.le_trans (le_toSize _) hb⟩
  rcases step_cases H s t hstep with
    ⟨_, e⟩ | ⟨_, e⟩ | ⟨_, e⟩ | ⟨_, e⟩ | ⟨_, e⟩ | ⟨_, e⟩ | ⟨_, e⟩ | ⟨_, e⟩ | ⟨_, e⟩ | ⟨_, e⟩ |
    ⟨_, e⟩ | ⟨_, e⟩ | ⟨_, e⟩ | ⟨c, e⟩ | ⟨c, e⟩ | ⟨c, e⟩ | ⟨c, e⟩ | ⟨c, e⟩ | ⟨c, e⟩ | ⟨c, e⟩ |
    ⟨c, e⟩ | ⟨c, e⟩ | ⟨_, e⟩ | ⟨_, e⟩ | ⟨_, e⟩ | ⟨_, e⟩ | ⟨_, e⟩
  · subst e; exact INC_PC_bound _ _ hrun
  · subst e; exact opLOD_bound s hrun
  · subst e; exact opSTR_bound s hrun
  · subst e; exact opMOV_bound s hrun
  · subst e; exact opADD_bound H s hrun
  · subst e; exact opSUB_bound H s hrun
  · subst e; exact opMUL_bound H s hrun
  · have e2 := opDIVStrict_some H s t e
    subst e2; exact opDIV_bound H s hrun
  · subst e; exact opAND_bound s hrun
  · subst e; exact opOR_bound s hrun
  · subst e; exact INC_PC_bound _ _ hrun
  · subst e; exact INC_PC_bound _ _ hrun
  · subst e; exact INC_PC_bound _ _ hrun
  · exact absurd (Or.inl c) hn
  · have hz : ¬ (s.status &&& ZFLAG ≠ 0) := fun z =>
      hn (Or.inr (Or.inr (Or.inr (Or.inl ⟨c, z⟩))))
    have e2 : t = INC_PC 3 s := by rw [e]; unfold opJZR; rw [if_neg hz]
    subst e2; exact INC_PC_bound _ _ hrun
  · have hz : ¬ ¬ (s.status &&& ZFLAG ≠ 0) := fun z =>
      hn (Or.inr (Or.inr (Or.inr (Or.inr (Or.inl ⟨c, z⟩)))))
    have e2 : t = INC_PC 3 s := by rw [e]; unfold opJNZ; rw [if_neg hz]
    subst e2; exact INC_PC_bound _ _ hrun
  · have hz : ¬ (s.status &&& NFLAG ≠ 0) := fun z =>
      hn (Or.inr (Or.inr (Or.inr (Or.inr (Or.inr (Or.inl ⟨c, z⟩))))))
    have e2 : t = INC_PC 3 s := by rw [e]; unfold opJNE; rw [if_neg hz]
    subst e2; exact INC_PC_bound _ _ hrun
  · have hz : ¬ ¬ (s.status &&& NFLAG ≠ 0) := fun z =>
      hn (Or.inr (Or.inr (Or.inr (Or.inr (Or.inr (Or.inr (Or.inl ⟨c, z⟩)))))))
    have e2 : t = INC_PC 3 s := by rw [e]; unfold opJPO; rw [if_neg hz]
    subst e2; exact INC_PC_bound _ _ hrun
  · have hz : ¬ (s.status &&& CFLAG ≠ 0) := fun z =>
      hn (Or.inr (Or.inr (Or.inr (Or.inr (Or.inr (Or.inr (Or.inr (Or.inl ⟨c, z⟩))))))))
    have e2 : t = INC_PC 3 s := by rw [e]; unfold opJCA; rw [if_neg hz]
    subst e2; exact INC_PC_bound _ _ hrun
  · have hz : ¬ ¬ (s.status &&& ZFLAG ≠ 0) := fun z =>
      hn (Or.inr (Or.inr (Or.inr (Or.inr (Or.inr (Or.inr (Or.inr (Or.inr ⟨c, z⟩))))))))
    have e2 : t = INC_PC 3 s := by rw [e]; unfold opJNC; rw [if_neg hz]
    subst e2; exact INC_PC_bound _ _ hrun
  · exact absurd (Or.inr (Or.inl c)) hn
  · exact absurd (Or.inr (Or.inr (Or.inl c))) hn
  · subst e; exact opCMP_bound H s hrun
  · subst e; exact opPSH_bound s hrun
  · subst e; exact INC_PC_bound _ _ hrun
  · subst e; unfold opHLT at hrun; simp at hrun
  · rcases opINST1_cases H s t e with e2 | e2 | e2 | e2 | e2
    · subst e2; exact INC_PC_bound _ _ hrun
    · subst e2; exact INC_PC_bound _ _ hrun
    · subst e2; exact opWSB_bound s hrun
    · subst e2; exact INC_PC_bound _ _ hrun
    · subst e2; unfold opILLEGAL at hrun; simp at hrun

set_option maxRecDepth 100000 in
/-- C8 (witness): `CMP R1, R2` with R1 = 5 and R2 = 9 in a 3-byte program: the core is
still running with PC = 2. -/
theorem C8_step_keeps_pc_in_program_witness :
    PC (opCMP plainHost cmpLessCore) = 2 ∧ (opCMP plainHost cmpLessCore).programSize = 3 ∧
    (toSize (PC (opCMP plainHost cmpLessCore)) ≤ (opCMP plainHost cmpLessCore).programSize ∧
      PC (opCMP plainHost cmpLessCore) ≤ (opCMP plainHost cmpLessCore).programSize) :=
  ⟨by decide, by decide,
    C8_step_keeps_pc_in_program plainHost cmpLessCore (opCMP plainHost cmpLessCore)
      (step_CMP plainHost cmpLessCore (by decide)) (by decide) (by decide)⟩

end Tcc
